import Mathlib

/-!
Marlin_main.cpp : command channel and motion segmenter.

A shallow embedding of `Marlin/Marlin_main.cpp` (delta-bot FSR fork):

* the command channel: `enquecommand`, `get_command`, `FlushSerialRequestResend`,
  `ClearToSend` and the dequeue step of `loop`;
* the motion segmenter: `clamp_to_software_endstops`, `calculate_delta`,
  `adjust_delta`, `prepare_move`.

Conventions.  Bytes are natural numbers below 256.  `int` quantities that can go
negative are integers.  `float` quantities are exact rationals; a `NaN` produced
by `sqrt` of a negative number is `none`.  The statements that depend on the
rounding of `float` results are made on a second embedding of the same code,
namespace `Rounded`, in which every arithmetic result passes through a rounding
`fl`; `binary32` is the rounding of the target.  `long` addition wraps at 32 bits.
Everything the file needs from headers that are not part of `Marlin_main.cpp`
(configuration macros, the C library, the serial driver) is a field of `Config`
or `Kinematics`.
-/

namespace Marlin

/-! ## Build-time configuration and library routines -/

/-- Items `Marlin_main.cpp` uses but does not define: configuration macros,
the C library number parsers and the serial driver flush. -/
structure Config where
  /-- Macro `BUFSIZE`: number of slots of the command ring buffer. -/
  BUFSIZE : Nat
  /-- Macro `MAX_CMD_SIZE`: number of bytes of one slot. -/
  MAX_CMD_SIZE : Nat
  /-- Whether `SDSUPPORT` is defined. -/
  SDSUPPORT : Bool
  /-- The value `strtol(p, NULL, 10)` as a function of the C string that starts at `p`. -/
  strtol : List Nat → Int
  /-- The value `(int)(strtod(p, NULL))` as a function of the C string that starts at `p`. -/
  strtod_int : List Nat → Int
  /-- The call `MYSERIAL.flush()` as a function of the pending receive bytes. -/
  flush : List Nat → List Nat

/-- Fault kinds of the four protocol error messages of `get_command`. -/
inductive Fault
  | LINE_NO
  | CHECKSUM_MISMATCH
  | NO_CHECKSUM
  | NO_LINENUMBER_WITH_CHECKSUM
  deriving DecidableEq

/-- Lines written to the host. -/
inductive Out
  /-- Written by `SERIAL_ERROR_START; SERIAL_ERRORPGM(MSG_ERR_..); SERIAL_ERRORLN(gcode_LastN)`. -/
  | error (kind : Fault) (lastN : Int)
  /-- Written by `SERIAL_PROTOCOLPGM(MSG_RESEND); SERIAL_PROTOCOLLN(n)`. -/
  | resend (n : Int)
  /-- Written by `SERIAL_PROTOCOLLNPGM(MSG_OK)`. -/
  | ok
  /-- Written by `SERIAL_ERRORLNPGM(MSG_ERR_STOPPED)`. -/
  | stopped
  /-- Written by `SERIAL_ERROR_START; SERIAL_ERRORLNPGM(MSG_ERR_KILLED)`. -/
  | killed
  /-- The echo of `enquecommand`: `SERIAL_ECHOPGM(MSG_Enqueing)`, the command, a quote. -/
  | enqueing (cmd : List Nat)
  /-- Written by `SERIAL_PROTOCOLLNPGM(MSG_FILE_PRINTED)`, followed by the elapsed-time echo. -/
  | file_printed
  deriving DecidableEq

/-- Modelled from the spec: the replay source (`card`, class `CardReader`, whose
code is outside `Marlin_main.cpp`) is "a sequential file-replay source" that
"just produces bytes on demand".  `data` holds the values the coming `card.get()`
calls return (`-1` included), `card.eof()` holds when it is exhausted, and
`card.printingHasFinished()` clears `sdprinting`. -/
structure CardReader where
  sdprinting : Bool
  saving : Bool
  logging : Bool
  data : List Int
  deriving DecidableEq

/-! ## Tool-space data -/

/-- A `float[NUM_AXIS]` array: X, Y, Z, E. -/
structure Axes where
  X : ℚ
  Y : ℚ
  Z : ℚ
  E : ℚ
  deriving DecidableEq

/-- A `float[3]` array: X, Y, Z. -/
structure XYZ where
  X : ℚ
  Y : ℚ
  Z : ℚ
  deriving DecidableEq

/-- The three tower heights `delta[3]`; `none` is `NaN`. -/
structure Towers where
  X : Option ℚ
  Y : Option ℚ
  Z : Option ℚ
  deriving DecidableEq

/-- One `plan_buffer_line(a, b, c, e, feed_rate, extruder)` call.  `tool` is a
history value: the content of `destination` when the call is made. -/
structure Segment where
  a : Option ℚ
  b : Option ℚ
  c : Option ℚ
  e : ℚ
  feed_rate : ℚ
  tool : Axes
  deriving DecidableEq

/-- The globals read and written by the motion code. -/
structure Motion where
  current_position : Axes
  destination : Axes
  feedrate : ℚ
  feedmultiply : Int
  min_pos : XYZ
  max_pos : XYZ
  delta : Towers
  delta_segments_per_second : ℚ
  DELTA_DIAGONAL_ROD1_2 : ℚ
  DELTA_DIAGONAL_ROD2_2 : ℚ
  DELTA_DIAGONAL_ROD3_2 : ℚ
  delta_tower1_x : ℚ
  delta_tower1_y : ℚ
  delta_tower2_x : ℚ
  delta_tower2_y : ℚ
  delta_tower3_x : ℚ
  delta_tower3_y : ℚ
  /-- The calls made to the planner so far, oldest first. -/
  planned : List Segment

/-! ## Command channel state -/

/-- The globals of the command channel.  `cmdbuffer` is the memory of
`char cmdbuffer[BUFSIZE][MAX_CMD_SIZE]`, cell `[i][j]` at address
`i * MAX_CMD_SIZE + j`.  `rx` is the receive buffer of `MYSERIAL`.
`enq_hist` and `deq_hist` are history values that are not in the source: the
records enqueued so far (one per `buflen += 1`) and the records handed over by
`loop` so far. -/
structure State where
  cmdbuffer : Nat → Nat
  fromsd : Nat → Bool
  bufindr : Nat
  bufindw : Nat
  buflen : Int
  serial_count : Nat
  comment_mode : Bool
  gcode_N : Int
  gcode_LastN : Int
  Stopped : Bool
  stop_buffering : Bool
  rx : List Nat
  card : CardReader
  out : List Out
  /-- Set when a call did not return: `kill()` or an endless loop. -/
  halted : Bool
  motion : Motion
  enq_hist : List (List Nat)
  deq_hist : List (List Nat)

/-- How one iteration of a `while` loop of `get_command` ends. -/
inductive Flow
  /-- The iteration finished; the loop condition is tested again. -/
  | next
  /-- A `return` statement left `get_command`. -/
  | ret
  /-- Control never comes back (`kill()`, endless loop). -/
  | halt
  deriving DecidableEq

/-! ## Memory and C strings -/

/-- Address of `cmdbuffer[i][j]`. -/
def cell (c : Config) (i j : Nat) : Nat := i * c.MAX_CMD_SIZE + j

/-- Store one byte. -/
def poke (mem : Nat → Nat) (a v : Nat) : Nat → Nat :=
  fun x => if x = a then v else mem x

/-- Store consecutive bytes from address `a` on. -/
def writeBytes (mem : Nat → Nat) : Nat → List Nat → Nat → Nat
  | _, [] => mem
  | a, b :: bs => writeBytes (poke mem a b) (a + 1) bs

/-- The C string found at address `a`: the bytes before the first NUL.  The scan
is limited to `fuel` cells (one slot). -/
def cstr (mem : Nat → Nat) : Nat → Nat → List Nat
  | _, 0 => []
  | a, fuel + 1 => if mem a = 0 then [] else mem a :: cstr mem (a + 1) fuel

/-- The C string held by slot `i`. -/
def slotStr (c : Config) (mem : Nat → Nat) (i : Nat) : List Nat :=
  cstr mem (cell c i 0) c.MAX_CMD_SIZE

/-- The test `strchr(s, ch) != NULL` for a non-NUL `ch`. -/
def strchr (s : List Nat) (ch : Nat) : Bool := s.contains ch

/-- The C string that starts one byte after the first `ch` of `s`:
`&s[strchr(s, ch) - s + 1]`. -/
def afterFirst (ch : Nat) (s : List Nat) : List Nat :=
  (s.dropWhile (fun b => b != ch)).drop 1

/-- The test `strstr(s, pat) != NULL`. -/
def strstr : List Nat → List Nat → Bool
  | [], pat => pat.isEmpty
  | b :: s, pat => pat.isPrefixOf (b :: s) || strstr s pat

/-- The string `"M110"`. -/
def M110 : List Nat := [77, 49, 49, 48]

/-- The string `"M112"`. -/
def M112 : List Nat := [77, 49, 49, 50]

/-- The call `strcpy(dst, cmd)`: the bytes of `cmd` before its NUL, then a NUL. -/
def strcpy (mem : Nat → Nat) (dst : Nat) (cmd : List Nat) : Nat → Nat :=
  writeBytes mem dst (cmd.takeWhile (fun b => b != 0) ++ [0])

/-- Wrap an integer into the range of a 32-bit `long`. -/
def wrapLong (x : Int) : Int := (x + 2147483648) % 4294967296 - 2147483648

/-- The checksum loop
`while(cmdbuffer[bufindw][count] != '*') checksum = checksum^cmdbuffer[bufindw][count++];`
with `byte count` and `byte checksum`.  `none` when `fuel` iterations do not
reach a `*`. -/
def checksumLoop (mem : Nat → Nat) (base : Nat) : Nat → Nat → Nat → Option Nat
  | 0, _, _ => none
  | fuel + 1, count, checksum =>
    if mem (base + count) = 42 then some checksum
    else checksumLoop mem base fuel ((count + 1) % 256)
      ((checksum ^^^ mem (base + count)) % 256)

/-! ## Responses -/

/-- Function `ClearToSend()`: writes `ok` unless `SDSUPPORT` is defined and
`fromsd[bufindr]` is set. -/
def ClearToSend (c : Config) (s : State) : State :=
  if c.SDSUPPORT && s.fromsd s.bufindr then s
  else { s with out := s.out ++ [Out.ok] }

/-- Function `FlushSerialRequestResend()`. -/
def FlushSerialRequestResend (c : Config) (s : State) : State :=
  ClearToSend c
    { s with rx := c.flush s.rx
             out := s.out ++ [Out.resend (wrapLong (s.gcode_LastN + 1))] }

/-- Function `kill()`: reports and never returns. -/
def kill (s : State) : State :=
  { s with out := s.out ++ [Out.killed], halted := true }

/-! ## enquecommand -/

/-- Function `enquecommand(cmd)`. -/
def enquecommand (c : Config) (cmd : List Nat) (s : State) : State :=
  if s.buflen < c.BUFSIZE then
    let mem := strcpy s.cmdbuffer (cell c s.bufindw 0) cmd
    { s with cmdbuffer := mem
             out := s.out ++ [Out.enqueing (slotStr c mem s.bufindw)]
             bufindw := (s.bufindw + 1) % c.BUFSIZE
             buflen := s.buflen + 1
             enq_hist := s.enq_hist ++ [slotStr c mem s.bufindw] }
  else s

/-! ## get_command -/

/-- The sequence-number and checksum checks of `get_command` on the terminated
line `line = cmdbuffer[bufindw]` (lines 697-751). -/
def check_line (c : Config) (line : List Nat) (s : State) : State × Flow :=
  if strchr line 78 then
    let s := { s with gcode_N := c.strtol (afterFirst 78 line) }
    if s.gcode_N ≠ wrapLong (s.gcode_LastN + 1) ∧ strstr line M110 = false then
      let s := { s with out := s.out ++ [Out.error Fault.LINE_NO s.gcode_LastN] }
      let s := FlushSerialRequestResend c s
      ({ s with serial_count := 0 }, Flow.ret)
    else if strchr line 42 then
      match checksumLoop s.cmdbuffer (cell c s.bufindw 0) 256 0 0 with
      | none => ({ s with halted := true }, Flow.halt)
      | some checksum =>
        if c.strtod_int (afterFirst 42 line) ≠ (checksum : Int) then
          let s := { s with out := s.out ++ [Out.error Fault.CHECKSUM_MISMATCH s.gcode_LastN] }
          let s := FlushSerialRequestResend c s
          ({ s with serial_count := 0 }, Flow.ret)
        else ({ s with gcode_LastN := s.gcode_N }, Flow.next)
    else
      let s := { s with out := s.out ++ [Out.error Fault.NO_CHECKSUM s.gcode_LastN] }
      let s := FlushSerialRequestResend c s
      ({ s with serial_count := 0 }, Flow.ret)
  else if strchr line 42 then
    ({ s with out := s.out ++ [Out.error Fault.NO_LINENUMBER_WITH_CHECKSUM s.gcode_LastN]
              serial_count := 0 }, Flow.ret)
  else (s, Flow.next)

/-- The rest of the accepted-line path (lines 752-775): the `G0`-`G3` notice
while stopped, the emergency stop, the enqueue. -/
def enqueue_line (c : Config) (line : List Nat) (s : State) : State × Flow :=
  let g := c.strtod_int (afterFirst 71 line)
  let s := if strchr line 71 && (g == 0 || g == 1 || g == 2 || g == 3) && s.Stopped
    then { s with out := s.out ++ [Out.stopped] } else s
  if line = M112 then (kill s, Flow.halt)
  else
    ({ s with bufindw := (s.bufindw + 1) % c.BUFSIZE
              buflen := s.buflen + 1
              enq_hist := s.enq_hist ++ [line] }, Flow.next)

/-- One iteration of the interactive-source loop (lines 683-783) on the byte
`serial_char` just read. -/
def serial_iter (c : Config) (serial_char : Nat) (s : State) : State × Flow :=
  if serial_char = 10 ∨ serial_char = 13 ∨ (serial_char = 58 ∧ s.comment_mode = false)
      ∨ s.serial_count ≥ c.MAX_CMD_SIZE - 1 then
    if s.serial_count = 0 then ({ s with comment_mode := false }, Flow.ret)
    else
      let s := { s with cmdbuffer := poke s.cmdbuffer (cell c s.bufindw s.serial_count) 0 }
      if s.comment_mode = false then
        let s := { s with comment_mode := false
                          fromsd := fun i => if i = s.bufindw then false else s.fromsd i }
        let line := slotStr c s.cmdbuffer s.bufindw
        match check_line c line s with
        | (s, Flow.next) =>
          match enqueue_line c line s with
          | (s, Flow.next) => ({ s with serial_count := 0 }, Flow.next)
          | r => r
        | r => r
      else ({ s with serial_count := 0 }, Flow.next)
  else
    let s := if serial_char = 59 then { s with comment_mode := true } else s
    if s.comment_mode = false then
      ({ s with cmdbuffer := poke s.cmdbuffer (cell c s.bufindw s.serial_count) serial_char
                serial_count := s.serial_count + 1 }, Flow.next)
    else (s, Flow.next)

/-- The loop `while( MYSERIAL.available() > 0 && buflen < BUFSIZE)` over the
pending receive bytes. -/
def serial_loop (c : Config) : List Nat → State → State × Flow
  | [], s => ({ s with rx := [] }, Flow.next)
  | ch :: rest, s =>
    if s.buflen < c.BUFSIZE then
      match serial_iter c ch { s with rx := rest } with
      | (s', Flow.next) => serial_loop c rest s'
      | r => r
    else ({ s with rx := ch :: rest }, Flow.next)

/-- One iteration of the replay-source loop (lines 798-843) on the value `n`
just returned by `card.get()`. -/
def sd_iter (c : Config) (n : Int) (s : State) : State × Flow :=
  let serial_char := (n % 256).toNat
  if serial_char = 10 ∨ serial_char = 13 ∨ (serial_char = 35 ∧ s.comment_mode = false)
      ∨ (serial_char = 58 ∧ s.comment_mode = false)
      ∨ s.serial_count ≥ c.MAX_CMD_SIZE - 1 ∨ n = -1 then
    let s := if s.card.data = [] then
        { s with out := s.out ++ [Out.file_printed]
                 card := { s.card with sdprinting := false } }
      else s
    let s := if serial_char = 35 then { s with stop_buffering := true } else s
    if s.serial_count = 0 then ({ s with comment_mode := false }, Flow.ret)
    else
      let mem := poke s.cmdbuffer (cell c s.bufindw s.serial_count) 0
      ({ s with cmdbuffer := mem
                fromsd := fun i => if i = s.bufindw then true else s.fromsd i
                buflen := s.buflen + 1
                bufindw := (s.bufindw + 1) % c.BUFSIZE
                comment_mode := false
                serial_count := 0
                enq_hist := s.enq_hist ++ [slotStr c mem s.bufindw] }, Flow.next)
  else
    let s := if serial_char = 59 then { s with comment_mode := true } else s
    if s.comment_mode = false then
      ({ s with cmdbuffer := poke s.cmdbuffer (cell c s.bufindw s.serial_count) serial_char
                serial_count := s.serial_count + 1 }, Flow.next)
    else (s, Flow.next)

/-- The loop `while( !card.eof() && buflen < BUFSIZE && !stop_buffering)` over
the values the card still holds. -/
def sd_loop (c : Config) : List Int → State → State × Flow
  | [], s => ({ s with card := { s.card with data := [] } }, Flow.next)
  | n :: rest, s =>
    if s.buflen < c.BUFSIZE ∧ s.stop_buffering = false then
      match sd_iter c n { s with card := { s.card with data := rest } } with
      | (s', Flow.next) => sd_loop c rest s'
      | r => r
    else ({ s with card := { s.card with data := n :: rest } }, Flow.next)

/-- Function `get_command()`.  A machine that has halted stays as it is. -/
def get_command (c : Config) (s : State) : State :=
  if s.halted then s
  else
    match serial_loop c s.rx s with
    | (s, Flow.next) =>
      if c.SDSUPPORT then
        if s.card.sdprinting = false ∨ s.serial_count ≠ 0 then s
        else
          let s := if s.buflen = 0 then { s with stop_buffering := false } else s
          (sd_loop c s.card.data s).1
      else s
    | (s, _) => s

/-! ## loop -/

/-- What can touch the channel while `process_commands` runs or between two
dequeues: the receive interrupt, a command acting on the card,
`enquecommand` (from the display code) and `manage_inactivity`. -/
inductive QOp
  /-- The receive interrupt appends bytes to the receive buffer. -/
  | receive (bytes : List Nat)
  /-- A command replaces the card state (`M23`, `M24`, `M25`, ...). -/
  | setcard (k : CardReader)
  /-- A call `enquecommand(cmd)`. -/
  | enque (cmd : List Nat)
  /-- A call `manage_inactivity()`: `if(buflen < (BUFSIZE-1)) get_command();`. -/
  | manage_inactivity

/-- Effect of one `QOp`. -/
def QOp.run (c : Config) (o : QOp) (s : State) : State :=
  if s.halted then s
  else
    match o with
    | QOp.receive bytes => { s with rx := s.rx ++ bytes }
    | QOp.setcard k => { s with card := k }
    | QOp.enque cmd => enquecommand c cmd s
    | QOp.manage_inactivity =>
      if s.buflen < (c.BUFSIZE : Int) - 1 then get_command c s else s

/-- A sequence of `QOp`s. -/
def runOps (c : Config) (ops : List QOp) (s : State) : State :=
  ops.foldl (fun s o => o.run c s) s

/-- The dequeue of `loop()` (lines 640-672): if the queue is not empty the
record at `bufindr` is handed over (to `process_commands`, or to the card while
a file is being saved), `during` happens while it is processed, then
`buflen` and `bufindr` move on. -/
def dispatch (c : Config) (during : List QOp) (s : State) : State :=
  if s.halted then s
  else if s.buflen ≠ 0 then
    let s := { s with deq_hist := s.deq_hist ++ [slotStr c s.cmdbuffer s.bufindr] }
    let s := runOps c during s
    if s.halted then s
    else { s with buflen := s.buflen - 1, bufindr := (s.bufindr + 1) % c.BUFSIZE }
  else s

/-- Function `loop()`: the guarded `get_command`, the dequeue, then the
housekeeping calls: `manage_inactivity`, and what `lcd_update` does to the
channel as `after`. -/
def loop (c : Config) (during after : List QOp) (s : State) : State :=
  if s.halted then s
  else
    let s := if s.buflen < (c.BUFSIZE : Int) - 1 then get_command c s else s
    let s := dispatch c during s
    let s := QOp.run c QOp.manage_inactivity s
    runOps c after s

/-! ## Motion: clamping, inverse kinematics, segmentation -/

/-- The mechanism selected at build time (`DELTA`, `SCARA`, or neither). -/
inductive Mechanism
  | CARTESIAN
  | DELTA
  | SCARA
  deriving DecidableEq

/-- Items the motion code uses but `Marlin_main.cpp` does not define, and the
parts of it that are outside the rational model: configuration macros, the
`sqrt` routine (on non-negative arguments), the bed-level grid read by
`adjust_delta`, and the trigonometric `calculate_delta` of the SCARA build.
`DUAL_X_CARRIAGE` is taken as not defined. -/
structure Kinematics where
  mechanism : Mechanism
  min_software_endstops : Bool
  max_software_endstops : Bool
  sqrt : ℚ → ℚ
  NONLINEAR_BED_LEVELING : Bool
  AUTO_BED_LEVELING_GRID_POINTS : Int
  AUTO_BED_LEVELING_GRID_X : ℚ
  AUTO_BED_LEVELING_GRID_Y : ℚ
  bed_level : Int → Int → ℚ
  scara_segments_per_second : ℚ
  scara_calculate_delta : Axes → Towers

/-- The macro `sq(x)`. -/
def sq (x : ℚ) : ℚ := x * x

/-- The value `sqrt(r)`, with `NaN` (`none`) for a negative argument. -/
def fsqrt (k : Kinematics) (r : ℚ) : Option ℚ :=
  if r < 0 then none else some (k.sqrt r)

/-- Function `clamp_to_software_endstops(target)`. -/
def clamp_to_software_endstops (k : Kinematics) (m : Motion) (target : Axes) : Axes :=
  let t := target
  let t := if k.min_software_endstops then
      let t := if t.X < m.min_pos.X then { t with X := m.min_pos.X } else t
      let t := if t.Y < m.min_pos.Y then { t with Y := m.min_pos.Y } else t
      if t.Z < m.min_pos.Z then { t with Z := m.min_pos.Z } else t
    else t
  if k.max_software_endstops then
    let t := if t.X > m.max_pos.X then { t with X := m.max_pos.X } else t
    let t := if t.Y > m.max_pos.Y then { t with Y := m.max_pos.Y } else t
    if t.Z > m.max_pos.Z then { t with Z := m.max_pos.Z } else t
  else t

/-- Function `calculate_delta(cartesian)` of the `DELTA` build. -/
def calculate_delta (k : Kinematics) (m : Motion) (cartesian : Axes) : Motion :=
  { m with delta :=
      { X := (fsqrt k (m.DELTA_DIAGONAL_ROD1_2
                - sq (m.delta_tower1_x - cartesian.X)
                - sq (m.delta_tower1_y - cartesian.Y))).map (fun r => r + cartesian.Z)
        Y := (fsqrt k (m.DELTA_DIAGONAL_ROD2_2
                - sq (m.delta_tower2_x - cartesian.X)
                - sq (m.delta_tower2_y - cartesian.Y))).map (fun r => r + cartesian.Z)
        Z := (fsqrt k (m.DELTA_DIAGONAL_ROD3_2
                - sq (m.delta_tower3_x - cartesian.X)
                - sq (m.delta_tower3_y - cartesian.Y))).map (fun r => r + cartesian.Z) } }

/-- Function `adjust_delta(cartesian)`: bilinear interpolation over `bed_level`. -/
def adjust_delta (k : Kinematics) (m : Motion) (cartesian : Axes) : Motion :=
  let half : Int := Int.tdiv (k.AUTO_BED_LEVELING_GRID_POINTS - 1) 2
  let grid_x : ℚ := max (1 / 1000 - (half : ℚ))
    (min ((half : ℚ) - 1 / 1000) (cartesian.X / k.AUTO_BED_LEVELING_GRID_X))
  let grid_y : ℚ := max (1 / 1000 - (half : ℚ))
    (min ((half : ℚ) - 1 / 1000) (cartesian.Y / k.AUTO_BED_LEVELING_GRID_Y))
  let floor_x : Int := ⌊grid_x⌋
  let floor_y : Int := ⌊grid_y⌋
  let ratio_x : ℚ := grid_x - floor_x
  let ratio_y : ℚ := grid_y - floor_y
  let z1 := k.bed_level (floor_x + half) (floor_y + half)
  let z2 := k.bed_level (floor_x + half) (floor_y + half + 1)
  let z3 := k.bed_level (floor_x + half + 1) (floor_y + half)
  let z4 := k.bed_level (floor_x + half + 1) (floor_y + half + 1)
  let left := (1 - ratio_y) * z1 + ratio_y * z2
  let right := (1 - ratio_y) * z3 + ratio_y * z4
  let offset := (1 - ratio_x) * left + ratio_x * right
  { m with delta :=
      { X := m.delta.X.map (fun d => d + offset)
        Y := m.delta.Y.map (fun d => d + offset)
        Z := m.delta.Z.map (fun d => d + offset) } }

/-- Conversion of a `float` to the 16-bit `int`: truncation toward zero; `none`
when the result does not fit (the conversion is then undefined). -/
def float_to_int (x : ℚ) : Option Int :=
  let t : Int := if 0 ≤ x then ⌊x⌋ else -⌊-x⌋
  if -32768 ≤ t ∧ t ≤ 32767 then some t else none

/-- The array `difference[i] = destination[i] - current_position[i]`. -/
def difference (m : Motion) : Axes :=
  { X := m.destination.X - m.current_position.X
    Y := m.destination.Y - m.current_position.Y
    Z := m.destination.Z - m.current_position.Z
    E := m.destination.E - m.current_position.E }

/-- The variable `cartesian_mm` after the two assignments of `prepare_move` (lines 5864-5867):
the 3-D travel, or the extrusion travel when the 3-D travel is below 0.000001. -/
def cartesian_mm (k : Kinematics) (m : Motion) : ℚ :=
  let d := difference m
  let mm := k.sqrt (sq d.X + sq d.Y + sq d.Z)
  if mm < 1 / 1000000 then |d.E| else mm

/-- The rate `delta_segments_per_second` or `scara_segments_per_second`. -/
def segments_per_second (k : Kinematics) (m : Motion) : ℚ :=
  match k.mechanism with
  | Mechanism.SCARA => k.scara_segments_per_second
  | _ => m.delta_segments_per_second

/-- Body of the loop `for (int s = 1; s <= steps; s++)` of `prepare_move`. -/
def segment (k : Kinematics) (diff : Axes) (steps : Int) (m : Motion) (s : Nat) : Motion :=
  let fraction : ℚ := (s : ℚ) / (steps : ℚ)
  let dest : Axes :=
    { X := m.current_position.X + diff.X * fraction
      Y := m.current_position.Y + diff.Y * fraction
      Z := m.current_position.Z + diff.Z * fraction
      E := m.current_position.E + diff.E * fraction }
  let m := { m with destination := dest }
  let m := match k.mechanism with
    | Mechanism.SCARA => { m with delta := k.scara_calculate_delta dest }
    | _ =>
      let m := calculate_delta k m dest
      if k.NONLINEAR_BED_LEVELING then adjust_delta k m dest else m
  let line : Segment :=
    { a := m.delta.X, b := m.delta.Y, c := m.delta.Z, e := dest.E
      feed_rate := m.feedrate * (m.feedmultiply : ℚ) / 60 / 100, tool := dest }
  { m with planned := m.planned ++ [line] }

/-- The first statement of `prepare_move`:
`clamp_to_software_endstops(destination)`. -/
def clamped (k : Kinematics) (m : Motion) : Motion :=
  { m with destination := clamp_to_software_endstops k m m.destination }

/-- The loop `for (int s = 1; s <= steps; s++)` run for `n` iterations. -/
def segments (k : Kinematics) (diff : Axes) (steps : Int) (n : Nat) (m : Motion) : Motion :=
  (List.range n).foldl (fun m i => segment k diff steps m (i + 1)) m

/-- Function `prepare_move()`.  `none` when the C code leaves defined behaviour: a zero
divisor in `seconds`, a step count that does not fit `int`, or the loop counter
running past `INT_MAX`. -/
def prepare_move (k : Kinematics) (m : Motion) : Option Motion :=
  let m := clamped k m
  match k.mechanism with
  | Mechanism.CARTESIAN =>
    let d := m.destination
    let feed_rate :=
      if m.current_position.X = d.X ∧ m.current_position.Y = d.Y then m.feedrate / 60
      else m.feedrate * (m.feedmultiply : ℚ) / 60 / 100
    let line : Segment :=
      { a := some d.X, b := some d.Y, c := some d.Z, e := d.E
        feed_rate := feed_rate, tool := d }
    let m := { m with planned := m.planned ++ [line] }
    some { m with current_position := m.destination }
  | _ =>
    let diff := difference m
    let mm := cartesian_mm k m
    if mm < 1 / 1000000 then some m
    else if m.feedrate = 0 ∨ m.feedmultiply = 0 then none
    else
      let seconds : ℚ := 6000 * mm / m.feedrate / (m.feedmultiply : ℚ)
      match float_to_int (segments_per_second k m * seconds) with
      | none => none
      | some n =>
        let steps : Int := max 1 n
        if steps = 32767 then none
        else
          let m := segments k diff steps steps.toNat m
          some { m with current_position := m.destination }

/-! ## A reference configuration and start state -/

/-- Value of the decimal digits at the head of a string (`acc` so far). -/
def leadingDigits : List Nat → Nat → Nat
  | [], acc => acc
  | b :: bs, acc =>
    if 48 ≤ b ∧ b ≤ 57 then leadingDigits bs (acc * 10 + (b - 48)) else acc

/-- A number parser that agrees with `strtol(p, NULL, 10)` and with
`(int)strtod(p, NULL)` on fields made of optional blanks and a short run of
decimal digits. -/
def parseDec (s : List Nat) : Int :=
  (leadingDigits (s.dropWhile (fun b => b == 32)) 0 : Nat)

/-- A reference build: four slots of 96 bytes, SD support, a serial driver whose
`flush` drops the pending receive bytes. -/
def refConfig : Config where
  BUFSIZE := 4
  MAX_CMD_SIZE := 96
  SDSUPPORT := true
  strtol := parseDec
  strtod_int := parseDec
  flush := fun _ => []

/-- The motion globals with their initialisers. -/
def Motion.init : Motion where
  current_position := ⟨0, 0, 0, 0⟩
  destination := ⟨0, 0, 0, 0⟩
  feedrate := 1500
  feedmultiply := 100
  min_pos := ⟨0, 0, 0⟩
  max_pos := ⟨0, 0, 0⟩
  delta := ⟨some 0, some 0, some 0⟩
  delta_segments_per_second := 0
  DELTA_DIAGONAL_ROD1_2 := 0
  DELTA_DIAGONAL_ROD2_2 := 0
  DELTA_DIAGONAL_ROD3_2 := 0
  delta_tower1_x := 0
  delta_tower1_y := 0
  delta_tower2_x := 0
  delta_tower2_y := 0
  delta_tower3_x := 0
  delta_tower3_y := 0
  planned := []

/-- The channel globals with their initialisers (`setup` clears `fromsd`). -/
def State.init : State where
  cmdbuffer := fun _ => 0
  fromsd := fun _ => false
  bufindr := 0
  bufindw := 0
  buflen := 0
  serial_count := 0
  comment_mode := false
  gcode_N := 0
  gcode_LastN := 0
  Stopped := false
  stop_buffering := false
  rx := []
  card := ⟨false, false, false, []⟩
  out := []
  halted := false
  motion := Motion.init
  enq_hist := []
  deq_hist := []

/-! ## Vocabulary of the statements -/

/-- A byte that the interactive loop buffers as line content when it is not in
comment mode: not NUL, not a terminator, not `;`. -/
def plainByte (b : Nat) : Prop := b ≠ 0 ∧ b ≠ 10 ∧ b ≠ 13 ∧ b ≠ 58 ∧ b ≠ 59 ∧ b < 256

instance : DecidablePred plainByte := fun b => by unfold plainByte; infer_instance

/-- A byte that closes a line of the interactive source: `\n`, `\r` or `:`. -/
def isTerminator (t : Nat) : Prop := t = 10 ∨ t = 13 ∨ t = 58

instance : DecidablePred isTerminator := fun t => by unfold isTerminator; infer_instance

/-- The channel state once the bytes `bs` of a line have been buffered. -/
def buffered (c : Config) (s : State) (bs : List Nat) : State :=
  { s with cmdbuffer := writeBytes s.cmdbuffer (cell c s.bufindw s.serial_count) bs
           serial_count := s.serial_count + bs.length }

/-- The channel state in which `check_line` runs for a line that arrived on an
empty line buffer: the line and its NUL are in slot `bufindw`, `fromsd[bufindw]`
is cleared, `rest` is still pending. -/
def lineReady (c : Config) (s : State) (line rest : List Nat) : State :=
  { s with rx := rest
           cmdbuffer := poke (writeBytes s.cmdbuffer (cell c s.bufindw 0) line)
             (cell c s.bufindw line.length) 0
           serial_count := line.length
           comment_mode := false
           fromsd := fun i => if i = s.bufindw then false else s.fromsd i }

/-- XOR of a byte sequence. -/
def xorBytes (bs : List Nat) : Nat := bs.foldl (fun a b => a ^^^ b) 0

/-- The checksum of a line as the protocol defines it: the XOR of all bytes
before the `*`. -/
def lineChecksum (line : List Nat) : Nat := xorBytes (line.takeWhile (fun b => b != 42))

/-- The fault of a line as the protocol defines it, `L` being the last accepted
sequence number: a sequence number other than `L + 1` (unless the line is the
reset command `M110`), a checksum that differs from the XOR of the bytes before
the `*`, a sequence number without checksum, a checksum without sequence
number. -/
def lineFault (c : Config) (L : Int) (line : List Nat) : Option Fault :=
  if strchr line 78 then
    if c.strtol (afterFirst 78 line) ≠ L + 1 ∧ strstr line M110 = false then
      some Fault.LINE_NO
    else if strchr line 42 then
      if c.strtod_int (afterFirst 42 line) ≠ (lineChecksum line : Int) then
        some Fault.CHECKSUM_MISMATCH
      else none
    else some Fault.NO_CHECKSUM
  else if strchr line 42 then some Fault.NO_LINENUMBER_WITH_CHECKSUM
  else none

/-- The `ok` that closes a resend request, as `ClearToSend` writes it when the
line buffer is slot `bufindw`: nothing when `SDSUPPORT` is defined and the slot
at the read index is another slot flagged `fromsd`. -/
def okAfterResend (c : Config) (s : State) : List Out :=
  if c.SDSUPPORT && (s.bufindr != s.bufindw) && s.fromsd s.bufindr then [] else [Out.ok]

/-- The responses to a faulty line. -/
def faultReport (c : Config) (s : State) (k : Fault) : List Out :=
  if k = Fault.NO_LINENUMBER_WITH_CHECKSUM then [Out.error k s.gcode_LastN]
  else [Out.error k s.gcode_LastN, Out.resend (s.gcode_LastN + 1)] ++ okAfterResend c s

/-- The channel state after a faulty line has been rejected. -/
def rejected (c : Config) (s : State) (line rest : List Nat) (k : Fault) : State :=
  { lineReady c s line rest with
      gcode_N := if strchr line 78 then c.strtol (afterFirst 78 line) else s.gcode_N
      rx := if k = Fault.NO_LINENUMBER_WITH_CHECKSUM then rest else c.flush rest
      out := s.out ++ faultReport c s k
      serial_count := 0 }

/-- The value is in the range of a 32-bit `long`. -/
def isLong (x : Int) : Prop := -2147483648 ≤ x ∧ x ≤ 2147483647

instance : DecidablePred isLong := fun x => by unfold isLong; infer_instance

/-- The channel state after the checks let a line through: a line with a
sequence number has set `gcode_N` and `gcode_LastN`. -/
def passed (c : Config) (s : State) (line rest : List Nat) : State :=
  if strchr line 78 then
    { lineReady c s line rest with
        gcode_N := c.strtol (afterFirst 78 line)
        gcode_LastN := c.strtol (afterFirst 78 line) }
  else lineReady c s line rest

/-- The notice written for a `G0`..`G3` line while the machine is stopped. -/
def stoppedNotice (c : Config) (s : State) (line : List Nat) : List Out :=
  let g := c.strtod_int (afterFirst 71 line)
  if strchr line 71 && (g == 0 || g == 1 || g == 2 || g == 3) && s.Stopped
  then [Out.stopped] else []

/-- The channel state after a line has been enqueued. -/
def accepted (c : Config) (s : State) (line rest : List Nat) : State :=
  { passed c s line rest with
      out := s.out ++ stoppedNotice c s line
      bufindw := (s.bufindw + 1) % c.BUFSIZE
      buflen := s.buflen + 1
      enq_hist := s.enq_hist ++ [line]
      serial_count := 0 }

/-- The situation the line-level statements are about: the machine runs, the
line buffer is empty and not in comment mode, the queue has a free slot, and the
interactive source delivers the non-empty line `line` (plain bytes, short enough
for a slot) followed by the terminator `t`.  `MAX_CMD_SIZE ≤ 256` keeps the
`byte` index of the checksum loop from wrapping; `gcode_LastN + 1` does not
overflow. -/
def Arrives (c : Config) (s : State) (line : List Nat) (t : Nat) : Prop :=
  s.halted = false ∧ s.serial_count = 0 ∧ s.comment_mode = false ∧
  s.buflen < (c.BUFSIZE : Int) ∧ isTerminator t ∧ line ≠ [] ∧
  (∀ b ∈ line, plainByte b) ∧ line.length < c.MAX_CMD_SIZE ∧
  c.MAX_CMD_SIZE ≤ 256 ∧ isLong (s.gcode_LastN + 1)

instance (c : Config) (s : State) (line : List Nat) (t : Nat) :
    Decidable (Arrives c s line t) := by
  unfold Arrives; infer_instance

/-- The sequence numbers named by the `Resend:` lines of an output. -/
def resendRequests (o : List Out) : List Int :=
  o.filterMap (fun x => match x with
    | Out.resend n => some n
    | _ => none)

/-- Bytes of `N1 G28*18`: sequence number 1, checksum 18. -/
def lineN1G28 : List Nat := [78, 49, 32, 71, 50, 56, 42, 49, 56]

/-- Bytes of `N5 G1 X10 Y10*45`: sequence number 5, checksum field 45 (the XOR is 44). -/
def lineN5BadSum : List Nat := [78, 53, 32, 71, 49, 32, 88, 49, 48, 32, 89, 49, 48, 42, 52, 53]

/-- Bytes of `G1*118`: a checksum without sequence number. -/
def lineG1Star : List Nat := [71, 49, 42, 49, 49, 56]

/-- A running machine whose last accepted sequence number is 4. -/
def stateL4 : State := { State.init with gcode_LastN := 4 }

/-- Bytes of `N6 G1*46`: sequence number 6, checksum 46. -/
def lineN6G1 : List Nat := [78, 54, 32, 71, 49, 42, 52, 54]

/-- Bytes of `N5 G1`: sequence number 5, no checksum. -/
def lineN5G1 : List Nat := [78, 53, 32, 71, 49]

/-- A replay file of five `G1` lines. -/
def fiveG1 : List Int := [71, 49, 10, 71, 49, 10, 71, 49, 10, 71, 49, 10, 71, 49, 10]

/-- The records waiting in the queue, oldest first: slots `bufindr`,
`bufindr + 1`, ... (modulo `BUFSIZE`), `buflen` of them. -/
def pending (c : Config) (s : State) : List (List Nat) :=
  (List.range s.buflen.toNat).map
    (fun k => slotStr c s.cmdbuffer ((s.bufindr + k) % c.BUFSIZE))

/-- The ring-buffer invariant: the length is within bounds, the write index is
the read index plus the length modulo `BUFSIZE`, the line buffer index stays
inside a slot, and the records enqueued so far are the records `d` already
dequeued followed by the waiting ones. -/
structure Inv (c : Config) (d : List (List Nat)) (s : State) : Prop where
  len_nonneg : 0 ≤ s.buflen
  len_le : s.buflen ≤ (c.BUFSIZE : Int)
  read_lt : s.bufindr < c.BUFSIZE
  write_eq : s.bufindw = (s.bufindr + s.buflen.toNat) % c.BUFSIZE
  count_lt : s.serial_count < c.MAX_CMD_SIZE
  hist : s.enq_hist = d ++ pending c s

/-- State `s'` has the queue of `s`: same indices, length, slot memory and histories;
the line buffer index is kept or reset. -/
structure SameQueue (s s' : State) : Prop where
  bufindr : s'.bufindr = s.bufindr
  bufindw : s'.bufindw = s.bufindw
  buflen : s'.buflen = s.buflen
  cmdbuffer : s'.cmdbuffer = s.cmdbuffer
  enq_hist : s'.enq_hist = s.enq_hist
  deq_hist : s'.deq_hist = s.deq_hist
  count : s'.serial_count = s.serial_count ∨ s'.serial_count = 0

/-- A transition that keeps the ring-buffer invariant, hands over no record,
only appends to the enqueue history, does not shrink the queue and does not
push its length past `BUFSIZE`. -/
structure Keeps (c : Config) (s s' : State) : Prop where
  inv : ∀ d, Inv c d s → Inv c d s'
  deq_hist : s'.deq_hist = s.deq_hist
  grows : ∃ ext, s'.enq_hist = s.enq_hist ++ ext
  mono : s.buflen ≤ s'.buflen
  bound : s.buflen ≤ (c.BUFSIZE : Int) → s'.buflen ≤ (c.BUFSIZE : Int)

/-- The value `strlen(cmd)`. -/
def strlen (cmd : List Nat) : Nat := (cmd.takeWhile (fun b => b != 0)).length

/-- The argument of an `enquecommand` leaves room for its NUL in a slot. -/
def QOp.fits (c : Config) : QOp → Bool
  | QOp.enque cmd => decide (strlen cmd < c.MAX_CMD_SIZE)
  | _ => true

/-- A step of the channel as seen from outside: something touches it between
two passes of `loop`, or `loop` runs once. -/
inductive Act
  | op (o : QOp)
  | loop (during after : List QOp)

/-- Every `enquecommand` argument of the step fits a slot. -/
def Act.fits (c : Config) : Act → Bool
  | Act.op o => o.fits c
  | Act.loop during after => during.all (fun o => o.fits c) && after.all (fun o => o.fits c)

/-- Effect of one step. -/
def Act.run (c : Config) : Act → State → State
  | Act.op o, s => o.run c s
  | Act.loop during after, s => Marlin.loop c during after s

/-- Effect of a sequence of steps. -/
def run (c : Config) (acts : List Act) (s : State) : State :=
  acts.foldl (fun s a => a.run c s) s

/-- A run from the start state: a print from the card (five `G1` lines) is
started and `loop` runs twice; in the third pass the host sends `N6 G1*46`,
although the last accepted sequence number is 0, while the third record is
processed.  This is the state after the dequeue of that pass, in which
`manage_inactivity` calls `get_command`: two replay records wait in the queue. -/
def replayHead : State :=
  dispatch refConfig [QOp.receive (lineN6G1 ++ [10])]
    (run refConfig
      [Act.op (QOp.setcard ⟨true, false, false, fiveG1⟩),
       Act.loop [] [],
       Act.loop [] []]
      State.init)

/-- First-in first-out, as a property of a channel state: the records handed
over so far are the first records enqueued, in the same order, and the write
index is the read index plus the queue length modulo `BUFSIZE`. -/
def Fifo (c : Config) (s : State) : Prop :=
  (∃ waiting, s.enq_hist = s.deq_hist ++ waiting) ∧
  (∀ k, k < s.deq_hist.length → s.deq_hist[k]? = s.enq_hist[k]?) ∧
  s.bufindw = (s.bufindr + s.buflen.toNat) % c.BUFSIZE ∧
  0 ≤ s.buflen ∧ s.buflen ≤ (c.BUFSIZE : Int)

/-- The invariant carried along a run: the ring-buffer invariant for the
records `d` already dequeued, where the handed-over history is `d`, or - in a
machine that halted while a record was being processed - `d` and that record,
which still heads the queue. -/
def RunInv (c : Config) (s : State) : Prop :=
  ∃ d, Inv c d s ∧
    (s.deq_hist = d ∨
      (s.halted = true ∧ ∃ hd tl, pending c s = hd :: tl ∧ s.deq_hist = d ++ [hd]))

/-- Bytes of `G28`. -/
def cmdG28 : List Nat := [71, 50, 56]

/-- A short run: the host sends `G1` and `G2`, `loop` runs three times, and the
display code enqueues `G28` after the first dequeue. -/
def demoActs : List Act :=
  [Act.op (QOp.receive [71, 49, 10, 71, 50, 10]),
   Act.loop [] [QOp.enque cmdG28],
   Act.loop [] [],
   Act.loop [QOp.manage_inactivity] []]

/-- A full queue with both sources waiting: the start state prints from the
card (five `G1` lines), one `get_command` fills the four slots, then the host
sends `G2`. -/
def fullQueue : State :=
  QOp.run refConfig (QOp.receive [71, 50, 10])
    (get_command refConfig { State.init with card := ⟨true, false, false, fiveG1⟩ })

/-- A square root that is exact on squares of rationals and rounds down to a
multiple of one millionth of the denominator's reciprocal otherwise. -/
def refSqrt (q : ℚ) : ℚ :=
  (Nat.sqrt (q.num.toNat * q.den * 1000000000000) : ℚ) / ((q.den : ℚ) * 1000000)

/-- A reference delta build: software endstops on, no bed-level grid. -/
def refKinematics : Kinematics where
  mechanism := Mechanism.DELTA
  min_software_endstops := true
  max_software_endstops := true
  sqrt := refSqrt
  NONLINEAR_BED_LEVELING := false
  AUTO_BED_LEVELING_GRID_POINTS := 7
  AUTO_BED_LEVELING_GRID_X := 20
  AUTO_BED_LEVELING_GRID_Y := 20
  bed_level := fun _ _ => 0
  scara_segments_per_second := 200
  scara_calculate_delta := fun _ => ⟨none, none, none⟩

/-- A homed reference machine at the bed centre: rods of 250 mm, towers at
(-150, -85), (150, -85), (0, 175), travel of 100 mm around the centre and 300 mm
in Z, 100 segments per second, feedrate 160 mm/min at 100 %. -/
def refMotion : Motion :=
  { Motion.init with
      feedrate := 160
      min_pos := ⟨-100, -100, 0⟩
      max_pos := ⟨100, 100, 300⟩
      delta_segments_per_second := 100
      DELTA_DIAGONAL_ROD1_2 := 62500
      DELTA_DIAGONAL_ROD2_2 := 62500
      DELTA_DIAGONAL_ROD3_2 := 62500
      delta_tower1_x := -150
      delta_tower1_y := -85
      delta_tower2_x := 150
      delta_tower2_y := -85
      delta_tower3_x := 0
      delta_tower3_y := 175 }

/-- A commanded move of 3 mm along X from the bed centre. -/
def moveX3 : Motion := { refMotion with destination := ⟨3, 0, 0, 0⟩ }

/-- A commanded move of 2⁻²¹ mm of the extrusion axis alone. -/
def moveTinyE : Motion := { refMotion with destination := ⟨0, 0, 0, 1 / 2097152⟩ }

/-- The point `start + diff * s / steps` written to `destination` by iteration
`s` of the segment loop. -/
def waypoint (start diff : Axes) (steps : Int) (s : Nat) : Axes :=
  { X := start.X + diff.X * ((s : ℚ) / (steps : ℚ))
    Y := start.Y + diff.Y * ((s : ℚ) / (steps : ℚ))
    Z := start.Z + diff.Z * ((s : ℚ) / (steps : ℚ))
    E := start.E + diff.E * ((s : ℚ) / (steps : ℚ)) }

/-! ## Raw moves and the reachable envelope -/

/-- Function `prepare_move_raw()` (compiled for `DELTA` only): one planner call
with the tower heights of `destination`, no clamping and no segmentation. -/
def prepare_move_raw (k : Kinematics) (m : Motion) : Motion :=
  let m := calculate_delta k m m.destination
  let line : Segment :=
    { a := m.delta.X, b := m.delta.Y, c := m.delta.Z, e := m.destination.E
      feed_rate := m.feedrate * (m.feedmultiply : ℚ) / 60 / 100, tool := m.destination }
  let m := { m with planned := m.planned ++ [line] }
  { m with current_position := m.destination }

/-- The radicand of tower 1 at tool point `p`:
`DELTA_DIAGONAL_ROD1_2 - (delta_tower1_x - x)² - (delta_tower1_y - y)²`. -/
def radicand1 (m : Motion) (p : Axes) : ℚ :=
  m.DELTA_DIAGONAL_ROD1_2 - sq (m.delta_tower1_x - p.X) - sq (m.delta_tower1_y - p.Y)

/-- The radicand of tower 2 at tool point `p`. -/
def radicand2 (m : Motion) (p : Axes) : ℚ :=
  m.DELTA_DIAGONAL_ROD2_2 - sq (m.delta_tower2_x - p.X) - sq (m.delta_tower2_y - p.Y)

/-- The radicand of tower 3 at tool point `p`. -/
def radicand3 (m : Motion) (p : Axes) : ℚ :=
  m.DELTA_DIAGONAL_ROD3_2 - sq (m.delta_tower3_x - p.X) - sq (m.delta_tower3_y - p.Y)

/-- A tool point outside the reachable envelope: some radicand is negative. -/
def outsideEnvelope (m : Motion) (p : Axes) : Prop :=
  radicand1 m p < 0 ∨ radicand2 m p < 0 ∨ radicand3 m p < 0

/-- A planner call that carries `NaN` for a tower whose radicand at the call's
tool point is negative. -/
def carriesNaN (m : Motion) (line : Segment) : Prop :=
  (radicand1 m line.tool < 0 → line.a = none) ∧
  (radicand2 m line.tool < 0 → line.b = none) ∧
  (radicand3 m line.tool < 0 → line.c = none)

/-- The geometry constants read by `calculate_delta`. -/
def sameConstants (m m' : Motion) : Prop :=
  m'.DELTA_DIAGONAL_ROD1_2 = m.DELTA_DIAGONAL_ROD1_2 ∧
  m'.DELTA_DIAGONAL_ROD2_2 = m.DELTA_DIAGONAL_ROD2_2 ∧
  m'.DELTA_DIAGONAL_ROD3_2 = m.DELTA_DIAGONAL_ROD3_2 ∧
  m'.delta_tower1_x = m.delta_tower1_x ∧ m'.delta_tower1_y = m.delta_tower1_y ∧
  m'.delta_tower2_x = m.delta_tower2_x ∧ m'.delta_tower2_y = m.delta_tower2_y ∧
  m'.delta_tower3_x = m.delta_tower3_x ∧ m'.delta_tower3_y = m.delta_tower3_y

/-- A move to (1000, 0, 0): far outside the reach of 250 mm rods. -/
def moveFar : Motion := { refMotion with destination := ⟨1000, 0, 0, 0⟩ }

/-- The forward check as the specification words it: the tool Z recomputed from the
height `h` of tower 1 with the same constants. -/
def recomputeZ1 (k : Kinematics) (m : Motion) (p : Axes) (h : ℚ) : ℚ :=
  h - k.sqrt (radicand1 m p)

/-- The tool Z recomputed from the height `h` of tower 2. -/
def recomputeZ2 (k : Kinematics) (m : Motion) (p : Axes) (h : ℚ) : ℚ :=
  h - k.sqrt (radicand2 m p)

/-- The tool Z recomputed from the height `h` of tower 3. -/
def recomputeZ3 (k : Kinematics) (m : Motion) (p : Axes) (h : ℚ) : ℚ :=
  h - k.sqrt (radicand3 m p)

/-- One axis as the specification words it: `out` is `v` clamped into `[lo, hi]`, each
bound being applied only when its software endstop is enabled. -/
def clampedInto (emin emax : Bool) (lo hi v out : ℚ) : Prop :=
  (emin = true → v < lo → out = lo) ∧
  (emax = true → hi < v → out = hi) ∧
  ((emin = true → lo ≤ v) → (emax = true → v ≤ hi) → out = v)

/-- A Cartesian build with both software endstops enabled. -/
def refCartesian : Kinematics := { refKinematics with mechanism := Mechanism.CARTESIAN }

/-- A commanded move to (150, -20, 310) with 5 mm of extrusion: X and Z beyond
the travel of the reference machine. -/
def moveBeyond : Motion := { refMotion with destination := ⟨150, -20, 310, 5⟩ }

/-! ## Probing and delta calibration: state -/

/-- One `plan_set_position(a, b, c, e)` call; `none` is `NaN`. -/
structure Position where
  a : Option ℚ
  b : Option ℚ
  c : Option ℚ
  e : ℚ
  deriving DecidableEq

/-- The array `axis_known_position[3]`. -/
structure Known where
  X : Bool
  Y : Bool
  Z : Bool
  deriving DecidableEq

/-- The messages of the calibration entry points that this development records:
`LCD_MESSAGEPGM(MSG_POSITION_UNKNOWN)` and the serial echo of the same text. -/
inductive Msg
  | lcd_POSITION_UNKNOWN
  | echo_POSITION_UNKNOWN
  deriving DecidableEq

/-- The globals of the probing and calibration code of the `DELTA` build, around
the motion globals.  `position`, `probed` and `msgs` are history values: the
`plan_set_position` calls, the heights measured by `run_z_probe`, and the
recorded messages, oldest first.  The progress reports that the calibration loops
print are not recorded. -/
structure Machine where
  motion : Motion
  axis_known_position : Known
  endstop_adj : XYZ
  saved_endstop_adj : XYZ
  diagrod_adj : XYZ
  tower_adj : Nat → ℚ
  delta_radius : ℚ
  delta_diagonal_rod : ℚ
  ac_prec : ℚ
  bed_radius : ℚ
  max_length : XYZ
  base_max_pos : XYZ
  base_home_pos : XYZ
  z_probe_offset : XYZ
  bed_safe_z : ℚ
  bed_level_c : ℚ
  bed_level_x : ℚ
  bed_level_y : ℚ
  bed_level_z : ℚ
  bed_level_ox : ℚ
  bed_level_oy : ℚ
  bed_level_oz : ℚ
  adj_t1_Radius : ℚ
  adj_t2_Radius : ℚ
  adj_t3_Radius : ℚ
  position : List Position
  probed : List ℚ
  msgs : List Msg

/-- Items the probing and calibration code uses but `Marlin_main.cpp` does not
define: configuration macros (`PROBE_AVG` is `none` when not defined), the
library routines `cos`, `sin` and `strtod` with the macro `PI`, and the
stepper driver.  `st_travel s` is the value
`float(start_steps - stop_steps) / axis_steps_per_unit[Z_AXIS]` that the two
`st_get_position(Z_AXIS)` readings of `run_z_probe` give for a descent begun in
state `s`.  `SERVO_ENDSTOPS` is taken as not defined. -/
structure Probing where
  AUTOCAL_PROBELIFT : ℚ
  AUTOCAL_TRAVELRATE : ℚ
  AUTOCAL_PROBERATE : ℚ
  XY_TRAVEL_SPEED : ℚ
  Z_RAISE_BETWEEN_PROBINGS : ℚ
  Z_MIN_POS : ℚ
  PROBE_AVG : Option Nat
  PI : ℚ
  cos : ℚ → ℚ
  sin : ℚ → ℚ
  strtod : List Nat → ℚ
  st_travel : Machine → ℚ

/-- The macro `SIN_60`. -/
def SIN_60 : ℚ := 8660254037844386 / 10000000000000000

/-- The macro `COS_60`. -/
def COS_60 : ℚ := 1 / 2

/-! ## Probing and delta calibration: geometry -/

/-- Function `set_delta_constants()`. -/
def set_delta_constants (c : Probing) (s : Machine) : Machine :=
  { s with
    max_length := { s.max_length with Z := s.motion.max_pos.Z - c.Z_MIN_POS }
    base_max_pos := { s.base_max_pos with Z := s.motion.max_pos.Z }
    base_home_pos := { s.base_home_pos with Z := s.motion.max_pos.Z }
    motion := { s.motion with
      DELTA_DIAGONAL_ROD1_2 := (s.delta_diagonal_rod + s.diagrod_adj.X) ^ 2
      DELTA_DIAGONAL_ROD2_2 := (s.delta_diagonal_rod + s.diagrod_adj.Y) ^ 2
      DELTA_DIAGONAL_ROD3_2 := (s.delta_diagonal_rod + s.diagrod_adj.Z) ^ 2
      delta_tower1_x := (s.delta_radius + s.tower_adj 3) * c.cos ((210 + s.tower_adj 0) * c.PI / 180)
      delta_tower1_y := (s.delta_radius + s.tower_adj 3) * c.sin ((210 + s.tower_adj 0) * c.PI / 180)
      delta_tower2_x := (s.delta_radius + s.tower_adj 4) * c.cos ((330 + s.tower_adj 1) * c.PI / 180)
      delta_tower2_y := (s.delta_radius + s.tower_adj 4) * c.sin ((330 + s.tower_adj 1) * c.PI / 180)
      delta_tower3_x := (s.delta_radius + s.tower_adj 5) * c.cos ((90 + s.tower_adj 2) * c.PI / 180)
      delta_tower3_y := (s.delta_radius + s.tower_adj 5) * c.sin ((90 + s.tower_adj 2) * c.PI / 180) } }

/-- The call `plan_set_position(a, b, c, e)`. -/
def plan_set_position (s : Machine) (a b c : Option ℚ) (e : ℚ) : Machine :=
  { s with position := s.position ++ [{ a := a, b := b, c := c, e := e }] }

/-- Function `apply_endstop_adjustment(x_endstop, y_endstop, z_endstop)`. -/
def apply_endstop_adjustment (k : Kinematics) (s : Machine)
    (x_endstop y_endstop z_endstop : ℚ) : Machine :=
  let s := { s with saved_endstop_adj := s.endstop_adj }
  let s := { s with endstop_adj :=
    { X := s.endstop_adj.X + x_endstop
      Y := s.endstop_adj.Y + y_endstop
      Z := s.endstop_adj.Z + z_endstop } }
  let s := { s with motion := calculate_delta k s.motion s.motion.current_position }
  plan_set_position s
    (s.motion.delta.X.map (fun d => d - (s.endstop_adj.X - s.saved_endstop_adj.X)))
    (s.motion.delta.Y.map (fun d => d - (s.endstop_adj.Y - s.saved_endstop_adj.Y)))
    (s.motion.delta.Z.map (fun d => d - (s.endstop_adj.Z - s.saved_endstop_adj.Z)))
    s.motion.current_position.E

/-! ## Probing and delta calibration: the probe -/

/-- Function `run_z_probe()` of the `DELTA` build: a raw descent toward
`Z = -10`, then `current_position[Z]` becomes the height `mm` computed from the
stepper readings, and the planner is told the tower heights of that point.  The
diagnostic copy `saved_position` is not modelled. -/
def run_z_probe (k : Kinematics) (c : Probing) (s : Machine) : Machine :=
  let start_z := s.motion.current_position.Z
  let travel := c.st_travel s
  let m := { s.motion with feedrate := c.AUTOCAL_PROBERATE * 60 }
  let m := { m with destination := { m.destination with Z := -10 } }
  let m := prepare_move_raw k m
  let mm := start_z - travel
  let m := { m with current_position := { m.current_position with Z := mm } }
  let m := calculate_delta k m m.current_position
  let s := plan_set_position { s with motion := m } m.delta.X m.delta.Y m.delta.Z
    m.current_position.E
  { s with probed := s.probed ++ [mm] }

/-- Function `do_blocking_move_to(x, y, z)` of the `DELTA` build. -/
def do_blocking_move_to (k : Kinematics) (c : Probing) (s : Machine) (x y z : ℚ) : Machine :=
  let oldFeedRate := s.motion.feedrate
  let m := { s.motion with feedrate := c.XY_TRAVEL_SPEED }
  let m := { m with destination := { m.destination with X := x, Y := y, Z := z } }
  let m := prepare_move_raw k m
  { s with motion := { m with feedrate := oldFeedRate } }

/-- One pass of the sampling loops of `probe_pt`: lift the probe when this is
not the first sample, run the probe, read `probe_z = current_position[Z]`. -/
def probe_sample (k : Kinematics) (c : Probing) (probe_count : Nat) (s : Machine) : Machine :=
  let s := if probe_count > 0 then
      do_blocking_move_to k c s s.motion.current_position.X s.motion.current_position.Y
        (s.motion.current_position.Z + c.Z_RAISE_BETWEEN_PROBINGS)
    else s
  run_z_probe k c s

/-- The loop `for(probe_count=0; probe_count<num_probes; probe_count++)` of
`probe_pt` (`PROBE_AVG` defined), from `probe_count = num_probes - n` on; the
result is `total` and the state. -/
def probe_avg_loop (k : Kinematics) (c : Probing) (num_probes : Nat) :
    Nat → ℚ → Machine → ℚ × Machine
  | 0, total, s => (total, s)
  | n + 1, total, s =>
    let s := probe_sample k c (num_probes - (n + 1)) s
    let probe_z := s.motion.current_position.Z
    probe_avg_loop k c num_probes n (total + probe_z) s

/-- The loop `do ... while ((probe_done == false) and (probe_count < 20))` of
`probe_pt` (`PROBE_AVG` not defined).  `probe_bed_array` lists the entries
`0 .. probe_count - 1` of the array. -/
def probe_agree_loop (k : Kinematics) (c : Probing) (probe_bed_array : List ℚ) (s : Machine) :
    ℚ × Machine :=
  let probe_count := probe_bed_array.length
  let s := probe_sample k c probe_count s
  let probe_z := s.motion.current_position.Z
  let probe_done := probe_bed_array.contains probe_z
  if probe_done = false ∧ probe_count + 1 < 20 then
    probe_agree_loop k c (probe_bed_array ++ [probe_z]) s
  else (probe_z, s)
termination_by 20 - probe_bed_array.length
decreasing_by
  simp_wf
  omega

/-- Function `probe_pt(x, y, z_before)`; the value is `probe_z`. -/
def probe_pt (k : Kinematics) (c : Probing) (s : Machine) (x y z_before : ℚ) : ℚ × Machine :=
  let s := do_blocking_move_to k c s s.motion.current_position.X s.motion.current_position.Y
    z_before
  let s := do_blocking_move_to k c s (x - s.z_probe_offset.X) (y - s.z_probe_offset.Y)
    s.motion.current_position.Z
  match c.PROBE_AVG with
  | some num_probes =>
    let r := probe_avg_loop k c num_probes num_probes 0 s
    (r.1 / (num_probes : ℚ), r.2)
  | none => probe_agree_loop k c [] s

/-- The two approach moves of `probe_bed(x, y)` (lines 2406-2422): a lift by
`AUTOCAL_PROBELIFT` when the tool is below the minimum level, then the travel to
the probing point.  `none` when a `prepare_move` is undefined. -/
def probe_bed_approach (k : Kinematics) (c : Probing) (s : Machine) (x y : ℚ) : Option Machine :=
  let lifted : Option Motion :=
    if s.motion.current_position.Z < c.AUTOCAL_PROBELIFT - s.z_probe_offset.Z then
      let m := { s.motion with feedrate := c.AUTOCAL_TRAVELRATE * 60 }
      let m := { m with destination := { m.destination with
        X := m.current_position.X, Y := m.current_position.Y
        Z := m.current_position.Z + c.AUTOCAL_PROBELIFT } }
      prepare_move k m
    else some s.motion
  match lifted with
  | none => none
  | some m =>
    let m := { m with feedrate := c.AUTOCAL_TRAVELRATE * 60 }
    let m := { m with destination := { m.destination with
      X := x - s.z_probe_offset.X, Y := y - s.z_probe_offset.Y, Z := m.current_position.Z } }
    match prepare_move k m with
    | none => none
    | some m => some { s with motion := m }

/-- Function `probe_bed(x, y)`; the value is `probe_z`.  The housekeeping calls
that end it (`manage_heater`, `manage_inactivity`, `lcd_update`) are not
modelled. -/
def probe_bed (k : Kinematics) (c : Probing) (s : Machine) (x y : ℚ) : Option (ℚ × Machine) :=
  match probe_bed_approach k c s x y with
  | none => none
  | some s =>
    let r := probe_pt k c s x y s.motion.current_position.Z
    let probe_z := r.1 + r.2.z_probe_offset.Z
    let s := r.2
    let s := { s with bed_safe_z := probe_z - s.z_probe_offset.Z + c.AUTOCAL_PROBELIFT }
    some (probe_z, s)

/-! ## Probing and delta calibration: what a step leaves alone -/

/-- The motion globals that neither a move nor a probe writes: the geometry
constants, the segment rate, the feed multiplier and the travel limits. -/
structure Motion.Kept (m m' : Motion) : Prop where
  constants : sameConstants m m'
  rate : m'.delta_segments_per_second = m.delta_segments_per_second
  feedmultiply : m'.feedmultiply = m.feedmultiply
  min_pos : m'.min_pos = m.min_pos
  max_pos : m'.max_pos = m.max_pos

/-- A step that writes, at most, the positions and feedrate of the motion
globals, the two planner histories, the probe history and `bed_safe_z`. -/
def Machine.Kept (s s' : Machine) : Prop :=
  Motion.Kept s.motion s'.motion ∧
  s' = { s with motion := s'.motion, position := s'.position, probed := s'.probed
                bed_safe_z := s'.bed_safe_z }

/-! ## Probing and delta calibration: endstop adjustment -/

/-- One pass of the `do ... while` of `adj_endstops` (lines 1596-1600): the
three tower points are probed, Z first, and the readings are added to the
endstop offsets.  `none` when a move of a probe is undefined. -/
def adj_endstops_pass (k : Kinematics) (c : Probing) (s : Machine) : Option Machine :=
  match probe_bed k c s 0 s.bed_radius with
  | none => none
  | some (z, s) =>
    let s := { s with bed_level_z := z }
    match probe_bed k c s (-SIN_60 * s.bed_radius) (-COS_60 * s.bed_radius) with
    | none => none
    | some (x, s) =>
      let s := { s with bed_level_x := x }
      match probe_bed k c s (SIN_60 * s.bed_radius) (-COS_60 * s.bed_radius) with
      | none => none
      | some (y, s) =>
        let s := { s with bed_level_y := y }
        some (apply_endstop_adjustment k s s.bed_level_x s.bed_level_y s.bed_level_z)

/-- The flags `x_done`, `y_done`, `z_done` of `adj_endstops` (lines 1616-1649),
all three set. -/
def adj_endstops_done (s : Machine) : Bool :=
  let x_done := decide (s.bed_level_x ≥ -s.ac_prec ∧ s.bed_level_x ≤ s.ac_prec)
  let y_done := decide (s.bed_level_y ≥ -s.ac_prec ∧ s.bed_level_y ≤ s.ac_prec)
  let z_done := decide (s.bed_level_z ≥ -s.ac_prec ∧ s.bed_level_z ≤ s.ac_prec)
  x_done && y_done && z_done

/-- The `do ... while` of `adj_endstops`, limited to `fuel` passes.  `none` when
the passes run out or a move is undefined. -/
def adj_endstops_loop (k : Kinematics) (c : Probing) : Nat → Machine → Option Machine
  | 0, _ => none
  | fuel + 1, s =>
    match adj_endstops_pass k c s with
    | none => none
    | some s => if adj_endstops_done s then some s else adj_endstops_loop k c fuel s

/-- The variable `high_endstop` of `adj_endstops` after its loop (lines
1652-1658). -/
def high_endstop (s : Machine) : ℚ :=
  let high : ℚ := 0
  let high := if s.endstop_adj.X > high then s.endstop_adj.X else high
  let high := if s.endstop_adj.Y > high then s.endstop_adj.Y else high
  if s.endstop_adj.Z > high then s.endstop_adj.Z else high

/-- The end of `adj_endstops` (lines 1652-1671). -/
def adj_endstops_normalize (c : Probing) (s : Machine) : Machine :=
  let high := high_endstop s
  let s := if high > 0 then
      let s := { s with endstop_adj :=
        { X := s.endstop_adj.X - high, Y := s.endstop_adj.Y - high
          Z := s.endstop_adj.Z - high } }
      let s := { s with motion := { s.motion with
        max_pos := { s.motion.max_pos with Z := s.motion.max_pos.Z - high } } }
      set_delta_constants c s
    else s
  { s with bed_safe_z := c.AUTOCAL_PROBELIFT - s.z_probe_offset.Z }

/-- Function `adj_endstops()`, its loop limited to `fuel` passes. -/
def adj_endstops (k : Kinematics) (c : Probing) (fuel : Nat) (s : Machine) : Option Machine :=
  match adj_endstops_loop k c fuel s with
  | none => none
  | some s => some (adj_endstops_normalize c s)

/-! ## Probing and delta calibration: geometry commands -/

/-- The test `code_seen(ch)` on the command line `cmd`. -/
def code_seen (cmd : List Nat) (ch : Nat) : Bool := strchr cmd ch

/-- The value `code_value()` after a successful `code_seen(ch)`. -/
def code_value (c : Probing) (cmd : List Nat) (ch : Nat) : ℚ := c.strtod (afterFirst ch cmd)

/-- One `if (code_seen(ch)) { tower_adj[i] = code_value(); set_delta_constants(); }`. -/
def set_tower_adj (c : Probing) (cmd : List Nat) (ch i : Nat) (s : Machine) : Machine :=
  if code_seen cmd ch then
    set_delta_constants c { s with tower_adj := Function.update s.tower_adj i (code_value c cmd ch) }
  else s

/-- Case 665 of `process_commands`: `M665 L<diagonal_rod> R<delta_radius>
S<segments_per_sec>`. -/
def M665 (c : Probing) (cmd : List Nat) (s : Machine) : Machine :=
  let s := if code_seen cmd 76 then { s with delta_diagonal_rod := code_value c cmd 76 } else s
  let s := if code_seen cmd 82 then { s with delta_radius := code_value c cmd 82 } else s
  let s := if code_seen cmd 83 then
      { s with motion := { s.motion with delta_segments_per_second := code_value c cmd 83 } }
    else s
  set_delta_constants c s

/-- One `if (code_seen(ch)) { diagrod_adj[i] = code_value(); set_delta_constants(); }`,
with `put` for the assignment. -/
def set_geometry (c : Probing) (cmd : List Nat) (ch : Nat) (put : ℚ → Machine → Machine)
    (s : Machine) : Machine :=
  if code_seen cmd ch then set_delta_constants c (put (code_value c cmd ch) s) else s

/-- The geometry letters of case 666 of `process_commands` (lines 4557-4604):
`A B C I J K` (65, 66, 67, 73, 74, 75) set `tower_adj[0..5]`, `U V W`
(85, 86, 87) set `diagrod_adj`, `R` (82) the radius, `D` (68) the rod length,
`H` (72) the Z height; each is followed by `set_delta_constants()`. -/
def M666_geometry (c : Probing) (cmd : List Nat) (s : Machine) : Machine :=
  let s := set_tower_adj c cmd 65 0 s
  let s := set_tower_adj c cmd 66 1 s
  let s := set_tower_adj c cmd 67 2 s
  let s := set_tower_adj c cmd 73 3 s
  let s := set_tower_adj c cmd 74 4 s
  let s := set_tower_adj c cmd 75 5 s
  let s := set_geometry c cmd 85
    (fun v s => { s with diagrod_adj := { s.diagrod_adj with X := v } }) s
  let s := set_geometry c cmd 86
    (fun v s => { s with diagrod_adj := { s.diagrod_adj with Y := v } }) s
  let s := set_geometry c cmd 87
    (fun v s => { s with diagrod_adj := { s.diagrod_adj with Z := v } }) s
  let s := set_geometry c cmd 82 (fun v s => { s with delta_radius := v }) s
  let s := set_geometry c cmd 68 (fun v s => { s with delta_diagonal_rod := v }) s
  set_geometry c cmd 72
    (fun v s => { s with motion := { s.motion with
      max_pos := { s.motion.max_pos with Z := v } } }) s

/-- The offset letters of case 666 of `process_commands` (lines 4605-4622):
`P` (80) with `X Y Z` (88, 89, 90) sets the probe offset, `X Y Z` without `P`
set the endstop offsets. -/
def M666_offsets (c : Probing) (cmd : List Nat) (s : Machine) : Machine :=
  if code_seen cmd 80 then
    let p_val := code_value c cmd 80
    let s := if code_seen cmd 88 then
        { s with z_probe_offset := { s.z_probe_offset with X := code_value c cmd 88 } } else s
    let s := if code_seen cmd 89 then
        { s with z_probe_offset := { s.z_probe_offset with Y := code_value c cmd 89 } } else s
    let s := if code_seen cmd 90 then
        { s with z_probe_offset := { s.z_probe_offset with Z := code_value c cmd 90 } } else s
    let axis_done := code_seen cmd 88 || code_seen cmd 89 || code_seen cmd 90
    if axis_done = false then
      { s with z_probe_offset := { s.z_probe_offset with Z := p_val } }
    else s
  else
    let s := if code_seen cmd 88 then
        { s with endstop_adj := { s.endstop_adj with X := code_value c cmd 88 } } else s
    let s := if code_seen cmd 89 then
        { s with endstop_adj := { s.endstop_adj with Y := code_value c cmd 89 } } else s
    if code_seen cmd 90 then
      { s with endstop_adj := { s.endstop_adj with Z := code_value c cmd 90 } } else s

/-- Case 666 of `process_commands` (`M666`), up to the report that `L` asks
for. -/
def M666 (c : Probing) (cmd : List Nat) (s : Machine) : Machine :=
  M666_offsets c cmd (M666_geometry c cmd s)

/-- A geometry letter of `M666` is present in the command line. -/
def geometry_letter (cmd : List Nat) : Prop :=
  code_seen cmd 65 = true ∨ code_seen cmd 66 = true ∨ code_seen cmd 67 = true ∨
  code_seen cmd 73 = true ∨ code_seen cmd 74 = true ∨ code_seen cmd 75 = true ∨
  code_seen cmd 85 = true ∨ code_seen cmd 86 = true ∨ code_seen cmd 87 = true ∨
  code_seen cmd 82 = true ∨ code_seen cmd 68 = true ∨ code_seen cmd 72 = true

/-! ## Probing and delta calibration: entry points -/

/-- The guard that opens cases 29 and 30 of the `G` switch and case 48 of the
`M` switch of `process_commands`: without a known X and Y position the case
writes `MSG_POSITION_UNKNOWN` to the display and the serial line and breaks;
otherwise it goes on with `rest`, the remainder of the case. -/
def homed_guard (rest : Machine → Machine) (s : Machine) : Machine :=
  if ¬ (s.axis_known_position.X = true ∧ s.axis_known_position.Y = true) then
    { s with msgs := s.msgs ++ [Msg.lcd_POSITION_UNKNOWN, Msg.echo_POSITION_UNKNOWN] }
  else rest s

/-- Case 29 of `process_commands` (`G29`), with `rest` for the code after the
guard. -/
def G29 (rest : Machine → Machine) (s : Machine) : Machine := homed_guard rest s

/-- Case 30 of `process_commands` (`G30`), with `rest` for the code after the
guard. -/
def G30 (rest : Machine → Machine) (s : Machine) : Machine := homed_guard rest s

/-- Case 48 of `process_commands` (`M48`), with `rest` for the code after the
guard. -/
def M48 (rest : Machine → Machine) (s : Machine) : Machine := homed_guard rest s

/-! ## Probing and delta calibration: radius, tower and rod adjustment -/

/-- The `do ... while` of `adj_deltaradius` (lines 1998-2022), limited to `fuel`
passes, with the locals `adj_r`, `c_nochange_count`, `nochange_r`. -/
def adj_deltaradius_loop (k : Kinematics) (c : Probing) :
    Nat → ℚ → Int → ℚ → Machine → Option (Int × ℚ × Machine)
  | 0, _, _, _, _ => none
  | fuel + 1, adj_r, c_nochange_count, nochange_r, s =>
    let s := set_delta_constants c { s with delta_radius := s.delta_radius + adj_r }
    let prev_c := s.bed_level_c
    match probe_bed k c s 0 0 with
    | none => none
    | some (r, s) =>
      let s := { s with bed_level_c := r }
      let adj_r :=
        if (adj_r > 0 ∧ s.bed_level_c < prev_c) ∨ (adj_r < 0 ∧ s.bed_level_c > prev_c)
        then -(adj_r / 2) else adj_r
      let c_nochange_count :=
        if s.bed_level_c = prev_c then c_nochange_count + 1 else c_nochange_count
      let nochange_r := if c_nochange_count = 1 then s.delta_radius else nochange_r
      if (s.bed_level_c < -s.ac_prec ∨ s.bed_level_c > s.ac_prec) ∧ c_nochange_count < 3 then
        adj_deltaradius_loop k c fuel adj_r c_nochange_count nochange_r s
      else some (c_nochange_count, nochange_r, s)

/-- Function `adj_deltaradius()`; the value is its `int` result.  The local
`nochange_r` has no initial value in the C code; it is read only after it was
written. -/
def adj_deltaradius (k : Kinematics) (c : Probing) (fuel : Nat) (s : Machine) :
    Option (Int × Machine) :=
  if s.bed_level_c ≥ -s.ac_prec / 2 ∧ s.bed_level_c ≤ s.ac_prec / 2 then some (0, s)
  else
    let adj_r : ℚ := if s.bed_level_c > 0 then -(1 / 10) else 1 / 10
    let s := { s with bed_safe_z := c.AUTOCAL_PROBELIFT - s.z_probe_offset.Z }
    match adj_deltaradius_loop k c fuel adj_r 0 0 s with
    | none => none
    | some (c_nochange_count, nochange_r, s) =>
      let s := if c_nochange_count > 0 then
          let s := set_delta_constants c { s with delta_radius := nochange_r }
          { s with bed_safe_z := c.AUTOCAL_PROBELIFT - s.z_probe_offset.Z }
        else s
      some (1, s)

/-- The three probes `bed_level_ox`, `bed_level_oy`, `bed_level_oz` of one pass
of `adj_tower_radius`. -/
def probe_opposite (k : Kinematics) (c : Probing) (s : Machine) : Option Machine :=
  match probe_bed k c s (SIN_60 * s.bed_radius) (COS_60 * s.bed_radius) with
  | none => none
  | some (ox, s) =>
    let s := { s with bed_level_ox := ox }
    match probe_bed k c s (-SIN_60 * s.bed_radius) (COS_60 * s.bed_radius) with
    | none => none
    | some (oy, s) =>
      let s := { s with bed_level_oy := oy }
      match probe_bed k c s 0 (-s.bed_radius) with
      | none => none
      | some (oz, s) => some { s with bed_level_oz := oz }

/-- The locals of `adj_tower_radius` that live across passes. -/
structure TowerRadius where
  adj_target : ℚ
  nochange_count : Int

/-- The test `(a + 0.0001 > b) and (a - 0.0001 < b)`. -/
def near (a b : ℚ) : Bool := decide (a + 1 / 10000 > b ∧ a - 1 / 10000 < b)

/-- The block `if (tower == 1) { ... }` of the loop of `adj_tower_radius`
(lines 2083-2115), after its two assignments to `t2_done` and `t3_done`; the
value is `t1_done`, the locals and the state. -/
def adj_tower_radius_1 (k : Kinematics) (c : Probing) (l : TowerRadius) (s : Machine) :
    Option (Bool × TowerRadius × Machine) :=
  let prev_target := l.adj_target
  let prev_bed_level := s.bed_level_ox
  match probe_opposite k c s with
  | none => none
  | some s =>
    let target := (s.bed_level_oy + s.bed_level_oz) / 2
    let temp := (s.bed_level_ox - target) / 2
    let adj_target := target + temp
    let s := if (s.bed_level_ox < adj_target ∧ s.adj_t1_Radius > 0) ∨
        (s.bed_level_ox > adj_target ∧ s.adj_t1_Radius < 0)
      then { s with adj_t1_Radius := -(s.adj_t1_Radius / 2) } else s
    let temp := s.bed_level_ox - adj_target
    let t1_done := decide (temp ≤ 1 / 100 ∧ temp ≥ -(1 / 100))
    let nochange_count :=
      if near s.bed_level_ox prev_bed_level && near adj_target prev_target
      then l.nochange_count + 1 else l.nochange_count
    let t1_done := if nochange_count > 1 then true else t1_done
    some (t1_done, ⟨adj_target, nochange_count⟩, s)

/-- The block `if (tower == 2) { ... }` (lines 2117-2149); the value is
`t2_done`, the locals and the state. -/
def adj_tower_radius_2 (k : Kinematics) (c : Probing) (l : TowerRadius) (s : Machine) :
    Option (Bool × TowerRadius × Machine) :=
  let prev_target := l.adj_target
  let prev_bed_level := s.bed_level_oy
  match probe_opposite k c s with
  | none => none
  | some s =>
    let target := (s.bed_level_ox + s.bed_level_oz) / 2
    let temp := (s.bed_level_oy - target) / 2
    let adj_target := target + temp
    let s := if (s.bed_level_oy < adj_target ∧ s.adj_t2_Radius > 0) ∨
        (s.bed_level_oy > adj_target ∧ s.adj_t2_Radius < 0)
      then { s with adj_t2_Radius := -(s.adj_t2_Radius / 2) } else s
    let temp := s.bed_level_oy - adj_target
    let t2_done := decide (temp ≤ 1 / 100 ∧ temp ≥ -(1 / 100))
    let nochange_count :=
      if near s.bed_level_oy prev_bed_level && near adj_target prev_target
      then l.nochange_count + 1 else l.nochange_count
    let t2_done := if nochange_count > 1 then true else t2_done
    some (t2_done, ⟨adj_target, nochange_count⟩, s)

/-- The block `if (tower == 3) { ... }` (lines 2151-2184); the value is
`t3_done`, the locals and the state.  As in the C code, the closeness test
reads `bed_level_ox`. -/
def adj_tower_radius_3 (k : Kinematics) (c : Probing) (l : TowerRadius) (s : Machine) :
    Option (Bool × TowerRadius × Machine) :=
  let prev_target := l.adj_target
  let prev_bed_level := s.bed_level_oz
  match probe_opposite k c s with
  | none => none
  | some s =>
    let target := (s.bed_level_oy + s.bed_level_ox) / 2
    let temp := (s.bed_level_oz - target) / 2
    let adj_target := target + temp
    let s := if (s.bed_level_oz < adj_target ∧ s.adj_t3_Radius > 0) ∨
        (s.bed_level_oz > adj_target ∧ s.adj_t3_Radius < 0)
      then { s with adj_t3_Radius := -(s.adj_t3_Radius / 2) } else s
    let temp := s.bed_level_ox - adj_target
    let t3_done := decide (temp ≤ 1 / 100 ∧ temp ≥ -(1 / 100))
    let nochange_count :=
      if near s.bed_level_oz prev_bed_level && near adj_target prev_target
      then l.nochange_count + 1 else l.nochange_count
    let t3_done := if nochange_count > 1 then true else t3_done
    some (t3_done, ⟨adj_target, nochange_count⟩, s)

/-- The three blocks of one pass of `adj_tower_radius(tower)`, in order; the
value is `t1_done`, `t2_done`, `t3_done`, the locals and the state. -/
def adj_tower_radius_blocks (k : Kinematics) (c : Probing) (tower : Int) (l : TowerRadius)
    (s : Machine) : Option (Bool × Bool × Bool × TowerRadius × Machine) :=
  let r1 : Option (Bool × Bool × Bool × TowerRadius × Machine) :=
    if tower = 1 then
      match adj_tower_radius_1 k c l s with
      | none => none
      | some (t1_done, l, s) => some (t1_done, true, true, l, s)
    else some (false, false, false, l, s)
  match r1 with
  | none => none
  | some (t1_done, t2_done, t3_done, l, s) =>
    let r2 : Option (Bool × Bool × Bool × TowerRadius × Machine) :=
      if tower = 2 then
        match adj_tower_radius_2 k c l s with
        | none => none
        | some (t2_done, l, s) => some (true, t2_done, true, l, s)
      else some (t1_done, t2_done, t3_done, l, s)
    match r2 with
    | none => none
    | some (t1_done, t2_done, t3_done, l, s) =>
      if tower = 3 then
        match adj_tower_radius_3 k c l s with
        | none => none
        | some (t3_done, l, s) => some (true, true, t3_done, l, s)
      else some (t1_done, t2_done, t3_done, l, s)

/-- The `do ... while` of `adj_tower_radius(tower)` (lines 2072-2186), limited
to `fuel` passes. -/
def adj_tower_radius_loop (k : Kinematics) (c : Probing) (tower : Int) :
    Nat → TowerRadius → Machine → Option Machine
  | 0, _, _ => none
  | fuel + 1, l, s =>
    let s := { s with tower_adj := Function.update s.tower_adj 3 (s.tower_adj 3 + s.adj_t1_Radius) }
    let s := { s with tower_adj := Function.update s.tower_adj 4 (s.tower_adj 4 + s.adj_t2_Radius) }
    let s := { s with tower_adj := Function.update s.tower_adj 5 (s.tower_adj 5 + s.adj_t3_Radius) }
    let s := set_delta_constants c s
    match adj_tower_radius_blocks k c tower l s with
    | none => none
    | some (t1_done, t2_done, t3_done, l, s) =>
      if t1_done = false ∨ t2_done = false ∨ t3_done = false then
        adj_tower_radius_loop k c tower fuel l s
      else some s

/-- Function `adj_tower_radius(tower)`.  The local `adj_target` has no initial
value in the C code when `tower` is not 1, 2 or 3; the model starts it at 0. -/
def adj_tower_radius (k : Kinematics) (c : Probing) (tower : Int) (fuel : Nat) (s : Machine) :
    Option Machine :=
  let s := { s with adj_t1_Radius := 0, adj_t2_Radius := 0, adj_t3_Radius := 0 }
  let adj_target : ℚ := 0
  let r : ℚ × Machine :=
    if tower = 1 ∧ s.adj_t1_Radius = 0 then
      let target := (s.bed_level_oy + s.bed_level_oz) / 2
      let temp := (s.bed_level_ox - target) / 2
      let adj_target := target + temp
      let s := if s.bed_level_ox < adj_target then { s with adj_t1_Radius := -(4 / 10) } else s
      let s := if s.bed_level_ox > adj_target then { s with adj_t1_Radius := 4 / 10 } else s
      (adj_target, s)
    else (adj_target, s)
  let r : ℚ × Machine :=
    if tower = 2 ∧ r.2.adj_t2_Radius = 0 then
      let s := r.2
      let target := (s.bed_level_ox + s.bed_level_oz) / 2
      let temp := (s.bed_level_oy - target) / 2
      let adj_target := target + temp
      let s := if s.bed_level_oy < adj_target then { s with adj_t2_Radius := -(4 / 10) } else s
      let s := if s.bed_level_oy > adj_target then { s with adj_t2_Radius := 4 / 10 } else s
      (adj_target, s)
    else r
  let r : ℚ × Machine :=
    if tower = 3 ∧ r.2.adj_t3_Radius = 0 then
      let s := r.2
      let target := (s.bed_level_oy + s.bed_level_ox) / 2
      let temp := (s.bed_level_oz - target) / 2
      let adj_target := target + temp
      let s := if s.bed_level_oz < adj_target then { s with adj_t3_Radius := -(4 / 10) } else s
      let s := if s.bed_level_oz > adj_target then { s with adj_t3_Radius := 4 / 10 } else s
      (adj_target, s)
    else r
  adj_tower_radius_loop k c tower fuel ⟨r.1, 0⟩ r.2

/-- The probes of one pass of `adj_tower_delta(tower)` (lines 2200-2202). -/
def probe_pair (k : Kinematics) (c : Probing) (tower : Int) (s : Machine) : Option Machine :=
  let s1 : Option Machine :=
    if tower = 1 ∨ tower = 3 then
      match probe_bed k c s (-SIN_60 * s.bed_radius) (COS_60 * s.bed_radius) with
      | none => none
      | some (oy, s) => some { s with bed_level_oy := oy }
    else some s
  match s1 with
  | none => none
  | some s =>
    let s2 : Option Machine :=
      if tower = 1 ∨ tower = 2 then
        match probe_bed k c s 0 (-s.bed_radius) with
        | none => none
        | some (oz, s) => some { s with bed_level_oz := oz }
      else some s
    match s2 with
    | none => none
    | some s =>
      if tower = 2 ∨ tower = 3 then
        match probe_bed k c s (SIN_60 * s.bed_radius) (COS_60 * s.bed_radius) with
        | none => none
        | some (ox, s) => some { s with bed_level_ox := ox }
      else some s

/-- The `do ... while(adj_val != 0)` of `adj_tower_delta(tower)`, limited to
`fuel` passes, with the locals `adj_val` and `adj_mag`; `i` is `tower - 1`. -/
def adj_tower_delta_loop (k : Kinematics) (c : Probing) (tower : Int) (i : Nat) :
    Nat → ℚ → ℚ → Machine → Option Machine
  | 0, _, _, _ => none
  | fuel + 1, adj_val, adj_mag, s =>
    let s := set_delta_constants c
      { s with tower_adj := Function.update s.tower_adj i (s.tower_adj i + adj_val) }
    match probe_pair k c tower s with
    | none => none
    | some s =>
      let adj_prv := adj_val
      let adj_val : ℚ := 0
      let adj_val :=
        if tower = 1 then
          let adj_val := if s.bed_level_oy < s.bed_level_oz then adj_mag else adj_val
          if s.bed_level_oy > s.bed_level_oz then -adj_mag else adj_val
        else adj_val
      let adj_val :=
        if tower = 2 then
          let adj_val := if s.bed_level_oz < s.bed_level_ox then adj_mag else adj_val
          if s.bed_level_oz > s.bed_level_ox then -adj_mag else adj_val
        else adj_val
      let adj_val :=
        if tower = 3 then
          let adj_val := if s.bed_level_ox < s.bed_level_oy then adj_mag else adj_val
          if s.bed_level_ox > s.bed_level_oy then -adj_mag else adj_val
        else adj_val
      let r : ℚ × ℚ :=
        if adj_val > 0 ∧ adj_prv < 0 then (adj_mag / 2, adj_mag / 2) else (adj_val, adj_mag)
      let r : ℚ × ℚ :=
        if r.1 < 0 ∧ adj_prv > 0 then (-(r.2 / 2), r.2 / 2) else r
      if r.1 ≠ 0 then adj_tower_delta_loop k c tower i fuel r.1 r.2 s else some s

/-- Function `adj_tower_delta(tower)`.  `none` also when `tower - 1` is not an
index of `tower_adj[6]`. -/
def adj_tower_delta (k : Kinematics) (c : Probing) (tower : Int) (fuel : Nat) (s : Machine) :
    Option Machine :=
  if 1 ≤ tower ∧ tower ≤ 6 then
    adj_tower_delta_loop k c tower (tower - 1).toNat fuel 0 (2 / 10) s
  else none

/-- The four probes of one pass of `adj_diagrod_length` (lines 2276-2279). -/
def probe_rod (k : Kinematics) (c : Probing) (s : Machine) : Option Machine :=
  match probe_bed k c s (-SIN_60 * s.bed_radius) (COS_60 * s.bed_radius) with
  | none => none
  | some (oy, s) =>
    let s := { s with bed_level_oy := oy }
    match probe_bed k c s 0 (-s.bed_radius) with
    | none => none
    | some (oz, s) =>
      let s := { s with bed_level_oz := oz }
      match probe_bed k c s (SIN_60 * s.bed_radius) (COS_60 * s.bed_radius) with
      | none => none
      | some (ox, s) =>
        let s := { s with bed_level_ox := ox }
        match probe_bed k c s 0 0 with
        | none => none
        | some (cc, s) => some { s with bed_level_c := cc }

/-- The locals `adj_val` and `adj_mag` after the arithmetic of one pass of
`adj_diagrod_length` (lines 2281-2298), from their values before the pass and
the four readings. -/
def adj_diagrod_next (adj_val adj_mag bed_level_c bed_level_ox bed_level_oy bed_level_oz : ℚ) :
    ℚ × ℚ :=
  let target := (bed_level_ox + bed_level_oy + bed_level_oz) / 3
  let adj_prv := adj_val
  let adj_val : ℚ := 0
  let adj_val := if bed_level_c - 5 / 1000 < target then -adj_mag else adj_val
  let adj_val := if bed_level_c + 5 / 1000 > target then adj_mag else adj_val
  let r : ℚ × ℚ :=
    if (adj_val > 0 ∧ adj_prv < 0) ∨ (adj_val < 0 ∧ adj_prv > 0)
    then (adj_val / 2, adj_mag / 2) else (adj_val, adj_mag)
  let adj_val :=
    if bed_level_c - 5 / 1000 < target ∧ bed_level_c + 5 / 1000 > target then 0 else r.1
  let adj_val := if |adj_val| < 1 / 1000 ∧ adj_val ≠ 0 then 0 else adj_val
  (adj_val, r.2)

/-- The `do ... while(adj_val != 0)` of `adj_diagrod_length`, limited to `fuel`
passes, with the locals `adj_val` and `adj_mag`. -/
def adj_diagrod_length_loop (k : Kinematics) (c : Probing) :
    Nat → ℚ → ℚ → Machine → Option Machine
  | 0, _, _, _ => none
  | fuel + 1, adj_val, adj_mag, s =>
    let s := set_delta_constants c { s with delta_diagonal_rod := s.delta_diagonal_rod + adj_val }
    match probe_rod k c s with
    | none => none
    | some s =>
      let r := adj_diagrod_next adj_val adj_mag s.bed_level_c s.bed_level_ox s.bed_level_oy
        s.bed_level_oz
      if r.1 ≠ 0 then adj_diagrod_length_loop k c fuel r.1 r.2 s else some s

/-- Function `adj_diagrod_length()`; the value is
`delta_diagonal_rod - prev_diag_rod`. -/
def adj_diagrod_length (k : Kinematics) (c : Probing) (fuel : Nat) (s : Machine) :
    Option (ℚ × Machine) :=
  let prev_diag_rod := s.delta_diagonal_rod
  match adj_diagrod_length_loop k c fuel 0 (2 / 10) s with
  | none => none
  | some s => some (s.delta_diagonal_rod - prev_diag_rod, s)

/-- The cache invariant as the specification words it: each cached squared rod length is
`(delta_diagonal_rod + diagrod_adj[i])²` and each tower position is the
`set_delta_constants` formula of the current radius and tower corrections. -/
def cacheFresh (c : Probing) (s : Machine) : Prop :=
  s.motion.DELTA_DIAGONAL_ROD1_2 = (s.delta_diagonal_rod + s.diagrod_adj.X) ^ 2 ∧
  s.motion.DELTA_DIAGONAL_ROD2_2 = (s.delta_diagonal_rod + s.diagrod_adj.Y) ^ 2 ∧
  s.motion.DELTA_DIAGONAL_ROD3_2 = (s.delta_diagonal_rod + s.diagrod_adj.Z) ^ 2 ∧
  s.motion.delta_tower1_x =
    (s.delta_radius + s.tower_adj 3) * c.cos ((210 + s.tower_adj 0) * c.PI / 180) ∧
  s.motion.delta_tower1_y =
    (s.delta_radius + s.tower_adj 3) * c.sin ((210 + s.tower_adj 0) * c.PI / 180) ∧
  s.motion.delta_tower2_x =
    (s.delta_radius + s.tower_adj 4) * c.cos ((330 + s.tower_adj 1) * c.PI / 180) ∧
  s.motion.delta_tower2_y =
    (s.delta_radius + s.tower_adj 4) * c.sin ((330 + s.tower_adj 1) * c.PI / 180) ∧
  s.motion.delta_tower3_x =
    (s.delta_radius + s.tower_adj 5) * c.cos ((90 + s.tower_adj 2) * c.PI / 180) ∧
  s.motion.delta_tower3_y =
    (s.delta_radius + s.tower_adj 5) * c.sin ((90 + s.tower_adj 2) * c.PI / 180)

/-- A step that writes neither a geometry value (rod length, rod corrections,
radius, tower corrections) nor a cached constant. -/
structure GeoKept (s s' : Machine) : Prop where
  constants : sameConstants s.motion s'.motion
  delta_radius : s'.delta_radius = s.delta_radius
  delta_diagonal_rod : s'.delta_diagonal_rod = s.delta_diagonal_rod
  diagrod_adj : s'.diagrod_adj = s.diagrod_adj
  tower_adj : s'.tower_adj = s.tower_adj

/-! ## Probing and delta calibration: vocabulary and a reference machine -/

/-- The synthetic probe of the specification, for a calibration begun in state
`s0` with tower deviations `dev`: every probe of a tower point returns that
tower's deviation minus the endstop adjustment accumulated for it since `s0`. -/
def LinearProbe (k : Kinematics) (c : Probing) (s0 : Machine) (dev : XYZ) : Prop :=
  ∀ (s s' : Machine) (r : ℚ),
    (probe_bed k c s (-SIN_60 * s0.bed_radius) (-COS_60 * s0.bed_radius) = some (r, s') →
      r = dev.X - (s.endstop_adj.X - s0.endstop_adj.X)) ∧
    (probe_bed k c s (SIN_60 * s0.bed_radius) (-COS_60 * s0.bed_radius) = some (r, s') →
      r = dev.Y - (s.endstop_adj.Y - s0.endstop_adj.Y)) ∧
    (probe_bed k c s 0 s0.bed_radius = some (r, s') →
      r = dev.Z - (s.endstop_adj.Z - s0.endstop_adj.Z))

/-- The three readings `bed_level_x`, `bed_level_y`, `bed_level_z` are within
`±ac_prec`. -/
def withinPrecision (s : Machine) : Prop :=
  (-s.ac_prec ≤ s.bed_level_x ∧ s.bed_level_x ≤ s.ac_prec) ∧
  (-s.ac_prec ≤ s.bed_level_y ∧ s.bed_level_y ≤ s.ac_prec) ∧
  (-s.ac_prec ≤ s.bed_level_z ∧ s.bed_level_z ≤ s.ac_prec)

/-- A cosine for the reference build: the series up to the fourth power. -/
def refCos (x : ℚ) : ℚ := 1 - x ^ 2 / 2 + x ^ 4 / 24

/-- A sine for the reference build: the series up to the fifth power. -/
def refSin (x : ℚ) : ℚ := x - x ^ 3 / 6 + x ^ 5 / 120

/-- The height at which the synthetic bed triggers the probe over the point
with tool X coordinate `x`, for endstop offsets `adj`: the tower-Z point has
`x = 0` and deviation 0, the tower-X point has `x < 0` and deviation +0.1, the
tower-Y point has `x > 0` and deviation -0.1; each deviation is lowered by the
endstop offset of its tower. -/
def refHeight (x : ℚ) (adj : XYZ) : ℚ :=
  if x = 0 then 0 - adj.Z else if x < 0 then 1 / 10 - adj.X else -(1 / 10) - adj.Y

/-- A reference probing build: agree-mode sampling, and a stepper driver over
the synthetic bed `refHeight`, whose descent ends where the probe tip (the tool
displaced by `z_probe_offset`) meets the bed. -/
def refProbing : Probing where
  AUTOCAL_PROBELIFT := 2
  AUTOCAL_TRAVELRATE := 100
  AUTOCAL_PROBERATE := 20
  XY_TRAVEL_SPEED := 8000
  Z_RAISE_BETWEEN_PROBINGS := 5
  Z_MIN_POS := 0
  PROBE_AVG := none
  PI := 355 / 113
  cos := refCos
  sin := refSin
  strtod := fun s => (parseDec s : ℚ)
  st_travel := fun s => s.motion.current_position.Z -
    (refHeight (s.motion.current_position.X + s.z_probe_offset.X) s.endstop_adj
      - s.z_probe_offset.Z)

/-- A homed reference machine 20 mm above the bed centre, moves unsegmented
(`M665 S0`), endstop offsets zero, precision 0.03 mm, probing radius 50 mm. -/
def refMachine : Machine where
  motion := { refMotion with
    delta_segments_per_second := 0
    current_position := ⟨0, 0, 20, 0⟩
    destination := ⟨0, 0, 20, 0⟩ }
  axis_known_position := ⟨true, true, true⟩
  endstop_adj := ⟨0, 0, 0⟩
  saved_endstop_adj := ⟨0, 0, 0⟩
  diagrod_adj := ⟨0, 0, 0⟩
  tower_adj := fun _ => 0
  delta_radius := 175
  delta_diagonal_rod := 250
  ac_prec := 3 / 100
  bed_radius := 50
  max_length := ⟨200, 200, 300⟩
  base_max_pos := ⟨100, 100, 300⟩
  base_home_pos := ⟨0, 0, 300⟩
  z_probe_offset := ⟨0, 0, 0⟩
  bed_safe_z := 50
  bed_level_c := 0
  bed_level_x := 0
  bed_level_y := 0
  bed_level_z := 0
  bed_level_ox := 0
  bed_level_oy := 0
  bed_level_oz := 0
  adj_t1_Radius := 0
  adj_t2_Radius := 0
  adj_t3_Radius := 0
  position := []
  probed := []
  msgs := []

/-- The reference machine before homing. -/
def refUnhomed : Machine := { refMachine with axis_known_position := ⟨false, false, false⟩ }

/-- The command line `M665 L250`. -/
def cmdM665 : List Nat := [77, 54, 54, 53, 32, 76, 50, 53, 48]

/-- The command line `M666 R180`. -/
def cmdM666 : List Nat := [77, 54, 54, 54, 32, 82, 49, 56, 48]

/-- The squared 3-D distance between two tool points. -/
def gapSq (a b : Axes) : ℚ := sq (a.X - b.X) + sq (a.Y - b.Y) + sq (a.Z - b.Z)

/-! ## Sample statistics of the repeatability test

`isort` and `probe_mode` work on a C array of doubles; the array is a list of
rationals here, and an access past its end (undefined in C) gives `none`. -/

/-- The inner loop of `isort`, started with `k = k1 - 1`:
`for (; k >= 0 && j < a[k]; k--) a[k + 1] = a[k];` followed by `a[k + 1] = j`. -/
def isort_shift (a : List ℚ) (j : ℚ) : Nat → List ℚ
  | 0 => a.set 0 j
  | k + 1 =>
    if j < a.getD k 0 then isort_shift (a.set (k + 1) (a.getD k 0)) j k
    else a.set (k + 1) j

/-- One pass of the outer loop of `isort`: `j = a[i]`, then the inner loop
from `k = i - 1`. -/
def isort_pass (a : List ℚ) (i : Nat) : List ℚ :=
  isort_shift a (a.getD i 0) i

/-- The function `isort(a, n)`: the passes `i = 1, …, n - 1` in this order.
`none` stands for a count larger than the array. -/
def isort (a : List ℚ) (n : Nat) : Option (List ℚ) :=
  if n ≤ a.length then some ((List.range' 1 (n - 1)).foldl isort_pass a) else none

/-- The locals of `probe_mode` between two passes of its outer loop
(`bimodal` is declared without a value: `none`). -/
structure ModeScan where
  i : Nat
  maxCount : Int
  prevCount : Int
  mode : ℚ
  bimodal : Option Int

/-- The inner loop of `probe_mode`: `while (x[i] == x[i+1]) { count++; i++; }`.
The loop has no bound on `i`; it ends at the first unequal pair, or with
`none` when it reads past the end of the array. -/
def probe_mode_run (x : List ℚ) : Nat → Nat → Int → Option (Nat × Int)
  | 0, _, _ => none
  | fuel + 1, i, count =>
    match x[i]?, x[i + 1]? with
    | some a, some b =>
      if a = b then probe_mode_run x fuel (i + 1) (count + 1) else some (i, count)
    | _, _ => none

/-- The body of the outer loop of `probe_mode` after the inner loop has
returned `i` and `count`. -/
def probe_mode_update (x : List ℚ) (st : ModeScan) (i : Nat) (count : Int) : ModeScan :=
  let st1 : ModeScan :=
    if 0 < count ∧ st.maxCount ≤ count then
      { i := i
        mode := x.getD i 0
        bimodal := if st.maxCount < count then some 0 else st.bimodal
        prevCount := st.maxCount
        maxCount := count }
    else { st with i := i }
  let st2 : ModeScan :=
    if 0 < count ∧ st1.prevCount = st1.maxCount then { st1 with bimodal := some 1 } else st1
  if count = 0 then { st2 with i := st2.i + 1 } else st2

/-- The outer loop of `probe_mode`: `while (i < (n - 1)) { … }`. -/
def probe_mode_scan (x : List ℚ) (n : Nat) : Nat → ModeScan → Option ModeScan
  | 0, _ => none
  | fuel + 1, st =>
    if st.i + 1 < n then
      match probe_mode_run x (x.length + 1) st.i 0 with
      | none => none
      | some (i, count) => probe_mode_scan x n fuel (probe_mode_update x st i count)
    else some st

/-- The function `probe_mode(x, n)`. `double mode = NULL` starts `mode` at 0,
and the last test `mode == NULL || bimodal == 1` compares `mode` with 0. -/
def probe_mode (x : List ℚ) (n : Nat) : Option ℚ :=
  match probe_mode_scan x n (x.length + 1)
      { i := 0, maxCount := 0, prevCount := 0, mode := 0, bimodal := none } with
  | none => none
  | some st =>
    if st.mode = 0 then x[n / 2]?
    else
      match st.bimodal with
      | none => none
      | some b => if b = 1 then x[n / 2]? else some st.mode

/-- The sorted samples of the counterexample to the mode rule. -/
def zeroMode : List ℚ := [0, 0, 1, 2, 3]

/-- An array of eight cells whose first five are the sorted samples; the
cells behind them hold what an earlier use left there. -/
def staleRun : List ℚ := [1, 1, 1, 3, 3, 3, 3, 9]

/-! ## A scripted probe

The statements on the calibration loops range over every sequence of
readings. The probe below delivers a given sequence: its descents number `2n` and `2n + 1`
both stop at reading `f n`, so that in the agree mode call number `n` of
`probe_bed` returns `f n`, whatever the point and the geometry. -/

/-- The build of `refProbing` with a stepper that follows the script `f`. -/
def scriptProbing (f : Nat → ℚ) : Probing :=
  { refProbing with
    st_travel := fun s =>
      s.motion.current_position.Z - (f (s.probed.length / 2) - s.z_probe_offset.Z) }

/-- A machine about to make call number `n` of `probe_bed`, with a segment
rate of 0 and a feed multiplier other than 0, so that its moves are defined. -/
def Ready (s : Machine) (n : Nat) : Prop :=
  s.motion.delta_segments_per_second = 0 ∧ s.motion.feedmultiply ≠ 0 ∧ s.probed.length = 2 * n

/-! ## Probing and delta calibration: tower selection -/

/-- The locals `low_opp` and `high_opp` of `fix_tower_errors` (lines
1871-1877): the lowest and the highest of the three opposite readings. -/
def opp_range (s : Machine) : ℚ × ℚ :=
  let low_opp := s.bed_level_ox
  let high_opp := low_opp
  let low_opp := if s.bed_level_oy < low_opp then s.bed_level_oy else low_opp
  let high_opp := if s.bed_level_oy > high_opp then s.bed_level_oy else high_opp
  let low_opp := if s.bed_level_oz < low_opp then s.bed_level_oz else low_opp
  let high_opp := if s.bed_level_oz > high_opp then s.bed_level_oz else high_opp
  (low_opp, high_opp)

/-- The local `x_diff` of `fix_tower_errors`: the error of tower 1. -/
def x_diff (s : Machine) : ℚ := |s.bed_level_x - s.bed_level_ox|

/-- The local `y_diff` of `fix_tower_errors`: the error of tower 2. -/
def y_diff (s : Machine) : ℚ := |s.bed_level_y - s.bed_level_oy|

/-- The local `z_diff` of `fix_tower_errors`: the error of tower 3. -/
def z_diff (s : Machine) : ℚ := |s.bed_level_z - s.bed_level_oz|

/-- The value of `err_tower` when `fix_tower_errors` reaches the test
`if (err_tower == 0)` (lines 1839-1927). -/
def fix_tower_classify (s : Machine) : Int :=
  let err_tower : Int := 0
  let x_diff := x_diff s
  let high_diff := x_diff
  let y_diff := y_diff s
  let high_diff := if y_diff > high_diff then y_diff else high_diff
  let z_diff := z_diff s
  let high_diff := if z_diff > high_diff then z_diff else high_diff
  let t1_err : Bool := if x_diff ≤ s.ac_prec then false else true
  let t2_err : Bool := if y_diff ≤ s.ac_prec then false else true
  let t3_err : Bool := if z_diff ≤ s.ac_prec then false else true
  let xy_equal : Bool := if |x_diff - y_diff| ≤ s.ac_prec then true else false
  let xz_equal : Bool := if |x_diff - z_diff| ≤ s.ac_prec then true else false
  let yz_equal : Bool := if |y_diff - z_diff| ≤ s.ac_prec then true else false
  let small : Bool := decide ((opp_range s).2 - (opp_range s).1 < s.ac_prec)
  let t1_err := if small then false else t1_err
  let t2_err := if small then false else t2_err
  let t3_err := if small then false else t3_err
  let all_err : Bool := t1_err && t2_err && t3_err
  let err_tower :=
    if all_err && (!xy_equal || !xz_equal || !yz_equal) then
      let err_tower := if high_diff = x_diff then 1 else err_tower
      let err_tower := if high_diff = y_diff then 2 else err_tower
      if high_diff = z_diff then 3 else err_tower
    else err_tower
  let cleared : Bool := all_err && (xy_equal && xz_equal && yz_equal)
  let t1_err := if cleared then false else t1_err
  let t2_err := if cleared then false else t2_err
  let t3_err := if cleared then false else t3_err
  let err_tower := if t1_err && t2_err && !t3_err then 3 else err_tower
  let err_tower := if t1_err && !t2_err && t3_err then 2 else err_tower
  let err_tower := if !t1_err && t2_err && t3_err then 1 else err_tower
  let err_tower := if t1_err && !t2_err && !t3_err then 1 else err_tower
  let err_tower := if !t1_err && t2_err && !t3_err then 2 else err_tower
  if !t1_err && !t2_err && t3_err then 3 else err_tower

/-- The tower that `fix_tower_errors` hands to `adj_tower_radius` and
`adj_tower_delta` (lines 1939-1963), 0 when it calls neither: the classified
tower, replaced by a tower that carries a correction already while the
opposite readings still differ by more than twice the precision. -/
def fix_tower_select (s : Machine) : Int :=
  let err_tower := fix_tower_classify s
  if err_tower = 0 then 0
  else if (opp_range s).2 - (opp_range s).1 > s.ac_prec * 2 then
    let err_tower := if s.tower_adj 0 ≠ 0 ∨ s.tower_adj 3 ≠ 0 then 1 else err_tower
    let err_tower := if s.tower_adj 1 ≠ 0 ∨ s.tower_adj 4 ≠ 0 then 2 else err_tower
    if s.tower_adj 2 ≠ 0 ∨ s.tower_adj 5 ≠ 0 then 3 else err_tower
  else err_tower

/-- Function `fix_tower_errors()`; the value is its result `retval`, the
number of entries of `tower_adj[6]` that differ from their value on entry.
Each of the two loops it calls is limited to `fuel` passes. -/
def fix_tower_errors (k : Kinematics) (c : Probing) (fuel : Nat) (s : Machine) :
    Option (Int × Machine) :=
  let saved_tower_adj := s.tower_adj
  let err_tower := fix_tower_select s
  let r : Option Machine :=
    if err_tower = 0 then some s
    else
      match adj_tower_radius k c err_tower fuel s with
      | none => none
      | some s => adj_tower_delta k c err_tower fuel s
  match r with
  | none => none
  | some s =>
    some ((((List.range 6).filter (fun i => decide (saved_tower_adj i ≠ s.tower_adj i))).length : Int), s)

/-- A machine whose readings put tower 1 alone out of tolerance. -/
def towerOneOff : Machine := { refMachine with bed_level_x := 1 / 2, bed_level_ox := 2 / 10 }

/-- A step that writes, at most, what `Machine.Kept` allows and the seven
stored readings `bed_level_c`, …, `bed_level_oz`. -/
def Machine.Probed (s s' : Machine) : Prop :=
  Motion.Kept s.motion s'.motion ∧
  s' = { s with motion := s'.motion, position := s'.position, probed := s'.probed
                bed_safe_z := s'.bed_safe_z, bed_level_c := s'.bed_level_c
                bed_level_x := s'.bed_level_x, bed_level_y := s'.bed_level_y
                bed_level_z := s'.bed_level_z, bed_level_ox := s'.bed_level_ox
                bed_level_oy := s'.bed_level_oy, bed_level_oz := s'.bed_level_oz }

/-- The readings of the run that shows the slip in `adj_tower_radius(3)`: the
first three calls read 0.2 (opposite tower 1), 0 (opposite tower 2) and 0.3
(opposite tower 3). -/
def slipScript (n : Nat) : ℚ := if n = 0 then 2 / 10 else if n = 1 then 0 else 3 / 10

/-- The two readings that `adj_tower_delta(tower)` compares (lines 2204-2222):
`bed_level_oy` with `bed_level_oz` for tower 1, `bed_level_oz` with
`bed_level_ox` for tower 2, `bed_level_ox` with `bed_level_oy` for tower 3. -/
def compared (tower : Int) (s : Machine) : ℚ × ℚ :=
  if tower = 1 then (s.bed_level_oy, s.bed_level_oz)
  else if tower = 2 then (s.bed_level_oz, s.bed_level_ox)
  else (s.bed_level_ox, s.bed_level_oy)

/-- The locals `adj_val` and `adj_mag` after the arithmetic of one pass of
`adj_tower_delta` (lines 2204-2235), from the step `adj_prv` of the pass, the
magnitude before it and the two compared readings. -/
def adj_tower_delta_next (adj_prv adj_mag a b : ℚ) : ℚ × ℚ :=
  let adj_val : ℚ := 0
  let adj_val := if a < b then adj_mag else adj_val
  let adj_val := if a > b then -adj_mag else adj_val
  let r : ℚ × ℚ :=
    if adj_val > 0 ∧ adj_prv < 0 then (adj_mag / 2, adj_mag / 2) else (adj_val, adj_mag)
  if r.1 < 0 ∧ adj_prv > 0 then (-(r.2 / 2), r.2 / 2) else r

/-- Readings that never change: 0 opposite tower 2 and 0.3 opposite tower 3,
in the order in which `adj_tower_delta(1)` probes them. -/
def stuckScript (n : Nat) : ℚ := if n % 2 = 0 then 0 else 3 / 10

/-- The centre reading is within the band of `adj_diagrod_length`: strictly
less than 0.005 away from the mean of the three opposite readings. -/
def centreInBand (s : Machine) : Prop :=
  s.bed_level_c - 5 / 1000 < (s.bed_level_ox + s.bed_level_oy + s.bed_level_oz) / 3 ∧
  s.bed_level_c + 5 / 1000 > (s.bed_level_ox + s.bed_level_oy + s.bed_level_oz) / 3

/-- Readings for `adj_diagrod_length`, which probes the three opposite points
and then the centre in each pass: the opposite points read 0, the centre reads
1 in the first pass, -1 in the second, and so on in turn. -/
def swingScript (n : Nat) : ℚ :=
  if n % 4 = 3 then (if (n / 4) % 2 = 0 then 1 else -1) else 0

/-- A run of passes: each entry of the list is what `step` makes of the entry
before it, the first of what it makes of `x`. -/
def PassChain {α : Type} (step : α → Option α) : α → List α → Prop
  | _, [] => True
  | x, y :: ys => step x = some y ∧ PassChain step y ys

/-- The body of the `do ... while` of `adj_diagrod_length` (lines 2273-2298) on
the locals `adj_val` and `adj_mag` and the state. -/
def adj_diagrod_length_pass (k : Kinematics) (c : Probing) (x : ℚ × ℚ × Machine) :
    Option (ℚ × ℚ × Machine) :=
  match probe_rod k c (set_delta_constants c
    { x.2.2 with delta_diagonal_rod := x.2.2.delta_diagonal_rod + x.1 }) with
  | none => none
  | some s =>
    some ((adj_diagrod_next x.1 x.2.1 s.bed_level_c s.bed_level_ox s.bed_level_oy
        s.bed_level_oz).1,
      (adj_diagrod_next x.1 x.2.1 s.bed_level_c s.bed_level_ox s.bed_level_oy
        s.bed_level_oz).2, s)

/-- The locals `adj_r`, `c_nochange_count`, `nochange_r` of `adj_deltaradius`
and the state, between two passes of its loop. -/
structure RadiusPass where
  adj_r : ℚ
  c_nochange_count : Int
  nochange_r : ℚ
  s : Machine

/-- The body of the `do ... while` of `adj_deltaradius` (lines 1998-2021). -/
def adj_deltaradius_pass (k : Kinematics) (c : Probing) (x : RadiusPass) : Option RadiusPass :=
  let s := set_delta_constants c { x.s with delta_radius := x.s.delta_radius + x.adj_r }
  let prev_c := s.bed_level_c
  match probe_bed k c s 0 0 with
  | none => none
  | some (r, s) =>
    let s := { s with bed_level_c := r }
    let adj_r :=
      if (x.adj_r > 0 ∧ s.bed_level_c < prev_c) ∨ (x.adj_r < 0 ∧ s.bed_level_c > prev_c)
      then -(x.adj_r / 2) else x.adj_r
    let c_nochange_count :=
      if s.bed_level_c = prev_c then x.c_nochange_count + 1 else x.c_nochange_count
    let nochange_r := if c_nochange_count = 1 then s.delta_radius else x.nochange_r
    some { adj_r := adj_r, c_nochange_count := c_nochange_count, nochange_r := nochange_r, s := s }

/-- The test that closes the loop of `adj_deltaradius` (line 2022): the loop
goes on while this holds. -/
def adj_deltaradius_continues (x : RadiusPass) : Prop :=
  (x.s.bed_level_c < -x.s.ac_prec ∨ x.s.bed_level_c > x.s.ac_prec) ∧ x.c_nochange_count < 3

instance (x : RadiusPass) : Decidable (adj_deltaradius_continues x) := by
  unfold adj_deltaradius_continues
  exact inferInstance

/-- The locals and the state with which `adj_deltaradius` enters its loop
(lines 1991-1996). -/
def adj_deltaradius_start (c : Probing) (s : Machine) : RadiusPass :=
  { adj_r := if s.bed_level_c > 0 then -(1 / 10) else 1 / 10
    c_nochange_count := 0
    nochange_r := 0
    s := { s with bed_safe_z := c.AUTOCAL_PROBELIFT - s.z_probe_offset.Z } }

/-- The reference machine with a stored centre reading of 1. -/
def centreHigh : Machine := { refMachine with bed_level_c := 1 }

/-! ## Probing and delta calibration: the composite calibration -/

/-- The opening of `bed_probe_all()` (lines 2440-2444): a raw move to the safe
height. -/
def bed_probe_all_start (k : Kinematics) (c : Probing) (s : Machine) : Machine :=
  let m := { s.motion with feedrate := c.AUTOCAL_TRAVELRATE * 60 }
  let m := { m with destination := { m.destination with Z := s.bed_safe_z } }
  { s with motion := prepare_move_raw k m }

/-- Function `bed_probe_all()`: after the move to the safe height the seven
points are probed in the order centre, Z tower, opposite Y, X tower,
opposite Z, Y tower, opposite X, and each reading is stored. The diagnostic
calls `save_carriage_positions` are not modelled. -/
def bed_probe_all (k : Kinematics) (c : Probing) (s : Machine) : Option Machine :=
  let s := bed_probe_all_start k c s
  match probe_bed k c s 0 0 with
  | none => none
  | some (r, s) =>
    let s := { s with bed_level_c := r }
    match probe_bed k c s 0 s.bed_radius with
    | none => none
    | some (r, s) =>
      let s := { s with bed_level_z := r }
      match probe_bed k c s (-SIN_60 * s.bed_radius) (COS_60 * s.bed_radius) with
      | none => none
      | some (r, s) =>
        let s := { s with bed_level_oy := r }
        match probe_bed k c s (-SIN_60 * s.bed_radius) (-COS_60 * s.bed_radius) with
        | none => none
        | some (r, s) =>
          let s := { s with bed_level_x := r }
          match probe_bed k c s 0 (-s.bed_radius) with
          | none => none
          | some (r, s) =>
            let s := { s with bed_level_oz := r }
            match probe_bed k c s (SIN_60 * s.bed_radius) (-COS_60 * s.bed_radius) with
            | none => none
            | some (r, s) =>
              let s := { s with bed_level_y := r }
              match probe_bed k c s (SIN_60 * s.bed_radius) (COS_60 * s.bed_radius) with
              | none => none
              | some (r, s) => some { s with bed_level_ox := r }

/-- The test on the centre and the three tower points that closes the inner
loop of the composite calibration (lines 3365-3368), without `dr_adjusted`. -/
def towers_out (s : Machine) : Prop :=
  s.bed_level_c < -s.ac_prec ∨ s.bed_level_c > s.ac_prec ∨
  s.bed_level_x < -s.ac_prec ∨ s.bed_level_x > s.ac_prec ∨
  s.bed_level_y < -s.ac_prec ∨ s.bed_level_y > s.ac_prec ∨
  s.bed_level_z < -s.ac_prec ∨ s.bed_level_z > s.ac_prec

/-- The test on the three opposite points (lines 3371-3373). -/
def opposites_out (s : Machine) : Prop :=
  s.bed_level_ox < -s.ac_prec ∨ s.bed_level_ox > s.ac_prec ∨
  s.bed_level_oy < -s.ac_prec ∨ s.bed_level_oy > s.ac_prec ∨
  s.bed_level_oz < -s.ac_prec ∨ s.bed_level_oz > s.ac_prec

instance (s : Machine) : Decidable (towers_out s) := by
  unfold towers_out
  exact inferInstance

instance (s : Machine) : Decidable (opposites_out s) := by
  unfold opposites_out
  exact inferInstance

/-- The inner `do ... while` of the composite calibration `G30 A` (lines
3348-3369), limited to `fuel` passes; the loops it calls are limited to `n`
passes each. -/
def G30_A_inner (k : Kinematics) (c : Probing) (n : Nat) : Nat → Machine → Option Machine
  | 0, _ => none
  | fuel + 1, s =>
    match adj_endstops k c n s with
    | none => none
    | some s =>
      match bed_probe_all k c s with
      | none => none
      | some s =>
        let r : Option (Int × Machine) :=
          if s.bed_level_c < -s.ac_prec ∨ s.bed_level_c > s.ac_prec then adj_deltaradius k c n s
          else some (0, s)
        match r with
        | none => none
        | some (dr_adjusted, s) =>
          if towers_out s ∨ dr_adjusted ≠ 0 then G30_A_inner k c n fuel s else some s

/-- The block `if (… bed_level_ox … bed_level_oy … bed_level_oz …) { … }` of
the composite calibration (lines 3371-3396). `home` stands for
`home_delta_axis()`, which drives the carriages against their endstops. -/
def G30_A_towers (k : Kinematics) (c : Probing) (home : Machine → Machine) (n : Nat)
    (s : Machine) : Option Machine :=
  if opposites_out s then
    match fix_tower_errors k c n s with
    | none => none
    | some (changed, s) =>
      let r : Option Machine :=
        if changed ≠ 0 then
          let s := home s
          some { s with bed_safe_z := c.AUTOCAL_PROBELIFT - s.z_probe_offset.Z }
        else
          match adj_diagrod_length k c n s with
          | none => none
          | some (d, s) =>
            if d ≠ 0 then
              let s := home s
              some { s with bed_safe_z := c.AUTOCAL_PROBELIFT - s.z_probe_offset.Z }
            else some s
      match r with
      | none => none
      | some s => bed_probe_all k c s
  else some s

/-- The outer `do ... while` of the composite calibration `G30 A` (lines
3347-3404), limited to `fuel` passes. -/
def G30_A (k : Kinematics) (c : Probing) (home : Machine → Machine) (n : Nat) :
    Nat → Machine → Option Machine
  | 0, _ => none
  | fuel + 1, s =>
    match G30_A_inner k c n n s with
    | none => none
    | some s =>
      match G30_A_towers k c home n s with
      | none => none
      | some s => if towers_out s ∨ opposites_out s then G30_A k c home n fuel s else some s

/-! ## Rounded arithmetic

The definitions above compute with exact rationals.  On the target every
`float` result is stored rounded to binary32, and `double` is the same type.
For the statements that depend on rounding, the motion segmenter and the tower
angle loop are embedded a second time in namespace `Rounded`, with every
arithmetic result passed through a rounding `fl`; `binary32` is the rounding of
the target, and with the identity for `fl` the definitions are the exact ones. -/

/-- The integer nearest to `x`; of two equally near integers, the even one. -/
def roundEven (x : ℚ) : ℤ :=
  if x - ⌊x⌋ < 1 / 2 then ⌊x⌋
  else if 1 / 2 < x - ⌊x⌋ then ⌊x⌋ + 1
  else if ⌊x⌋ % 2 = 0 then ⌊x⌋ else ⌊x⌋ + 1

/-- Exponent of the binary32 unit in the last place at `x`: `e - 23` when
`2^e ≤ |x| < 2^(e+1)`, and `-149` throughout the subnormal range. -/
def ulpExp (x : ℚ) : ℤ := max (Int.log 2 |x| - 23) (-149)

/-- The binary32 number nearest to `x` (round to nearest, ties to even): what a
`float` holds after an operation whose exact result is `x`.  Overflow to
infinity is left out; the quantities of this file stay far below `2^128`. -/
def binary32 (x : ℚ) : ℚ := (roundEven (x / 2 ^ ulpExp x) : ℚ) * 2 ^ ulpExp x

/-- Half of a subnormal significand, rounded to nearest, ties to even. -/
def halfEven (n : Nat) : Nat :=
  if n % 2 = 0 then n / 2 else if (n / 2) % 2 = 0 then n / 2 else n / 2 + 1

namespace Rounded

/-- The array `difference[i] = destination[i] - current_position[i]`. -/
def difference (fl : ℚ → ℚ) (m : Motion) : Axes :=
  { X := fl (m.destination.X - m.current_position.X)
    Y := fl (m.destination.Y - m.current_position.Y)
    Z := fl (m.destination.Z - m.current_position.Z)
    E := fl (m.destination.E - m.current_position.E) }

/-- The variable `cartesian_mm` after the two assignments of `prepare_move`
(lines 5864-5867).  The constant `0.000001` is a `double`, which the target
stores as a `float`. -/
def cartesian_mm (fl : ℚ → ℚ) (k : Kinematics) (m : Motion) : ℚ :=
  let d := difference fl m
  let mm := k.sqrt (fl (fl (fl (sq d.X) + fl (sq d.Y)) + fl (sq d.Z)))
  if mm < fl (1 / 1000000) then |d.E| else mm

/-- The variable `seconds` of `prepare_move`:
`6000 * cartesian_mm / feedrate / feedmultiply`, evaluated left to right. -/
def seconds (fl : ℚ → ℚ) (m : Motion) (mm : ℚ) : ℚ :=
  fl (fl (fl (6000 * mm) / m.feedrate) / (m.feedmultiply : ℚ))

/-- The argument `feedrate*feedmultiply/60/100.0` of `plan_buffer_line`. -/
def feed_rate (fl : ℚ → ℚ) (m : Motion) : ℚ :=
  fl (fl (fl (m.feedrate * (m.feedmultiply : ℚ)) / 60) / 100)

/-- Function `calculate_delta(cartesian)` of the `DELTA` build. -/
def calculate_delta (fl : ℚ → ℚ) (k : Kinematics) (m : Motion) (cartesian : Axes) : Motion :=
  { m with delta :=
      { X := (fsqrt k (fl (fl (m.DELTA_DIAGONAL_ROD1_2
                - fl (sq (fl (m.delta_tower1_x - cartesian.X))))
                - fl (sq (fl (m.delta_tower1_y - cartesian.Y)))))).map
              (fun r => fl (r + cartesian.Z))
        Y := (fsqrt k (fl (fl (m.DELTA_DIAGONAL_ROD2_2
                - fl (sq (fl (m.delta_tower2_x - cartesian.X))))
                - fl (sq (fl (m.delta_tower2_y - cartesian.Y)))))).map
              (fun r => fl (r + cartesian.Z))
        Z := (fsqrt k (fl (fl (m.DELTA_DIAGONAL_ROD3_2
                - fl (sq (fl (m.delta_tower3_x - cartesian.X))))
                - fl (sq (fl (m.delta_tower3_y - cartesian.Y)))))).map
              (fun r => fl (r + cartesian.Z)) } }

/-- Function `adjust_delta(cartesian)`: bilinear interpolation over `bed_level`. -/
def adjust_delta (fl : ℚ → ℚ) (k : Kinematics) (m : Motion) (cartesian : Axes) : Motion :=
  let half : Int := Int.tdiv (k.AUTO_BED_LEVELING_GRID_POINTS - 1) 2
  let grid_x : ℚ := max (fl (fl (1 / 1000) - (half : ℚ)))
    (min (fl ((half : ℚ) - fl (1 / 1000))) (fl (cartesian.X / k.AUTO_BED_LEVELING_GRID_X)))
  let grid_y : ℚ := max (fl (fl (1 / 1000) - (half : ℚ)))
    (min (fl ((half : ℚ) - fl (1 / 1000))) (fl (cartesian.Y / k.AUTO_BED_LEVELING_GRID_Y)))
  let floor_x : Int := ⌊grid_x⌋
  let floor_y : Int := ⌊grid_y⌋
  let ratio_x : ℚ := fl (grid_x - floor_x)
  let ratio_y : ℚ := fl (grid_y - floor_y)
  let z1 := k.bed_level (floor_x + half) (floor_y + half)
  let z2 := k.bed_level (floor_x + half) (floor_y + half + 1)
  let z3 := k.bed_level (floor_x + half + 1) (floor_y + half)
  let z4 := k.bed_level (floor_x + half + 1) (floor_y + half + 1)
  let left := fl (fl (fl (1 - ratio_y) * z1) + fl (ratio_y * z2))
  let right := fl (fl (fl (1 - ratio_y) * z3) + fl (ratio_y * z4))
  let offset := fl (fl (fl (1 - ratio_x) * left) + fl (ratio_x * right))
  { m with delta :=
      { X := m.delta.X.map (fun d => fl (d + offset))
        Y := m.delta.Y.map (fun d => fl (d + offset))
        Z := m.delta.Z.map (fun d => fl (d + offset)) } }

/-- The point written to `destination` by iteration `s` of the segment loop:
`current_position[i] + difference[i] * fraction` with
`fraction = float(s) / float(steps)`. -/
def waypoint (fl : ℚ → ℚ) (start diff : Axes) (steps : Int) (s : Nat) : Axes :=
  { X := fl (start.X + fl (diff.X * fl ((s : ℚ) / (steps : ℚ))))
    Y := fl (start.Y + fl (diff.Y * fl ((s : ℚ) / (steps : ℚ))))
    Z := fl (start.Z + fl (diff.Z * fl ((s : ℚ) / (steps : ℚ))))
    E := fl (start.E + fl (diff.E * fl ((s : ℚ) / (steps : ℚ)))) }

/-- Body of the loop `for (int s = 1; s <= steps; s++)` of `prepare_move`. -/
def segment (fl : ℚ → ℚ) (k : Kinematics) (diff : Axes) (steps : Int) (m : Motion) (s : Nat) :
    Motion :=
  let fraction : ℚ := fl ((s : ℚ) / (steps : ℚ))
  let dest : Axes :=
    { X := fl (m.current_position.X + fl (diff.X * fraction))
      Y := fl (m.current_position.Y + fl (diff.Y * fraction))
      Z := fl (m.current_position.Z + fl (diff.Z * fraction))
      E := fl (m.current_position.E + fl (diff.E * fraction)) }
  let m := { m with destination := dest }
  let m := match k.mechanism with
    | Mechanism.SCARA => { m with delta := k.scara_calculate_delta dest }
    | _ =>
      let m := calculate_delta fl k m dest
      if k.NONLINEAR_BED_LEVELING then adjust_delta fl k m dest else m
  let line : Segment :=
    { a := m.delta.X, b := m.delta.Y, c := m.delta.Z, e := dest.E
      feed_rate := feed_rate fl m, tool := dest }
  { m with planned := m.planned ++ [line] }

/-- The loop `for (int s = 1; s <= steps; s++)` run for `n` iterations. -/
def segments (fl : ℚ → ℚ) (k : Kinematics) (diff : Axes) (steps : Int) (n : Nat) (m : Motion) :
    Motion :=
  (List.range n).foldl (fun m i => segment fl k diff steps m (i + 1)) m

/-- Function `prepare_move()`.  `none` when the C code leaves defined behaviour:
a zero divisor in `seconds`, a step count that does not fit `int`, or the loop
counter running past `INT_MAX`. -/
def prepare_move (fl : ℚ → ℚ) (k : Kinematics) (m : Motion) : Option Motion :=
  let m := clamped k m
  match k.mechanism with
  | Mechanism.CARTESIAN =>
    let d := m.destination
    let rate :=
      if m.current_position.X = d.X ∧ m.current_position.Y = d.Y then fl (m.feedrate / 60)
      else feed_rate fl m
    let line : Segment :=
      { a := some d.X, b := some d.Y, c := some d.Z, e := d.E
        feed_rate := rate, tool := d }
    let m := { m with planned := m.planned ++ [line] }
    some { m with current_position := m.destination }
  | _ =>
    let diff := difference fl m
    let mm := cartesian_mm fl k m
    if mm < fl (1 / 1000000) then some m
    else if m.feedrate = 0 ∨ m.feedmultiply = 0 then none
    else
      match float_to_int (fl (segments_per_second k m * seconds fl m mm)) with
      | none => none
      | some n =>
        let steps : Int := max 1 n
        if steps = 32767 then none
        else
          let m := segments fl k diff steps steps.toNat m
          some { m with current_position := m.destination }

/-- The value `start + (target - start)` as the last pass of the segment loop
computes it: the difference (taken once, before the loop), then the sum, each
rounded. -/
def reached (fl : ℚ → ℚ) (start target : ℚ) : ℚ := fl (start + fl (target - start))

/-- One coordinate of the point that iteration `s` of the segment loop writes to
`destination`, from the start and the clamped target of that axis:
`start + (target - start) * (float(s) / float(steps))`, the difference being
taken once before the loop. -/
def coordinate (fl : ℚ → ℚ) (start target : ℚ) (steps : Int) (s : Nat) : ℚ :=
  fl (start + fl (fl (target - start) * fl ((s : ℚ) / (steps : ℚ))))

/-- The accuracy of a rounding to `float`: the error is at most `2^-24` of the
value, or `2^-150` where that is larger (the subnormal range). -/
def Accurate (fl : ℚ → ℚ) : Prop := ∀ x, |fl x - x| ≤ |x| / 2 ^ 24 + 1 / 2 ^ 150

/-- The forward check as the specification words it: the tool Z recomputed from
the height `h` of a tower and the square root `r` that `calculate_delta` took
for it, `h - r`. -/
def recomputeZ (fl : ℚ → ℚ) (h r : ℚ) : ℚ := fl (h - r)

/-- The radicand of tower 1 at tool point `p` as `calculate_delta` evaluates it. -/
def radicand1 (fl : ℚ → ℚ) (m : Motion) (p : Axes) : ℚ :=
  fl (fl (m.DELTA_DIAGONAL_ROD1_2 - fl (sq (fl (m.delta_tower1_x - p.X))))
    - fl (sq (fl (m.delta_tower1_y - p.Y))))

/-- The radicand of tower 2 at tool point `p` as `calculate_delta` evaluates it. -/
def radicand2 (fl : ℚ → ℚ) (m : Motion) (p : Axes) : ℚ :=
  fl (fl (m.DELTA_DIAGONAL_ROD2_2 - fl (sq (fl (m.delta_tower2_x - p.X))))
    - fl (sq (fl (m.delta_tower2_y - p.Y))))

/-- The radicand of tower 3 at tool point `p` as `calculate_delta` evaluates it. -/
def radicand3 (fl : ℚ → ℚ) (m : Motion) (p : Axes) : ℚ :=
  fl (fl (m.DELTA_DIAGONAL_ROD3_2 - fl (sq (fl (m.delta_tower3_x - p.X))))
    - fl (sq (fl (m.delta_tower3_y - p.Y))))

/-- The locals `adj_val` and `adj_mag` after the arithmetic of one pass of
`adj_tower_delta` (lines 2204-2235), from the step `adj_prv` of the pass, the
magnitude before it and the two compared readings. -/
def adj_tower_delta_next (fl : ℚ → ℚ) (adj_prv adj_mag a b : ℚ) : ℚ × ℚ :=
  let adj_val : ℚ := 0
  let adj_val := if a < b then adj_mag else adj_val
  let adj_val := if a > b then -adj_mag else adj_val
  let r : ℚ × ℚ :=
    if adj_val > 0 ∧ adj_prv < 0 then (fl (adj_mag / 2), fl (adj_mag / 2)) else (adj_val, adj_mag)
  if r.1 < 0 ∧ adj_prv > 0 then (-(fl (r.2 / 2)), fl (r.2 / 2)) else r

/-- The `do ... while(adj_val != 0)` of `adj_tower_delta(tower)`, limited to
`fuel` passes, with the locals `adj_val` and `adj_mag`; `i` is `tower - 1`. -/
def adj_tower_delta_loop (fl : ℚ → ℚ) (k : Kinematics) (c : Probing) (tower : Int) (i : Nat) :
    Nat → ℚ → ℚ → Machine → Option Machine
  | 0, _, _, _ => none
  | fuel + 1, adj_val, adj_mag, s =>
    let s := set_delta_constants c
      { s with tower_adj := Function.update s.tower_adj i (fl (s.tower_adj i + adj_val)) }
    match probe_pair k c tower s with
    | none => none
    | some s =>
      let adj_prv := adj_val
      let adj_val : ℚ := 0
      let adj_val :=
        if tower = 1 then
          let adj_val := if s.bed_level_oy < s.bed_level_oz then adj_mag else adj_val
          if s.bed_level_oy > s.bed_level_oz then -adj_mag else adj_val
        else adj_val
      let adj_val :=
        if tower = 2 then
          let adj_val := if s.bed_level_oz < s.bed_level_ox then adj_mag else adj_val
          if s.bed_level_oz > s.bed_level_ox then -adj_mag else adj_val
        else adj_val
      let adj_val :=
        if tower = 3 then
          let adj_val := if s.bed_level_ox < s.bed_level_oy then adj_mag else adj_val
          if s.bed_level_ox > s.bed_level_oy then -adj_mag else adj_val
        else adj_val
      let r : ℚ × ℚ :=
        if adj_val > 0 ∧ adj_prv < 0 then (fl (adj_mag / 2), fl (adj_mag / 2))
        else (adj_val, adj_mag)
      let r : ℚ × ℚ :=
        if r.1 < 0 ∧ adj_prv > 0 then (-(fl (r.2 / 2)), fl (r.2 / 2)) else r
      if r.1 ≠ 0 then adj_tower_delta_loop fl k c tower i fuel r.1 r.2 s else some s

/-- Function `adj_tower_delta(tower)`.  `none` also when `tower - 1` is not an
index of `tower_adj[6]`. -/
def adj_tower_delta (fl : ℚ → ℚ) (k : Kinematics) (c : Probing) (tower : Int) (fuel : Nat)
    (s : Machine) : Option Machine :=
  if 1 ≤ tower ∧ tower ≤ 6 then
    adj_tower_delta_loop fl k c tower (tower - 1).toNat fuel 0 (fl (2 / 10)) s
  else none

/-- The local `adj_mag` of `adj_tower_delta` after `j` executions of
`adj_mag = adj_mag / 2`, from its initial value `0.2`. -/
def adj_mag_after (fl : ℚ → ℚ) : Nat → ℚ
  | 0 => fl (2 / 10)
  | j + 1 => fl (adj_mag_after fl j / 2)

end Rounded

/-- The `float` nearest to 0.1. -/
def tenth32 : ℚ := 13421773 / 134217728

/-- A commanded move of 53 mm along X from the bed centre at 1500 mm/min. -/
def moveX53 : Motion := { refMotion with feedrate := 1500, destination := ⟨53, 0, 0, 0⟩ }

/-- A commanded move of 3 mm along X that takes the extrusion axis from 1 to
the `float` nearest to 0.1. -/
def moveRetract : Motion :=
  { refMotion with current_position := ⟨0, 0, 0, 1⟩, destination := ⟨3, 0, 0, tenth32⟩ }

/-- A delta geometry whose square roots at the bed centre are exact: rods of
250 mm (squared: 62500) and towers 150 mm from the centre, so that every
radicand at the centre is 40000. -/
def squareDelta : Motion :=
  { Motion.init with
      DELTA_DIAGONAL_ROD1_2 := 62500
      DELTA_DIAGONAL_ROD2_2 := 62500
      DELTA_DIAGONAL_ROD3_2 := 62500
      delta_tower1_x := -150
      delta_tower1_y := 0
      delta_tower2_x := 150
      delta_tower2_y := 0
      delta_tower3_x := 0
      delta_tower3_y := 150 }

/-- Readings that never change and differ by less than 0.00001: 0 opposite
tower 2 and 2⁻²⁰ opposite tower 3, in the order in which `adj_tower_delta(1)`
probes them. -/
def stuckReadings (n : Nat) : ℚ := if n % 2 = 0 then 0 else 1 / 1048576

/-- Readings that change sides on every pass of `adj_tower_delta(1)`: 0 opposite
tower 2 and 0.25 opposite tower 3 in the first pass, the other way round in the
second, and so on. -/
def swapReadings (n : Nat) : ℚ :=
  if (n / 2) % 2 = 0 then (if n % 2 = 0 then 0 else 1 / 4)
  else (if n % 2 = 0 then 1 / 4 else 0)

/-! ## Memory lemmas -/

theorem poke_same (mem : Nat → Nat) (a v : Nat) : poke mem a v a = v := by
  simp [poke]

theorem poke_other (mem : Nat → Nat) (a v x : Nat) (h : x ≠ a) : poke mem a v x = mem x := by
  simp [poke, h]

theorem writeBytes_below (bs : List Nat) : ∀ (mem : Nat → Nat) (a x : Nat), x < a →
    writeBytes mem a bs x = mem x := by
  induction bs with
  | nil => intro mem a x _; rfl
  | cons b bs ih =>
    intro mem a x hx
    rw [writeBytes, ih _ _ _ (by omega), poke_other _ _ _ _ (by omega)]

theorem writeBytes_above (bs : List Nat) : ∀ (mem : Nat → Nat) (a x : Nat), a + bs.length ≤ x →
    writeBytes mem a bs x = mem x := by
  induction bs with
  | nil => intro mem a x _; rfl
  | cons b bs ih =>
    intro mem a x hx
    simp only [List.length_cons] at hx
    rw [writeBytes, ih _ _ _ (by omega), poke_other _ _ _ _ (by omega)]

theorem cstr_congr (fuel : Nat) : ∀ (m1 m2 : Nat → Nat) (a : Nat),
    (∀ x, a ≤ x → x < a + fuel → m1 x = m2 x) → cstr m1 a fuel = cstr m2 a fuel := by
  induction fuel with
  | zero => intro m1 m2 a _; rfl
  | succ n ih =>
    intro m1 m2 a h
    have h0 : m1 a = m2 a := h a (le_refl _) (by omega)
    have ht : cstr m1 (a + 1) n = cstr m2 (a + 1) n :=
      ih m1 m2 (a + 1) (fun x hx1 hx2 => h x (by omega) (by omega))
    simp only [cstr, h0, ht]

/-- Reading back a string that was stored with its NUL. -/
theorem cstr_stored (bs : List Nat) : ∀ (mem : Nat → Nat) (a fuel : Nat),
    (∀ b ∈ bs, b ≠ 0) → bs.length < fuel →
    (∀ i (h : i < bs.length), mem (a + i) = bs.get ⟨i, h⟩) → mem (a + bs.length) = 0 →
    cstr mem a fuel = bs := by
  induction bs with
  | nil =>
    intro mem a fuel _ hf _ h0
    cases fuel with
    | zero => rfl
    | succ n => simp at h0; simp [cstr, h0]
  | cons b bs ih =>
    intro mem a fuel hnz hf hmem h0
    cases fuel with
    | zero => simp at hf
    | succ n =>
      have hb : mem a = b := by simpa using hmem 0 (by simp)
      have hbnz : b ≠ 0 := hnz b (by simp)
      have htail : cstr mem (a + 1) n = bs := by
        apply ih
        · intro x hx; exact hnz x (by simp [hx])
        · simpa using hf
        · intro i hi
          have := hmem (i + 1) (by simpa using hi)
          simpa [Nat.add_assoc, Nat.add_comm 1 i] using this
        · simpa [Nat.add_assoc, Nat.add_comm 1] using h0
      simp [cstr, hb, hbnz, htail]

theorem writeBytes_get (bs : List Nat) : ∀ (mem : Nat → Nat) (a i : Nat) (h : i < bs.length),
    writeBytes mem a bs (a + i) = bs.get ⟨i, h⟩ := by
  induction bs with
  | nil => intro mem a i h; simp at h
  | cons b bs ih =>
    intro mem a i h
    cases i with
    | zero =>
      simp only [writeBytes, Nat.add_zero]
      rw [writeBytes_below _ _ _ _ (by omega), poke_same]
      rfl
    | succ j =>
      have := ih (poke mem a b) (a + 1) j (by simpa using h)
      simp only [writeBytes]
      rw [show a + (j + 1) = a + 1 + j by omega, this]
      rfl

theorem serial_loop_rx (c : Config) (l : List Nat) (s : State) (r : List Nat) :
    serial_loop c l { s with rx := r } = serial_loop c l s := by
  cases l <;> rfl

theorem serial_iter_plain (c : Config) (b : Nat) (s : State) (hb : plainByte b)
    (hcm : s.comment_mode = false) (hn : s.serial_count < c.MAX_CMD_SIZE - 1) :
    serial_iter c b s =
      ({ s with cmdbuffer := poke s.cmdbuffer (cell c s.bufindw s.serial_count) b
                serial_count := s.serial_count + 1 }, Flow.next) := by
  obtain ⟨h0, h10, h13, h58, h59, _⟩ := hb
  have hn' : ¬ (c.MAX_CMD_SIZE - 1 ≤ s.serial_count) := by omega
  simp [serial_iter, h10, h13, h58, h59, hcm, hn']

theorem serial_loop_cons (c : Config) (ch : Nat) (rest : List Nat) (s : State)
    (h : s.buflen < c.BUFSIZE) :
    serial_loop c (ch :: rest) s =
      match serial_iter c ch { s with rx := rest } with
      | (s', Flow.next) => serial_loop c rest s'
      | r => r := by
  rw [serial_loop, if_pos h]
  try rfl

theorem buffered_cons (c : Config) (s : State) (b : Nat) (bs r : List Nat) :
    buffered c (buffered c { s with rx := r } [b]) bs = { buffered c s (b :: bs) with rx := r } := by
  simp only [buffered, writeBytes, cell, List.length_cons, List.length_nil]
  rw [show s.bufindw * c.MAX_CMD_SIZE + (s.serial_count + (0 + 1))
        = s.bufindw * c.MAX_CMD_SIZE + s.serial_count + 1 by omega,
      show s.serial_count + (0 + 1) + bs.length = s.serial_count + (bs.length + 1) by omega]

theorem serial_loop_feed (c : Config) (bs : List Nat) : ∀ (s : State) (rest : List Nat),
    (∀ b ∈ bs, plainByte b) → s.comment_mode = false → s.buflen < c.BUFSIZE →
    s.serial_count + bs.length ≤ c.MAX_CMD_SIZE - 1 →
    serial_loop c (bs ++ rest) s = serial_loop c rest (buffered c s bs) := by
  induction bs with
  | nil =>
    intro s rest _ _ _ _
    simp [buffered, writeBytes]
  | cons b bs ih =>
    intro s rest hp hcm hlen hsz
    simp only [List.length_cons] at hsz
    have hb : plainByte b := hp b (by simp)
    have hit : serial_iter c b { s with rx := bs ++ rest }
        = (buffered c { s with rx := bs ++ rest } [b], Flow.next) :=
      serial_iter_plain c b { s with rx := bs ++ rest } hb hcm (by show s.serial_count < _; omega)
    have hnext := ih (buffered c { s with rx := bs ++ rest } [b]) rest
      (fun x hx => hp x (by simp [hx])) hcm hlen
      (by show s.serial_count + 1 + bs.length ≤ _; omega)
    rw [List.cons_append, serial_loop_cons c b (bs ++ rest) s hlen, hit]
    dsimp only
    rw [hnext, buffered_cons, serial_loop_rx]

theorem slotStr_lineReady (c : Config) (s : State) (line rest : List Nat)
    (hp : ∀ b ∈ line, plainByte b) (hsz : line.length < c.MAX_CMD_SIZE) :
    slotStr c (lineReady c s line rest).cmdbuffer s.bufindw = line := by
  unfold slotStr lineReady
  apply cstr_stored
  · intro b hb; exact (hp b hb).1
  · exact hsz
  · intro i hi
    show poke _ _ _ _ = _
    rw [poke_other _ _ _ _ (by simp only [cell]; omega)]
    exact writeBytes_get line _ _ i hi
  · show poke _ _ _ _ = _
    rw [show cell c s.bufindw 0 + line.length = cell c s.bufindw line.length by
      simp only [cell]; omega]
    exact poke_same _ _ _

theorem serial_iter_term (c : Config) (s : State) (line rest : List Nat) (t : Nat)
    (ht : isTerminator t) (hsc : s.serial_count = 0) (hcm : s.comment_mode = false)
    (hne : line ≠ []) (hp : ∀ b ∈ line, plainByte b) (hsz : line.length < c.MAX_CMD_SIZE) :
    serial_iter c t { buffered c s line with rx := rest } =
      match check_line c line (lineReady c s line rest) with
      | (s', Flow.next) =>
        match enqueue_line c line s' with
        | (s'', Flow.next) => ({ s'' with serial_count := 0 }, Flow.next)
        | r => r
      | r => r := by
  have hstr := slotStr_lineReady c s line rest hp hsz
  have hlen : line.length ≠ 0 := by
    intro h; exact hne (List.length_eq_zero.mp h)
  have hcond : t = 10 ∨ t = 13 ∨ (t = 58 ∧ s.comment_mode = false)
      ∨ (buffered c s line).serial_count ≥ c.MAX_CMD_SIZE - 1 := by
    rcases ht with h | h | h
    · exact Or.inl h
    · exact Or.inr (Or.inl h)
    · exact Or.inr (Or.inr (Or.inl ⟨h, hcm⟩))
  have hst : (({ buffered c s line with rx := rest } : State)) =
      { s with rx := rest
               cmdbuffer := writeBytes s.cmdbuffer (cell c s.bufindw 0) line
               serial_count := line.length } := by
    simp [buffered, hsc]
  rw [hst]
  unfold serial_iter
  have hcond' : t = 10 ∨ t = 13 ∨ (t = 58 ∧ s.comment_mode = false)
      ∨ line.length ≥ c.MAX_CMD_SIZE - 1 := by
    rcases ht with h | h | h
    · exact Or.inl h
    · exact Or.inr (Or.inl h)
    · exact Or.inr (Or.inr (Or.inl ⟨h, hcm⟩))
  rw [if_pos hcond', if_neg hlen]
  dsimp only
  rw [if_pos hcm]
  change (match check_line c (slotStr c (lineReady c s line rest).cmdbuffer s.bufindw)
      (lineReady c s line rest) with
    | (s', Flow.next) =>
      match enqueue_line c (slotStr c (lineReady c s line rest).cmdbuffer s.bufindw) s' with
      | (s'', Flow.next) => ({ s'' with serial_count := 0 }, Flow.next)
      | r => r
    | r => r) = _
  rw [hstr]

theorem checksumLoop_line (line : List Nat) : ∀ (mem : Nat → Nat) (base fuel count acc : Nat),
    42 ∈ line → (∀ b ∈ line, b < 256) → acc < 256 → count + line.length ≤ 256 →
    line.length ≤ fuel →
    (∀ i (h : i < line.length), mem (base + count + i) = line.get ⟨i, h⟩) →
    checksumLoop mem base fuel count acc
      = some ((line.takeWhile (fun b => b != 42)).foldl (fun a b => a ^^^ b) acc) := by
  induction line with
  | nil => intro mem base fuel count acc h; simp at h
  | cons b bs ih =>
    intro mem base fuel count acc hmem hlt hacc hcnt hfuel hcells
    cases fuel with
    | zero => simp at hfuel
    | succ f =>
      have hb : mem (base + count) = b := by simpa using hcells 0 (by simp)
      by_cases h42 : b = 42
      · simp [checksumLoop, hb, h42]
      · have hin : 42 ∈ bs := by
          rcases List.mem_cons.mp hmem with h | h
          · exact absurd h.symm h42
          · exact h
        have hpos : 0 < bs.length := List.length_pos_of_mem hin
        simp only [List.length_cons] at hcnt hfuel
        have hc1 : (count + 1) % 256 = count + 1 := Nat.mod_eq_of_lt (by omega)
        have hblt : b < 256 := hlt b (by simp)
        have hx : (acc ^^^ b) < 256 := by
          have := @Nat.xor_lt_two_pow acc b 8 (by simpa using hacc) (by simpa using hblt)
          simpa using this
        have hx1 : (acc ^^^ b) % 256 = acc ^^^ b := Nat.mod_eq_of_lt hx
        have := ih mem base f (count + 1) (acc ^^^ b) hin
          (fun x hx => hlt x (by simp [hx])) hx (by omega) (by omega)
          (fun i hi => by
            have := hcells (i + 1) (by simpa using hi)
            simpa [Nat.add_assoc, Nat.add_comm 1 i] using this)
        simp [checksumLoop, hb, h42, hc1, hx1, this]

/-! ## The checks of `get_command` on a complete line -/

theorem wrapLong_id (x : Int) (h : isLong x) : wrapLong x = x := by
  unfold isLong at h
  unfold wrapLong
  omega

theorem checksum_lineReady (c : Config) (s : State) (line rest : List Nat)
    (hp : ∀ b ∈ line, plainByte b) (hsz : line.length < c.MAX_CMD_SIZE)
    (hM : c.MAX_CMD_SIZE ≤ 256) (h42 : 42 ∈ line) :
    checksumLoop (lineReady c s line rest).cmdbuffer (cell c s.bufindw 0) 256 0 0
      = some (lineChecksum line) := by
  unfold lineChecksum xorBytes
  apply checksumLoop_line line _ _ 256 0 0 h42
  · intro b hb; exact (hp b hb).2.2.2.2.2
  · omega
  · omega
  · omega
  · intro i hi
    show poke _ _ _ _ = _
    rw [poke_other _ _ _ _ (by simp only [cell]; omega)]
    exact writeBytes_get line _ _ i hi

theorem ClearToSend_eq (c : Config) (s : State) :
    ClearToSend c s =
      { s with out := s.out ++ (if c.SDSUPPORT && s.fromsd s.bufindr then [] else [Out.ok]) } := by
  unfold ClearToSend
  split <;> simp_all

theorem FlushSerialRequestResend_eq (c : Config) (s : State) :
    FlushSerialRequestResend c s =
      { s with rx := c.flush s.rx
               out := s.out ++ Out.resend (wrapLong (s.gcode_LastN + 1)) ::
                 (if c.SDSUPPORT && s.fromsd s.bufindr then [] else [Out.ok]) } := by
  unfold FlushSerialRequestResend
  rw [ClearToSend_eq]
  simp

theorem okAfterResend_eq (c : Config) (s : State) :
    (if c.SDSUPPORT && (if s.bufindr = s.bufindw then false else s.fromsd s.bufindr)
      then [] else [Out.ok]) = okAfterResend c s := by
  unfold okAfterResend
  by_cases h : s.bufindr = s.bufindw <;> simp [h]

theorem check_line_fault (c : Config) (s : State) (line rest : List Nat) (k : Fault)
    (hp : ∀ b ∈ line, plainByte b) (hsz : line.length < c.MAX_CMD_SIZE)
    (hM : c.MAX_CMD_SIZE ≤ 256) (hL : isLong (s.gcode_LastN + 1))
    (hk : lineFault c s.gcode_LastN line = some k) :
    check_line c line (lineReady c s line rest) = (rejected c s line rest k, Flow.ret) := by
  have hw : wrapLong (s.gcode_LastN + 1) = s.gcode_LastN + 1 := wrapLong_id _ hL
  have hok := okAfterResend_eq c s
  unfold lineFault at hk
  unfold check_line
  by_cases hN : strchr line 78 = true
  · rw [if_pos hN] at hk
    rw [if_pos hN]
    by_cases hseq : c.strtol (afterFirst 78 line) ≠ s.gcode_LastN + 1 ∧ strstr line M110 = false
    · rw [if_pos hseq] at hk
      cases hk
      have h1 : (lineReady c s line rest).gcode_LastN = s.gcode_LastN := rfl
      dsimp only
      rw [h1, hw, if_pos hseq, FlushSerialRequestResend_eq]
      simp only [lineReady, rejected, faultReport, hN, hw, if_true] at hok ⊢
      rw [hok]
      simp
    · rw [if_neg hseq] at hk
      have h1 : (lineReady c s line rest).gcode_LastN = s.gcode_LastN := rfl
      dsimp only
      rw [h1, hw, if_neg hseq]
      by_cases hC : strchr line 42 = true
      · rw [if_pos hC] at hk
        rw [if_pos hC]
        have h42 : 42 ∈ line := by simpa [strchr] using hC
        have hsum := checksum_lineReady c s line rest hp hsz hM h42
        have hmem : ({ lineReady c s line rest with
            gcode_N := c.strtol (afterFirst 78 line) } : State).cmdbuffer
              = (lineReady c s line rest).cmdbuffer := rfl
        have hw' : ({ lineReady c s line rest with
            gcode_N := c.strtol (afterFirst 78 line) } : State).bufindw = s.bufindw := rfl
        rw [hmem, hw', hsum]
        dsimp only
        by_cases hne : c.strtod_int (afterFirst 42 line) ≠ (lineChecksum line : Int)
        · rw [if_pos hne] at hk
          cases hk
          rw [if_pos hne, FlushSerialRequestResend_eq]
          simp only [lineReady, rejected, faultReport, hN, hw, if_true] at hok ⊢
          rw [hok]
          simp
        · rw [if_neg hne] at hk
          cases hk
      · rw [if_neg hC] at hk
        cases hk
        rw [if_neg hC, FlushSerialRequestResend_eq]
        simp only [lineReady, rejected, faultReport, hN, hw, if_true] at hok ⊢
        rw [hok]
        simp
  · rw [if_neg hN] at hk
    rw [if_neg hN]
    by_cases hC : strchr line 42 = true
    · rw [if_pos hC] at hk
      cases hk
      rw [if_pos hC]
      simp [lineReady, rejected, faultReport, hN]
    · rw [if_neg hC] at hk
      cases hk

theorem check_line_pass (c : Config) (s : State) (line rest : List Nat)
    (hp : ∀ b ∈ line, plainByte b) (hsz : line.length < c.MAX_CMD_SIZE)
    (hM : c.MAX_CMD_SIZE ≤ 256) (hL : isLong (s.gcode_LastN + 1))
    (hk : lineFault c s.gcode_LastN line = none) :
    check_line c line (lineReady c s line rest) = (passed c s line rest, Flow.next) := by
  have hw : wrapLong (s.gcode_LastN + 1) = s.gcode_LastN + 1 := wrapLong_id _ hL
  unfold lineFault at hk
  unfold check_line passed
  by_cases hN : strchr line 78 = true
  · rw [if_pos hN] at hk
    rw [if_pos hN, if_pos hN]
    by_cases hseq : c.strtol (afterFirst 78 line) ≠ s.gcode_LastN + 1 ∧ strstr line M110 = false
    · rw [if_pos hseq] at hk
      cases hk
    · rw [if_neg hseq] at hk
      have h1 : (lineReady c s line rest).gcode_LastN = s.gcode_LastN := rfl
      dsimp only
      rw [h1, hw, if_neg hseq]
      by_cases hC : strchr line 42 = true
      · rw [if_pos hC] at hk
        rw [if_pos hC]
        have h42 : 42 ∈ line := by simpa [strchr] using hC
        have hsum := checksum_lineReady c s line rest hp hsz hM h42
        have hmem : ({ lineReady c s line rest with
            gcode_N := c.strtol (afterFirst 78 line) } : State).cmdbuffer
              = (lineReady c s line rest).cmdbuffer := rfl
        have hw' : ({ lineReady c s line rest with
            gcode_N := c.strtol (afterFirst 78 line) } : State).bufindw = s.bufindw := rfl
        rw [hmem, hw', hsum]
        dsimp only
        by_cases hne : c.strtod_int (afterFirst 42 line) ≠ (lineChecksum line : Int)
        · rw [if_pos hne] at hk
          cases hk
        · rw [if_neg hne]
      · rw [if_neg hC] at hk
        cases hk
  · rw [if_neg hN] at hk
    rw [if_neg hN, if_neg hN]
    by_cases hC : strchr line 42 = true
    · rw [if_pos hC] at hk
      cases hk
    · rw [if_neg hC]

theorem enqueue_line_passed (c : Config) (s : State) (line rest : List Nat)
    (h112 : line ≠ M112) :
    enqueue_line c line (passed c s line rest) =
      ({ accepted c s line rest with serial_count := line.length }, Flow.next) := by
  unfold enqueue_line accepted stoppedNotice
  have hS : (passed c s line rest).Stopped = s.Stopped := by
    unfold passed; split <;> rfl
  have hout : (passed c s line rest).out = s.out := by
    unfold passed; split <;> rfl
  have hw : (passed c s line rest).bufindw = s.bufindw := by
    unfold passed; split <;> rfl
  have hl : (passed c s line rest).buflen = s.buflen := by
    unfold passed; split <;> rfl
  have he : (passed c s line rest).enq_hist = s.enq_hist := by
    unfold passed; split <;> rfl
  have hsc : (passed c s line rest).serial_count = line.length := by
    unfold passed; split <;> rfl
  dsimp only
  rw [if_neg h112, hS]
  split <;> simp_all

theorem serial_loop_line (c : Config) (s : State) (line rest : List Nat) (t : Nat)
    (h : Arrives c s line t) :
    serial_loop c (line ++ t :: rest) s =
      match check_line c line (lineReady c s line rest) with
      | (s', Flow.next) =>
        match enqueue_line c line s' with
        | (s'', Flow.next) => serial_loop c rest { s'' with serial_count := 0 }
        | r => r
      | r => r := by
  obtain ⟨_, hsc, hcm, hlen, ht, hne, hp, hsz, _, _⟩ := h
  rw [serial_loop_feed c line s (t :: rest) hp hcm hlen (by omega)]
  rw [serial_loop_cons c t rest (buffered c s line) hlen]
  rw [serial_iter_term c s line rest t ht hsc hcm hne hp hsz]
  rcases hcl : check_line c line (lineReady c s line rest) with ⟨s1, f1⟩
  cases f1
  · dsimp only
    rcases hel : enqueue_line c line s1 with ⟨s2, f2⟩
    cases f2 <;> rfl
  · rfl
  · rfl

theorem serial_loop_reject (c : Config) (s : State) (line rest : List Nat) (t : Nat) (k : Fault)
    (h : Arrives c s line t) (hk : lineFault c s.gcode_LastN line = some k) :
    serial_loop c (line ++ t :: rest) s = (rejected c s line rest k, Flow.ret) := by
  rw [serial_loop_line c s line rest t h]
  obtain ⟨_, _, _, _, _, _, hp, hsz, hM, hL⟩ := h
  rw [check_line_fault c s line rest k hp hsz hM hL hk]

theorem serial_loop_accept (c : Config) (s : State) (line rest : List Nat) (t : Nat)
    (h : Arrives c s line t) (hk : lineFault c s.gcode_LastN line = none) (h112 : line ≠ M112) :
    serial_loop c (line ++ t :: rest) s = serial_loop c rest (accepted c s line rest) := by
  rw [serial_loop_line c s line rest t h]
  obtain ⟨_, _, _, _, _, _, hp, hsz, hM, hL⟩ := h
  rw [check_line_pass c s line rest hp hsz hM hL hk]
  dsimp only
  rw [enqueue_line_passed c s line rest h112]
  rfl

theorem get_command_reject (c : Config) (s : State) (line rest : List Nat) (t : Nat) (k : Fault)
    (h : Arrives c s line t) (hrx : s.rx = line ++ t :: rest)
    (hk : lineFault c s.gcode_LastN line = some k) :
    get_command c s = rejected c s line rest k := by
  unfold get_command
  rw [if_neg (by simp [h.1]), hrx, serial_loop_reject c s line rest t k h hk]

theorem get_command_accept (c : Config) (s : State) (line : List Nat) (t : Nat)
    (h : Arrives c s line t) (hrx : s.rx = line ++ [t])
    (hk : lineFault c s.gcode_LastN line = none) (h112 : line ≠ M112)
    (hsd : c.SDSUPPORT = false ∨ s.card.sdprinting = false) :
    get_command c s = accepted c s line [] := by
  unfold get_command
  rw [if_neg (by simp [h.1]), hrx, serial_loop_accept c s line [] t h hk h112]
  have hcard : (accepted c s line []).card = s.card := by
    unfold accepted passed; split <;> rfl
  have hrx : ({ accepted c s line [] with rx := [] } : State) = accepted c s line [] := by
    unfold accepted passed lineReady; split <;> rfl
  rw [serial_loop, hrx]
  dsimp only
  rcases hsd with h1 | h1
  · rw [h1]; rfl
  · rw [hcard, h1]
    cases c.SDSUPPORT <;> simp

theorem mem_of_strchr {line : List Nat} {ch : Nat} : strchr line ch = true ↔ ch ∈ line := by
  simp [strchr]

/-- A line without `;` that arrives with comment mode off and that carries a
sequence number `N`
(the number after its first `N`) and a checksum field (the number after its
first `*`) is accepted by `get_command` - write index advanced, queue length
incremented, last accepted sequence number set to `N`, the line recorded as
enqueued - if and only if the checksum field equals the XOR of the bytes before
the `*` and `N` is the last accepted number plus one or the line contains
`M110`. -/
theorem get_command_plain_accept_iff (c : Config) (s : State) (line : List Nat) (t : Nat)
    (h : Arrives c s line t) (hrx : s.rx = line ++ [t])
    (hN : 78 ∈ line) (hC : 42 ∈ line)
    (hsd : c.SDSUPPORT = false ∨ s.card.sdprinting = false) :
    ((get_command c s).bufindw = (s.bufindw + 1) % c.BUFSIZE ∧
      (get_command c s).buflen = s.buflen + 1 ∧
      (get_command c s).gcode_LastN = c.strtol (afterFirst 78 line) ∧
      (get_command c s).enq_hist = s.enq_hist ++ [line])
    ↔ (c.strtod_int (afterFirst 42 line) = (lineChecksum line : Int) ∧
        (c.strtol (afterFirst 78 line) = s.gcode_LastN + 1 ∨ strstr line M110 = true)) := by
  have hN' : strchr line 78 = true := mem_of_strchr.mpr hN
  have hC' : strchr line 42 = true := mem_of_strchr.mpr hC
  have h112 : line ≠ M112 := by
    intro he; rw [he] at hN; revert hN; decide
  constructor
  · intro hacc
    by_contra hcond
    have hk : ∃ k, lineFault c s.gcode_LastN line = some k := by
      unfold lineFault
      rw [if_pos hN', if_pos hC']
      by_cases hseq : c.strtol (afterFirst 78 line) ≠ s.gcode_LastN + 1 ∧ strstr line M110 = false
      · exact ⟨_, by rw [if_pos hseq]⟩
      · rw [if_neg hseq]
        by_cases hne : c.strtod_int (afterFirst 42 line) ≠ (lineChecksum line : Int)
        · exact ⟨_, by rw [if_pos hne]⟩
        · exfalso
          apply hcond
          refine ⟨not_not.mp hne, ?_⟩
          by_cases h1 : c.strtol (afterFirst 78 line) = s.gcode_LastN + 1
          · exact Or.inl h1
          · right
            by_contra h2
            exact hseq ⟨h1, by simpa using h2⟩
    obtain ⟨k, hk⟩ := hk
    have hrej := get_command_reject c s line [] t k h hrx hk
    have hlen : (get_command c s).buflen = s.buflen := by rw [hrej]; rfl
    have := hacc.2.1
    omega
  · rintro ⟨hsum, hseq⟩
    have hk : lineFault c s.gcode_LastN line = none := by
      unfold lineFault
      rw [if_pos hN', if_pos hC']
      have hseq' : ¬ (c.strtol (afterFirst 78 line) ≠ s.gcode_LastN + 1
          ∧ strstr line M110 = false) := by
        rintro ⟨h1, h2⟩
        rcases hseq with h3 | h3
        · exact h1 h3
        · rw [h2] at h3; cases h3
      rw [if_neg hseq', if_neg (not_not.mpr hsum)]
    have hacc := get_command_accept c s line t h hrx hk h112 hsd
    rw [hacc]
    refine ⟨rfl, rfl, ?_, rfl⟩
    show (passed c s line []).gcode_LastN = _
    unfold passed
    rw [if_pos hN']

theorem resendRequests_okAfterResend (c : Config) (s : State) :
    resendRequests (okAfterResend c s) = [] := by
  unfold okAfterResend
  split <;> rfl

/-- Lines without `;` that arrive with comment mode off: with last accepted
sequence number `L`, a line numbered `L + 2` that is
not the reset command makes `get_command` write exactly one `Resend:` line, which
names `L + 1`, and the line is not enqueued. -/
theorem get_command_plain_gap (c : Config) (s : State) (line rest : List Nat) (t : Nat)
    (h : Arrives c s line t) (hrx : s.rx = line ++ t :: rest)
    (hN : 78 ∈ line) (hgap : c.strtol (afterFirst 78 line) = s.gcode_LastN + 2)
    (hM110 : strstr line M110 = false) :
    ∃ new, (get_command c s).out = s.out ++ new ∧
      resendRequests new = [s.gcode_LastN + 1] ∧
      (get_command c s).enq_hist = s.enq_hist ∧
      (get_command c s).buflen = s.buflen ∧
      (get_command c s).bufindw = s.bufindw := by
  have hN' : strchr line 78 = true := mem_of_strchr.mpr hN
  have hk : lineFault c s.gcode_LastN line = some Fault.LINE_NO := by
    unfold lineFault
    rw [if_pos hN', if_pos ⟨by rw [hgap]; omega, hM110⟩]
  rw [get_command_reject c s line rest t _ h hrx hk]
  refine ⟨faultReport c s Fault.LINE_NO, rfl, ?_, rfl, rfl, rfl⟩
  have := resendRequests_okAfterResend c s
  unfold faultReport
  simp [resendRequests] at this ⊢
  exact this

/-- C3: a line rejected for any of the four faults (sequence mismatch, checksum
mismatch, missing checksum, checksum without sequence number) leaves the queue
length, the write index, the last accepted sequence number, the tool position
and the enqueue history as they were, and leaves the line buffer empty and out
of comment mode. -/
theorem C3_rejection_is_atomic (c : Config) (s : State) (line rest : List Nat) (t : Nat)
    (k : Fault) (h : Arrives c s line t) (hrx : s.rx = line ++ t :: rest)
    (hk : lineFault c s.gcode_LastN line = some k) :
    (get_command c s).buflen = s.buflen ∧
    (get_command c s).bufindw = s.bufindw ∧
    (get_command c s).gcode_LastN = s.gcode_LastN ∧
    (get_command c s).motion.current_position = s.motion.current_position ∧
    (get_command c s).enq_hist = s.enq_hist ∧
    (get_command c s).serial_count = 0 ∧
    (get_command c s).comment_mode = false := by
  rw [get_command_reject c s line rest t k h hrx hk]
  exact ⟨rfl, rfl, rfl, rfl, rfl, rfl, rfl⟩

/-- Lines without `;` that arrive with comment mode off: a line with a `*` but
no `N` makes `get_command` write the error line
for a checksum without line number and nothing else: no `Resend:` line, and the
line is dropped without being enqueued. -/
theorem get_command_plain_checksum_without_number (c : Config) (s : State)
    (line rest : List Nat) (t : Nat)
    (h : Arrives c s line t) (hrx : s.rx = line ++ t :: rest)
    (hN : 78 ∉ line) (hC : 42 ∈ line) :
    (get_command c s).out
      = s.out ++ [Out.error Fault.NO_LINENUMBER_WITH_CHECKSUM s.gcode_LastN] ∧
    resendRequests ((get_command c s).out.drop s.out.length) = [] ∧
    (get_command c s).enq_hist = s.enq_hist ∧
    (get_command c s).buflen = s.buflen ∧
    (get_command c s).serial_count = 0 := by
  have hN' : ¬ strchr line 78 = true := fun hh => hN (mem_of_strchr.mp hh)
  have hC' : strchr line 42 = true := mem_of_strchr.mpr hC
  have hk : lineFault c s.gcode_LastN line = some Fault.NO_LINENUMBER_WITH_CHECKSUM := by
    unfold lineFault
    rw [if_neg hN', if_pos hC']
  rw [get_command_reject c s line rest t _ h hrx hk]
  have hout : (rejected c s line rest Fault.NO_LINENUMBER_WITH_CHECKSUM).out
      = s.out ++ [Out.error Fault.NO_LINENUMBER_WITH_CHECKSUM s.gcode_LastN] := by
    simp [rejected, faultReport]
  refine ⟨hout, ?_, rfl, rfl, rfl⟩
  rw [hout]
  simp [resendRequests]

/-- C5 (amended): for a sequence mismatch, a checksum mismatch or a missing
checksum, `get_command` writes the error line of that fault, then a `Resend:`
line naming the last accepted sequence number plus one, then `ok` - except that
no `ok` is written when `SDSUPPORT` is defined and the slot at the read index is
another slot than the one being filled and is flagged `fromsd`. -/
theorem C5_error_resend_then_ok_unless_replay_head (c : Config) (s : State)
    (line rest : List Nat) (t : Nat) (k : Fault)
    (h : Arrives c s line t) (hrx : s.rx = line ++ t :: rest)
    (hk : lineFault c s.gcode_LastN line = some k)
    (hkind : k ≠ Fault.NO_LINENUMBER_WITH_CHECKSUM) :
    (get_command c s).out
      = s.out ++ [Out.error k s.gcode_LastN, Out.resend (s.gcode_LastN + 1)]
          ++ (if c.SDSUPPORT = true ∧ s.bufindr ≠ s.bufindw ∧ s.fromsd s.bufindr = true
              then [] else [Out.ok]) := by
  rw [get_command_reject c s line rest t k h hrx hk]
  show s.out ++ faultReport c s k = _
  unfold faultReport okAfterResend
  rw [if_neg hkind]
  by_cases h1 : c.SDSUPPORT = true <;> by_cases h2 : s.bufindr = s.bufindw <;>
    by_cases h3 : s.fromsd s.bufindr = true <;> simp [h1, h2, h3]

/-- The line `N1 G28*18` alone on the start state is accepted. -/
theorem get_command_plain_accept_iff_example :
    Arrives refConfig { State.init with rx := lineN1G28 ++ [10] } lineN1G28 10 ∧
    (((get_command refConfig { State.init with rx := lineN1G28 ++ [10] }).bufindw
        = (State.init.bufindw + 1) % refConfig.BUFSIZE ∧
      (get_command refConfig { State.init with rx := lineN1G28 ++ [10] }).buflen
        = State.init.buflen + 1 ∧
      (get_command refConfig { State.init with rx := lineN1G28 ++ [10] }).gcode_LastN
        = refConfig.strtol (afterFirst 78 lineN1G28) ∧
      (get_command refConfig { State.init with rx := lineN1G28 ++ [10] }).enq_hist
        = State.init.enq_hist ++ [lineN1G28])
    ↔ (refConfig.strtod_int (afterFirst 42 lineN1G28) = (lineChecksum lineN1G28 : Int) ∧
        (refConfig.strtol (afterFirst 78 lineN1G28) = State.init.gcode_LastN + 1
          ∨ strstr lineN1G28 M110 = true))) :=
  ⟨by decide,
   get_command_plain_accept_iff refConfig
     { State.init with rx := lineN1G28 ++ [10] } lineN1G28 10
     (by decide) rfl (by decide) (by decide) (by decide)⟩

/-- The line `N6 G1*46` alone when the last accepted number is 4. -/
theorem get_command_plain_gap_example :
    ∃ new, (get_command refConfig { stateL4 with rx := lineN6G1 ++ [10] }).out
        = stateL4.out ++ new ∧
      resendRequests new = [stateL4.gcode_LastN + 1] ∧
      (get_command refConfig { stateL4 with rx := lineN6G1 ++ [10] }).enq_hist
        = stateL4.enq_hist ∧
      (get_command refConfig { stateL4 with rx := lineN6G1 ++ [10] }).buflen
        = stateL4.buflen ∧
      (get_command refConfig { stateL4 with rx := lineN6G1 ++ [10] }).bufindw
        = stateL4.bufindw :=
  get_command_plain_gap refConfig { stateL4 with rx := lineN6G1 ++ [10] } lineN6G1 [] 10
    (by decide) rfl (by decide) (by decide) (by decide)

/-- Witness of C3: `N5 G1 X10 Y10*45` (wrong checksum) when the last accepted
number is 4. -/
theorem C3_witness :
    lineFault refConfig stateL4.gcode_LastN lineN5BadSum = some Fault.CHECKSUM_MISMATCH ∧
    (get_command refConfig { stateL4 with rx := lineN5BadSum ++ [10] }).buflen = 0 ∧
    (get_command refConfig { stateL4 with rx := lineN5BadSum ++ [10] }).bufindw = 0 ∧
    (get_command refConfig { stateL4 with rx := lineN5BadSum ++ [10] }).gcode_LastN = 4 ∧
    (get_command refConfig { stateL4 with rx := lineN5BadSum ++ [10] }).motion.current_position
      = stateL4.motion.current_position ∧
    (get_command refConfig { stateL4 with rx := lineN5BadSum ++ [10] }).enq_hist = [] ∧
    (get_command refConfig { stateL4 with rx := lineN5BadSum ++ [10] }).serial_count = 0 ∧
    (get_command refConfig { stateL4 with rx := lineN5BadSum ++ [10] }).comment_mode = false :=
  ⟨by decide,
   C3_rejection_is_atomic refConfig { stateL4 with rx := lineN5BadSum ++ [10] }
     lineN5BadSum [] 10 Fault.CHECKSUM_MISMATCH (by decide) rfl (by decide)⟩

/-- The line `G1*118` alone on the start state. -/
theorem get_command_plain_checksum_without_number_example :
    (get_command refConfig { State.init with rx := lineG1Star ++ [10] }).out
      = [Out.error Fault.NO_LINENUMBER_WITH_CHECKSUM 0] ∧
    resendRequests ((get_command refConfig { State.init with rx := lineG1Star ++ [10] }).out.drop
      State.init.out.length) = [] ∧
    (get_command refConfig { State.init with rx := lineG1Star ++ [10] }).enq_hist = [] ∧
    (get_command refConfig { State.init with rx := lineG1Star ++ [10] }).buflen = 0 ∧
    (get_command refConfig { State.init with rx := lineG1Star ++ [10] }).serial_count = 0 :=
  get_command_plain_checksum_without_number refConfig { State.init with rx := lineG1Star ++ [10] }
    lineG1Star [] 10 (by decide) rfl (by decide) (by decide)

/-- C1, evaluated at inputs on which the code fails it.  `N1 G28*18` carries the
sequence number 1 = last accepted + 1 and the checksum field 18, the XOR of its
bytes before the `*`; sent alone on the start state it is accepted.  Followed by
the comment `;c` on the same line it is not accepted: nothing is enqueued, the
write index, the queue length and the last accepted number keep their values
and nothing is written to the host.  The same happens when the line arrives
after the commented line `G1;c`, which leaves the channel in comment mode.  The
replay source does enqueue a line that ends in a comment. -/
theorem C1_valid_line_with_comment_is_dropped :
    refConfig.strtol (afterFirst 78 lineN1G28) = State.init.gcode_LastN + 1 ∧
    refConfig.strtod_int (afterFirst 42 lineN1G28) = (lineChecksum lineN1G28 : Int) ∧
    (get_command refConfig { State.init with rx := lineN1G28 ++ [10] }).enq_hist = [lineN1G28] ∧
    (get_command refConfig { State.init with rx := lineN1G28 ++ [59, 99, 10] }).enq_hist = [] ∧
    (get_command refConfig { State.init with rx := lineN1G28 ++ [59, 99, 10] }).buflen = 0 ∧
    (get_command refConfig { State.init with rx := lineN1G28 ++ [59, 99, 10] }).bufindw = 0 ∧
    (get_command refConfig { State.init with rx := lineN1G28 ++ [59, 99, 10] }).gcode_LastN = 0 ∧
    (get_command refConfig { State.init with rx := lineN1G28 ++ [59, 99, 10] }).out = [] ∧
    (get_command refConfig
      { State.init with rx := [71, 49, 59, 99, 10] ++ lineN1G28 ++ [10] }).enq_hist = [] ∧
    (get_command refConfig
      { State.init with rx := [71, 49, 59, 99, 10] ++ lineN1G28 ++ [10] }).gcode_LastN = 0 ∧
    (get_command refConfig
      { State.init with rx := [71, 49, 59, 99, 10] ++ lineN1G28 ++ [10] }).out = [] ∧
    (get_command refConfig
      { State.init with card := ⟨true, false, false, [71, 49, 59, 99, 10]⟩ }).enq_hist
      = [[71, 49]] := by
  decide

/-- C2, evaluated at inputs on which the code fails it.  With 4 the last
accepted number, `N6 G1*46` is numbered last + 2 and is not the reset command;
sent alone it draws the one request `Resend:5`.  Followed by the comment `;c` on
the same line, or arriving after the commented line `G1;c`, it draws no resend
request and no other output, and it is not enqueued. -/
theorem C2_gap_after_or_before_a_comment_gets_no_resend :
    refConfig.strtol (afterFirst 78 lineN6G1) = stateL4.gcode_LastN + 2 ∧
    strstr lineN6G1 M110 = false ∧
    resendRequests (get_command refConfig { stateL4 with rx := lineN6G1 ++ [10] }).out = [5] ∧
    (get_command refConfig { stateL4 with rx := lineN6G1 ++ [59, 99, 10] }).out = [] ∧
    (get_command refConfig { stateL4 with rx := lineN6G1 ++ [59, 99, 10] }).enq_hist = [] ∧
    (get_command refConfig
      { stateL4 with rx := [71, 49, 59, 99, 10] ++ lineN6G1 ++ [10] }).out = [] ∧
    (get_command refConfig
      { stateL4 with rx := [71, 49, 59, 99, 10] ++ lineN6G1 ++ [10] }).enq_hist = [] := by
  decide

/-- C4, evaluated at inputs on which the code fails it.  `G1*118` has a `*` and
no `N`; sent alone on the start state it draws the error line for a checksum
without line number.  Followed by the comment `;x` on the same line, or
arriving after the commented line `G1;c`, it draws no error line and no other
output; it is not enqueued. -/
theorem C4_checksum_without_number_before_a_comment_gets_no_error :
    78 ∉ lineG1Star ∧ 42 ∈ lineG1Star ∧
    (get_command refConfig { State.init with rx := lineG1Star ++ [10] }).out
      = [Out.error Fault.NO_LINENUMBER_WITH_CHECKSUM 0] ∧
    (get_command refConfig { State.init with rx := lineG1Star ++ [59, 120, 10] }).out = [] ∧
    (get_command refConfig { State.init with rx := lineG1Star ++ [59, 120, 10] }).enq_hist = [] ∧
    (get_command refConfig
      { State.init with rx := [71, 49, 59, 99, 10] ++ lineG1Star ++ [10] }).out = [] ∧
    (get_command refConfig
      { State.init with rx := [71, 49, 59, 99, 10] ++ lineG1Star ++ [10] }).enq_hist = [] := by
  decide

/-- Counterexample to C5 as stated: in the run `replayHead` the line `N6 G1*46`
is a sequence fault, and the responses are the error line and `Resend:1` with no
`ok` after them. -/
theorem C5_counterexample :
    Arrives refConfig replayHead lineN6G1 10 ∧
    replayHead.rx = lineN6G1 ++ [10] ∧
    lineFault refConfig replayHead.gcode_LastN lineN6G1 = some Fault.LINE_NO ∧
    (get_command refConfig replayHead).out
      = replayHead.out ++ [Out.error Fault.LINE_NO 0, Out.resend 1] ∧
    (get_command refConfig replayHead).out
      ≠ replayHead.out ++ [Out.error Fault.LINE_NO 0, Out.resend 1, Out.ok] := by
  decide

/-- Witness of C5 (amended): `N5 G1` (no checksum) when the last accepted number
is 4 is answered by the error line, `Resend:5` and `ok`. -/
theorem C5_witness :
    (get_command refConfig { stateL4 with rx := lineN5G1 ++ [10] }).out
      = stateL4.out ++ [Out.error Fault.NO_CHECKSUM stateL4.gcode_LastN,
          Out.resend (stateL4.gcode_LastN + 1)]
          ++ (if refConfig.SDSUPPORT = true ∧ stateL4.bufindr ≠ stateL4.bufindw
                ∧ stateL4.fromsd stateL4.bufindr = true
              then [] else [Out.ok]) :=
  C5_error_resend_then_ok_unless_replay_head refConfig { stateL4 with rx := lineN5G1 ++ [10] }
    lineN5G1 [] 10 Fault.NO_CHECKSUM (by decide) rfl (by decide) (by decide)

/-! ## The ring buffer invariant -/

theorem ring_ne (B r k n : Nat) (hk : k < n) (hn : n < B) : (r + k) % B ≠ (r + n) % B := by
  intro h
  have h1 : Nat.ModEq B (r + k) (r + n) := h
  have h2 : Nat.ModEq B k n := Nat.ModEq.add_left_cancel' r h1
  have h3 : k % B = n % B := h2
  rw [Nat.mod_eq_of_lt (by omega), Nat.mod_eq_of_lt hn] at h3
  omega

theorem slot_disjoint (M i w j x : Nat) (hiw : i ≠ w) (hj : j < M)
    (h1 : i * M ≤ x) (h2 : x < i * M + M) : x ≠ w * M + j := by
  intro hx
  rcases Nat.lt_or_gt_of_ne hiw with h | h
  · have : (i + 1) * M ≤ w * M := Nat.mul_le_mul_right M h
    rw [Nat.add_mul, Nat.one_mul] at this
    omega
  · have : (w + 1) * M ≤ i * M := Nat.mul_le_mul_right M h
    rw [Nat.add_mul, Nat.one_mul] at this
    omega

theorem slotStr_poke_other (c : Config) (mem : Nat → Nat) (i w j v : Nat)
    (hiw : i ≠ w) (hj : j < c.MAX_CMD_SIZE) :
    slotStr c (poke mem (cell c w j) v) i = slotStr c mem i := by
  unfold slotStr
  apply cstr_congr
  intro x h1 h2
  apply poke_other
  simp only [cell] at h1 h2 ⊢
  exact slot_disjoint c.MAX_CMD_SIZE i w j x hiw hj (by omega) (by omega)

theorem slotStr_writeBytes_other (c : Config) (mem : Nat → Nat) (i w : Nat) (bs : List Nat)
    (hiw : i ≠ w) (hlen : bs.length ≤ c.MAX_CMD_SIZE) :
    slotStr c (writeBytes mem (cell c w 0) bs) i = slotStr c mem i := by
  unfold slotStr
  apply cstr_congr
  intro x h1 h2
  simp only [cell] at h1 h2 ⊢
  rcases Nat.lt_or_gt_of_ne hiw with h | h
  · have : (i + 1) * c.MAX_CMD_SIZE ≤ w * c.MAX_CMD_SIZE := Nat.mul_le_mul_right _ h
    rw [Nat.add_mul, Nat.one_mul] at this
    exact writeBytes_below bs mem _ x (by omega)
  · have : (w + 1) * c.MAX_CMD_SIZE ≤ i * c.MAX_CMD_SIZE := Nat.mul_le_mul_right _ h
    rw [Nat.add_mul, Nat.one_mul] at this
    exact writeBytes_above bs mem _ x (by omega)

theorem pending_congr (c : Config) (s s' : State)
    (hl : s'.buflen = s.buflen) (hr : s'.bufindr = s.bufindr)
    (hm : ∀ k, k < s.buflen.toNat →
      slotStr c s'.cmdbuffer ((s.bufindr + k) % c.BUFSIZE)
        = slotStr c s.cmdbuffer ((s.bufindr + k) % c.BUFSIZE)) :
    pending c s' = pending c s := by
  unfold pending
  rw [hl, hr]
  apply List.map_congr_left
  intro k hk
  exact hm k (List.mem_range.mp hk)

/-- A state with the same queue satisfies the same invariant. -/
theorem SameQueue.keeps {c : Config} {s s' : State} (h : SameQueue s s') : Keeps c s s' := by
  refine ⟨?_, h.deq_hist, ⟨[], by simp [h.enq_hist]⟩, by rw [h.buflen],
    fun hb => by rw [h.buflen]; exact hb⟩
  intro d hi
  have hp : pending c s' = pending c s :=
    pending_congr c s s' h.buflen h.bufindr (fun k _ => by rw [h.cmdbuffer])
  refine ⟨by rw [h.buflen]; exact hi.len_nonneg, by rw [h.buflen]; exact hi.len_le,
    by rw [h.bufindr]; exact hi.read_lt, ?_, ?_, ?_⟩
  · rw [h.bufindw, h.bufindr, h.buflen]; exact hi.write_eq
  · rcases h.count with hc | hc
    · rw [hc]; exact hi.count_lt
    · rw [hc]; have := hi.count_lt; omega
  · rw [h.enq_hist, hp]; exact hi.hist

theorem Keeps.idle (c : Config) (s : State) : Keeps c s s :=
  ⟨fun _ h => h, rfl, ⟨[], by simp⟩, le_refl _, fun h => h⟩

theorem Keeps.andThen {c : Config} {s1 s2 s3 : State} (h1 : Keeps c s1 s2) (h2 : Keeps c s2 s3) :
    Keeps c s1 s3 := by
  obtain ⟨e1, he1⟩ := h1.grows
  obtain ⟨e2, he2⟩ := h2.grows
  exact ⟨fun d h => h2.inv d (h1.inv d h), h2.deq_hist.trans h1.deq_hist,
    ⟨e1 ++ e2, by rw [he2, he1, List.append_assoc]⟩, le_trans h1.mono h2.mono,
    fun h => h2.bound (h1.bound h)⟩

/-- Writing into the slot at the write index while the queue has a free slot
keeps the invariant. -/
theorem keeps_of_slots (c : Config) (s s' : State) (hfree : s.buflen < (c.BUFSIZE : Int))
    (hr : s'.bufindr = s.bufindr) (hw : s'.bufindw = s.bufindw) (hl : s'.buflen = s.buflen)
    (he : s'.enq_hist = s.enq_hist) (hd : s'.deq_hist = s.deq_hist)
    (hc : s.serial_count < c.MAX_CMD_SIZE → s'.serial_count < c.MAX_CMD_SIZE)
    (hm : s.serial_count < c.MAX_CMD_SIZE → ∀ i, i ≠ s.bufindw →
      slotStr c s'.cmdbuffer i = slotStr c s.cmdbuffer i) :
    Keeps c s s' := by
  refine ⟨?_, hd, ⟨[], by simp [he]⟩, by rw [hl], fun hb => by rw [hl]; exact hb⟩
  intro d hi
  have hn : s.buflen.toNat < c.BUFSIZE := by have := hi.len_nonneg; omega
  have hp : pending c s' = pending c s := by
    apply pending_congr c s s' hl hr
    intro k hk
    apply hm hi.count_lt
    rw [hi.write_eq]
    exact ring_ne _ _ _ _ hk hn
  refine ⟨by rw [hl]; exact hi.len_nonneg, by rw [hl]; exact hi.len_le,
    by rw [hr]; exact hi.read_lt, ?_, hc hi.count_lt, ?_⟩
  · rw [hw, hr, hl]; exact hi.write_eq
  · rw [he, hp]; exact hi.hist

/-- Enqueuing the record in the slot at the write index keeps the invariant. -/
theorem keeps_of_enqueue (c : Config) (s s' : State) (hfree : s.buflen < (c.BUFSIZE : Int))
    (hr : s'.bufindr = s.bufindr) (hw : s'.bufindw = (s.bufindw + 1) % c.BUFSIZE)
    (hl : s'.buflen = s.buflen + 1)
    (he : s'.enq_hist = s.enq_hist ++ [slotStr c s'.cmdbuffer s.bufindw])
    (hd : s'.deq_hist = s.deq_hist)
    (hc : s.serial_count < c.MAX_CMD_SIZE → s'.serial_count < c.MAX_CMD_SIZE)
    (hm : s.serial_count < c.MAX_CMD_SIZE → ∀ i, i ≠ s.bufindw →
      slotStr c s'.cmdbuffer i = slotStr c s.cmdbuffer i) :
    Keeps c s s' := by
  refine ⟨?_, hd, ⟨_, he⟩, by rw [hl]; omega, fun _ => by rw [hl]; omega⟩
  intro d hi
  have h0 := hi.len_nonneg
  have hn : s.buflen.toNat < c.BUFSIZE := by omega
  have hn1 : s'.buflen.toNat = s.buflen.toNat + 1 := by rw [hl]; omega
  have hp : pending c s' = pending c s ++ [slotStr c s'.cmdbuffer s.bufindw] := by
    unfold pending
    rw [hn1, List.range_succ, List.map_append, hr]
    congr 1
    · apply List.map_congr_left
      intro k hk
      apply hm hi.count_lt
      rw [hi.write_eq]
      exact ring_ne _ _ _ _ (List.mem_range.mp hk) hn
    · simp [hi.write_eq]
  refine ⟨by rw [hl]; omega, by rw [hl]; omega, by rw [hr]; exact hi.read_lt, ?_,
    hc hi.count_lt, ?_⟩
  · rw [hw, hr, hn1, hi.write_eq, Nat.add_mod, Nat.mod_mod, ← Nat.add_mod, Nat.add_assoc]
  · rw [he, hp, hi.hist, List.append_assoc]

theorem check_line_same (c : Config) (line : List Nat) (s : State) :
    SameQueue s (check_line c line s).1 := by
  unfold check_line FlushSerialRequestResend ClearToSend
  dsimp only
  repeat' split
  all_goals first
    | exact ⟨rfl, rfl, rfl, rfl, rfl, rfl, Or.inl rfl⟩
    | exact ⟨rfl, rfl, rfl, rfl, rfl, rfl, Or.inr rfl⟩

theorem enqueue_line_keeps (c : Config) (s : State) (line : List Nat)
    (hfree : s.buflen < (c.BUFSIZE : Int)) (hline : line = slotStr c s.cmdbuffer s.bufindw) :
    Keeps c s (enqueue_line c line s).1 := by
  unfold enqueue_line kill
  dsimp only
  repeat' split
  all_goals first
    | exact SameQueue.keeps ⟨rfl, rfl, rfl, rfl, rfl, rfl, Or.inl rfl⟩
    | exact keeps_of_enqueue c _ _ hfree rfl rfl rfl (by rw [hline]) rfl (fun h => h)
        (fun _ _ _ => rfl)

/-- The tail of a terminated line: checks, then enqueue, then the buffer reset. -/
theorem line_tail_keeps (c : Config) (s : State) (hfree : s.buflen < (c.BUFSIZE : Int)) :
    Keeps c s
      (match check_line c (slotStr c s.cmdbuffer s.bufindw) s with
        | (s', Flow.next) =>
          match enqueue_line c (slotStr c s.cmdbuffer s.bufindw) s' with
          | (s'', Flow.next) => ({ s'' with serial_count := 0 }, Flow.next)
          | r => r
        | r => r).1 := by
  have h1 := check_line_same c (slotStr c s.cmdbuffer s.bufindw) s
  rcases hcl : check_line c (slotStr c s.cmdbuffer s.bufindw) s with ⟨s3, f3⟩
  rw [hcl] at h1
  have k1 : Keeps c s s3 := h1.keeps
  cases f3
  · dsimp only
    have h2 := enqueue_line_keeps c s3 (slotStr c s.cmdbuffer s.bufindw)
      (by rw [h1.buflen]; exact hfree) (by rw [h1.cmdbuffer, h1.bufindw])
    rcases hel : enqueue_line c (slotStr c s.cmdbuffer s.bufindw) s3 with ⟨s4, f4⟩
    rw [hel] at h2
    have k2 : Keeps c s s4 := k1.andThen h2
    cases f4
    · exact k2.andThen (SameQueue.keeps ⟨rfl, rfl, rfl, rfl, rfl, rfl, Or.inr rfl⟩)
    · exact k2
    · exact k2
  · exact k1
  · exact k1

theorem serial_iter_keeps (c : Config) (ch : Nat) (s : State)
    (hfree : s.buflen < (c.BUFSIZE : Int)) : Keeps c s (serial_iter c ch s).1 := by
  have kterm : Keeps c s
      { s with cmdbuffer := poke s.cmdbuffer (cell c s.bufindw s.serial_count) 0
               comment_mode := false
               fromsd := fun i => if i = s.bufindw then false else s.fromsd i } :=
    keeps_of_slots c s _ hfree rfl rfl rfl rfl rfl (fun h => h)
      (fun hc i hi => slotStr_poke_other c _ i _ _ _ hi hc)
  have ktail := kterm.andThen (line_tail_keeps c _ hfree)
  unfold serial_iter
  dsimp only
  split_ifs
  all_goals first
    | exact SameQueue.keeps ⟨rfl, rfl, rfl, rfl, rfl, rfl, Or.inl rfl⟩
    | exact ktail
    | exact keeps_of_slots c s _ hfree rfl rfl rfl rfl rfl (fun h => by show 0 < _; omega)
        (fun hc i hi => slotStr_poke_other c _ i _ _ _ hi hc)
    | exact keeps_of_slots c s _ hfree rfl rfl rfl rfl rfl
        (fun _ => by show s.serial_count + 1 < _; omega)
        (fun hc i hi => slotStr_poke_other c _ i _ _ _ hi hc)

theorem sd_iter_keeps (c : Config) (n : Int) (s : State)
    (hfree : s.buflen < (c.BUFSIZE : Int)) : Keeps c s (sd_iter c n s).1 := by
  unfold sd_iter
  dsimp only
  split_ifs
  all_goals first
    | exact SameQueue.keeps ⟨rfl, rfl, rfl, rfl, rfl, rfl, Or.inl rfl⟩
    | exact keeps_of_enqueue c s _ hfree rfl rfl rfl rfl rfl (fun h => by show 0 < _; omega)
        (fun hc i hi => slotStr_poke_other c _ i _ _ _ hi hc)
    | exact keeps_of_slots c s _ hfree rfl rfl rfl rfl rfl
        (fun _ => by show s.serial_count + 1 < _; omega)
        (fun hc i hi => slotStr_poke_other c _ i _ _ _ hi hc)

theorem serial_loop_keeps (c : Config) (l : List Nat) : ∀ s : State,
    Keeps c s (serial_loop c l s).1 := by
  induction l with
  | nil => intro s; exact SameQueue.keeps ⟨rfl, rfl, rfl, rfl, rfl, rfl, Or.inl rfl⟩
  | cons ch rest ih =>
    intro s
    unfold serial_loop
    split_ifs with hfree
    · have k0 : Keeps c s { s with rx := rest } :=
        SameQueue.keeps ⟨rfl, rfl, rfl, rfl, rfl, rfl, Or.inl rfl⟩
      have k1 := serial_iter_keeps c ch { s with rx := rest } hfree
      rcases hit : serial_iter c ch { s with rx := rest } with ⟨s1, f1⟩
      rw [hit] at k1
      cases f1
      · exact (k0.andThen k1).andThen (ih s1)
      · exact k0.andThen k1
      · exact k0.andThen k1
    · exact SameQueue.keeps ⟨rfl, rfl, rfl, rfl, rfl, rfl, Or.inl rfl⟩

theorem sd_loop_keeps (c : Config) (l : List Int) : ∀ s : State,
    Keeps c s (sd_loop c l s).1 := by
  induction l with
  | nil => intro s; exact SameQueue.keeps ⟨rfl, rfl, rfl, rfl, rfl, rfl, Or.inl rfl⟩
  | cons n rest ih =>
    intro s
    unfold sd_loop
    split_ifs with hfree
    · have k0 : Keeps c s { s with card := { s.card with data := rest } } :=
        SameQueue.keeps ⟨rfl, rfl, rfl, rfl, rfl, rfl, Or.inl rfl⟩
      have k1 := sd_iter_keeps c n { s with card := { s.card with data := rest } } hfree.1
      rcases hit : sd_iter c n { s with card := { s.card with data := rest } } with ⟨s1, f1⟩
      rw [hit] at k1
      cases f1
      · exact (k0.andThen k1).andThen (ih s1)
      · exact k0.andThen k1
      · exact k0.andThen k1
    · exact SameQueue.keeps ⟨rfl, rfl, rfl, rfl, rfl, rfl, Or.inl rfl⟩

theorem get_command_keeps (c : Config) (s : State) : Keeps c s (get_command c s) := by
  unfold get_command
  by_cases hh : s.halted = true
  · rw [if_pos hh]; exact Keeps.idle c s
  · rw [if_neg hh]
    have k1 := serial_loop_keeps c s.rx s
    rcases hsl : serial_loop c s.rx s with ⟨s1, f1⟩
    rw [hsl] at k1
    cases f1
    · dsimp only
      by_cases hsd : c.SDSUPPORT = true
      · rw [if_pos hsd]
        by_cases hidle : s1.card.sdprinting = false ∨ s1.serial_count ≠ 0
        · rw [if_pos hidle]; exact k1
        · rw [if_neg hidle]
          by_cases hz : s1.buflen = 0
          · rw [if_pos hz]
            have k2 : Keeps c s1 { s1 with stop_buffering := false } :=
              SameQueue.keeps ⟨rfl, rfl, rfl, rfl, rfl, rfl, Or.inl rfl⟩
            exact (k1.andThen k2).andThen (sd_loop_keeps c _ _)
          · rw [if_neg hz]
            exact k1.andThen (sd_loop_keeps c _ _)
      · rw [if_neg hsd]; exact k1
    · exact k1
    · exact k1

theorem enquecommand_keeps (c : Config) (cmd : List Nat) (s : State)
    (hfit : strlen cmd < c.MAX_CMD_SIZE) : Keeps c s (enquecommand c cmd s) := by
  unfold enquecommand
  split_ifs with hfree
  · refine keeps_of_enqueue c s _ hfree rfl rfl rfl rfl rfl (fun h => h) ?_
    intro _ i hi
    apply slotStr_writeBytes_other c _ i _ _ hi
    simp only [List.length_append, List.length_singleton]
    unfold strlen at hfit
    omega
  · exact Keeps.idle c s

theorem QOp.run_keeps (c : Config) (o : QOp) (s : State) (hfit : o.fits c = true) :
    Keeps c s (o.run c s) := by
  unfold QOp.run
  by_cases hh : s.halted = true
  · rw [if_pos hh]; exact Keeps.idle c s
  · rw [if_neg hh]
    cases o with
    | receive bytes => exact SameQueue.keeps ⟨rfl, rfl, rfl, rfl, rfl, rfl, Or.inl rfl⟩
    | setcard k => exact SameQueue.keeps ⟨rfl, rfl, rfl, rfl, rfl, rfl, Or.inl rfl⟩
    | enque cmd =>
      exact enquecommand_keeps c cmd s (by simpa [QOp.fits] using hfit)
    | manage_inactivity =>
      dsimp only
      by_cases hg : s.buflen < (c.BUFSIZE : Int) - 1
      · rw [if_pos hg]; exact get_command_keeps c s
      · rw [if_neg hg]; exact Keeps.idle c s

theorem runOps_keeps (c : Config) (ops : List QOp) : ∀ s : State,
    (∀ o ∈ ops, o.fits c = true) → Keeps c s (runOps c ops s) := by
  induction ops with
  | nil => intro s _; exact Keeps.idle c s
  | cons o ops ih =>
    intro s hfit
    have k1 := QOp.run_keeps c o s (hfit o (by simp))
    have k2 := ih (o.run c s) (fun x hx => hfit x (by simp [hx]))
    exact k1.andThen k2

theorem QOp.run_halted (c : Config) (o : QOp) (s : State) (hh : s.halted = true) :
    o.run c s = s := by
  unfold QOp.run
  rw [if_pos hh]

theorem runOps_halted (c : Config) (ops : List QOp) (s : State) (hh : s.halted = true) :
    runOps c ops s = s := by
  induction ops with
  | nil => rfl
  | cons o ops ih =>
    show runOps c ops (o.run c s) = s
    rw [QOp.run_halted c o s hh, ih]

theorem pending_head (c : Config) (d : List (List Nat)) (s : State) (hi : Inv c d s)
    (hne : s.buflen ≠ 0) :
    pending c s = slotStr c s.cmdbuffer s.bufindr ::
      (List.range (s.buflen.toNat - 1)).map
        (fun k => slotStr c s.cmdbuffer (((s.bufindr + 1) % c.BUFSIZE + k) % c.BUFSIZE)) := by
  have h0 := hi.len_nonneg
  obtain ⟨n, hn⟩ : ∃ n, s.buflen.toNat = n + 1 := ⟨s.buflen.toNat - 1, by omega⟩
  unfold pending
  rw [hn, List.range_succ_eq_map, List.map_cons, List.map_map]
  congr 1
  · rw [Nat.add_zero, Nat.mod_eq_of_lt hi.read_lt]
  · apply List.map_congr_left
    intro k _
    show slotStr c s.cmdbuffer ((s.bufindr + (k + 1)) % c.BUFSIZE) = _
    congr 1
    rw [Nat.add_mod ((s.bufindr + 1) % c.BUFSIZE), Nat.mod_mod, ← Nat.add_mod]
    congr 1
    omega

theorem keeps_runInv (c : Config) (s s' : State) (k : Keeps c s s') (hh : s.halted = false)
    (h : RunInv c s) : RunInv c s' := by
  obtain ⟨d, hi, hdq⟩ := h
  rcases hdq with hdq | ⟨hhalt, _⟩
  · exact ⟨d, k.inv d hi, Or.inl (by rw [k.deq_hist, hdq])⟩
  · rw [hh] at hhalt; cases hhalt

theorem dispatch_runInv (c : Config) (during : List QOp) (s : State)
    (hfit : ∀ o ∈ during, o.fits c = true) (h : RunInv c s) :
    RunInv c (dispatch c during s) := by
  unfold dispatch
  by_cases hh : s.halted = true
  · rw [if_pos hh]; exact h
  · rw [if_neg hh]
    by_cases hne : s.buflen ≠ 0
    · rw [if_pos hne]
      dsimp only
      obtain ⟨d, hi, hdq⟩ := h
      have hdq : s.deq_hist = d := by
        rcases hdq with hdq | ⟨hhalt, _⟩
        · exact hdq
        · exact absurd hhalt hh
      -- the record is handed over
      have hi2 : Inv c d { s with deq_hist :=
          s.deq_hist ++ [slotStr c s.cmdbuffer s.bufindr] } :=
        ⟨hi.len_nonneg, hi.len_le, hi.read_lt, hi.write_eq, hi.count_lt, hi.hist⟩
      have hp2 := pending_head c d s hi hne
      -- what happens while it is processed
      have k := runOps_keeps c during { s with deq_hist :=
          s.deq_hist ++ [slotStr c s.cmdbuffer s.bufindr] } hfit
      generalize runOps c during { s with deq_hist :=
          s.deq_hist ++ [slotStr c s.cmdbuffer s.bufindr] } = s3 at k ⊢
      have hi3 : Inv c d s3 := k.inv d hi2
      have hdq3 : s3.deq_hist = d ++ [slotStr c s.cmdbuffer s.bufindr] := by
        rw [k.deq_hist, ← hdq]
      have hmono : s.buflen ≤ s3.buflen := k.mono
      have h0 := hi.len_nonneg
      have hne3 : s3.buflen ≠ 0 := by omega
      obtain ⟨ext, hext⟩ := k.grows
      have hp3 : ∃ tl, pending c s3 = slotStr c s.cmdbuffer s.bufindr :: tl := by
        have h1 : d ++ pending c s3 = d ++ (pending c s ++ ext) := by
          rw [← hi3.hist, hext, ← List.append_assoc]
          show s.enq_hist ++ ext = _
          rw [hi.hist]
        have h2 := List.append_cancel_left h1
        rw [h2, hp2]
        exact ⟨_, rfl⟩
      by_cases hh3 : s3.halted = true
      · rw [if_pos hh3]
        obtain ⟨tl, htl⟩ := hp3
        exact ⟨d, hi3, Or.inr ⟨hh3, _, tl, htl, hdq3⟩⟩
      · rw [if_neg hh3]
        have hph := pending_head c d s3 hi3 hne3
        obtain ⟨tl, htl⟩ := hp3
        have hhd : slotStr c s3.cmdbuffer s3.bufindr = slotStr c s.cmdbuffer s.bufindr := by
          rw [hph] at htl
          exact (List.cons.inj htl).1
        have hB : 0 < c.BUFSIZE := Nat.lt_of_le_of_lt (Nat.zero_le _) hi3.read_lt
        have h03 := hi3.len_nonneg
        have hle3 := hi3.len_le
        have hn3 : (s3.buflen - 1).toNat = s3.buflen.toNat - 1 := by omega
        refine ⟨d ++ [slotStr c s.cmdbuffer s.bufindr], ⟨?_, ?_, ?_, ?_, hi3.count_lt, ?_⟩,
          Or.inl hdq3⟩
        · show 0 ≤ s3.buflen - 1
          omega
        · show s3.buflen - 1 ≤ _
          omega
        · exact Nat.mod_lt _ hB
        · show s3.bufindw = ((s3.bufindr + 1) % c.BUFSIZE + (s3.buflen - 1).toNat) % c.BUFSIZE
          rw [hi3.write_eq, hn3, Nat.add_mod ((s3.bufindr + 1) % c.BUFSIZE), Nat.mod_mod,
            ← Nat.add_mod]
          congr 1
          omega
        · show s3.enq_hist = _ ++ (List.range (s3.buflen - 1).toNat).map _
          rw [hi3.hist, hph, hhd, hn3, List.append_assoc]
          rfl
    · rw [if_neg hne]; exact h

theorem loop_runInv (c : Config) (during after : List QOp) (s : State)
    (hd : ∀ o ∈ during, o.fits c = true) (ha : ∀ o ∈ after, o.fits c = true)
    (h : RunInv c s) : RunInv c (loop c during after s) := by
  unfold loop
  by_cases hh : s.halted = true
  · rw [if_pos hh]; exact h
  · rw [if_neg hh]
    dsimp only
    have hh' : s.halted = false := by simpa using hh
    have h1 : RunInv c (if s.buflen < (c.BUFSIZE : Int) - 1 then get_command c s else s) := by
      split_ifs
      · exact keeps_runInv c s _ (get_command_keeps c s) hh' h
      · exact h
    have h2 := dispatch_runInv c during _ hd h1
    generalize dispatch c during
      (if s.buflen < (c.BUFSIZE : Int) - 1 then get_command c s else s) = s2 at h2 ⊢
    have h3 : RunInv c (QOp.run c QOp.manage_inactivity s2) := by
      by_cases hh2 : s2.halted = true
      · rw [QOp.run_halted c _ s2 hh2]; exact h2
      · exact keeps_runInv c s2 _ (QOp.run_keeps c _ s2 rfl) (by simpa using hh2) h2
    generalize QOp.run c QOp.manage_inactivity s2 = s3 at h3 ⊢
    by_cases hh3 : s3.halted = true
    · rw [runOps_halted c after s3 hh3]; exact h3
    · exact keeps_runInv c s3 _ (runOps_keeps c after s3 ha) (by simpa using hh3) h3

theorem Act.step_runInv (c : Config) (a : Act) (s : State) (hfit : a.fits c = true)
    (h : RunInv c s) : RunInv c (a.run c s) := by
  cases a with
  | op o =>
    show RunInv c (o.run c s)
    by_cases hh : s.halted = true
    · rw [QOp.run_halted c o s hh]; exact h
    · exact keeps_runInv c s _ (QOp.run_keeps c o s hfit) (by simpa using hh) h
  | loop during after =>
    have hf : (during.all (fun o => o.fits c) && after.all (fun o => o.fits c)) = true := hfit
    rw [Bool.and_eq_true, List.all_eq_true, List.all_eq_true] at hf
    exact loop_runInv c during after s hf.1 hf.2 h

theorem run_runInv (c : Config) (acts : List Act) : ∀ s : State,
    (∀ a ∈ acts, a.fits c = true) → RunInv c s → RunInv c (run c acts s) := by
  induction acts with
  | nil => intro s _ h; exact h
  | cons a acts ih =>
    intro s hfit h
    exact ih (a.run c s) (fun x hx => hfit x (by simp [hx]))
      (Act.step_runInv c a s (hfit a (by simp)) h)

theorem fifo_of_runInv (c : Config) (s : State) (h : RunInv c s) : Fifo c s := by
  obtain ⟨d, hi, hdq⟩ := h
  have hpre : ∃ waiting, s.enq_hist = s.deq_hist ++ waiting := by
    rcases hdq with hdq | ⟨_, hd, tl, hp, hdq⟩
    · exact ⟨pending c s, by rw [hdq]; exact hi.hist⟩
    · exact ⟨tl, by rw [hdq, hi.hist, hp, List.append_assoc]; rfl⟩
  refine ⟨hpre, ?_, hi.write_eq, hi.len_nonneg, hi.len_le⟩
  obtain ⟨waiting, hw⟩ := hpre
  intro k hk
  rw [hw, List.getElem?_append_left hk]

/-- C6: along every run from an empty queue - any interleaving of bytes arriving,
`get_command` calls, `enquecommand` calls (arguments that fit a slot) and passes
of `loop` - the records handed over by `loop` are the first records enqueued, in
enqueue order (the k-th handed over is the k-th enqueued, none skipped,
duplicated or changed in between), and the write index equals the read index
plus the queue length modulo `BUFSIZE`. -/
theorem C6_queue_is_fifo (c : Config) (acts : List Act) (s0 : State)
    (hB : 0 < c.BUFSIZE) (hM : 0 < c.MAX_CMD_SIZE)
    (hfit : ∀ a ∈ acts, a.fits c = true)
    (hr : s0.bufindr = 0) (hw : s0.bufindw = 0) (hl : s0.buflen = 0)
    (hsc : s0.serial_count = 0) (he : s0.enq_hist = []) (hd : s0.deq_hist = []) :
    Fifo c (run c acts s0) := by
  apply fifo_of_runInv
  apply run_runInv c acts s0 hfit
  refine ⟨[], ⟨by rw [hl], by rw [hl]; omega, by rw [hr]; exact hB, ?_, by rw [hsc]; exact hM, ?_⟩,
    Or.inl hd⟩
  · rw [hw, hr, hl]; simp
  · rw [he]; simp [pending, hl]

/-- Witness of C6: in the run `demoActs` three records are enqueued and handed
over in the same order. -/
theorem C6_witness :
    Fifo refConfig (run refConfig demoActs State.init) ∧
    (run refConfig demoActs State.init).enq_hist = [[71, 49], [71, 50], cmdG28] ∧
    (run refConfig demoActs State.init).deq_hist = [[71, 49], [71, 50], cmdG28] :=
  ⟨C6_queue_is_fifo refConfig demoActs State.init (by decide) (by decide) (by decide)
     rfl rfl rfl rfl rfl rfl, by decide, by decide⟩

theorem serial_loop_full (c : Config) (l : List Nat) (s : State)
    (hfull : ¬ s.buflen < (c.BUFSIZE : Int)) :
    serial_loop c l s = ({ s with rx := l }, Flow.next) := by
  cases l with
  | nil => rfl
  | cons ch rest => rw [serial_loop, if_neg hfull]

theorem sd_loop_full (c : Config) (l : List Int) (s : State)
    (hfull : ¬ s.buflen < (c.BUFSIZE : Int)) :
    sd_loop c l s = ({ s with card := { s.card with data := l } }, Flow.next) := by
  cases l with
  | nil => rfl
  | cons n rest => rw [sd_loop, if_neg (fun h => hfull h.1)]

theorem get_command_full (c : Config) (s : State) (hfull : ¬ s.buflen < (c.BUFSIZE : Int)) :
    (get_command c s).rx = s.rx ∧ (get_command c s).card = s.card ∧
    (get_command c s).cmdbuffer = s.cmdbuffer ∧
    (get_command c s).serial_count = s.serial_count := by
  unfold get_command
  by_cases hh : s.halted = true
  · rw [if_pos hh]; exact ⟨rfl, rfl, rfl, rfl⟩
  · rw [if_neg hh, serial_loop_full c s.rx s hfull]
    dsimp only
    split_ifs
    · exact ⟨rfl, rfl, rfl, rfl⟩
    · rw [sd_loop_full c _ _ (by simpa using hfull)]
      exact ⟨rfl, rfl, rfl, rfl⟩
    · rw [sd_loop_full c _ _ hfull]
      exact ⟨rfl, rfl, rfl, rfl⟩
    · exact ⟨rfl, rfl, rfl, rfl⟩

theorem dispatch_bounds (c : Config) (during : List QOp) (s : State)
    (hfit : ∀ o ∈ during, o.fits c = true)
    (h0 : 0 ≤ s.buflen) (hB : s.buflen ≤ (c.BUFSIZE : Int)) :
    0 ≤ (dispatch c during s).buflen ∧ (dispatch c during s).buflen ≤ (c.BUFSIZE : Int) := by
  unfold dispatch
  by_cases hh : s.halted = true
  · rw [if_pos hh]; exact ⟨h0, hB⟩
  · rw [if_neg hh]
    by_cases hne : s.buflen ≠ 0
    · rw [if_pos hne]
      dsimp only
      have k := runOps_keeps c during { s with deq_hist :=
          s.deq_hist ++ [slotStr c s.cmdbuffer s.bufindr] } hfit
      have hmono : s.buflen ≤ _ := k.mono
      have hbound : _ ≤ (c.BUFSIZE : Int) := k.bound hB
      generalize runOps c during { s with deq_hist :=
          s.deq_hist ++ [slotStr c s.cmdbuffer s.bufindr] } = s3 at hmono hbound ⊢
      split_ifs
      · exact ⟨by omega, hbound⟩
      · constructor
        · show 0 ≤ s3.buflen - 1
          omega
        · show s3.buflen - 1 ≤ _
          omega
    · rw [if_neg hne]; exact ⟨h0, hB⟩

/-- C7: while the queue holds `BUFSIZE` records `get_command` takes no byte from
the receive buffer and none from the card; and `0 ≤ buflen ≤ BUFSIZE` is kept by
a `get_command` call, by an `enquecommand` call and by the dequeue of `loop`
(whatever happens while the record is processed). -/
theorem C7_backpressure_and_bounds (c : Config) (s : State) (cmd : List Nat)
    (during : List QOp) (hfit : ∀ o ∈ during, o.fits c = true)
    (h0 : 0 ≤ s.buflen) (hB : s.buflen ≤ (c.BUFSIZE : Int)) :
    (s.buflen = (c.BUFSIZE : Int) →
      (get_command c s).rx = s.rx ∧ (get_command c s).card.data = s.card.data) ∧
    (0 ≤ (get_command c s).buflen ∧ (get_command c s).buflen ≤ (c.BUFSIZE : Int)) ∧
    (0 ≤ (enquecommand c cmd s).buflen ∧ (enquecommand c cmd s).buflen ≤ (c.BUFSIZE : Int)) ∧
    (0 ≤ (dispatch c during s).buflen ∧ (dispatch c during s).buflen ≤ (c.BUFSIZE : Int)) := by
  refine ⟨?_, ?_, ?_, dispatch_bounds c during s hfit h0 hB⟩
  · intro hfull
    have h := get_command_full c s (by omega)
    exact ⟨h.1, by rw [h.2.1]⟩
  · have k := get_command_keeps c s
    exact ⟨le_trans h0 k.mono, k.bound hB⟩
  · unfold enquecommand
    split_ifs with hfree
    · constructor
      · show 0 ≤ s.buflen + 1
        omega
      · show s.buflen + 1 ≤ _
        omega
    · exact ⟨h0, hB⟩

/-- Witness of C7: a print from the card has filled all four slots, the host has
sent three more bytes and the card still holds data; `get_command` leaves both
sources as they are. -/
theorem C7_witness :
    fullQueue.buflen = 4 ∧ fullQueue.rx = [71, 50, 10] ∧ fullQueue.card.data ≠ [] ∧
    ((fullQueue.buflen = (refConfig.BUFSIZE : Int) →
      (get_command refConfig fullQueue).rx = fullQueue.rx ∧
      (get_command refConfig fullQueue).card.data = fullQueue.card.data) ∧
    (0 ≤ (get_command refConfig fullQueue).buflen ∧
      (get_command refConfig fullQueue).buflen ≤ (refConfig.BUFSIZE : Int)) ∧
    (0 ≤ (enquecommand refConfig cmdG28 fullQueue).buflen ∧
      (enquecommand refConfig cmdG28 fullQueue).buflen ≤ (refConfig.BUFSIZE : Int)) ∧
    (0 ≤ (dispatch refConfig [QOp.enque cmdG28] fullQueue).buflen ∧
      (dispatch refConfig [QOp.enque cmdG28] fullQueue).buflen ≤ (refConfig.BUFSIZE : Int))) :=
  ⟨by decide, by decide, by decide,
   C7_backpressure_and_bounds refConfig fullQueue cmdG28 [QOp.enque cmdG28]
     (by decide) (by decide) (by decide)⟩

/-- C8, evaluated on the interactive source: after `G1;c` and its newline the
channel is still in comment mode and nothing was enqueued; fed `G1;c`, newline,
`G2`, newline, `get_command` buffers no byte of `G2` and enqueues neither line.
The same bytes read from the card give the records `G1` and `G2`. -/
theorem C8_comment_mode_outlives_the_line :
    (get_command refConfig { State.init with rx := [71, 49, 59, 99, 10] }).comment_mode = true ∧
    (get_command refConfig { State.init with rx := [71, 49, 59, 99, 10] }).enq_hist = [] ∧
    (get_command refConfig
      { State.init with rx := [71, 49, 59, 99, 10, 71, 50, 10] }).enq_hist = [] ∧
    (get_command refConfig
      { State.init with rx := [71, 49, 59, 99, 10, 71, 50, 10] }).serial_count = 0 ∧
    (get_command refConfig
      { State.init with rx := [71, 49, 59, 99, 10, 71, 50, 10] }).rx = [] ∧
    (get_command refConfig
      { State.init with card := ⟨true, false, false, [71, 49, 59, 99, 10, 71, 50, 10]⟩ }).enq_hist
      = [[71, 49], [71, 50]] := by
  decide

/-! ## The segment loop of `prepare_move` -/

theorem segment_fields (k : Kinematics) (diff : Axes) (steps : Int) (m : Motion) (s : Nat) :
    (segment k diff steps m s).current_position = m.current_position ∧
    (segment k diff steps m s).destination = waypoint m.current_position diff steps s ∧
    (segment k diff steps m s).planned.length = m.planned.length + 1 := by
  unfold segment
  dsimp only
  refine ⟨?_, ?_, ?_⟩
  · split <;> (try split) <;> rfl
  · split <;> (try split) <;> rfl
  · rw [List.length_append]
    split <;> (try split) <;> rfl

theorem segments_succ (k : Kinematics) (diff : Axes) (steps : Int) (n : Nat) (m : Motion) :
    segments k diff steps (n + 1) m = segment k diff steps (segments k diff steps n m) (n + 1) := by
  unfold segments
  rw [List.range_succ, List.foldl_append]
  rfl

theorem segments_fields (k : Kinematics) (diff : Axes) (steps : Int) (n : Nat) (m : Motion) :
    (segments k diff steps n m).current_position = m.current_position ∧
    (segments k diff steps n m).planned.length = m.planned.length + n ∧
    (0 < n → (segments k diff steps n m).destination
      = waypoint m.current_position diff steps n) := by
  induction n with
  | zero => exact ⟨rfl, rfl, fun h => absurd h (by decide)⟩
  | succ n ih =>
    rw [segments_succ]
    obtain ⟨h1, h2, h3⟩ := segment_fields k diff steps (segments k diff steps n m) (n + 1)
    refine ⟨by rw [h1, ih.1], by rw [h3, ih.2.1]; omega, fun _ => by rw [h2, ih.1]⟩

theorem float_to_int_nonneg (x : ℚ) (h0 : 0 ≤ x) (hfit : ⌊x⌋ ≤ 32767) :
    float_to_int x = some ⌊x⌋ := by
  unfold float_to_int
  dsimp only
  rw [if_pos h0]
  have : (0 : Int) ≤ ⌊x⌋ := Int.floor_nonneg.mpr h0
  rw [if_pos ⟨by omega, hfit⟩]

theorem waypoint_last (start diff : Axes) (steps : Int) (hs : 1 ≤ steps) :
    waypoint start diff steps steps.toNat =
      { X := start.X + diff.X, Y := start.Y + diff.Y,
        Z := start.Z + diff.Z, E := start.E + diff.E } := by
  have hcast : ((steps.toNat : ℕ) : ℚ) = (steps : ℚ) := by
    have : ((steps.toNat : ℕ) : ℤ) = steps := Int.toNat_of_nonneg (by omega)
    exact_mod_cast this
  have hne : (steps : ℚ) ≠ 0 := by
    have : (1 : ℚ) ≤ (steps : ℚ) := by exact_mod_cast hs
    intro h; rw [h] at this; norm_num at this
  unfold waypoint
  rw [hcast, div_self hne]
  simp

/-- What `prepare_move` does on a delta or SCARA build, move by move: a move
shorter than 0.000001 returns at once; otherwise, when the divisors are not zero
and the step count `n` fits, the segment loop runs `max 1 n` times and the
destination becomes the tool position. -/
theorem prepare_move_segmented (k : Kinematics) (m : Motion)
    (hmech : k.mechanism ≠ Mechanism.CARTESIAN) :
    (cartesian_mm k (clamped k m) < 1 / 1000000 → prepare_move k m = some (clamped k m)) ∧
    (¬ cartesian_mm k (clamped k m) < 1 / 1000000 →
      ∀ n : Int, m.feedrate ≠ 0 → m.feedmultiply ≠ 0 →
      float_to_int (segments_per_second k m *
        (6000 * cartesian_mm k (clamped k m) / m.feedrate / (m.feedmultiply : ℚ))) = some n →
      max 1 n ≠ 32767 →
      prepare_move k m = some
        { segments k (difference (clamped k m)) (max 1 n) (max 1 n).toNat (clamped k m) with
          current_position :=
            (segments k (difference (clamped k m)) (max 1 n) (max 1 n).toNat
              (clamped k m)).destination }) := by
  constructor
  · intro htiny
    unfold prepare_move
    dsimp only
    split
    · rename_i h; exact absurd h hmech
    · rw [if_pos htiny]
  · intro hbig n hF hmul hn hmax
    unfold prepare_move
    dsimp only
    split
    · rename_i h; exact absurd h hmech
    · have hF' : (clamped k m).feedrate = m.feedrate := rfl
      have hmul' : (clamped k m).feedmultiply = m.feedmultiply := rfl
      have hsps : segments_per_second k (clamped k m) = segments_per_second k m := rfl
      rw [if_neg hbig, hF', hmul', hsps, if_neg (by simp [hF, hmul]), hn]
      dsimp only
      rw [if_neg hmax]

theorem prepare_move_returned (k : Kinematics) (m m' : Motion)
    (hmech : k.mechanism ≠ Mechanism.CARTESIAN)
    (hbig : ¬ cartesian_mm k (clamped k m) < 1 / 1000000)
    (hret : prepare_move k m = some m') :
    ∃ steps : Int, 1 ≤ steps ∧
      m' = { segments k (difference (clamped k m)) steps steps.toNat (clamped k m) with
        current_position :=
          (segments k (difference (clamped k m)) steps steps.toNat (clamped k m)).destination } := by
  by_cases hdiv : m.feedrate = 0 ∨ m.feedmultiply = 0
  · exfalso
    revert hret
    unfold prepare_move
    dsimp only
    split
    · rename_i h; exact absurd h hmech
    · have hF' : (clamped k m).feedrate = m.feedrate := rfl
      have hmul' : (clamped k m).feedmultiply = m.feedmultiply := rfl
      rw [if_neg hbig, hF', hmul', if_pos hdiv]
      intro h; cases h
  · have hF : m.feedrate ≠ 0 := fun h => hdiv (Or.inl h)
    have hmul : m.feedmultiply ≠ 0 := fun h => hdiv (Or.inr h)
    rcases hn : float_to_int (segments_per_second k m *
        (6000 * cartesian_mm k (clamped k m) / m.feedrate / (m.feedmultiply : ℚ))) with _ | n
    · exfalso
      revert hret
      unfold prepare_move
      dsimp only
      split
      · rename_i h; exact absurd h hmech
      · have hF' : (clamped k m).feedrate = m.feedrate := rfl
        have hmul' : (clamped k m).feedmultiply = m.feedmultiply := rfl
        have hsps : segments_per_second k (clamped k m) = segments_per_second k m := rfl
        rw [if_neg hbig, hF', hmul', hsps, if_neg hdiv, hn]
        intro h; cases h
    · by_cases hmax : max 1 n = 32767
      · exfalso
        revert hret
        unfold prepare_move
        dsimp only
        split
        · rename_i h; exact absurd h hmech
        · have hF' : (clamped k m).feedrate = m.feedrate := rfl
          have hmul' : (clamped k m).feedmultiply = m.feedmultiply := rfl
          have hsps : segments_per_second k (clamped k m) = segments_per_second k m := rfl
          rw [if_neg hbig, hF', hmul', hsps, if_neg hdiv, hn]
          dsimp only
          rw [if_pos hmax]
          intro h; cases h
      · have := (prepare_move_segmented k m hmech).2 hbig n hF hmul hn hmax
        rw [this] at hret
        exact ⟨max 1 n, le_max_left 1 n, (Option.some.inj hret).symm⟩

/-! ## The reference moves -/

theorem refSqrt_zero : refSqrt 0 = 0 := by
  simp [refSqrt]

theorem refSqrt_nine : refSqrt 9 = 3 := by
  have h1 : ((9 : ℚ)).num = 9 := rfl
  have h2 : ((9 : ℚ)).den = 1 := rfl
  have h3 : Nat.sqrt 9000000000000 = 3000000 := by
    rw [show 9000000000000 = 3000000 * 3000000 by norm_num]
    exact Nat.sqrt_eq 3000000
  have h4 : Int.toNat 9 * 1 * 1000000000000 = 9000000000000 := by decide
  unfold refSqrt
  rw [h1, h2, h4, h3]
  norm_num

theorem clamped_moveX3 : clamped refKinematics moveX3 = moveX3 := by
  norm_num [clamped, clamp_to_software_endstops, refKinematics, moveX3, refMotion, Motion.init]

theorem cartesian_mm_moveX3 : cartesian_mm refKinematics moveX3 = 3 := by
  have h : (refKinematics.sqrt 9 : ℚ) = 3 := refSqrt_nine
  norm_num [cartesian_mm, difference, sq, moveX3, refMotion, Motion.init, h]

theorem clamped_moveTinyE : clamped refKinematics moveTinyE = moveTinyE := by
  norm_num [clamped, clamp_to_software_endstops, refKinematics, moveTinyE, refMotion, Motion.init]

theorem cartesian_mm_moveTinyE : cartesian_mm refKinematics moveTinyE = 1 / 2097152 := by
  have h : (refKinematics.sqrt 0 : ℚ) = 0 := refSqrt_zero
  norm_num [cartesian_mm, difference, sq, moveTinyE, refMotion, Motion.init, h, abs_of_pos]

theorem prepare_move_moveX3 :
    ∃ m', prepare_move refKinematics moveX3 = some m' ∧
      m'.planned.length = moveX3.planned.length + 112 := by
  have hmm : cartesian_mm refKinematics (clamped refKinematics moveX3) = 3 := by
    rw [clamped_moveX3, cartesian_mm_moveX3]
  have hsps : segments_per_second refKinematics moveX3 = 100 := rfl
  have hF : moveX3.feedrate = 160 := rfl
  have hmul : moveX3.feedmultiply = 100 := rfl
  have hfloor : ⌊(100 : ℚ) * (6000 * 3 / 160 / ((100 : Int) : ℚ))⌋ = 112 := by
    rw [Int.floor_eq_iff]; norm_num
  have hn : float_to_int (segments_per_second refKinematics moveX3 *
      (6000 * cartesian_mm refKinematics (clamped refKinematics moveX3) / moveX3.feedrate
        / (moveX3.feedmultiply : ℚ))) = some 112 := by
    rw [hmm, hsps, hF, hmul, float_to_int_nonneg _ (by norm_num) (by rw [hfloor]; norm_num),
      hfloor]
  have hpm := (prepare_move_segmented refKinematics moveX3 (by decide)).2
    (by rw [hmm]; norm_num) 112 (by rw [hF]; norm_num) (by rw [hmul]; norm_num) hn (by decide)
  refine ⟨_, hpm, ?_⟩
  have hlen := (segments_fields refKinematics (difference (clamped refKinematics moveX3))
    (max 1 112) (max 1 112 : Int).toNat (clamped refKinematics moveX3)).2.1
  show (segments _ _ _ _ _).planned.length = _
  rw [hlen]
  rfl

/-! ## Points outside the reachable envelope -/

theorem calculate_delta_towers (k : Kinematics) (m : Motion) (p : Axes) :
    (calculate_delta k m p).delta =
      { X := (fsqrt k (radicand1 m p)).map (fun r => r + p.Z)
        Y := (fsqrt k (radicand2 m p)).map (fun r => r + p.Z)
        Z := (fsqrt k (radicand3 m p)).map (fun r => r + p.Z) } := rfl

theorem fsqrt_neg (k : Kinematics) (r : ℚ) (h : r < 0) : fsqrt k r = none := by
  unfold fsqrt; rw [if_pos h]

theorem fsqrt_nonneg (k : Kinematics) (r : ℚ) (h : 0 ≤ r) : fsqrt k r = some (k.sqrt r) := by
  unfold fsqrt; rw [if_neg (not_lt.mpr h)]

theorem calculate_delta_NaN (k : Kinematics) (m : Motion) (p : Axes) :
    (radicand1 m p < 0 → (calculate_delta k m p).delta.X = none) ∧
    (radicand2 m p < 0 → (calculate_delta k m p).delta.Y = none) ∧
    (radicand3 m p < 0 → (calculate_delta k m p).delta.Z = none) := by
  rw [calculate_delta_towers]
  refine ⟨fun h => ?_, fun h => ?_, fun h => ?_⟩ <;> simp [fsqrt_neg k _ h]

theorem adjust_delta_NaN (k : Kinematics) (m : Motion) (p : Axes) :
    (m.delta.X = none → (adjust_delta k m p).delta.X = none) ∧
    (m.delta.Y = none → (adjust_delta k m p).delta.Y = none) ∧
    (m.delta.Z = none → (adjust_delta k m p).delta.Z = none) := by
  unfold adjust_delta
  dsimp only
  refine ⟨fun h => ?_, fun h => ?_, fun h => ?_⟩ <;> simp [h]

theorem prepare_move_raw_planned (k : Kinematics) (m : Motion) :
    ∃ line : Segment, (prepare_move_raw k m).planned = m.planned ++ [line] ∧
      line.tool = m.destination ∧ line.e = m.destination.E ∧
      line.a = (calculate_delta k m m.destination).delta.X ∧
      line.b = (calculate_delta k m m.destination).delta.Y ∧
      line.c = (calculate_delta k m m.destination).delta.Z ∧
      (prepare_move_raw k m).current_position = m.destination ∧
      (prepare_move_raw k m).destination = m.destination :=
  ⟨_, rfl, rfl, rfl, rfl, rfl, rfl, rfl, rfl⟩

theorem radicand_congr (m m' : Motion) (h : sameConstants m m') (p : Axes) :
    radicand1 m' p = radicand1 m p ∧ radicand2 m' p = radicand2 m p ∧
    radicand3 m' p = radicand3 m p := by
  obtain ⟨h1, h2, h3, h4, h5, h6, h7, h8, h9⟩ := h
  unfold radicand1 radicand2 radicand3
  rw [h1, h2, h3, h4, h5, h6, h7, h8, h9]
  exact ⟨rfl, rfl, rfl⟩

theorem carriesNaN_congr (m m' : Motion) (h : sameConstants m m') (line : Segment)
    (hc : carriesNaN m' line) : carriesNaN m line := by
  obtain ⟨e1, e2, e3⟩ := radicand_congr m m' h line.tool
  unfold carriesNaN at hc ⊢
  rw [e1, e2, e3] at hc
  exact hc

theorem segment_planned (k : Kinematics) (diff : Axes) (steps : Int) (m : Motion) (s : Nat)
    (hmech : k.mechanism = Mechanism.DELTA) :
    sameConstants m (segment k diff steps m s) ∧
    ∃ line : Segment, (segment k diff steps m s).planned = m.planned ++ [line] ∧
      line.tool = waypoint m.current_position diff steps s ∧ carriesNaN m line := by
  have hc := calculate_delta_NaN k { m with destination := waypoint m.current_position diff steps s }
    (waypoint m.current_position diff steps s)
  have ha := adjust_delta_NaN k
    (calculate_delta k { m with destination := waypoint m.current_position diff steps s }
      (waypoint m.current_position diff steps s)) (waypoint m.current_position diff steps s)
  unfold segment
  dsimp only
  rw [hmech]
  dsimp only
  by_cases hb : k.NONLINEAR_BED_LEVELING = true
  · rw [if_pos hb]
    refine ⟨⟨rfl, rfl, rfl, rfl, rfl, rfl, rfl, rfl, rfl⟩, _, rfl, rfl, ?_⟩
    exact ⟨fun h => ha.1 (hc.1 h), fun h => ha.2.1 (hc.2.1 h), fun h => ha.2.2 (hc.2.2 h)⟩
  · rw [if_neg hb]
    exact ⟨⟨rfl, rfl, rfl, rfl, rfl, rfl, rfl, rfl, rfl⟩, _, rfl, rfl, hc⟩

theorem sameConstants_trans (a b c : Motion) (h1 : sameConstants a b) (h2 : sameConstants b c) :
    sameConstants a c := by
  obtain ⟨a1, a2, a3, a4, a5, a6, a7, a8, a9⟩ := h1
  obtain ⟨b1, b2, b3, b4, b5, b6, b7, b8, b9⟩ := h2
  exact ⟨b1.trans a1, b2.trans a2, b3.trans a3, b4.trans a4, b5.trans a5, b6.trans a6,
    b7.trans a7, b8.trans a8, b9.trans a9⟩

theorem segments_constants (k : Kinematics) (diff : Axes) (steps : Int) (n : Nat) (m : Motion)
    (hmech : k.mechanism = Mechanism.DELTA) :
    sameConstants m (segments k diff steps n m) := by
  induction n with
  | zero => exact ⟨rfl, rfl, rfl, rfl, rfl, rfl, rfl, rfl, rfl⟩
  | succ n ih =>
    rw [segments_succ]
    exact sameConstants_trans _ _ _ ih (segment_planned k diff steps _ (n + 1) hmech).1

theorem segments_last (k : Kinematics) (diff : Axes) (steps : Int) (n : Nat) (m : Motion)
    (hmech : k.mechanism = Mechanism.DELTA) :
    ∃ line : Segment, (segments k diff steps (n + 1) m).planned.getLast? = some line ∧
      line.tool = waypoint m.current_position diff steps (n + 1) ∧ carriesNaN m line := by
  rw [segments_succ]
  obtain ⟨-, line, hp, ht, hc⟩ := segment_planned k diff steps (segments k diff steps n m) (n + 1) hmech
  refine ⟨line, ?_, ?_, ?_⟩
  · rw [hp]; simp
  · rw [ht, (segments_fields k diff steps n m).1]
  · exact carriesNaN_congr _ _ (segments_constants k diff steps n m hmech) line hc

/-- The last planner call of a segmented delta move is made for the clamped
destination, with `NaN` for every tower whose radicand there is negative. -/
theorem prepare_move_last (k : Kinematics) (m m' : Motion)
    (hmech : k.mechanism = Mechanism.DELTA)
    (hbig : ¬ cartesian_mm k (clamped k m) < 1 / 1000000)
    (hret : prepare_move k m = some m') :
    m'.current_position = (clamped k m).destination ∧
    ∃ line : Segment, m'.planned.getLast? = some line ∧
      line.tool = (clamped k m).destination ∧ carriesNaN m line := by
  obtain ⟨steps, hs, hm'⟩ := prepare_move_returned k m m' (by rw [hmech]; decide) hbig hret
  obtain ⟨n, hn⟩ : ∃ n, steps.toNat = n + 1 := ⟨steps.toNat - 1, by omega⟩
  obtain ⟨line, hl, ht, hc⟩ :=
    segments_last k (difference (clamped k m)) steps n (clamped k m) hmech
  have hway : waypoint (clamped k m).current_position (difference (clamped k m)) steps
      steps.toNat = (clamped k m).destination := by
    rw [waypoint_last _ _ _ hs]
    unfold difference
    cases hd : (clamped k m).destination
    simp
  refine ⟨?_, line, ?_, ?_, ?_⟩
  · rw [hm']
    dsimp only
    rw [(segments_fields _ _ _ _ _).2.2 (by omega), hway]
  · rw [hm', hn]; exact hl
  · rw [ht, ← hn, hway]
  · exact carriesNaN_congr m (clamped k m) ⟨rfl, rfl, rfl, rfl, rfl, rfl, rfl, rfl, rfl⟩ line hc

theorem refSqrt_tenThousand : refSqrt 10000 = 100 := by
  have h1 : ((10000 : ℚ)).num = 10000 := rfl
  have h2 : ((10000 : ℚ)).den = 1 := rfl
  have h3 : Nat.sqrt 10000000000000000 = 100000000 := by
    rw [show 10000000000000000 = 100000000 * 100000000 by norm_num]
    exact Nat.sqrt_eq 100000000
  have h4 : Int.toNat 10000 * 1 * 1000000000000 = 10000000000000000 := by decide
  unfold refSqrt
  rw [h1, h2, h4, h3]
  norm_num

theorem clamped_moveFar :
    clamped refKinematics moveFar = { moveFar with destination := ⟨100, 0, 0, 0⟩ } := by
  norm_num [clamped, clamp_to_software_endstops, refKinematics, moveFar, refMotion, Motion.init]

theorem cartesian_mm_moveFar :
    cartesian_mm refKinematics { moveFar with destination := ⟨100, 0, 0, 0⟩ } = 100 := by
  have h : (refKinematics.sqrt 10000 : ℚ) = 100 := refSqrt_tenThousand
  norm_num [cartesian_mm, difference, sq, moveFar, refMotion, Motion.init, h]

theorem prepare_move_moveFar :
    ∃ m' line, prepare_move refKinematics moveFar = some m' ∧
      m'.planned.getLast? = some line ∧ line.tool = ⟨100, 0, 0, 0⟩ ∧ line.a = none ∧
      m'.current_position = ⟨100, 0, 0, 0⟩ := by
  have hmm : cartesian_mm refKinematics (clamped refKinematics moveFar) = 100 := by
    rw [clamped_moveFar, cartesian_mm_moveFar]
  have hsps : segments_per_second refKinematics moveFar = 100 := rfl
  have hF : moveFar.feedrate = 160 := rfl
  have hmul : moveFar.feedmultiply = 100 := rfl
  have hfloor : ⌊(100 : ℚ) * (6000 * 100 / 160 / ((100 : Int) : ℚ))⌋ = 3750 := by
    rw [Int.floor_eq_iff]; norm_num
  have hn : float_to_int (segments_per_second refKinematics moveFar *
      (6000 * cartesian_mm refKinematics (clamped refKinematics moveFar) / moveFar.feedrate
        / (moveFar.feedmultiply : ℚ))) = some 3750 := by
    rw [hmm, hsps, hF, hmul, float_to_int_nonneg _ (by norm_num) (by rw [hfloor]; norm_num),
      hfloor]
  have hbig : ¬ cartesian_mm refKinematics (clamped refKinematics moveFar) < 1 / 1000000 := by
    rw [hmm]; norm_num
  have hpm := (prepare_move_segmented refKinematics moveFar (by decide)).2
    hbig 3750 (by rw [hF]; norm_num) (by rw [hmul]; norm_num) hn (by decide)
  obtain ⟨hcur, line, hl, ht, hc⟩ := prepare_move_last refKinematics moveFar _ rfl hbig hpm
  have hdest : (clamped refKinematics moveFar).destination = ⟨100, 0, 0, 0⟩ := by
    rw [clamped_moveFar]
  refine ⟨_, line, hpm, hl, by rw [ht, hdest], ?_, by rw [hcur, hdest]⟩
  apply hc.1
  rw [ht, hdest]
  norm_num [radicand1, sq, moveFar, refMotion, Motion.init]

/-- Counterexample to C11 as stated: on the reference delta machine the point
(1000, 0, 0) is outside the envelope, yet `prepare_move_raw` makes its planner
call for that point, with `NaN` for all three towers, and makes the point the
current position; `prepare_move` clamps it to (100, 0, 0), still outside the
envelope of tower 1, runs all its segments and ends with a planner call for
(100, 0, 0) that carries `NaN` for tower 1. -/
theorem C11_counterexample :
    outsideEnvelope moveFar moveFar.destination ∧
    (prepare_move_raw refKinematics moveFar).planned =
      [{ a := none, b := none, c := none, e := 0, feed_rate := 8 / 3,
         tool := ⟨1000, 0, 0, 0⟩ }] ∧
    (prepare_move_raw refKinematics moveFar).current_position = ⟨1000, 0, 0, 0⟩ ∧
    radicand1 moveFar (clamped refKinematics moveFar).destination < 0 ∧
    ∃ m' line, prepare_move refKinematics moveFar = some m' ∧
      m'.planned.getLast? = some line ∧ line.tool = ⟨100, 0, 0, 0⟩ ∧ line.a = none ∧
      m'.current_position = ⟨100, 0, 0, 0⟩ := by
  refine ⟨Or.inl ?_, ?_, rfl, ?_, prepare_move_moveFar⟩
  · norm_num [radicand1, sq, moveFar, refMotion, Motion.init]
  · norm_num [prepare_move_raw, calculate_delta, fsqrt, sq, moveFar, refMotion, Motion.init]
  · rw [clamped_moveFar]
    norm_num [radicand1, sq, moveFar, refMotion, Motion.init]

/-- C11 (amended): the code has no kinematic-range check.  For every tool point
`p` outside the delta envelope, `calculate_delta` yields `NaN` for each tower
whose radicand is negative; `prepare_move_raw` with destination `p` still makes
its planner call for `p`, carrying those `NaN` values, and makes `p` the current
position; and a `prepare_move` on a delta build whose clamped destination is `p`
and whose length is at least 0.000001 ends, whenever it returns, with a planner
call for `p` carrying those `NaN` values. -/
theorem C11_unreachable_point_is_forwarded (k : Kinematics) (m : Motion) (p : Axes)
    (hout : outsideEnvelope m p) :
    ((calculate_delta k m p).delta.X = none ∨ (calculate_delta k m p).delta.Y = none ∨
      (calculate_delta k m p).delta.Z = none) ∧
    (m.destination = p →
      ∃ line : Segment, (prepare_move_raw k m).planned = m.planned ++ [line] ∧
        line.tool = p ∧ carriesNaN m line ∧
        (line.a = none ∨ line.b = none ∨ line.c = none) ∧
        (prepare_move_raw k m).current_position = p) ∧
    (k.mechanism = Mechanism.DELTA → (clamped k m).destination = p →
      ¬ cartesian_mm k (clamped k m) < 1 / 1000000 →
      ∀ m', prepare_move k m = some m' →
        ∃ line : Segment, m'.planned.getLast? = some line ∧ line.tool = p ∧
          carriesNaN m line ∧ (line.a = none ∨ line.b = none ∨ line.c = none)) := by
  have hnan := calculate_delta_NaN k m p
  have hsome : ∀ line : Segment, line.tool = p → carriesNaN m line →
      (line.a = none ∨ line.b = none ∨ line.c = none) := by
    intro line ht hc
    rw [← ht] at hout
    rcases hout with h | h | h
    · exact Or.inl (hc.1 h)
    · exact Or.inr (Or.inl (hc.2.1 h))
    · exact Or.inr (Or.inr (hc.2.2 h))
  refine ⟨?_, ?_, ?_⟩
  · rcases hout with h | h | h
    · exact Or.inl (hnan.1 h)
    · exact Or.inr (Or.inl (hnan.2.1 h))
    · exact Or.inr (Or.inr (hnan.2.2 h))
  · intro hd
    obtain ⟨line, hp, ht, -, ha, hb, hc, hcur, -⟩ := prepare_move_raw_planned k m
    have hcar : carriesNaN m line := by
      unfold carriesNaN
      rw [ht, ha, hb, hc]
      exact calculate_delta_NaN k m m.destination
    exact ⟨line, hp, ht.trans hd, hcar, hsome line (ht.trans hd) hcar, hcur.trans hd⟩
  · intro hmech hd hbig m' hret
    obtain ⟨-, line, hl, ht, hc⟩ := prepare_move_last k m m' hmech hbig hret
    exact ⟨line, hl, ht.trans hd, hc, hsome line (ht.trans hd) hc⟩

/-- Witness of C11 (amended): the point (1000, 0, 0) on the reference machine. -/
theorem C11_witness :
    outsideEnvelope moveFar ⟨1000, 0, 0, 0⟩ ∧
    ∃ line : Segment, (prepare_move_raw refKinematics moveFar).planned = moveFar.planned ++ [line] ∧
      line.tool = ⟨1000, 0, 0, 0⟩ ∧ (line.a = none ∨ line.b = none ∨ line.c = none) :=
  have hout : outsideEnvelope moveFar ⟨1000, 0, 0, 0⟩ :=
    Or.inl (by norm_num [radicand1, sq, moveFar, refMotion, Motion.init])
  ⟨hout, by
    obtain ⟨line, h1, h2, -, h3, -⟩ :=
      (C11_unreachable_point_is_forwarded refKinematics moveFar ⟨1000, 0, 0, 0⟩ hout).2.1 rfl
    exact ⟨line, h1, h2, h3⟩⟩

/-! ## Tower heights inside the envelope, and the Cartesian move -/

theorem clamp_axis (emin emax : Bool) (lo hi v : ℚ) (h : lo ≤ hi) :
    clampedInto emin emax lo hi v
      (if emax = true ∧ hi < (if emin = true ∧ v < lo then lo else v) then hi
        else (if emin = true ∧ v < lo then lo else v)) := by
  unfold clampedInto
  refine ⟨fun he hv => ?_, fun he hv => ?_, fun hl hu => ?_⟩
  · have hin : (if emin = true ∧ v < lo then lo else v) = lo := if_pos ⟨he, hv⟩
    rw [hin, if_neg (fun hh => absurd hh.2 (not_lt.mpr h))]
  · have hin : (if emin = true ∧ v < lo then lo else v) = v :=
      if_neg (fun hh => by linarith [hh.2])
    rw [hin, if_pos ⟨he, hv⟩]
  · have hin : (if emin = true ∧ v < lo then lo else v) = v :=
      if_neg (fun hh => absurd hh.2 (not_lt.mpr (hl hh.1)))
    rw [hin, if_neg (fun hh => absurd hh.2 (not_lt.mpr (hu hh.1)))]

theorem clamp_components (k : Kinematics) (m : Motion) (t : Axes) :
    (clamp_to_software_endstops k m t).X =
      (if k.max_software_endstops = true ∧
          m.max_pos.X < (if k.min_software_endstops = true ∧ t.X < m.min_pos.X
            then m.min_pos.X else t.X)
        then m.max_pos.X
        else (if k.min_software_endstops = true ∧ t.X < m.min_pos.X then m.min_pos.X else t.X)) ∧
    (clamp_to_software_endstops k m t).Y =
      (if k.max_software_endstops = true ∧
          m.max_pos.Y < (if k.min_software_endstops = true ∧ t.Y < m.min_pos.Y
            then m.min_pos.Y else t.Y)
        then m.max_pos.Y
        else (if k.min_software_endstops = true ∧ t.Y < m.min_pos.Y then m.min_pos.Y else t.Y)) ∧
    (clamp_to_software_endstops k m t).Z =
      (if k.max_software_endstops = true ∧
          m.max_pos.Z < (if k.min_software_endstops = true ∧ t.Z < m.min_pos.Z
            then m.min_pos.Z else t.Z)
        then m.max_pos.Z
        else (if k.min_software_endstops = true ∧ t.Z < m.min_pos.Z then m.min_pos.Z else t.Z)) ∧
    (clamp_to_software_endstops k m t).E = t.E := by
  unfold clamp_to_software_endstops
  cases k.min_software_endstops <;> cases k.max_software_endstops <;>
    simp only [apply_ite Axes.X, apply_ite Axes.Y, apply_ite Axes.Z, apply_ite Axes.E,
      Bool.false_eq_true, false_and, true_and, if_false, if_true, gt_iff_lt, ite_self,
      and_self]

theorem clamp_idempotent (k : Kinematics) (m : Motion) (t : Axes) :
    clamp_to_software_endstops k m (clamp_to_software_endstops k m t) =
      clamp_to_software_endstops k m t := by
  obtain ⟨hx, hy, hz, he⟩ := clamp_components k m t
  obtain ⟨hx2, hy2, hz2, he2⟩ := clamp_components k m (clamp_to_software_endstops k m t)
  have key : ∀ (emin emax : Bool) (lo hi v : ℚ),
      (if emax = true ∧ hi < (if emin = true ∧
          (if emax = true ∧ hi < (if emin = true ∧ v < lo then lo else v) then hi
            else (if emin = true ∧ v < lo then lo else v)) < lo then lo
          else (if emax = true ∧ hi < (if emin = true ∧ v < lo then lo else v) then hi
            else (if emin = true ∧ v < lo then lo else v))) then hi
        else (if emin = true ∧
          (if emax = true ∧ hi < (if emin = true ∧ v < lo then lo else v) then hi
            else (if emin = true ∧ v < lo then lo else v)) < lo then lo
          else (if emax = true ∧ hi < (if emin = true ∧ v < lo then lo else v) then hi
            else (if emin = true ∧ v < lo then lo else v)))) =
      (if emax = true ∧ hi < (if emin = true ∧ v < lo then lo else v) then hi
        else (if emin = true ∧ v < lo then lo else v)) := by
    intro emin emax lo hi v
    cases emin <;> cases emax <;>
      simp only [Bool.false_eq_true, false_and, true_and, if_false, if_true] <;>
      split_ifs <;> rfl
  cases hc : clamp_to_software_endstops k m (clamp_to_software_endstops k m t) with
  | mk x y z e =>
    cases hd : clamp_to_software_endstops k m t with
    | mk x' y' z' e' =>
      rw [hc] at hx2 hy2 hz2 he2
      rw [hd] at hx hy hz he hx2 hy2 hz2 he2
      dsimp only at hx hy hz he hx2 hy2 hz2 he2
      rw [hx] at hx2
      rw [hy] at hy2
      rw [hz] at hz2
      rw [key] at hx2 hy2 hz2
      rw [hx2, hy2, hz2, he2, hx, hy, hz]

theorem prepare_move_cartesian (k : Kinematics) (m : Motion)
    (hmech : k.mechanism = Mechanism.CARTESIAN) :
    ∃ m' line, prepare_move k m = some m' ∧ m'.planned = m.planned ++ [line] ∧
      line.a = some (clamp_to_software_endstops k m m.destination).X ∧
      line.b = some (clamp_to_software_endstops k m m.destination).Y ∧
      line.c = some (clamp_to_software_endstops k m m.destination).Z ∧
      line.e = (clamp_to_software_endstops k m m.destination).E ∧
      line.tool = clamp_to_software_endstops k m m.destination ∧
      m'.current_position = clamp_to_software_endstops k m m.destination := by
  unfold prepare_move
  dsimp only
  rw [hmech]
  exact ⟨_, _, rfl, rfl, rfl, rfl, rfl, rfl, rfl, rfl⟩

/-- C14: on a Cartesian build whose travel limits are ordered (`min_pos ≤
max_pos` on X, Y, Z), `prepare_move` makes one planner call whose X, Y, Z are
the commanded destination clamped axis by axis into `[min_pos, max_pos]` (each
bound applied only when its software endstop is enabled), whose E is the
commanded E, with no other transformation, and makes that point the current
position; clamping the clamped point again changes nothing. -/
theorem C14_cartesian_identity_with_clamp (k : Kinematics) (m : Motion)
    (hmech : k.mechanism = Mechanism.CARTESIAN)
    (hX : m.min_pos.X ≤ m.max_pos.X) (hY : m.min_pos.Y ≤ m.max_pos.Y)
    (hZ : m.min_pos.Z ≤ m.max_pos.Z) :
    ∃ m' line x y z, prepare_move k m = some m' ∧ m'.planned = m.planned ++ [line] ∧
      line.a = some x ∧ line.b = some y ∧ line.c = some z ∧ line.e = m.destination.E ∧
      clampedInto k.min_software_endstops k.max_software_endstops
        m.min_pos.X m.max_pos.X m.destination.X x ∧
      clampedInto k.min_software_endstops k.max_software_endstops
        m.min_pos.Y m.max_pos.Y m.destination.Y y ∧
      clampedInto k.min_software_endstops k.max_software_endstops
        m.min_pos.Z m.max_pos.Z m.destination.Z z ∧
      m'.current_position = ⟨x, y, z, m.destination.E⟩ ∧
      clamp_to_software_endstops k m ⟨x, y, z, m.destination.E⟩ =
        ⟨x, y, z, m.destination.E⟩ := by
  obtain ⟨m', line, hpm, hpl, ha, hb, hc, he, -, hcur⟩ := prepare_move_cartesian k m hmech
  obtain ⟨cx, cy, cz, ce⟩ := clamp_components k m m.destination
  have hid := clamp_idempotent k m m.destination
  have hpt : clamp_to_software_endstops k m m.destination =
      ⟨(clamp_to_software_endstops k m m.destination).X,
       (clamp_to_software_endstops k m m.destination).Y,
       (clamp_to_software_endstops k m m.destination).Z, m.destination.E⟩ := by
    rw [← ce]
  refine ⟨m', line, _, _, _, hpm, hpl, ha, hb, hc, he.trans ce, ?_, ?_, ?_, ?_, ?_⟩
  · rw [cx]; exact clamp_axis _ _ _ _ _ hX
  · rw [cy]; exact clamp_axis _ _ _ _ _ hY
  · rw [cz]; exact clamp_axis _ _ _ _ _ hZ
  · rw [hcur]; exact hpt
  · rw [← hpt]; exact hid

/-- Witness of C14: a move to (150, -20, 310, 5) on the Cartesian reference
build is planned as (100, -20, 300, 5). -/
theorem C14_witness :
    ∃ m' line, prepare_move refCartesian moveBeyond = some m' ∧
      m'.planned = moveBeyond.planned ++ [line] ∧
      line.a = some 100 ∧ line.b = some (-20) ∧ line.c = some 300 ∧ line.e = 5 := by
  obtain ⟨m', line, x, y, z, h1, h2, ha, hb, hc, he, hx, hy, hz, -, -⟩ :=
    C14_cartesian_identity_with_clamp refCartesian moveBeyond rfl
      (by norm_num [moveBeyond, refMotion, Motion.init])
      (by norm_num [moveBeyond, refMotion, Motion.init])
      (by norm_num [moveBeyond, refMotion, Motion.init])
  have ex : x = 100 := hx.2.1 rfl (by norm_num [moveBeyond, refMotion, Motion.init])
  have ey : y = -20 := hy.2.2
    (fun _ => by norm_num [moveBeyond, refMotion, Motion.init])
    (fun _ => by norm_num [moveBeyond, refMotion, Motion.init])
  have ez : z = 300 := hz.2.1 rfl (by norm_num [moveBeyond, refMotion, Motion.init])
  exact ⟨m', line, h1, h2, by rw [ha, ex], by rw [hb, ey], by rw [hc, ez],
    by rw [he]; rfl⟩

/-! ## Probing: what is kept, and the sampling loops -/

theorem sameConstants_refl (m : Motion) : sameConstants m m :=
  ⟨rfl, rfl, rfl, rfl, rfl, rfl, rfl, rfl, rfl⟩

theorem Motion.Kept.rest (m : Motion) : Motion.Kept m m :=
  ⟨sameConstants_refl m, rfl, rfl, rfl, rfl⟩

theorem Motion.Kept.next {a b c : Motion} (h1 : Motion.Kept a b) (h2 : Motion.Kept b c) :
    Motion.Kept a c :=
  ⟨sameConstants_trans _ _ _ h1.constants h2.constants, h2.rate.trans h1.rate,
    h2.feedmultiply.trans h1.feedmultiply,
    h2.min_pos.trans h1.min_pos, h2.max_pos.trans h1.max_pos⟩

theorem segment_kept (k : Kinematics) (diff : Axes) (steps : Int) (m : Motion) (s : Nat) :
    Motion.Kept m (segment k diff steps m s) := by
  unfold segment
  dsimp only
  split <;> (try split) <;>
    exact ⟨⟨rfl, rfl, rfl, rfl, rfl, rfl, rfl, rfl, rfl⟩, rfl, rfl, rfl, rfl⟩

theorem segments_kept (k : Kinematics) (diff : Axes) (steps : Int) (n : Nat) (m : Motion) :
    Motion.Kept m (segments k diff steps n m) := by
  induction n with
  | zero => exact Motion.Kept.rest m
  | succ n ih =>
    rw [segments_succ]
    exact ih.next (segment_kept k diff steps _ (n + 1))

theorem prepare_move_kept (k : Kinematics) (m m' : Motion) (h : prepare_move k m = some m') :
    Motion.Kept m m' := by
  revert h
  unfold prepare_move
  dsimp only
  split
  · intro h
    cases h
    exact ⟨⟨rfl, rfl, rfl, rfl, rfl, rfl, rfl, rfl, rfl⟩, rfl, rfl, rfl, rfl⟩
  · split
    · intro h
      cases h
      exact ⟨⟨rfl, rfl, rfl, rfl, rfl, rfl, rfl, rfl, rfl⟩, rfl, rfl, rfl, rfl⟩
    · split
      · intro h; cases h
      · split
        · intro h; cases h
        · split
          · intro h; cases h
          · intro h
            cases h
            have hk := segments_kept k (difference (clamped k m))
              (max 1 ‹Int›) (max 1 ‹Int›).toNat (clamped k m)
            exact ⟨hk.constants, hk.rate, hk.feedmultiply, hk.min_pos, hk.max_pos⟩

theorem prepare_move_raw_kept (k : Kinematics) (m : Motion) :
    Motion.Kept m (prepare_move_raw k m) :=
  ⟨⟨rfl, rfl, rfl, rfl, rfl, rfl, rfl, rfl, rfl⟩, rfl, rfl, rfl, rfl⟩

theorem Machine.Kept.still (s : Machine) : Machine.Kept s s :=
  ⟨Motion.Kept.rest s.motion, rfl⟩

theorem Machine.Kept.after {a b c : Machine} (h1 : Machine.Kept a b) (h2 : Machine.Kept b c) :
    Machine.Kept a c := by
  refine ⟨h1.1.next h2.1, ?_⟩
  have e1 := h1.2
  have e2 := h2.2
  cases a
  cases b
  cases c
  simp only [Machine.mk.injEq] at e1 e2 ⊢
  obtain ⟨-, b1, b2, b3, b4, b5, b6, b7, b8, b9, b10, b11, b12, b13, -, b14, b15, b16, b17, b18,
    b19, b20, b21, b22, b23, -, -, b24⟩ := e1
  obtain ⟨-, c1, c2, c3, c4, c5, c6, c7, c8, c9, c10, c11, c12, c13, -, c14, c15, c16, c17, c18,
    c19, c20, c21, c22, c23, -, -, c24⟩ := e2
  exact ⟨trivial, c1.trans b1, c2.trans b2, c3.trans b3, c4.trans b4, c5.trans b5, c6.trans b6,
    c7.trans b7, c8.trans b8, c9.trans b9, c10.trans b10, c11.trans b11, c12.trans b12,
    c13.trans b13, trivial, c14.trans b14, c15.trans b15, c16.trans b16, c17.trans b17,
    c18.trans b18, c19.trans b19, c20.trans b20, c21.trans b21, c22.trans b22, c23.trans b23,
    trivial, trivial, c24.trans b24⟩

theorem run_z_probe_kept (k : Kinematics) (c : Probing) (s : Machine) :
    Machine.Kept s (run_z_probe k c s) :=
  ⟨⟨⟨rfl, rfl, rfl, rfl, rfl, rfl, rfl, rfl, rfl⟩, rfl, rfl, rfl, rfl⟩, rfl⟩

theorem run_z_probe_reading (k : Kinematics) (c : Probing) (s : Machine) :
    (run_z_probe k c s).probed = s.probed ++ [s.motion.current_position.Z - c.st_travel s] ∧
    (run_z_probe k c s).motion.current_position.Z =
      s.motion.current_position.Z - c.st_travel s ∧
    (run_z_probe k c s).motion.current_position.X = s.motion.destination.X ∧
    (run_z_probe k c s).motion.current_position.Y = s.motion.destination.Y ∧
    (run_z_probe k c s).bed_safe_z = s.bed_safe_z :=
  ⟨rfl, rfl, rfl, rfl, rfl⟩

theorem do_blocking_move_to_kept (k : Kinematics) (c : Probing) (s : Machine) (x y z : ℚ) :
    Machine.Kept s (do_blocking_move_to k c s x y z) :=
  ⟨⟨⟨rfl, rfl, rfl, rfl, rfl, rfl, rfl, rfl, rfl⟩, rfl, rfl, rfl, rfl⟩, rfl⟩

theorem do_blocking_move_to_fields (k : Kinematics) (c : Probing) (s : Machine) (x y z : ℚ) :
    (do_blocking_move_to k c s x y z).probed = s.probed ∧
    (do_blocking_move_to k c s x y z).motion.current_position = ⟨x, y, z, s.motion.destination.E⟩ ∧
    (do_blocking_move_to k c s x y z).motion.destination = ⟨x, y, z, s.motion.destination.E⟩ ∧
    (do_blocking_move_to k c s x y z).bed_safe_z = s.bed_safe_z :=
  ⟨rfl, rfl, rfl, rfl⟩

theorem probe_sample_kept (k : Kinematics) (c : Probing) (n : Nat) (s : Machine) :
    Machine.Kept s (probe_sample k c n s) := by
  unfold probe_sample
  dsimp only
  split
  · exact (do_blocking_move_to_kept k c s _ _ _).after (run_z_probe_kept k c _)
  · exact run_z_probe_kept k c s

/-- Each sample appends one measured height to the probe history, and that
height is the `probe_z` read back from `current_position[Z]`. -/
theorem probe_sample_reading (k : Kinematics) (c : Probing) (n : Nat) (s : Machine) :
    (probe_sample k c n s).probed =
      s.probed ++ [(probe_sample k c n s).motion.current_position.Z] ∧
    (probe_sample k c n s).bed_safe_z = s.bed_safe_z := by
  unfold probe_sample
  dsimp only
  split
  · obtain ⟨h1, h2, -, -, h5⟩ := run_z_probe_reading k c
      (do_blocking_move_to k c s s.motion.current_position.X s.motion.current_position.Y
        (s.motion.current_position.Z + c.Z_RAISE_BETWEEN_PROBINGS))
    rw [h1, h2, h5]
    exact ⟨rfl, rfl⟩
  · obtain ⟨h1, h2, -, -, h5⟩ := run_z_probe_reading k c s
    rw [h1, h2, h5]
    exact ⟨rfl, rfl⟩

theorem Machine.Kept.geometry {s s' : Machine} (h : Machine.Kept s s') :
    s'.delta_radius = s.delta_radius ∧ s'.delta_diagonal_rod = s.delta_diagonal_rod ∧
    s'.diagrod_adj = s.diagrod_adj ∧ s'.tower_adj = s.tower_adj := by
  have e := h.2
  refine ⟨?_, ?_, ?_, ?_⟩ <;> rw [e]

theorem Machine.Kept.setup {s s' : Machine} (h : Machine.Kept s s') :
    s'.endstop_adj = s.endstop_adj ∧ s'.z_probe_offset = s.z_probe_offset ∧
    s'.bed_radius = s.bed_radius ∧ s'.ac_prec = s.ac_prec ∧
    s'.axis_known_position = s.axis_known_position ∧ s'.msgs = s.msgs ∧
    s'.saved_endstop_adj = s.saved_endstop_adj := by
  have e := h.2
  refine ⟨?_, ?_, ?_, ?_, ?_, ?_, ?_⟩ <;> rw [e]

theorem Machine.Kept.levels {s s' : Machine} (h : Machine.Kept s s') :
    s'.bed_level_c = s.bed_level_c ∧ s'.bed_level_x = s.bed_level_x ∧
    s'.bed_level_y = s.bed_level_y ∧ s'.bed_level_z = s.bed_level_z ∧
    s'.bed_level_ox = s.bed_level_ox ∧ s'.bed_level_oy = s.bed_level_oy ∧
    s'.bed_level_oz = s.bed_level_oz := by
  have e := h.2
  refine ⟨?_, ?_, ?_, ?_, ?_, ?_, ?_⟩ <;> rw [e]

theorem probe_agree_loop_eq (k : Kinematics) (c : Probing) (arr : List ℚ) (s : Machine) :
    probe_agree_loop k c arr s =
      if arr.contains (probe_sample k c arr.length s).motion.current_position.Z = false ∧
          arr.length + 1 < 20 then
        probe_agree_loop k c
          (arr ++ [(probe_sample k c arr.length s).motion.current_position.Z])
          (probe_sample k c arr.length s)
      else ((probe_sample k c arr.length s).motion.current_position.Z,
        probe_sample k c arr.length s) := by
  rw [probe_agree_loop]

/-- The agree loop, entered with `arr` holding the earlier readings of the call
(fewer than 20): it takes the readings `new`, at least one; it stops at the first
reading that equals an earlier one, or when 20 readings are held. -/
theorem probe_agree_loop_spec (k : Kinematics) (c : Probing) :
    ∀ (n : Nat) (arr : List ℚ) (s : Machine), 20 - arr.length = n → arr.length < 20 →
      Machine.Kept s (probe_agree_loop k c arr s).2 ∧
      (probe_agree_loop k c arr s).2.bed_safe_z = s.bed_safe_z ∧
      ∃ new : List ℚ, new ≠ [] ∧
        (probe_agree_loop k c arr s).2.probed = s.probed ++ new ∧
        (arr ++ new).length ≤ 20 ∧
        new.getLast? = some (probe_agree_loop k c arr s).1 ∧
        ((arr ++ new).length = 20 ∨
          (probe_agree_loop k c arr s).1 ∈ arr ++ new.dropLast) ∧
        ∀ i x, i + 1 < new.length → new[i]? = some x → x ∉ arr ++ new.take i := by
  intro n
  induction n using Nat.strong_induction_on with
  | _ n ih =>
    intro arr s hn hlt
    rw [probe_agree_loop_eq]
    have hk := probe_sample_kept k c arr.length s
    obtain ⟨hp, hb⟩ := probe_sample_reading k c arr.length s
    generalize probe_sample k c arr.length s = s1 at hk hp hb ⊢
    by_cases hc : arr.contains s1.motion.current_position.Z = false ∧ arr.length + 1 < 20
    · rw [if_pos hc]
      have hlen : (arr ++ [s1.motion.current_position.Z]).length = arr.length + 1 := by simp
      obtain ⟨hk2, hb2, new, hne, hpr, hle, hlast, hstop, hfirst⟩ :=
        ih (20 - (arr ++ [s1.motion.current_position.Z]).length) (by rw [hlen]; omega)
          (arr ++ [s1.motion.current_position.Z]) s1 rfl (by rw [hlen]; exact hc.2)
      generalize probe_agree_loop k c (arr ++ [s1.motion.current_position.Z]) s1 = r at *
      cases new with
      | nil => exact absurd rfl hne
      | cons a t =>
        refine ⟨hk.after hk2, hb2.trans hb, s1.motion.current_position.Z :: a :: t, by simp, ?_,
          ?_, ?_, ?_, ?_⟩
        · rw [hpr, hp]; simp
        · simpa using hle
        · rw [List.getLast?_cons_cons]; exact hlast
        · rcases hstop with h | h
          · left; simpa using h
          · right
            rw [List.dropLast_cons₂]
            simp only [List.mem_append, List.mem_cons, List.not_mem_nil, or_false] at h ⊢
            tauto
        · intro i x hi hx
          cases i with
          | zero =>
            simp only [List.getElem?_cons_zero, Option.some.injEq] at hx
            subst hx
            have := hc.1
            simp only [List.take_zero, List.append_nil]
            intro hmem
            simp [hmem] at this
          | succ j =>
            simp only [List.getElem?_cons_succ] at hx
            have := hfirst j x (by simpa using hi) hx
            simpa using this
    · rw [if_neg hc]
      refine ⟨hk, hb, [s1.motion.current_position.Z], by simp, hp, ?_, rfl, ?_, ?_⟩
      · simp; omega
      · by_cases hcon : arr.contains s1.motion.current_position.Z = false
        · left
          have : ¬ arr.length + 1 < 20 := fun h => hc ⟨hcon, h⟩
          simp; omega
        · right
          simp only [Bool.not_eq_false] at hcon
          simpa using hcon
      · intro i x hi
        simp at hi

/-- The fixed-count loop takes exactly `n` further readings and adds them to
`total`. -/
theorem probe_avg_loop_spec (k : Kinematics) (c : Probing) (num_probes : Nat) :
    ∀ (n : Nat) (total : ℚ) (s : Machine),
      Machine.Kept s (probe_avg_loop k c num_probes n total s).2 ∧
      (probe_avg_loop k c num_probes n total s).2.bed_safe_z = s.bed_safe_z ∧
      ∃ new : List ℚ, new.length = n ∧
        (probe_avg_loop k c num_probes n total s).2.probed = s.probed ++ new ∧
        (probe_avg_loop k c num_probes n total s).1 = total + new.sum := by
  intro n
  induction n with
  | zero =>
    intro total s
    exact ⟨Machine.Kept.still s, rfl, [], rfl, by simp [probe_avg_loop], by simp [probe_avg_loop]⟩
  | succ n ih =>
    intro total s
    have hk := probe_sample_kept k c (num_probes - (n + 1)) s
    obtain ⟨hp, hb⟩ := probe_sample_reading k c (num_probes - (n + 1)) s
    have heq : probe_avg_loop k c num_probes (n + 1) total s =
        probe_avg_loop k c num_probes n
          (total + (probe_sample k c (num_probes - (n + 1)) s).motion.current_position.Z)
          (probe_sample k c (num_probes - (n + 1)) s) := rfl
    rw [heq]
    generalize probe_sample k c (num_probes - (n + 1)) s = s1 at hk hp hb ⊢
    obtain ⟨hk2, hb2, new, hlen, hpr, hsum⟩ := ih (total + s1.motion.current_position.Z) s1
    refine ⟨hk.after hk2, ?_, s1.motion.current_position.Z :: new, by simp [hlen], ?_, ?_⟩
    · rw [hb2, hb]
    · rw [hpr, hp]; simp
    · rw [hsum]; simp; ring

/-- The state in which `probe_pt` starts sampling: after its two positioning
moves. -/
theorem probe_pt_eq (k : Kinematics) (c : Probing) (s : Machine) (x y z_before : ℚ) :
    probe_pt k c s x y z_before =
      match c.PROBE_AVG with
      | some num_probes =>
        ((probe_avg_loop k c num_probes num_probes 0
            (do_blocking_move_to k c
              (do_blocking_move_to k c s s.motion.current_position.X
                s.motion.current_position.Y z_before)
              (x - s.z_probe_offset.X) (y - s.z_probe_offset.Y) z_before)).1
          / (num_probes : ℚ),
         (probe_avg_loop k c num_probes num_probes 0
            (do_blocking_move_to k c
              (do_blocking_move_to k c s s.motion.current_position.X
                s.motion.current_position.Y z_before)
              (x - s.z_probe_offset.X) (y - s.z_probe_offset.Y) z_before)).2)
      | none =>
        probe_agree_loop k c []
          (do_blocking_move_to k c
            (do_blocking_move_to k c s s.motion.current_position.X
              s.motion.current_position.Y z_before)
            (x - s.z_probe_offset.X) (y - s.z_probe_offset.Y) z_before) := rfl

theorem probe_pt_kept (k : Kinematics) (c : Probing) (s : Machine) (x y z_before : ℚ) :
    Machine.Kept s (probe_pt k c s x y z_before).2 ∧
    (probe_pt k c s x y z_before).2.bed_safe_z = s.bed_safe_z := by
  have h1 := do_blocking_move_to_kept k c s s.motion.current_position.X
    s.motion.current_position.Y z_before
  have h2 := do_blocking_move_to_kept k c
    (do_blocking_move_to k c s s.motion.current_position.X s.motion.current_position.Y z_before)
    (x - s.z_probe_offset.X) (y - s.z_probe_offset.Y) z_before
  rw [probe_pt_eq]
  cases c.PROBE_AVG with
  | none =>
    obtain ⟨h3, h4, -⟩ := probe_agree_loop_spec k c 20 [] _ rfl (by decide)
    exact ⟨(h1.after h2).after h3, by rw [h4]; rfl⟩
  | some n =>
    obtain ⟨h3, h4, -⟩ := probe_avg_loop_spec k c n n 0
      (do_blocking_move_to k c
        (do_blocking_move_to k c s s.motion.current_position.X s.motion.current_position.Y
          z_before)
        (x - s.z_probe_offset.X) (y - s.z_probe_offset.Y) z_before)
    exact ⟨(h1.after h2).after h3, by dsimp only; rw [h4]; rfl⟩

/-- The sampling policy of `probe_pt`, in terms of the readings `taken` during
the call. -/
theorem probe_pt_taken (k : Kinematics) (c : Probing) (s : Machine) (x y z_before : ℚ) :
    (c.PROBE_AVG = none →
      ∃ taken : List ℚ, (probe_pt k c s x y z_before).2.probed = s.probed ++ taken ∧
        2 ≤ taken.length ∧ taken.length ≤ 20 ∧
        taken.getLast? = some (probe_pt k c s x y z_before).1 ∧
        (taken.length = 20 ∨ (probe_pt k c s x y z_before).1 ∈ taken.dropLast) ∧
        ∀ i v, i + 1 < taken.length → taken[i]? = some v → v ∉ taken.take i) ∧
    (∀ n : Nat, c.PROBE_AVG = some n →
      ∃ taken : List ℚ, (probe_pt k c s x y z_before).2.probed = s.probed ++ taken ∧
        taken.length = n ∧
        (probe_pt k c s x y z_before).1 = taken.sum / (n : ℚ)) := by
  rw [probe_pt_eq]
  constructor
  · intro hmode
    rw [hmode]
    obtain ⟨-, -, new, hne, hpr, hle, hlast, hstop, hfirst⟩ :=
      probe_agree_loop_spec k c 20 []
        (do_blocking_move_to k c
          (do_blocking_move_to k c s s.motion.current_position.X s.motion.current_position.Y
            z_before)
          (x - s.z_probe_offset.X) (y - s.z_probe_offset.Y) z_before) rfl (by decide)
    simp only [List.nil_append] at hle hstop hfirst
    refine ⟨new, hpr, ?_, hle, hlast, hstop, hfirst⟩
    rcases hstop with h | h
    · omega
    · cases new with
      | nil => exact absurd rfl hne
      | cons a t =>
        cases t with
        | nil => simp at h
        | cons b u => simp
  · intro n hmode
    rw [hmode]
    obtain ⟨-, -, new, hlen, hpr, hsum⟩ := probe_avg_loop_spec k c n n 0
      (do_blocking_move_to k c
        (do_blocking_move_to k c s s.motion.current_position.X s.motion.current_position.Y
          z_before)
        (x - s.z_probe_offset.X) (y - s.z_probe_offset.Y) z_before)
    refine ⟨new, hpr, hlen, ?_⟩
    dsimp only
    rw [hsum, zero_add]

theorem probe_bed_approach_kept (k : Kinematics) (c : Probing) (s s1 : Machine) (x y : ℚ)
    (h : probe_bed_approach k c s x y = some s1) :
    Machine.Kept s s1 ∧ s1.bed_safe_z = s.bed_safe_z ∧ s1.probed = s.probed := by
  revert h
  unfold probe_bed_approach
  dsimp only
  split
  · intro h; cases h
  · rename_i m hm
    split
    · intro h; cases h
    · rename_i m2 hm2
      intro h
      cases h
      have k2 := prepare_move_kept k _ m2 hm2
      have k1 : Motion.Kept s.motion m := by
        revert hm
        split
        · intro hm
          have := prepare_move_kept k _ m hm
          exact ⟨this.constants, this.rate, this.feedmultiply, this.min_pos, this.max_pos⟩
        · intro hm
          cases hm
          exact Motion.Kept.rest _
      refine ⟨⟨?_, rfl⟩, rfl, rfl⟩
      exact k1.next ⟨k2.constants, k2.rate, k2.feedmultiply, k2.min_pos, k2.max_pos⟩

/-- The value and the state of `probe_bed` once its approach moves are done. -/
theorem probe_bed_of_approach (k : Kinematics) (c : Probing) (s s1 : Machine) (x y : ℚ)
    (h : probe_bed_approach k c s x y = some s1) :
    probe_bed k c s x y = some
      ((probe_pt k c s1 x y s1.motion.current_position.Z).1 + s.z_probe_offset.Z,
       { (probe_pt k c s1 x y s1.motion.current_position.Z).2 with
         bed_safe_z := (probe_pt k c s1 x y s1.motion.current_position.Z).1
           + s.z_probe_offset.Z - s.z_probe_offset.Z + c.AUTOCAL_PROBELIFT }) := by
  obtain ⟨k1, -, -⟩ := probe_bed_approach_kept k c s s1 x y h
  obtain ⟨k2, -⟩ := probe_pt_kept k c s1 x y s1.motion.current_position.Z
  have hoff : (probe_pt k c s1 x y s1.motion.current_position.Z).2.z_probe_offset
      = s.z_probe_offset := (k1.after k2).setup.2.1
  unfold probe_bed
  rw [h]
  dsimp only
  rw [hoff]

theorem probe_bed_none (k : Kinematics) (c : Probing) (s : Machine) (x y : ℚ)
    (h : probe_bed_approach k c s x y = none) : probe_bed k c s x y = none := by
  unfold probe_bed
  rw [h]

theorem probe_bed_returned (k : Kinematics) (c : Probing) (s s' : Machine) (x y r : ℚ)
    (h : probe_bed k c s x y = some (r, s')) :
    ∃ s1, probe_bed_approach k c s x y = some s1 ∧
      r = (probe_pt k c s1 x y s1.motion.current_position.Z).1 + s.z_probe_offset.Z ∧
      Machine.Kept s s' := by
  rcases ha : probe_bed_approach k c s x y with _ | s1
  · rw [probe_bed_none k c s x y ha] at h; cases h
  · rw [probe_bed_of_approach k c s s1 x y ha] at h
    obtain ⟨k1, -, -⟩ := probe_bed_approach_kept k c s s1 x y ha
    obtain ⟨k2, -⟩ := probe_pt_kept k c s1 x y s1.motion.current_position.Z
    simp only [Option.some.injEq, Prod.mk.injEq] at h
    refine ⟨s1, rfl, h.1.symm, ?_⟩
    rw [← h.2]
    have k12 := k1.after k2
    exact ⟨k12.1, by
      have e := k12.2
      generalize (probe_pt k c s1 x y s1.motion.current_position.Z).2 = p at e ⊢
      dsimp only
      rw [e]⟩

/-- A probe whose measured height is a function `H` of the XY position and of
the endstop and probe offsets: in agree mode `probe_pt` returns that height at
the probing point. -/
theorem probe_pt_steady (k : Kinematics) (c : Probing) (H : ℚ → ℚ → XYZ → XYZ → ℚ)
    (hH : ∀ s : Machine, c.st_travel s = s.motion.current_position.Z -
      H s.motion.current_position.X s.motion.current_position.Y s.endstop_adj s.z_probe_offset)
    (hmode : c.PROBE_AVG = none) (s : Machine) (x y z_before : ℚ) :
    (probe_pt k c s x y z_before).1 =
      H (x - s.z_probe_offset.X) (y - s.z_probe_offset.Y) s.endstop_adj s.z_probe_offset := by
  rw [probe_pt_eq, hmode]
  dsimp only
  generalize hs2 : do_blocking_move_to k c
    (do_blocking_move_to k c s s.motion.current_position.X s.motion.current_position.Y z_before)
    (x - s.z_probe_offset.X) (y - s.z_probe_offset.Y) z_before = s2
  have e1 : (probe_sample k c 0 s2).motion.current_position.Z =
      H (x - s.z_probe_offset.X) (y - s.z_probe_offset.Y) s.endstop_adj s.z_probe_offset := by
    show s2.motion.current_position.Z - c.st_travel s2 = _
    rw [hH s2, sub_sub_cancel, ← hs2]
    rfl
  have e2 : (probe_sample k c 1 (probe_sample k c 0 s2)).motion.current_position.Z =
      H (x - s.z_probe_offset.X) (y - s.z_probe_offset.Y) s.endstop_adj s.z_probe_offset := by
    show (do_blocking_move_to k c (run_z_probe k c s2) _ _ _).motion.current_position.Z
      - c.st_travel (do_blocking_move_to k c (run_z_probe k c s2) _ _ _) = _
    rw [hH, sub_sub_cancel, ← hs2]
    rfl
  rw [probe_agree_loop_eq]
  rw [if_pos ⟨rfl, by decide⟩]
  rw [probe_agree_loop_eq]
  have hcon : ([] ++ [(probe_sample k c ([] : List ℚ).length s2).motion.current_position.Z]).contains
      (probe_sample k c ([] ++ [(probe_sample k c ([] : List ℚ).length
        s2).motion.current_position.Z]).length
        (probe_sample k c ([] : List ℚ).length s2)).motion.current_position.Z = true := by
    show ([(probe_sample k c 0 s2).motion.current_position.Z]).contains
      (probe_sample k c 1 (probe_sample k c 0 s2)).motion.current_position.Z = true
    rw [e1, e2]
    simp
  rw [if_neg (by rw [hcon]; simp)]
  exact e2

/-! ## Geometry caches -/

theorem GeoKept.unchanged (s : Machine) : GeoKept s s :=
  ⟨sameConstants_refl _, rfl, rfl, rfl, rfl⟩

theorem GeoKept.followed {a b c : Machine} (h1 : GeoKept a b) (h2 : GeoKept b c) : GeoKept a c :=
  ⟨sameConstants_trans _ _ _ h1.constants h2.constants,
    h2.delta_radius.trans h1.delta_radius, h2.delta_diagonal_rod.trans h1.delta_diagonal_rod,
    h2.diagrod_adj.trans h1.diagrod_adj, h2.tower_adj.trans h1.tower_adj⟩

theorem Machine.Kept.geo {s s' : Machine} (h : Machine.Kept s s') : GeoKept s s' :=
  ⟨h.1.constants, h.geometry.1, h.geometry.2.1, h.geometry.2.2.1, h.geometry.2.2.2⟩

theorem cacheFresh_set (c : Probing) (s : Machine) : cacheFresh c (set_delta_constants c s) :=
  ⟨rfl, rfl, rfl, rfl, rfl, rfl, rfl, rfl, rfl⟩

theorem cacheFresh_kept (c : Probing) (s s' : Machine) (h : GeoKept s s')
    (hf : cacheFresh c s) : cacheFresh c s' := by
  obtain ⟨⟨c1, c2, c3, c4, c5, c6, c7, c8, c9⟩, g1, g2, g3, g4⟩ := h
  obtain ⟨f1, f2, f3, f4, f5, f6, f7, f8, f9⟩ := hf
  unfold cacheFresh
  rw [c1, c2, c3, c4, c5, c6, c7, c8, c9, g1, g2, g3, g4]
  exact ⟨f1, f2, f3, f4, f5, f6, f7, f8, f9⟩

theorem probe_bed_geo (k : Kinematics) (c : Probing) (s s' : Machine) (x y r : ℚ)
    (h : probe_bed k c s x y = some (r, s')) : GeoKept s s' := by
  obtain ⟨_, -, -, hk⟩ := probe_bed_returned k c s s' x y r h
  exact hk.geo

theorem probe_opposite_geo (k : Kinematics) (c : Probing) (s s' : Machine)
    (h : probe_opposite k c s = some s') : GeoKept s s' := by
  revert h
  unfold probe_opposite
  split
  · intro h; cases h
  · rename_i ox s1 h1
    dsimp only
    split
    · intro h; cases h
    · rename_i oy s2 h2
      split
      · intro h; cases h
      · rename_i oz s3 h3
        intro h
        cases h
        have g1 := probe_bed_geo k c _ _ _ _ _ h1
        have g2 := probe_bed_geo k c _ _ _ _ _ h2
        have g3 := probe_bed_geo k c _ _ _ _ _ h3
        have g2' : GeoKept s1 s2 :=
          ⟨g2.constants, g2.delta_radius, g2.delta_diagonal_rod, g2.diagrod_adj, g2.tower_adj⟩
        have g3' : GeoKept s2 s3 :=
          ⟨g3.constants, g3.delta_radius, g3.delta_diagonal_rod, g3.diagrod_adj, g3.tower_adj⟩
        have g := (g1.followed g2').followed g3'
        exact ⟨g.constants, g.delta_radius, g.delta_diagonal_rod, g.diagrod_adj, g.tower_adj⟩

theorem probe_rod_geo (k : Kinematics) (c : Probing) (s s' : Machine)
    (h : probe_rod k c s = some s') : GeoKept s s' := by
  revert h
  unfold probe_rod
  split
  · intro h; cases h
  · rename_i oy s1 h1
    dsimp only
    split
    · intro h; cases h
    · rename_i oz s2 h2
      split
      · intro h; cases h
      · rename_i ox s3 h3
        split
        · intro h; cases h
        · rename_i cc s4 h4
          intro h
          cases h
          have g1 := probe_bed_geo k c _ _ _ _ _ h1
          have g2 := probe_bed_geo k c _ _ _ _ _ h2
          have g3 := probe_bed_geo k c _ _ _ _ _ h3
          have g4 := probe_bed_geo k c _ _ _ _ _ h4
          have g2' : GeoKept s1 s2 :=
            ⟨g2.constants, g2.delta_radius, g2.delta_diagonal_rod, g2.diagrod_adj, g2.tower_adj⟩
          have g3' : GeoKept s2 s3 :=
            ⟨g3.constants, g3.delta_radius, g3.delta_diagonal_rod, g3.diagrod_adj, g3.tower_adj⟩
          have g4' : GeoKept s3 s4 :=
            ⟨g4.constants, g4.delta_radius, g4.delta_diagonal_rod, g4.diagrod_adj, g4.tower_adj⟩
          have g := ((g1.followed g2').followed g3').followed g4'
          exact ⟨g.constants, g.delta_radius, g.delta_diagonal_rod, g.diagrod_adj, g.tower_adj⟩

theorem probe_pair_geo (k : Kinematics) (c : Probing) (tower : Int) (s s' : Machine)
    (h : probe_pair k c tower s = some s') : GeoKept s s' := by
  revert h
  unfold probe_pair
  dsimp only
  have step : ∀ (p : Prop) [Decidable p] (x y : ℚ) (f : ℚ → Machine → Machine) (a b : Machine),
      (∀ r t, GeoKept t (f r t)) →
      (if p then
        match probe_bed k c a x y with
        | none => none
        | some (r, t) => some (f r t)
      else some a) = some b → GeoKept a b := by
    intro p _ x y f a b hf
    split
    · split
      · intro h; cases h
      · rename_i r t ht
        intro h
        cases h
        exact (probe_bed_geo k c _ _ _ _ _ ht).followed (hf r t)
    · intro h; cases h; exact GeoKept.unchanged _
  split
  · intro h; cases h
  · rename_i s1 h1
    split
    · intro h; cases h
    · rename_i s2 h2
      intro h3
      have g1 := step _ _ _ (fun r t => { t with bed_level_oy := r }) s s1
        (fun r t => ⟨sameConstants_refl _, rfl, rfl, rfl, rfl⟩) h1
      have g2 := step _ _ _ (fun r t => { t with bed_level_oz := r }) s1 s2
        (fun r t => ⟨sameConstants_refl _, rfl, rfl, rfl, rfl⟩) h2
      have g3 := step _ _ _ (fun r t => { t with bed_level_ox := r }) s2 s'
        (fun r t => ⟨sameConstants_refl _, rfl, rfl, rfl, rfl⟩) h3
      exact (g1.followed g2).followed g3

theorem ite_some_elim {α : Type} (p : Prop) [Decidable p] (a b : Option α) (r : α) (P : Prop)
    (h : (if p then a else b) = some r) (ha : a = some r → P) (hb : b = some r → P) : P := by
  by_cases hp : p
  · rw [if_pos hp] at h; exact ha h
  · rw [if_neg hp] at h; exact hb h

theorem adj_deltaradius_loop_fresh (k : Kinematics) (c : Probing) :
    ∀ (fuel : Nat) (adj_r : ℚ) (cnt : Int) (nr : ℚ) (s : Machine) (r : Int × ℚ × Machine),
      adj_deltaradius_loop k c fuel adj_r cnt nr s = some r → cacheFresh c r.2.2 := by
  intro fuel
  induction fuel with
  | zero => intro adj_r cnt nr s r h; cases h
  | succ fuel ih =>
    intro adj_r cnt nr s r h
    unfold adj_deltaradius_loop at h
    dsimp only at h
    generalize hp : probe_bed k c _ 0 0 = o at h
    cases o with
    | none => cases h
    | some p =>
      obtain ⟨v, s1⟩ := p
      dsimp only at h
      have g := probe_bed_geo k c _ _ _ _ _ hp
      have f1 : cacheFresh c { s1 with bed_level_c := v } :=
        cacheFresh_kept c _ _
          (g.followed ⟨sameConstants_refl _, rfl, rfl, rfl, rfl⟩) (cacheFresh_set c _)
      refine ite_some_elim _ _ _ _ _ h (fun h => ih _ _ _ _ _ h) (fun h => ?_)
      cases h
      exact f1

theorem adj_deltaradius_fresh (k : Kinematics) (c : Probing) (fuel : Nat) (s s' : Machine)
    (r : Int) (h : adj_deltaradius k c fuel s = some (r, s')) :
    (cacheFresh c s → cacheFresh c s') ∧ (r ≠ 0 → cacheFresh c s') := by
  unfold adj_deltaradius at h
  split at h
  · cases h
    exact ⟨id, fun h0 => absurd rfl h0⟩
  · dsimp only at h
    split at h
    · cases h
    · rename_i cnt nr s1 h1
      have f1 := adj_deltaradius_loop_fresh k c _ _ _ _ _ _ h1
      cases h
      have f2 : cacheFresh c
          (if cnt > 0 then
            { set_delta_constants c { s1 with delta_radius := nr } with
              bed_safe_z := c.AUTOCAL_PROBELIFT
                - (set_delta_constants c { s1 with delta_radius := nr }).z_probe_offset.Z }
          else s1) := by
        split
        · exact cacheFresh_kept c _ _ ⟨sameConstants_refl _, rfl, rfl, rfl, rfl⟩
            (cacheFresh_set c _)
        · exact f1
      exact ⟨fun _ => f2, fun _ => f2⟩

theorem adj_tower_radius_block_geo (k : Kinematics) (c : Probing) (l l' : TowerRadius)
    (s s' : Machine) (d : Bool) :
    (adj_tower_radius_1 k c l s = some (d, l', s') → GeoKept s s') ∧
    (adj_tower_radius_2 k c l s = some (d, l', s') → GeoKept s s') ∧
    (adj_tower_radius_3 k c l s = some (d, l', s') → GeoKept s s') := by
  refine ⟨?_, ?_, ?_⟩
  · intro h
    unfold adj_tower_radius_1 at h
    dsimp only at h
    split at h
    · cases h
    · rename_i s1 h1
      have g := probe_opposite_geo k c _ _ h1
      simp only [Option.some.injEq, Prod.mk.injEq] at h
      rw [← h.2.2]
      split
      · exact g.followed ⟨sameConstants_refl _, rfl, rfl, rfl, rfl⟩
      · exact g
  · intro h
    unfold adj_tower_radius_2 at h
    dsimp only at h
    split at h
    · cases h
    · rename_i s1 h1
      have g := probe_opposite_geo k c _ _ h1
      simp only [Option.some.injEq, Prod.mk.injEq] at h
      rw [← h.2.2]
      split
      · exact g.followed ⟨sameConstants_refl _, rfl, rfl, rfl, rfl⟩
      · exact g
  · intro h
    unfold adj_tower_radius_3 at h
    dsimp only at h
    split at h
    · cases h
    · rename_i s1 h1
      have g := probe_opposite_geo k c _ _ h1
      simp only [Option.some.injEq, Prod.mk.injEq] at h
      rw [← h.2.2]
      split
      · exact g.followed ⟨sameConstants_refl _, rfl, rfl, rfl, rfl⟩
      · exact g

theorem adj_tower_radius_blocks_geo (k : Kinematics) (c : Probing) (tower : Int)
    (l : TowerRadius) (s : Machine) (r : Bool × Bool × Bool × TowerRadius × Machine)
    (h : adj_tower_radius_blocks k c tower l s = some r) : GeoKept s r.2.2.2.2 := by
  unfold adj_tower_radius_blocks at h
  dsimp only at h
  split at h
  · cases h
  · rename_i a1 a2 a3 la sa h1
    have g1 : GeoKept s sa := by
      split at h1
      · split at h1
        · cases h1
        · rename_i d l1 s1 hb
          simp only [Option.some.injEq, Prod.mk.injEq] at h1
          rw [← h1.2.2.2.2]
          exact (adj_tower_radius_block_geo k c l l1 s s1 d).1 hb
      · simp only [Option.some.injEq, Prod.mk.injEq] at h1
        rw [← h1.2.2.2.2]
        exact GeoKept.unchanged _
    split at h
    · cases h
    · rename_i b1 b2 b3 lb sb h2
      have g2 : GeoKept sa sb := by
        split at h2
        · split at h2
          · cases h2
          · rename_i d l1 s1 hb
            simp only [Option.some.injEq, Prod.mk.injEq] at h2
            rw [← h2.2.2.2.2]
            exact (adj_tower_radius_block_geo k c la l1 sa s1 d).2.1 hb
        · simp only [Option.some.injEq, Prod.mk.injEq] at h2
          rw [← h2.2.2.2.2]
          exact GeoKept.unchanged _
      have g3 : GeoKept sb r.2.2.2.2 := by
        split at h
        · split at h
          · cases h
          · rename_i d l1 s1 hb
            cases h
            exact (adj_tower_radius_block_geo k c lb l1 sb s1 d).2.2 hb
        · cases h
          exact GeoKept.unchanged _
      exact (g1.followed g2).followed g3

theorem adj_tower_radius_loop_fresh (k : Kinematics) (c : Probing) (tower : Int) :
    ∀ (fuel : Nat) (l : TowerRadius) (s s' : Machine),
      adj_tower_radius_loop k c tower fuel l s = some s' → cacheFresh c s' := by
  intro fuel
  induction fuel with
  | zero => intro l s s' h; cases h
  | succ fuel ih =>
    intro l s s' h
    unfold adj_tower_radius_loop at h
    dsimp only at h
    split at h
    · cases h
    · rename_i t1 t2 t3 l1 s1 hb
      have g := adj_tower_radius_blocks_geo k c tower _ _ _ hb
      have f1 : cacheFresh c s1 := cacheFresh_kept c _ _ g (cacheFresh_set c _)
      split at h
      · exact ih _ _ _ h
      · cases h
        exact f1

theorem adj_tower_delta_loop_fresh (k : Kinematics) (c : Probing) (tower : Int) (i : Nat) :
    ∀ (fuel : Nat) (adj_val adj_mag : ℚ) (s s' : Machine),
      adj_tower_delta_loop k c tower i fuel adj_val adj_mag s = some s' → cacheFresh c s' := by
  intro fuel
  induction fuel with
  | zero => intro a b s s' h; cases h
  | succ fuel ih =>
    intro a b s s' h
    unfold adj_tower_delta_loop at h
    dsimp only at h
    generalize hp : probe_pair k c tower _ = o at h
    cases o with
    | none => cases h
    | some s1 =>
      dsimp only at h
      have g := probe_pair_geo k c tower _ _ hp
      have f1 : cacheFresh c s1 := cacheFresh_kept c _ _ g (cacheFresh_set c _)
      refine ite_some_elim _ _ _ _ _ h (fun h => ih _ _ _ _ h) (fun h => ?_)
      cases h
      exact f1

theorem adj_diagrod_length_loop_fresh (k : Kinematics) (c : Probing) :
    ∀ (fuel : Nat) (adj_val adj_mag : ℚ) (s s' : Machine),
      adj_diagrod_length_loop k c fuel adj_val adj_mag s = some s' → cacheFresh c s' := by
  intro fuel
  induction fuel with
  | zero => intro a b s s' h; cases h
  | succ fuel ih =>
    intro a b s s' h
    unfold adj_diagrod_length_loop at h
    dsimp only at h
    generalize hp : probe_rod k c _ = o at h
    cases o with
    | none => cases h
    | some s1 =>
      dsimp only at h
      have g := probe_rod_geo k c _ _ hp
      have f1 : cacheFresh c s1 := cacheFresh_kept c _ _ g (cacheFresh_set c _)
      refine ite_some_elim _ _ _ _ _ h (fun h => ih _ _ _ _ h) (fun h => ?_)
      cases h
      exact f1

theorem fresh_tower (c : Probing) (cmd : List Nat) (ch i : Nat) (s : Machine) (R : Prop)
    (h : cacheFresh c s ∨ (code_seen cmd ch = true ∨ R)) :
    cacheFresh c (set_tower_adj c cmd ch i s) ∨ R := by
  unfold set_tower_adj
  by_cases hs : code_seen cmd ch = true
  · rw [if_pos hs]; exact Or.inl (cacheFresh_set c _)
  · rw [if_neg hs]
    rcases h with h | h | h
    · exact Or.inl h
    · exact absurd h hs
    · exact Or.inr h

theorem fresh_geometry (c : Probing) (cmd : List Nat) (ch : Nat) (put : ℚ → Machine → Machine)
    (s : Machine) (R : Prop) (h : cacheFresh c s ∨ (code_seen cmd ch = true ∨ R)) :
    cacheFresh c (set_geometry c cmd ch put s) ∨ R := by
  unfold set_geometry
  by_cases hs : code_seen cmd ch = true
  · rw [if_pos hs]; exact Or.inl (cacheFresh_set c _)
  · rw [if_neg hs]
    rcases h with h | h | h
    · exact Or.inl h
    · exact absurd h hs
    · exact Or.inr h

theorem M666_geometry_fresh (c : Probing) (cmd : List Nat) (s : Machine)
    (h : cacheFresh c s ∨ geometry_letter cmd) : cacheFresh c (M666_geometry c cmd s) := by
  have h0 : cacheFresh c s ∨ (code_seen cmd 65 = true ∨ code_seen cmd 66 = true ∨
      code_seen cmd 67 = true ∨ code_seen cmd 73 = true ∨ code_seen cmd 74 = true ∨
      code_seen cmd 75 = true ∨ code_seen cmd 85 = true ∨ code_seen cmd 86 = true ∨
      code_seen cmd 87 = true ∨ code_seen cmd 82 = true ∨ code_seen cmd 68 = true ∨
      (code_seen cmd 72 = true ∨ False)) := by
    unfold geometry_letter at h
    tauto
  have a1 := fresh_tower c cmd 65 0 _ _ h0
  have a2 := fresh_tower c cmd 66 1 _ _ a1
  have a3 := fresh_tower c cmd 67 2 _ _ a2
  have a4 := fresh_tower c cmd 73 3 _ _ a3
  have a5 := fresh_tower c cmd 74 4 _ _ a4
  have a6 := fresh_tower c cmd 75 5 _ _ a5
  have a7 := fresh_geometry c cmd 85
    (fun v s => { s with diagrod_adj := { s.diagrod_adj with X := v } }) _ _ a6
  have a8 := fresh_geometry c cmd 86
    (fun v s => { s with diagrod_adj := { s.diagrod_adj with Y := v } }) _ _ a7
  have a9 := fresh_geometry c cmd 87
    (fun v s => { s with diagrod_adj := { s.diagrod_adj with Z := v } }) _ _ a8
  have a10 := fresh_geometry c cmd 82 (fun v s => { s with delta_radius := v }) _ _ a9
  have a11 := fresh_geometry c cmd 68 (fun v s => { s with delta_diagonal_rod := v }) _ _ a10
  have a12 := fresh_geometry c cmd 72
    (fun v s => { s with motion := { s.motion with
      max_pos := { s.motion.max_pos with Z := v } } }) _ _ a11
  rcases a12 with h | h
  · exact h
  · exact absurd h id

theorem M666_offsets_geo (c : Probing) (cmd : List Nat) (s : Machine) :
    GeoKept s (M666_offsets c cmd s) := by
  unfold M666_offsets
  dsimp only
  split
  · split <;> (split <;> (split <;> (split <;>
      exact ⟨sameConstants_refl _, rfl, rfl, rfl, rfl⟩)))
  · split <;> (split <;> (split <;> exact ⟨sameConstants_refl _, rfl, rfl, rfl, rfl⟩))

theorem M665_fresh (c : Probing) (cmd : List Nat) (s : Machine) :
    cacheFresh c (M665 c cmd s) := by
  unfold M665
  exact cacheFresh_set c _

theorem M666_fresh (c : Probing) (cmd : List Nat) (s : Machine)
    (h : cacheFresh c s ∨ geometry_letter cmd) : cacheFresh c (M666 c cmd s) :=
  cacheFresh_kept c _ _ (M666_offsets_geo c cmd _) (M666_geometry_fresh c cmd s h)

/-! ## Endstop adjustment under a linear probe -/

theorem prepare_move_defined (k : Kinematics) (m : Motion)
    (hmech : k.mechanism = Mechanism.DELTA) (hrate : m.delta_segments_per_second = 0)
    (hF : m.feedrate ≠ 0) (hmul : m.feedmultiply ≠ 0) :
    ∃ m', prepare_move k m = some m' := by
  have hne : k.mechanism ≠ Mechanism.CARTESIAN := by rw [hmech]; decide
  by_cases htiny : cartesian_mm k (clamped k m) < 1 / 1000000
  · exact ⟨_, (prepare_move_segmented k m hne).1 htiny⟩
  · have hsps : segments_per_second k m = 0 := by
      unfold segments_per_second
      rw [hmech]
      exact hrate
    have hn : float_to_int (segments_per_second k m *
        (6000 * cartesian_mm k (clamped k m) / m.feedrate / (m.feedmultiply : ℚ))) = some 0 := by
      rw [hsps, zero_mul, float_to_int_nonneg 0 (le_refl 0) (by simp)]
      simp
    exact ⟨_, (prepare_move_segmented k m hne).2 htiny 0 hF hmul hn (by decide)⟩

theorem probe_bed_approach_defined (k : Kinematics) (c : Probing) (s : Machine) (x y : ℚ)
    (hmech : k.mechanism = Mechanism.DELTA) (hrate : s.motion.delta_segments_per_second = 0)
    (hmul : s.motion.feedmultiply ≠ 0) (hF : c.AUTOCAL_TRAVELRATE * 60 ≠ 0) :
    ∃ s1, probe_bed_approach k c s x y = some s1 := by
  unfold probe_bed_approach
  dsimp only
  have step2 : ∀ m : Motion, Motion.Kept s.motion m →
      ∃ s1, (match prepare_move k
          { m with feedrate := c.AUTOCAL_TRAVELRATE * 60,
                   destination := { m.destination with
                     X := x - s.z_probe_offset.X, Y := y - s.z_probe_offset.Y,
                     Z := m.current_position.Z } } with
        | none => none
        | some m => some { s with motion := m }) = some s1 := by
    intro m hk
    obtain ⟨m', hm'⟩ := prepare_move_defined k
      { m with feedrate := c.AUTOCAL_TRAVELRATE * 60,
               destination := { m.destination with
                 X := x - s.z_probe_offset.X, Y := y - s.z_probe_offset.Y,
                 Z := m.current_position.Z } } hmech (hk.rate.trans hrate) hF
      (by show m.feedmultiply ≠ 0; rw [hk.feedmultiply]; exact hmul)
    rw [hm']
    exact ⟨_, rfl⟩
  by_cases hlow : s.motion.current_position.Z < c.AUTOCAL_PROBELIFT - s.z_probe_offset.Z
  · rw [if_pos hlow]
    obtain ⟨m1, hm1⟩ := prepare_move_defined k
      { s.motion with feedrate := c.AUTOCAL_TRAVELRATE * 60,
                      destination := { s.motion.destination with
                        X := s.motion.current_position.X, Y := s.motion.current_position.Y,
                        Z := s.motion.current_position.Z + c.AUTOCAL_PROBELIFT } }
      hmech hrate hF hmul
    rw [hm1]
    have hk := prepare_move_kept k _ m1 hm1
    exact step2 m1 ⟨hk.constants, hk.rate, hk.feedmultiply, hk.min_pos, hk.max_pos⟩
  · rw [if_neg hlow]
    exact step2 s.motion (Motion.Kept.rest _)

theorem probe_bed_defined (k : Kinematics) (c : Probing) (s : Machine) (x y : ℚ)
    (hmech : k.mechanism = Mechanism.DELTA) (hrate : s.motion.delta_segments_per_second = 0)
    (hmul : s.motion.feedmultiply ≠ 0) (hF : c.AUTOCAL_TRAVELRATE * 60 ≠ 0) :
    ∃ r s', probe_bed k c s x y = some (r, s') := by
  obtain ⟨s1, h1⟩ := probe_bed_approach_defined k c s x y hmech hrate hmul hF
  exact ⟨_, _, probe_bed_of_approach k c s s1 x y h1⟩

/-- What one pass of `adj_endstops` does when it returns: three probes from
states that carry the endstop offsets of the start of the pass, then the three
readings are stored and added to the offsets. -/
theorem adj_endstops_pass_returned (k : Kinematics) (c : Probing) (s s1 : Machine)
    (h : adj_endstops_pass k c s = some s1) :
    ∃ (ta tb tc ua ub uc : Machine) (x y z : ℚ),
      probe_bed k c ta 0 s.bed_radius = some (z, ua) ∧
      probe_bed k c tb (-SIN_60 * s.bed_radius) (-COS_60 * s.bed_radius) = some (x, ub) ∧
      probe_bed k c tc (SIN_60 * s.bed_radius) (-COS_60 * s.bed_radius) = some (y, uc) ∧
      ta.endstop_adj = s.endstop_adj ∧ tb.endstop_adj = s.endstop_adj ∧
      tc.endstop_adj = s.endstop_adj ∧
      s1.bed_level_x = x ∧ s1.bed_level_y = y ∧ s1.bed_level_z = z ∧
      s1.endstop_adj = ⟨s.endstop_adj.X + x, s.endstop_adj.Y + y, s.endstop_adj.Z + z⟩ ∧
      s1.bed_radius = s.bed_radius ∧ s1.ac_prec = s.ac_prec ∧
      s1.z_probe_offset = s.z_probe_offset ∧ Motion.Kept s.motion s1.motion := by
  unfold adj_endstops_pass at h
  generalize h1 : probe_bed k c s 0 s.bed_radius = o1 at h
  cases o1 with
  | none => cases h
  | some p1 =>
    obtain ⟨z, ua⟩ := p1
    dsimp only at h
    generalize h2 : probe_bed k c { ua with bed_level_z := z } _ _ = o2 at h
    cases o2 with
    | none => cases h
    | some p2 =>
      obtain ⟨x, ub⟩ := p2
      dsimp only at h
      generalize h3 : probe_bed k c { ub with bed_level_x := x } _ _ = o3 at h
      cases o3 with
      | none => cases h
      | some p3 =>
        obtain ⟨y, uc⟩ := p3
        dsimp only at h
        obtain ⟨_, -, -, k1⟩ := probe_bed_returned k c _ _ _ _ _ h1
        obtain ⟨_, -, -, k2⟩ := probe_bed_returned k c _ _ _ _ _ h2
        obtain ⟨_, -, -, k3⟩ := probe_bed_returned k c _ _ _ _ _ h3
        have e1 := k1.setup
        have e2 := k2.setup
        have e3 := k3.setup
        have l2 := k2.levels
        have l3 := k3.levels
        dsimp only at e2 e3 l2 l3
        have hr1 : ua.bed_radius = s.bed_radius := e1.2.2.1
        have hr2 : ub.bed_radius = s.bed_radius := e2.2.2.1.trans hr1
        have hr3 : uc.bed_radius = s.bed_radius := e3.2.2.1.trans hr2
        have ha1 : ua.endstop_adj = s.endstop_adj := e1.1
        have ha2 : ub.endstop_adj = s.endstop_adj := e2.1.trans ha1
        have ha3 : uc.endstop_adj = s.endstop_adj := e3.1.trans ha2
        have h2' : probe_bed k c { ua with bed_level_z := z } (-SIN_60 * s.bed_radius)
            (-COS_60 * s.bed_radius) = some (x, ub) := by
          rw [← hr1]; exact h2
        have h3' : probe_bed k c { ub with bed_level_x := x } (SIN_60 * s.bed_radius)
            (-COS_60 * s.bed_radius) = some (y, uc) := by
          rw [← hr2]; exact h3
        have m1 : Motion.Kept s.motion ua.motion := k1.1
        have m2 : Motion.Kept ua.motion ub.motion := k2.1
        have m3 : Motion.Kept ub.motion uc.motion := k3.1
        simp only [Option.some.injEq] at h
        refine ⟨s, { ua with bed_level_z := z }, { ub with bed_level_x := x }, ua, ub, uc,
          x, y, z, h1, h2', h3', rfl, ha1, ha2, ?_⟩
        rw [← h]
        refine ⟨l3.2.1, rfl, l3.2.2.2.1.trans l2.2.2.2.1, ?_, hr3, ?_, ?_, ?_⟩
        · show (⟨uc.endstop_adj.X + uc.bed_level_x, uc.endstop_adj.Y + y,
            uc.endstop_adj.Z + uc.bed_level_z⟩ : XYZ) = _
          rw [ha3, l3.2.1, l3.2.2.2.1, l2.2.2.2.1]
        · exact e3.2.2.2.1.trans (e2.2.2.2.1.trans e1.2.2.2.1)
        · exact e3.2.1.trans (e2.2.1.trans e1.2.1)
        · exact ((m1.next m2).next m3).next
            ⟨⟨rfl, rfl, rfl, rfl, rfl, rfl, rfl, rfl, rfl⟩, rfl, rfl, rfl, rfl⟩

theorem adj_endstops_done_iff (s : Machine) :
    adj_endstops_done s = true ↔ withinPrecision s := by
  unfold adj_endstops_done withinPrecision
  simp only [Bool.and_eq_true, decide_eq_true_eq, ge_iff_le]
  tauto

/-- Under a linear probe each pass reads, for every tower, the deviation minus
the offset accumulated so far, and adds the reading to the offset. -/
theorem adj_endstops_pass_linear (k : Kinematics) (c : Probing) (s0 s s1 : Machine) (dev : XYZ)
    (hlin : LinearProbe k c s0 dev) (hr : s.bed_radius = s0.bed_radius)
    (h : adj_endstops_pass k c s = some s1) :
    s1.bed_level_x = dev.X - (s.endstop_adj.X - s0.endstop_adj.X) ∧
    s1.bed_level_y = dev.Y - (s.endstop_adj.Y - s0.endstop_adj.Y) ∧
    s1.bed_level_z = dev.Z - (s.endstop_adj.Z - s0.endstop_adj.Z) ∧
    s1.endstop_adj = ⟨s0.endstop_adj.X + dev.X, s0.endstop_adj.Y + dev.Y,
      s0.endstop_adj.Z + dev.Z⟩ ∧
    s1.bed_radius = s0.bed_radius ∧ s1.ac_prec = s.ac_prec ∧
    s1.z_probe_offset = s.z_probe_offset ∧ Motion.Kept s.motion s1.motion := by
  obtain ⟨ta, tb, tc, ua, ub, uc, x, y, z, h1, h2, h3, a1, a2, a3, bx, by', bz, hadj, hrad, hprec,
    hoff, hm⟩ := adj_endstops_pass_returned k c s s1 h
  rw [hr] at h1 h2 h3
  have ex := (hlin tb ub x).1 h2
  have ey := (hlin tc uc y).2.1 h3
  have ez := (hlin ta ua z).2.2 h1
  rw [a2] at ex
  rw [a3] at ey
  rw [a1] at ez
  refine ⟨bx.trans ex, by'.trans ey, bz.trans ez, ?_, hrad.trans hr, hprec, hoff, hm⟩
  rw [hadj, ex, ey, ez]
  congr 1 <;> ring

/-- Under a linear probe and a precision that is not negative, `adj_endstops`
leaves its loop during the second pass at the latest, provided the moves of the
passes it makes are defined; on exit the readings are within the precision and
each offset has grown by the deviation of its tower. -/
theorem adj_endstops_loop_linear (k : Kinematics) (c : Probing) (s s1 : Machine) (dev : XYZ)
    (hlin : LinearProbe k c s dev) (hprec : 0 ≤ s.ac_prec)
    (h1 : adj_endstops_pass k c s = some s1)
    (h2 : (adj_endstops_pass k c s1).isSome = true) (fuel : Nat) :
    ∃ s', adj_endstops_loop k c (fuel + 2) s = some s' ∧ withinPrecision s' ∧
      s'.endstop_adj = ⟨s.endstop_adj.X + dev.X, s.endstop_adj.Y + dev.Y,
        s.endstop_adj.Z + dev.Z⟩ ∧
      s'.ac_prec = s.ac_prec ∧ s'.z_probe_offset = s.z_probe_offset ∧
      Motion.Kept s.motion s'.motion ∧
      (s' = s1 ∨ adj_endstops_pass k c s1 = some s') := by
  obtain ⟨bx, by', bz, hadj, hrad, hp, hoff, hm⟩ :=
    adj_endstops_pass_linear k c s s s1 dev hlin rfl h1
  by_cases hd : adj_endstops_done s1 = true
  · refine ⟨s1, ?_, (adj_endstops_done_iff s1).mp hd, hadj, hp, hoff, hm, Or.inl rfl⟩
    show (match adj_endstops_pass k c s with
      | none => none
      | some t => if adj_endstops_done t then some t else adj_endstops_loop k c (fuel + 1) t) = _
    rw [h1]
    dsimp only
    rw [if_pos hd]
  · obtain ⟨s2, hs2⟩ := Option.isSome_iff_exists.mp h2
    obtain ⟨cx, cy, cz, hadj2, -, hp2, hoff2, hm2⟩ :=
      adj_endstops_pass_linear k c s s1 s2 dev hlin hrad hs2
    have zx : s2.bed_level_x = 0 := by rw [cx, hadj]; ring
    have zy : s2.bed_level_y = 0 := by rw [cy, hadj]; ring
    have zz : s2.bed_level_z = 0 := by rw [cz, hadj]; ring
    have hp2' : 0 ≤ s2.ac_prec := by rw [hp2, hp]; exact hprec
    have hw : withinPrecision s2 := by
      unfold withinPrecision
      rw [zx, zy, zz]
      exact ⟨⟨by linarith, hp2'⟩, ⟨by linarith, hp2'⟩, ⟨by linarith, hp2'⟩⟩
    refine ⟨s2, ?_, hw, hadj2, hp2.trans hp, hoff2.trans hoff, hm.next hm2, Or.inr hs2⟩
    show (match adj_endstops_pass k c s with
      | none => none
      | some t => if adj_endstops_done t then some t else adj_endstops_loop k c (fuel + 1) t) = _
    rw [h1]
    dsimp only
    rw [if_neg hd]
    show (match adj_endstops_pass k c s1 with
      | none => none
      | some t => if adj_endstops_done t then some t else adj_endstops_loop k c fuel t) = _
    rw [hs2]
    dsimp only
    rw [if_pos ((adj_endstops_done_iff s2).mpr hw)]

theorem adj_endstops_pass_defined (k : Kinematics) (c : Probing) (s : Machine)
    (hmech : k.mechanism = Mechanism.DELTA) (hrate : s.motion.delta_segments_per_second = 0)
    (hmul : s.motion.feedmultiply ≠ 0) (hF : c.AUTOCAL_TRAVELRATE * 60 ≠ 0) :
    ∃ s1, adj_endstops_pass k c s = some s1 := by
  unfold adj_endstops_pass
  obtain ⟨z, ua, h1⟩ := probe_bed_defined k c s 0 s.bed_radius hmech hrate hmul hF
  rw [h1]
  dsimp only
  obtain ⟨_, -, -, k1⟩ := probe_bed_returned k c _ _ _ _ _ h1
  have m1 : Motion.Kept s.motion ua.motion := k1.1
  obtain ⟨x, ub, h2⟩ := probe_bed_defined k c { ua with bed_level_z := z }
    (-SIN_60 * ua.bed_radius) (-COS_60 * ua.bed_radius) hmech (m1.rate.trans hrate)
    (by show ua.motion.feedmultiply ≠ 0; rw [m1.feedmultiply]; exact hmul) hF
  rw [h2]
  dsimp only
  obtain ⟨_, -, -, k2⟩ := probe_bed_returned k c _ _ _ _ _ h2
  have m2 : Motion.Kept ua.motion ub.motion := k2.1
  obtain ⟨y, uc, h3⟩ := probe_bed_defined k c { ub with bed_level_x := x }
    (SIN_60 * ub.bed_radius) (-COS_60 * ub.bed_radius) hmech
    (m2.rate.trans (m1.rate.trans hrate))
    (by show ub.motion.feedmultiply ≠ 0; rw [m2.feedmultiply, m1.feedmultiply]; exact hmul) hF
  rw [h3]
  exact ⟨_, rfl⟩

theorem refProbing_travel (s : Machine) :
    refProbing.st_travel s = s.motion.current_position.Z -
      (fun x _ adj off => refHeight (x + off.X) adj - off.Z)
        s.motion.current_position.X s.motion.current_position.Y s.endstop_adj
        s.z_probe_offset := rfl

/-- On the synthetic bed a probe at tool point `(x, y)` returns the bed height
there for the current endstop offsets. -/
theorem refProbing_probe_bed (k : Kinematics) (s s' : Machine) (x y r : ℚ)
    (h : probe_bed k refProbing s x y = some (r, s')) : r = refHeight x s.endstop_adj := by
  obtain ⟨s1, ha, hr, -⟩ := probe_bed_returned k refProbing s s' x y r h
  obtain ⟨k1, -, -⟩ := probe_bed_approach_kept k refProbing s s1 x y ha
  rw [hr, probe_pt_steady k refProbing (fun x _ adj off => refHeight (x + off.X) adj - off.Z)
    refProbing_travel rfl]
  rw [k1.setup.1, k1.setup.2.1]
  ring_nf

theorem SIN_60_pos : 0 < SIN_60 := by unfold SIN_60; norm_num

theorem refProbing_linear (k : Kinematics) (s0 : Machine) (hr : 0 < s0.bed_radius)
    (h0 : s0.endstop_adj = ⟨0, 0, 0⟩) :
    LinearProbe k refProbing s0 ⟨1 / 10, -(1 / 10), 0⟩ := by
  intro s s' r
  have hpos : 0 < SIN_60 * s0.bed_radius := mul_pos SIN_60_pos hr
  refine ⟨fun h => ?_, fun h => ?_, fun h => ?_⟩
  · rw [refProbing_probe_bed k s s' _ _ r h, h0]
    unfold refHeight
    rw [if_neg (by linarith), if_pos (by linarith)]
    ring
  · rw [refProbing_probe_bed k s s' _ _ r h, h0]
    unfold refHeight
    rw [if_neg (by linarith), if_neg (by linarith)]
    ring
  · rw [refProbing_probe_bed k s s' _ _ r h, h0]
    unfold refHeight
    rw [if_pos rfl]
    ring

/-- The endstop adjustment of a homed reference machine with precision `p`, on
the synthetic bed: the loop is left within two passes with offsets
(0.1, -0.1, 0). -/
theorem adj_endstops_loop_ref (p : ℚ) (hp : 0 ≤ p) (fuel : Nat) :
    ∃ s1 s', adj_endstops_pass refKinematics refProbing { refMachine with ac_prec := p } = some s1 ∧
      (adj_endstops_pass refKinematics refProbing s1).isSome = true ∧
      adj_endstops_loop refKinematics refProbing (fuel + 2) { refMachine with ac_prec := p }
        = some s' ∧ withinPrecision s' ∧
      s'.endstop_adj = ⟨1 / 10, -(1 / 10), 0⟩ ∧ s'.motion.max_pos.Z = 300 := by
  have hF : refProbing.AUTOCAL_TRAVELRATE * 60 ≠ 0 := by
    show (100 : ℚ) * 60 ≠ 0
    norm_num
  obtain ⟨s1, h1⟩ := adj_endstops_pass_defined refKinematics refProbing
    { refMachine with ac_prec := p } rfl rfl (by show (100 : Int) ≠ 0; decide) hF
  have hlin := refProbing_linear refKinematics { refMachine with ac_prec := p }
    (by show (0 : ℚ) < 50; norm_num) rfl
  obtain ⟨-, -, -, -, -, -, -, hm⟩ := adj_endstops_pass_linear refKinematics refProbing
    { refMachine with ac_prec := p } { refMachine with ac_prec := p } s1 _ hlin rfl h1
  obtain ⟨s2, h2⟩ := adj_endstops_pass_defined refKinematics refProbing s1 rfl
    (hm.rate.trans rfl) (by rw [hm.feedmultiply]; show (100 : Int) ≠ 0; decide) hF
  have h2' : (adj_endstops_pass refKinematics refProbing s1).isSome = true := by rw [h2]; rfl
  obtain ⟨s', hl, hw, hadj, -, -, hm', -⟩ := adj_endstops_loop_linear refKinematics refProbing
    { refMachine with ac_prec := p } s1 _ hlin hp h1 h2' fuel
  refine ⟨s1, s', h1, h2', hl, hw, ?_, ?_⟩
  · rw [hadj]
    show (⟨0 + 1 / 10, 0 + -(1 / 10), 0 + 0⟩ : XYZ) = _
    norm_num
  · rw [hm'.max_pos]
    rfl

/-! ## Endstop normalization and convergence, caches, entry points, sampling -/

theorem adj_endstops_eq (k : Kinematics) (c : Probing) (fuel : Nat) (s s1 : Machine)
    (h : adj_endstops_loop k c fuel s = some s1) :
    adj_endstops k c fuel s = some (adj_endstops_normalize c s1) := by
  unfold adj_endstops
  rw [h]

/-- C18: with a probe that obeys the linear model for tower deviations `dev`,
and a precision that is not negative (0.03 in particular), `adj_endstops` leaves
its loop after at most two passes, hence within 10, provided the moves of those
passes are defined; on exit the three readings are within `±ac_prec`. -/
theorem C18_endstop_adjustment_converges (k : Kinematics) (c : Probing) (s s1 : Machine)
    (dev : XYZ) (hlin : LinearProbe k c s dev) (hprec : 0 ≤ s.ac_prec)
    (h1 : adj_endstops_pass k c s = some s1)
    (h2 : (adj_endstops_pass k c s1).isSome = true) :
    ∃ s', adj_endstops_loop k c 2 s = some s' ∧ adj_endstops_loop k c 10 s = some s' ∧
      s'.ac_prec = s.ac_prec ∧
      (-s'.ac_prec ≤ s'.bed_level_x ∧ s'.bed_level_x ≤ s'.ac_prec) ∧
      (-s'.ac_prec ≤ s'.bed_level_y ∧ s'.bed_level_y ≤ s'.ac_prec) ∧
      (-s'.ac_prec ≤ s'.bed_level_z ∧ s'.bed_level_z ≤ s'.ac_prec) := by
  obtain ⟨s', hl2, hw, -, hp, -, -, hwhich⟩ :=
    adj_endstops_loop_linear k c s s1 dev hlin hprec h1 h2 0
  obtain ⟨s'', hl10, -, -, -, -, -, hwhich'⟩ :=
    adj_endstops_loop_linear k c s s1 dev hlin hprec h1 h2 8
  have hsame : s'' = s' := by
    by_cases hd : adj_endstops_done s1 = true
    · have e2 : adj_endstops_loop k c 2 s = some s1 := by
        show (match adj_endstops_pass k c s with
          | none => none
          | some t => if adj_endstops_done t then some t else adj_endstops_loop k c 1 t) = _
        rw [h1]; dsimp only; rw [if_pos hd]
      have e10 : adj_endstops_loop k c 10 s = some s1 := by
        show (match adj_endstops_pass k c s with
          | none => none
          | some t => if adj_endstops_done t then some t else adj_endstops_loop k c 9 t) = _
        rw [h1]; dsimp only; rw [if_pos hd]
      rw [e2] at hl2
      rw [e10] at hl10
      simp only [Option.some.injEq] at hl2 hl10
      rw [← hl2, ← hl10]
    · have n1 : s' ≠ s1 := fun e => hd ((adj_endstops_done_iff s1).mpr (e ▸ hw))
      have hd'' : withinPrecision s'' := by
        obtain ⟨t, ht, hwt, -⟩ := adj_endstops_loop_linear k c s s1 dev hlin hprec h1 h2 8
        rw [hl10] at ht
        simp only [Option.some.injEq] at ht
        rw [ht]; exact hwt
      have n2 : s'' ≠ s1 := fun e => hd ((adj_endstops_done_iff s1).mpr (e ▸ hd''))
      rcases hwhich with e | e
      · exact absurd e n1
      · rcases hwhich' with e' | e'
        · exact absurd e' n2
        · rw [e] at e'
          simp only [Option.some.injEq] at e'
          exact e'.symm
  rw [hsame] at hl10
  exact ⟨s', hl2, hl10, hp, hw.1, hw.2.1, hw.2.2⟩

/-- Witness of C18: the reference machine, precision 0.03, over the synthetic
bed with tower deviations (+0.1, -0.1, 0.0). -/
theorem C18_witness :
    LinearProbe refKinematics refProbing refMachine ⟨1 / 10, -(1 / 10), 0⟩ ∧
    refMachine.ac_prec = 3 / 100 ∧
    ∃ s', adj_endstops_loop refKinematics refProbing 10 refMachine = some s' ∧
      (-(3 / 100) ≤ s'.bed_level_x ∧ s'.bed_level_x ≤ 3 / 100) ∧
      (-(3 / 100) ≤ s'.bed_level_y ∧ s'.bed_level_y ≤ 3 / 100) ∧
      (-(3 / 100) ≤ s'.bed_level_z ∧ s'.bed_level_z ≤ 3 / 100) := by
  have hlin := refProbing_linear refKinematics refMachine (by show (0 : ℚ) < 50; norm_num) rfl
  refine ⟨hlin, rfl, ?_⟩
  obtain ⟨s1, -, h1, h2, -⟩ := adj_endstops_loop_ref (3 / 100) (by norm_num) 0
  obtain ⟨s', -, hl, hp, hx, hy, hz⟩ :=
    C18_endstop_adjustment_converges refKinematics refProbing refMachine s1 _ hlin
      (by show (0 : ℚ) ≤ 3 / 100; norm_num) h1 h2
  have hp' : s'.ac_prec = 3 / 100 := hp
  rw [hp'] at hx hy hz
  exact ⟨s', hl, hx, hy, hz⟩

/-- On the synthetic bed, with unsegmented moves, the four probes of
`adj_diagrod_length` are defined and read the bed heights of their points. -/
theorem probe_rod_ref (s : Machine) (hrate : s.motion.delta_segments_per_second = 0)
    (hmul : s.motion.feedmultiply ≠ 0) :
    ∃ s', probe_rod refKinematics refProbing s = some s' ∧
      s'.bed_level_oy = refHeight (-SIN_60 * s.bed_radius) s.endstop_adj ∧
      s'.bed_level_oz = refHeight 0 s.endstop_adj ∧
      s'.bed_level_ox = refHeight (SIN_60 * s.bed_radius) s.endstop_adj ∧
      s'.bed_level_c = refHeight 0 s.endstop_adj := by
  have hF : refProbing.AUTOCAL_TRAVELRATE * 60 ≠ 0 := by
    show (100 : ℚ) * 60 ≠ 0
    norm_num
  unfold probe_rod
  obtain ⟨oy, u1, h1⟩ := probe_bed_defined refKinematics refProbing s
    (-SIN_60 * s.bed_radius) (COS_60 * s.bed_radius) rfl hrate hmul hF
  rw [h1]
  dsimp only
  obtain ⟨_, -, -, k1⟩ := probe_bed_returned refKinematics refProbing _ _ _ _ _ h1
  have m1 : Motion.Kept s.motion u1.motion := k1.1
  have r1 := refProbing_probe_bed refKinematics _ _ _ _ _ h1
  obtain ⟨oz, u2, h2⟩ := probe_bed_defined refKinematics refProbing { u1 with bed_level_oy := oy }
    0 (-u1.bed_radius) rfl (m1.rate.trans hrate)
    (by show u1.motion.feedmultiply ≠ 0; rw [m1.feedmultiply]; exact hmul) hF
  rw [h2]
  dsimp only
  obtain ⟨_, -, -, k2⟩ := probe_bed_returned refKinematics refProbing _ _ _ _ _ h2
  have m2 : Motion.Kept u1.motion u2.motion := k2.1
  have r2 := refProbing_probe_bed refKinematics _ _ _ _ _ h2
  obtain ⟨ox, u3, h3⟩ := probe_bed_defined refKinematics refProbing { u2 with bed_level_oz := oz }
    (SIN_60 * u2.bed_radius) (COS_60 * u2.bed_radius) rfl (m2.rate.trans (m1.rate.trans hrate))
    (by show u2.motion.feedmultiply ≠ 0; rw [m2.feedmultiply, m1.feedmultiply]; exact hmul) hF
  rw [h3]
  dsimp only
  obtain ⟨_, -, -, k3⟩ := probe_bed_returned refKinematics refProbing _ _ _ _ _ h3
  have m3 : Motion.Kept u2.motion u3.motion := k3.1
  have r3 := refProbing_probe_bed refKinematics _ _ _ _ _ h3
  obtain ⟨cc, u4, h4⟩ := probe_bed_defined refKinematics refProbing { u3 with bed_level_ox := ox }
    0 0 rfl (m3.rate.trans (m2.rate.trans (m1.rate.trans hrate)))
    (by show u3.motion.feedmultiply ≠ 0
        rw [m3.feedmultiply, m2.feedmultiply, m1.feedmultiply]; exact hmul) hF
  rw [h4]
  dsimp only
  obtain ⟨_, -, -, k4⟩ := probe_bed_returned refKinematics refProbing _ _ _ _ _ h4
  have r4 := refProbing_probe_bed refKinematics _ _ _ _ _ h4
  have e1 := k1.setup
  have e2 := k2.setup
  have e3 := k3.setup
  have l2 := k2.levels
  have l3 := k3.levels
  have l4 := k4.levels
  dsimp only at e2 e3 l2 l3 l4 r2 r3 r4
  refine ⟨_, rfl, ?_, ?_, ?_, ?_⟩
  · show u4.bed_level_oy = _
    rw [l4.2.2.2.2.2.1, l3.2.2.2.2.2.1, l2.2.2.2.2.2.1, r1]
  · show u4.bed_level_oz = _
    rw [l4.2.2.2.2.2.2, l3.2.2.2.2.2.2, r2, e1.1]
  · show u4.bed_level_ox = _
    rw [l4.2.2.2.2.1, r3, e2.1, e1.1, e2.2.2.1, e1.2.2.1]
  · show cc = _
    rw [r4, e3.1, e2.1, e1.1]

theorem refHeight_left (r : ℚ) (hr : 0 < r) (a : XYZ) :
    refHeight (-SIN_60 * r) a = 1 / 10 - a.X := by
  have hpos : 0 < SIN_60 * r := mul_pos SIN_60_pos hr
  unfold refHeight
  rw [if_neg (by intro h; linarith), if_pos (by linarith)]

theorem refHeight_right (r : ℚ) (hr : 0 < r) (a : XYZ) :
    refHeight (SIN_60 * r) a = -(1 / 10) - a.Y := by
  have hpos : 0 < SIN_60 * r := mul_pos SIN_60_pos hr
  unfold refHeight
  rw [if_neg (by intro h; linarith), if_neg (by linarith)]

theorem refHeight_centre (a : XYZ) : refHeight 0 a = 0 - a.Z := by
  unfold refHeight
  rw [if_pos rfl]

/-- The state in which the reference run of `adj_diagrod_length` probes. -/
theorem adj_diagrod_length_ref_probes :
    ∃ s1, probe_rod refKinematics refProbing
        (set_delta_constants refProbing
          { refMachine with delta_diagonal_rod := refMachine.delta_diagonal_rod + 0 }) = some s1 ∧
      s1.bed_level_oy = 1 / 10 ∧ s1.bed_level_oz = 0 ∧ s1.bed_level_ox = -(1 / 10) ∧
      s1.bed_level_c = 0 ∧ s1.delta_diagonal_rod = refMachine.delta_diagonal_rod + 0 := by
  obtain ⟨s1, hp, hoy, hoz, hox, hc⟩ := probe_rod_ref
    (set_delta_constants refProbing
      { refMachine with delta_diagonal_rod := refMachine.delta_diagonal_rod + 0 }) rfl
    (by show (100 : Int) ≠ 0; decide)
  have hR : (set_delta_constants refProbing
      { refMachine with delta_diagonal_rod := refMachine.delta_diagonal_rod + 0 }).bed_radius
      = 50 := rfl
  have hA : (set_delta_constants refProbing
      { refMachine with delta_diagonal_rod := refMachine.delta_diagonal_rod + 0 }).endstop_adj
      = ⟨0, 0, 0⟩ := rfl
  rw [hR, hA] at hoy hox
  rw [hA] at hoz hc
  refine ⟨s1, hp, ?_, ?_, ?_, ?_, (probe_rod_geo refKinematics refProbing _ _ hp).delta_diagonal_rod⟩
  · rw [hoy, refHeight_left 50 (by norm_num)]; norm_num
  · rw [hoz, refHeight_centre]; norm_num
  · rw [hox, refHeight_right 50 (by norm_num)]; norm_num
  · rw [hc, refHeight_centre]; norm_num

theorem adj_diagrod_next_ref :
    adj_diagrod_next 0 (2 / 10) 0 (-(1 / 10)) (1 / 10) 0 = (0, 2 / 10) := by
  unfold adj_diagrod_next
  norm_num

theorem adj_diagrod_length_loop_succ (k : Kinematics) (c : Probing) (fuel : Nat) (a m : ℚ)
    (s : Machine) :
    adj_diagrod_length_loop k c (fuel + 1) a m s
      = (match probe_rod k c
        (set_delta_constants c { s with delta_diagonal_rod := s.delta_diagonal_rod + a }) with
      | none => none
      | some s =>
        if (adj_diagrod_next a m s.bed_level_c s.bed_level_ox s.bed_level_oy
            s.bed_level_oz).1 ≠ 0 then
          adj_diagrod_length_loop k c fuel
            (adj_diagrod_next a m s.bed_level_c s.bed_level_ox s.bed_level_oy
              s.bed_level_oz).1
            (adj_diagrod_next a m s.bed_level_c s.bed_level_ox s.bed_level_oy
              s.bed_level_oz).2 s
        else some s) := rfl

theorem adj_diagrod_length_one_pass (k : Kinematics) (c : Probing) (fuel : Nat) (a m : ℚ)
    (s s1 : Machine)
    (hp : probe_rod k c
      (set_delta_constants c { s with delta_diagonal_rod := s.delta_diagonal_rod + a }) = some s1)
    (hnext : (adj_diagrod_next a m s1.bed_level_c s1.bed_level_ox s1.bed_level_oy
      s1.bed_level_oz).1 = 0) :
    adj_diagrod_length_loop k c (fuel + 1) a m s = some s1 := by
  rw [adj_diagrod_length_loop_succ, hp]
  dsimp only
  rw [if_neg (not_not.mpr hnext)]

theorem adj_diagrod_length_of_loop (k : Kinematics) (c : Probing) (fuel : Nat) (s s1 : Machine)
    (h : adj_diagrod_length_loop k c fuel 0 (2 / 10) s = some s1) :
    adj_diagrod_length k c fuel s = some (s1.delta_diagonal_rod - s.delta_diagonal_rod, s1) := by
  unfold adj_diagrod_length
  dsimp only
  rw [h]

/-- A run of `adj_diagrod_length` on the reference machine over the synthetic
bed: the centre reading equals the mean of the three outer readings, so the
loop makes one pass and the rod length is unchanged. -/
theorem adj_diagrod_length_ref :
    ∃ r s', adj_diagrod_length refKinematics refProbing 1 refMachine = some (r, s') ∧ r = 0 := by
  obtain ⟨s1, hp, voy, voz, vox, vc, hg⟩ := adj_diagrod_length_ref_probes
  have hnext : (adj_diagrod_next 0 (2 / 10) s1.bed_level_c s1.bed_level_ox s1.bed_level_oy
      s1.bed_level_oz).1 = 0 := by
    rw [vox, voy, voz, vc, adj_diagrod_next_ref]
  refine ⟨_, s1, adj_diagrod_length_of_loop refKinematics refProbing 1 refMachine s1
    (adj_diagrod_length_one_pass refKinematics refProbing 0 0 (2 / 10) refMachine s1 hp hnext), ?_⟩
  rw [hg]
  ring

theorem adj_tower_radius_fresh (k : Kinematics) (c : Probing) (tower : Int) (fuel : Nat)
    (s s' : Machine) (h : adj_tower_radius k c tower fuel s = some s') : cacheFresh c s' := by
  unfold adj_tower_radius at h
  exact adj_tower_radius_loop_fresh k c tower fuel _ _ s' h

theorem adj_tower_delta_fresh (k : Kinematics) (c : Probing) (tower : Int) (fuel : Nat)
    (s s' : Machine) (h : adj_tower_delta k c tower fuel s = some s') : cacheFresh c s' := by
  unfold adj_tower_delta at h
  split at h
  · exact adj_tower_delta_loop_fresh k c tower _ fuel _ _ s s' h
  · cases h

theorem adj_diagrod_length_fresh (k : Kinematics) (c : Probing) (fuel : Nat) (s s' : Machine)
    (r : ℚ) (h : adj_diagrod_length k c fuel s = some (r, s')) : cacheFresh c s' := by
  unfold adj_diagrod_length at h
  dsimp only at h
  rcases hl : adj_diagrod_length_loop k c fuel 0 (2 / 10) s with _ | s1
  · rw [hl] at h; cases h
  · rw [hl] at h
    simp only [Option.some.injEq, Prod.mk.injEq] at h
    rw [← h.2]
    exact adj_diagrod_length_loop_fresh k c fuel _ _ s s1 hl

/-- C15: the cached squared rod lengths and tower positions equal the
`set_delta_constants` formulas of the values in force after every `M665`; after
every `M666` that carries a geometry letter, or that starts from fresh caches;
after every `adj_deltaradius` that returns, when it changed the radius (result
not 0) or started from fresh caches; and after every `adj_tower_radius`,
`adj_tower_delta` and `adj_diagrod_length` that returns. -/
theorem C15_geometry_caches_follow_every_change (k : Kinematics) (c : Probing) :
    (∀ cmd s, cacheFresh c (M665 c cmd s)) ∧
    (∀ cmd s, cacheFresh c s ∨ geometry_letter cmd → cacheFresh c (M666 c cmd s)) ∧
    (∀ fuel s r s', adj_deltaradius k c fuel s = some (r, s') →
      cacheFresh c s ∨ r ≠ 0 → cacheFresh c s') ∧
    (∀ tower fuel s s', adj_tower_radius k c tower fuel s = some s' → cacheFresh c s') ∧
    (∀ tower fuel s s', adj_tower_delta k c tower fuel s = some s' → cacheFresh c s') ∧
    (∀ fuel s r s', adj_diagrod_length k c fuel s = some (r, s') → cacheFresh c s') := by
  refine ⟨M665_fresh c, M666_fresh c, ?_, ?_, ?_, ?_⟩
  · intro fuel s r s' h hor
    obtain ⟨h1, h2⟩ := adj_deltaradius_fresh k c fuel s s' r h
    rcases hor with hf | hr
    · exact h1 hf
    · exact h2 hr
  · intro tower fuel s s' h
    exact adj_tower_radius_fresh k c tower fuel s s' h
  · intro tower fuel s s' h
    exact adj_tower_delta_fresh k c tower fuel s s' h
  · intro fuel s r s' h
    exact adj_diagrod_length_fresh k c fuel s s' r h

/-- Witness of C15: `M665 L250` followed by `M666 R180` on the reference
machine leaves fresh caches, and so does a run of `adj_diagrod_length` over the
synthetic bed, which returns after one pass. -/
theorem C15_witness :
    geometry_letter cmdM666 ∧
    cacheFresh refProbing (M666 refProbing cmdM666 (M665 refProbing cmdM665 refMachine)) ∧
    ∃ r s', adj_diagrod_length refKinematics refProbing 1 refMachine = some (r, s') ∧
      cacheFresh refProbing s' := by
  have hC := C15_geometry_caches_follow_every_change refKinematics refProbing
  obtain ⟨r, s', hrun, -⟩ := adj_diagrod_length_ref
  exact ⟨by unfold geometry_letter; decide,
    hC.2.1 cmdM666 (M665 refProbing cmdM665 refMachine) (Or.inl (hC.1 cmdM665 refMachine)),
    r, s', hrun, hC.2.2.2.2.2 1 refMachine r s' hrun⟩

/-- C16: when the X or the Y position is not known, each of `G30`, `G29` and
`M48` only writes the position-unknown message to the display and to the serial
line: no probe is run, no planner call is made, and the motion globals (tool
position, destination, cached constants), the geometry values, the endstop and
probe offsets are unchanged, whatever the rest of the command would do. -/
theorem C16_unhomed_entry_points_abort (rest : Machine → Machine) (s : Machine)
    (h : ¬ (s.axis_known_position.X = true ∧ s.axis_known_position.Y = true)) :
    G30 rest s = { s with msgs := s.msgs ++ [Msg.lcd_POSITION_UNKNOWN, Msg.echo_POSITION_UNKNOWN] } ∧
    G29 rest s = { s with msgs := s.msgs ++ [Msg.lcd_POSITION_UNKNOWN, Msg.echo_POSITION_UNKNOWN] } ∧
    M48 rest s = { s with msgs := s.msgs ++ [Msg.lcd_POSITION_UNKNOWN, Msg.echo_POSITION_UNKNOWN] } ∧
    (G30 rest s).probed = s.probed ∧ (G30 rest s).position = s.position ∧
    (G30 rest s).motion = s.motion ∧ (G30 rest s).endstop_adj = s.endstop_adj ∧
    (G30 rest s).delta_radius = s.delta_radius ∧
    (G30 rest s).delta_diagonal_rod = s.delta_diagonal_rod ∧
    (G30 rest s).diagrod_adj = s.diagrod_adj ∧ (G30 rest s).tower_adj = s.tower_adj ∧
    (G30 rest s).z_probe_offset = s.z_probe_offset := by
  have e : homed_guard rest s =
      { s with msgs := s.msgs ++ [Msg.lcd_POSITION_UNKNOWN, Msg.echo_POSITION_UNKNOWN] } := by
    unfold homed_guard
    rw [if_pos h]
  have e30 : G30 rest s = _ := e
  refine ⟨e, e, e, ?_, ?_, ?_, ?_, ?_, ?_, ?_, ?_, ?_⟩ <;> rw [e30]

/-- Witness of C16: the reference machine before homing; `G30` leaves the
message and nothing else, even when the rest of the command would run the
endstop adjustment. -/
theorem C16_witness :
    (G30 (fun s => (adj_endstops refKinematics refProbing 10 s).getD s) refUnhomed).msgs =
      [Msg.lcd_POSITION_UNKNOWN, Msg.echo_POSITION_UNKNOWN] ∧
    (G30 (fun s => (adj_endstops refKinematics refProbing 10 s).getD s) refUnhomed).probed = [] ∧
    (G30 (fun s => (adj_endstops refKinematics refProbing 10 s).getD s) refUnhomed).motion
      = refUnhomed.motion := by
  obtain ⟨e, -, -, hp, -, hm, -⟩ :=
    C16_unhomed_entry_points_abort (fun s => (adj_endstops refKinematics refProbing 10 s).getD s)
      refUnhomed (by decide)
  exact ⟨by rw [e]; rfl, by rw [hp]; rfl, hm⟩

/-- C19: in agree mode (`PROBE_AVG` not defined) `probe_pt` takes between 2 and
20 readings, returns the latest one, stops as soon as a reading equals an
earlier reading of the call (no reading before the latest one does) and
otherwise at the 20th; in fixed-count mode it takes exactly `PROBE_AVG`
readings and, for a positive count, returns their sum divided by `PROBE_AVG`, in
exact arithmetic. -/
theorem C19_probe_sampling_policy (k : Kinematics) (c : Probing) (s : Machine)
    (x y z_before : ℚ) :
    (c.PROBE_AVG = none →
      ∃ taken : List ℚ, (probe_pt k c s x y z_before).2.probed = s.probed ++ taken ∧
        2 ≤ taken.length ∧ taken.length ≤ 20 ∧
        taken.getLast? = some (probe_pt k c s x y z_before).1 ∧
        (taken.length = 20 ∨ (probe_pt k c s x y z_before).1 ∈ taken.dropLast) ∧
        ∀ i v, i + 1 < taken.length → taken[i]? = some v → v ∉ taken.take i) ∧
    (∀ n : Nat, c.PROBE_AVG = some n →
      ∃ taken : List ℚ, (probe_pt k c s x y z_before).2.probed = s.probed ++ taken ∧
        taken.length = n ∧
        (0 < n → (probe_pt k c s x y z_before).1 = taken.sum / (n : ℚ))) := by
  obtain ⟨h1, h2⟩ := probe_pt_taken k c s x y z_before
  refine ⟨h1, fun n hn => ?_⟩
  obtain ⟨taken, e1, e2, e3⟩ := h2 n hn
  exact ⟨taken, e1, e2, fun _ => e3⟩

/-- Witness of C19: a probe of the tower-Z point of the reference machine, in
agree mode. -/
theorem C19_witness :
    ∃ taken : List ℚ,
      (probe_pt refKinematics refProbing refMachine 0 50 20).2.probed = refMachine.probed ++ taken ∧
      2 ≤ taken.length ∧ taken.length ≤ 20 ∧
      taken.getLast? = some (probe_pt refKinematics refProbing refMachine 0 50 20).1 := by
  obtain ⟨taken, h1, h2, h3, h4, -⟩ :=
    (C19_probe_sampling_policy refKinematics refProbing refMachine 0 50 20).1 rfl
  exact ⟨taken, h1, h2, h3, h4⟩

/-- C20: once its approach moves are done (state `s1`), `probe_bed(x, y)`
returns the `probe_pt` measurement plus `z_probe_offset[Z]`, and leaves
`bed_safe_z` at the returned height minus `z_probe_offset[Z]` plus
`AUTOCAL_PROBELIFT`, which in exact arithmetic is the measurement plus the lift;
in agree mode the measurement is the latest reading taken. -/
theorem C20_probe_bed_offset_and_safe_height (k : Kinematics) (c : Probing) (s s1 : Machine)
    (x y : ℚ) (happ : probe_bed_approach k c s x y = some s1) :
    ∃ s', probe_bed k c s x y =
        some ((probe_pt k c s1 x y s1.motion.current_position.Z).1 + s.z_probe_offset.Z, s') ∧
      s'.z_probe_offset = s.z_probe_offset ∧
      s'.bed_safe_z = ((probe_pt k c s1 x y s1.motion.current_position.Z).1
        + s.z_probe_offset.Z) - s'.z_probe_offset.Z + c.AUTOCAL_PROBELIFT ∧
      s'.bed_safe_z = (probe_pt k c s1 x y s1.motion.current_position.Z).1
        + c.AUTOCAL_PROBELIFT ∧
      (c.PROBE_AVG = none →
        s'.probed.getLast? = some (probe_pt k c s1 x y s1.motion.current_position.Z).1) := by
  have hpb := probe_bed_of_approach k c s s1 x y happ
  obtain ⟨_, -, -, hk⟩ := probe_bed_returned k c s _ x y _ hpb
  have hoff := hk.setup.2.1
  refine ⟨_, hpb, hoff, ?_, ?_, ?_⟩
  · rw [hoff]
  · show _ + s.z_probe_offset.Z - s.z_probe_offset.Z + c.AUTOCAL_PROBELIFT = _
    ring
  · intro hmode
    obtain ⟨taken, hp, h2, -, hlast, -⟩ :=
      (probe_pt_taken k c s1 x y s1.motion.current_position.Z).1 hmode
    show (probe_pt k c s1 x y s1.motion.current_position.Z).2.probed.getLast? = _
    rw [hp, List.getLast?_append_of_ne_nil _ (by intro e; rw [e] at h2; simp at h2)]
    exact hlast

/-- Witness of C20: a probe of the tower-Z point of the reference machine; the
approach moves are defined, the synthetic bed is met at height 0, so
`probe_bed` returns 0 and `bed_safe_z` becomes the lift, 2. -/
theorem C20_witness :
    ∃ s1 s', probe_bed_approach refKinematics refProbing refMachine 0 50 = some s1 ∧
      probe_bed refKinematics refProbing refMachine 0 50 = some (0, s') ∧
      s'.bed_safe_z = 2 := by
  obtain ⟨s1, h1⟩ := probe_bed_approach_defined refKinematics refProbing refMachine 0 50 rfl rfl
    (by decide) (by show (100 : ℚ) * 60 ≠ 0; norm_num)
  obtain ⟨s', hpb, -, -, hz, -⟩ :=
    C20_probe_bed_offset_and_safe_height refKinematics refProbing refMachine s1 0 50 h1
  have hr := refProbing_probe_bed refKinematics refMachine s' 0 50 _ hpb
  have hr0 : (probe_pt refKinematics refProbing s1 0 50 s1.motion.current_position.Z).1
      + refMachine.z_probe_offset.Z = 0 := by
    rw [hr]
    norm_num [refHeight, refMachine]
  have hraw : (probe_pt refKinematics refProbing s1 0 50 s1.motion.current_position.Z).1 = 0 := by
    have : refMachine.z_probe_offset.Z = 0 := rfl
    rw [this, add_zero] at hr0
    exact hr0
  refine ⟨s1, s', h1, ?_, ?_⟩
  · rw [hpb, hr0]
  · rw [hz, hraw]
    show (0 : ℚ) + 2 = 2
    norm_num

/-! ## Waypoints of a segmented move -/

theorem segment_tool (k : Kinematics) (diff : Axes) (steps : Int) (m : Motion) (s : Nat) :
    (segment k diff steps m s).planned.map Segment.tool =
      m.planned.map Segment.tool ++ [waypoint m.current_position diff steps s] := by
  unfold segment
  dsimp only
  rw [List.map_append]
  split <;> (try split) <;> rfl

theorem segments_tools (k : Kinematics) (diff : Axes) (steps : Int) (n : Nat) (m : Motion) :
    (segments k diff steps n m).planned.map Segment.tool =
      m.planned.map Segment.tool ++
        (List.range n).map (fun i => waypoint m.current_position diff steps (i + 1)) := by
  induction n with
  | zero => simp [segments]
  | succ n ih =>
    rw [segments_succ, segment_tool, ih, (segments_fields k diff steps n m).1,
      List.range_succ, List.map_append, List.append_assoc]
    rfl

theorem waypoint_zero (start diff : Axes) (steps : Int) : waypoint start diff steps 0 = start := by
  unfold waypoint
  cases start
  simp

theorem waypoint_gap (start diff : Axes) (steps : Int) (hs : 1 ≤ steps) (s : Nat) :
    (waypoint start diff steps (s + 1)).X - (waypoint start diff steps s).X = diff.X / steps ∧
    (waypoint start diff steps (s + 1)).Y - (waypoint start diff steps s).Y = diff.Y / steps ∧
    (waypoint start diff steps (s + 1)).Z - (waypoint start diff steps s).Z = diff.Z / steps ∧
    (waypoint start diff steps (s + 1)).E - (waypoint start diff steps s).E = diff.E / steps := by
  have hne : (steps : ℚ) ≠ 0 := by
    have : (1 : ℚ) ≤ (steps : ℚ) := by exact_mod_cast hs
    intro h; rw [h] at this; norm_num at this
  unfold waypoint
  dsimp only
  push_cast
  refine ⟨?_, ?_, ?_, ?_⟩ <;> field_simp <;> ring

/-! ## Sorting and mode of the probe samples -/

theorem isort_shift_spec (q : List ℚ) : ∀ (x : ℚ) (tail : List ℚ) (j : ℚ),
    isort_shift (q.reverse ++ x :: tail) j q.length
      = (List.orderedInsert (fun a b : ℚ => a ≥ b) j q).reverse ++ tail := by
  induction q with
  | nil => intro x tail j; simp [isort_shift]
  | cons b q ih =>
    intro x tail j
    have hlen : q.reverse.length = q.length := List.length_reverse q
    have hget : (((b :: q).reverse) ++ x :: tail).getD q.length 0 = b := by
      rw [List.reverse_cons, List.append_assoc, List.getD_eq_getElem?_getD,
        List.getElem?_append_right (by rw [hlen]), hlen]
      simp
    have hset : ∀ v : ℚ, (((b :: q).reverse) ++ x :: tail).set (q.length + 1) v
        = q.reverse ++ b :: v :: tail := by
      intro v
      rw [List.reverse_cons, List.append_assoc, List.set_append_right _ _ (by rw [hlen]; omega), hlen]
      simp
    show isort_shift _ j (q.length + 1) = _
    rw [isort_shift, hget, hset, hset]
    by_cases hjb : j < b
    · rw [if_pos hjb, ih b (b :: tail) j, List.orderedInsert, if_neg (not_le.mpr hjb)]
      simp
    · rw [if_neg hjb, List.orderedInsert, if_pos (not_lt.mp hjb)]
      simp

theorem isort_pass_spec (p : List ℚ) (x : ℚ) (tail : List ℚ) :
    isort_pass (p ++ x :: tail) p.length
      = (List.orderedInsert (fun a b : ℚ => a ≥ b) x p.reverse).reverse ++ tail := by
  have hget : (p ++ x :: tail).getD p.length 0 = x := by
    rw [List.getD_eq_getElem?_getD, List.getElem?_append_right (le_refl _)]
    simp
  unfold isort_pass
  rw [hget]
  have := isort_shift_spec p.reverse x tail x
  rwa [List.reverse_reverse, List.length_reverse] at this

/-- The loop invariant of `isort`: after the passes `1, …, m` the first
`m + 1` cells are sorted and hold what they held at the start, and the other
cells are untouched. -/
theorem isort_passes (a : List ℚ) : ∀ m : Nat, m + 1 ≤ a.length →
    ((List.range' 1 m).foldl isort_pass a).length = a.length ∧
    (((List.range' 1 m).foldl isort_pass a).take (m + 1)).Sorted (· ≤ ·) ∧
    (((List.range' 1 m).foldl isort_pass a).take (m + 1)).Perm (a.take (m + 1)) ∧
    ((List.range' 1 m).foldl isort_pass a).drop (m + 1) = a.drop (m + 1) := by
  intro m
  induction m with
  | zero =>
    intro h
    refine ⟨rfl, ?_, List.Perm.refl _, rfl⟩
    show (a.take 1).Sorted (· ≤ ·)
    cases a with
    | nil => simp
    | cons x t => simp
  | succ m ih =>
    intro h
    obtain ⟨hl, hs, hp, hd⟩ := ih (by omega)
    have hr : List.range' 1 (m + 1) = List.range' 1 m ++ [m + 1] := by
      rw [List.range'_concat]; simp [Nat.add_comm]
    rw [hr, List.foldl_append]
    generalize (List.range' 1 m).foldl isort_pass a = b at hl hs hp hd
    show (isort_pass b (m + 1)).length = _ ∧ ((isort_pass b (m + 1)).take (m + 1 + 1)).Sorted _ ∧
      ((isort_pass b (m + 1)).take (m + 1 + 1)).Perm _ ∧ (isort_pass b (m + 1)).drop (m + 1 + 1) = _
    have hlt : m + 1 < b.length := by omega
    have hplen : (b.take (m + 1)).length = m + 1 := by
      rw [List.length_take]; omega
    have hdrop : b.drop (m + 1) = b[m + 1] :: b.drop (m + 1 + 1) := by
      rw [List.drop_eq_getElem_cons hlt]
    have hb : b = b.take (m + 1) ++ b[m + 1] :: b.drop (m + 1 + 1) := by
      rw [← hdrop, List.take_append_drop]
    have hpass : isort_pass b (m + 1)
        = (List.orderedInsert (fun a b : ℚ => a ≥ b) b[m + 1] (b.take (m + 1)).reverse).reverse
            ++ b.drop (m + 1 + 1) := by
      have := isort_pass_spec (b.take (m + 1)) b[m + 1] (b.drop (m + 1 + 1))
      rw [hplen, ← hb] at this
      exact this
    have hilen : ((List.orderedInsert (fun a b : ℚ => a ≥ b) b[m + 1]
        (b.take (m + 1)).reverse).reverse).length = m + 1 + 1 := by
      rw [List.length_reverse, List.orderedInsert_length, List.length_reverse, hplen]
    have hsr : ((b.take (m + 1)).reverse).Sorted (fun a b : ℚ => a ≥ b) := by
      have : (b.take (m + 1)).Pairwise (· ≤ ·) := hs
      exact List.pairwise_reverse.mpr this
    have hso := List.Sorted.orderedInsert b[m + 1] _ hsr
    have hpo := List.perm_orderedInsert (fun a b : ℚ => a ≥ b) b[m + 1] (b.take (m + 1)).reverse
    have hdd : a.drop (m + 1) = b[m + 1] :: a.drop (m + 1 + 1) := by
      have h1 : a.drop (m + 1) = b.drop (m + 1) := hd.symm
      have h2 := congrArg (List.drop 1) h1
      rw [List.drop_drop, List.drop_drop] at h2
      rw [h1, hdrop]
      congr 1
      exact h2.symm
    have hat : a.take (m + 1 + 1) = a.take (m + 1) ++ [b[m + 1]] := by
      have h1 : a.take (m + 1 + 1) = a.take (m + 1) ++ (a.drop (m + 1)).take 1 := by
        rw [List.take_add]
      rw [h1, hdd]
      rfl
    rw [hpass]
    refine ⟨?_, ?_, ?_, ?_⟩
    · rw [List.length_append, hilen, List.length_drop, ← hl]
      omega
    · rw [List.take_left' hilen]
      have : (List.orderedInsert (fun a b : ℚ => a ≥ b) b[m + 1]
          (b.take (m + 1)).reverse).Pairwise (fun a b : ℚ => a ≥ b) := hso
      exact List.pairwise_reverse.mpr this
    · rw [List.take_left' hilen, hat]
      refine (List.reverse_perm _).trans (hpo.trans ?_)
      refine (List.Perm.cons _ ((List.reverse_perm _).trans hp)).trans ?_
      exact (List.perm_append_singleton _ _).symm
    · rw [List.drop_left' hilen]
      have h2 := congrArg (List.drop 1) hd
      rw [List.drop_drop, List.drop_drop] at h2
      exact h2

theorem sorted_rank (l : List ℚ) (hs : l.Sorted (· ≤ ·)) (i : Nat) (hi : i < l.length) :
    l.countP (fun v => decide (v < l[i])) ≤ i ∧ i < l.countP (fun v => decide (v ≤ l[i])) := by
  have hp : l.Pairwise (· ≤ ·) := hs
  have hsplit : l = l.take i ++ l.drop i := (List.take_append_drop i l).symm
  constructor
  · have h0 : (l.drop i).countP (fun v => decide (v < l[i])) = 0 := by
      rw [List.countP_eq_zero]
      intro v hv
      obtain ⟨n, hn, rfl⟩ := List.getElem_of_mem hv
      have hb : i + n < l.length := by rw [List.length_drop] at hn; omega
      rw [List.getElem_drop]
      have : l[i] ≤ l[i + n] := by
        rcases Nat.eq_zero_or_pos n with h | h
        · subst h; exact le_refl _
        · exact List.pairwise_iff_getElem.mp hp i (i + n) hi hb (by omega)
      simpa using this
    calc l.countP (fun v => decide (v < l[i]))
        = (l.take i ++ l.drop i).countP (fun v => decide (v < l[i])) := by rw [← hsplit]
      _ = (l.take i).countP (fun v => decide (v < l[i])) := by rw [List.countP_append, h0]; rfl
      _ ≤ (l.take i).length := List.countP_le_length _
      _ ≤ i := by rw [List.length_take]; omega
  · have hall : (l.take (i + 1)).countP (fun v => decide (v ≤ l[i])) = (l.take (i + 1)).length := by
      rw [List.countP_eq_length]
      intro v hv
      obtain ⟨n, hn, rfl⟩ := List.getElem_of_mem hv
      have hn' : n < i + 1 := by rw [List.length_take] at hn; omega
      have hnl : n < l.length := by omega
      rw [List.getElem_take]
      have : l[n] ≤ l[i] := by
        rcases Nat.lt_or_ge n i with h | h
        · exact List.pairwise_iff_getElem.mp hp n i (by omega) hi h
        · have : n = i := by omega
          subst this; exact le_refl _
      simpa using this
    have hlen : (l.take (i + 1)).length = i + 1 := by rw [List.length_take]; omega
    calc i < (l.take (i + 1)).length := by omega
      _ = (l.take (i + 1)).countP (fun v => decide (v ≤ l[i])) := hall.symm
      _ ≤ (l.take (i + 1) ++ l.drop (i + 1)).countP (fun v => decide (v ≤ l[i])) := by
          rw [List.countP_append]; omega
      _ = l.countP (fun v => decide (v ≤ l[i])) := by rw [List.take_append_drop]

theorem sorted_le (l : List ℚ) (hs : l.Sorted (· ≤ ·)) (i j : Nat) (hj : j < l.length)
    (hij : i ≤ j) : l[i] ≤ l[j] := by
  have hp : l.Pairwise (· ≤ ·) := hs
  rcases Nat.eq_or_lt_of_le hij with h | h
  · subst h; exact le_refl _
  · exact List.pairwise_iff_getElem.mp hp i j (by omega) hj h

theorem isort_returned (a : List ℚ) (n : Nat) (h : n ≤ a.length) :
    ∃ b, isort a n = some b ∧ b.length = a.length ∧ (b.take n).Sorted (· ≤ ·) ∧
      (b.take n).Perm (a.take n) ∧ b.drop n = a.drop n := by
  refine ⟨(List.range' 1 (n - 1)).foldl isort_pass a, by unfold isort; rw [if_pos h], ?_⟩
  rcases Nat.eq_zero_or_pos n with h0 | h0
  · subst h0
    exact ⟨rfl, by simp, by simp, rfl⟩
  · obtain ⟨hl, hs, hp, hd⟩ := isort_passes a (n - 1) (by omega)
    have hn : n - 1 + 1 = n := by omega
    rw [hn] at hs hp hd
    exact ⟨hl, hs, hp, hd⟩

/-- C29: for every array `a` and every count `n` within it, `isort(a, n)`
returns (the model is a total function: both loops are bounded by `n`), keeps
the length of the array and the cells from `n` on, and leaves the first `n`
cells in non-decreasing order and a permutation of what they held. Hence for
`n ≥ 1` the three cells M48 prints are samples: cell 0 is below and cell
`n - 1` above every sample, and cell `n/2` has rank `n/2`: at most `n/2`
samples are smaller and more than `n/2` are not larger. -/
theorem C29_isort_sorts_in_place (a : List ℚ) (n : Nat) (h : n ≤ a.length) :
    ∃ b, isort a n = some b ∧ b.length = a.length ∧ b.drop n = a.drop n ∧
      (b.take n).Sorted (· ≤ ·) ∧ (b.take n).Perm (a.take n) ∧
      (0 < n → ∃ low high median, b[0]? = some low ∧ b[n - 1]? = some high ∧
        b[n / 2]? = some median ∧
        low ∈ a.take n ∧ high ∈ a.take n ∧ median ∈ a.take n ∧
        (∀ v ∈ a.take n, low ≤ v ∧ v ≤ high) ∧
        (a.take n).countP (fun v => decide (v < median)) ≤ n / 2 ∧
        n / 2 < (a.take n).countP (fun v => decide (v ≤ median))) := by
  obtain ⟨b, hb, hl, hs, hp, hd⟩ := isort_returned a n h
  refine ⟨b, hb, hl, hd, hs, hp, ?_⟩
  intro hn
  have hlen : (b.take n).length = n := by rw [List.length_take]; omega
  have h0 : 0 < (b.take n).length := by omega
  have h1 : n - 1 < (b.take n).length := by omega
  have h2 : n / 2 < (b.take n).length := by
    rw [hlen]; exact Nat.div_lt_self hn (by decide)
  have e0 : b[0]? = some (b.take n)[0] := by
    rw [← List.getElem?_eq_getElem h0, List.getElem?_take, if_pos (show 0 < n by omega)]
  have e1 : b[n - 1]? = some (b.take n)[n - 1] := by
    rw [← List.getElem?_eq_getElem h1, List.getElem?_take, if_pos (show n - 1 < n by omega)]
  have e2 : b[n / 2]? = some (b.take n)[n / 2] := by
    rw [← List.getElem?_eq_getElem h2, List.getElem?_take, if_pos (show n / 2 < n by omega)]
  refine ⟨_, _, _, e0, e1, e2, hp.subset (List.getElem_mem _), hp.subset (List.getElem_mem _),
    hp.subset (List.getElem_mem _), ?_, ?_, ?_⟩
  · intro v hv
    obtain ⟨i, hi, rfl⟩ := List.getElem_of_mem (hp.symm.subset hv)
    exact ⟨sorted_le _ hs 0 i hi (Nat.zero_le _), sorted_le _ hs i (n - 1) h1 (by omega)⟩
  · rw [← hp.countP_eq]
    exact (sorted_rank _ hs (n / 2) h2).1
  · rw [← hp.countP_eq]
    exact (sorted_rank _ hs (n / 2) h2).2

/-- Witness of C29: four samples, the count M48 uses at least. -/
theorem C29_witness :
    (4 : Nat) ≤ ([3, 1, 2, 1] : List ℚ).length ∧
    ∃ b, isort [3, 1, 2, 1] 4 = some b ∧ b.length = ([3, 1, 2, 1] : List ℚ).length ∧
      (b.take 4).Sorted (· ≤ ·) ∧ (b.take 4).Perm (([3, 1, 2, 1] : List ℚ).take 4) := by
  refine ⟨by decide, ?_⟩
  obtain ⟨b, hb, hl, -, hs, hp, -⟩ := C29_isort_sorts_in_place [3, 1, 2, 1] 4 (by decide)
  exact ⟨b, hb, hl, hs, hp⟩

theorem isort_example : isort [3, 1, 2, 1] 4 = some [1, 1, 2, 3] := by decide

/-- C28: `probe_mode` does not return the mode of every sorted sample
array. The samples 0, 0, 1, 2, 3 are ascending and 0 is their one most
frequent value, yet the function returns the median 1: `mode` starts at
`NULL`, that is 0, and the closing test `mode == NULL` takes a mode of 0 for
"no mode". Also the inner loop has no bound: on the five samples
1, 1, 1, 3, 3 followed in the array by 3, 3, 9 it counts the cells behind the
samples and returns 3, although 1 is the most frequent sample. -/
theorem C28_mode_zero_is_reported_as_median :
    zeroMode.Sorted (· ≤ ·) ∧ zeroMode.length = 5 ∧
    zeroMode.count 0 = 2 ∧ (∀ v : ℚ, v ≠ 0 → zeroMode.count v ≤ 1) ∧
    zeroMode[5 / 2]? = some 1 ∧
    probe_mode zeroMode 5 = some 1 ∧
    (staleRun.take 5).Sorted (· ≤ ·) ∧
    (staleRun.take 5).count 1 = 3 ∧ (∀ v : ℚ, v ≠ 1 → (staleRun.take 5).count v ≤ 2) ∧
    probe_mode staleRun 5 = some 3 := by
  refine ⟨by decide, rfl, by decide, ?_, rfl, by decide, by decide, by decide, ?_, by decide⟩
  · intro v hv
    unfold zeroMode
    rw [List.count_cons_of_ne hv, List.count_cons_of_ne hv]
    by_cases h1 : v = 1
    · subst h1; decide
    · by_cases h2 : v = 2
      · subst h2; decide
      · by_cases h3 : v = 3
        · subst h3; decide
        · rw [List.count_cons_of_ne h1, List.count_cons_of_ne h2,
            List.count_cons_of_ne h3]
          simp
  · intro v hv
    show List.count v [1, 1, 1, 3, 3] ≤ 2
    rw [List.count_cons_of_ne hv, List.count_cons_of_ne hv,
      List.count_cons_of_ne hv]
    by_cases h3 : v = 3
    · subst h3; decide
    · rw [List.count_cons_of_ne h3, List.count_cons_of_ne h3]
      simp

/-! ## The scripted probe -/

theorem scripted_probe_pt (k : Kinematics) (f : Nat → ℚ) (s : Machine) (x y z_before : ℚ)
    (n : Nat) (hn : s.probed.length = 2 * n) :
    (probe_pt k (scriptProbing f) s x y z_before).1 = f n - s.z_probe_offset.Z ∧
    (probe_pt k (scriptProbing f) s x y z_before).2.probed.length = 2 * (n + 1) := by
  rw [probe_pt_eq]
  show (probe_agree_loop k (scriptProbing f) [] _).1 = _ ∧
    (probe_agree_loop k (scriptProbing f) [] _).2.probed.length = _
  generalize hs2 : do_blocking_move_to k (scriptProbing f)
    (do_blocking_move_to k (scriptProbing f) s s.motion.current_position.X
      s.motion.current_position.Y z_before)
    (x - s.z_probe_offset.X) (y - s.z_probe_offset.Y) z_before = s2
  have hp2 : s2.probed = s.probed := by rw [← hs2]; rfl
  have ho2 : s2.z_probe_offset = s.z_probe_offset := by rw [← hs2]; rfl
  have e1 : (probe_sample k (scriptProbing f) 0 s2).motion.current_position.Z =
      f n - s.z_probe_offset.Z := by
    show s2.motion.current_position.Z - (s2.motion.current_position.Z -
      (f (s2.probed.length / 2) - s2.z_probe_offset.Z)) = _
    rw [sub_sub_cancel, hp2, ho2, hn, Nat.mul_div_cancel_left n (by decide)]
  have e2 : (probe_sample k (scriptProbing f) 1
      (probe_sample k (scriptProbing f) 0 s2)).motion.current_position.Z =
      f n - s.z_probe_offset.Z := by
    show (do_blocking_move_to k (scriptProbing f) (run_z_probe k (scriptProbing f) s2)
        _ _ _).motion.current_position.Z
      - (scriptProbing f).st_travel (do_blocking_move_to k (scriptProbing f)
        (run_z_probe k (scriptProbing f) s2) _ _ _) = _
    show _ - (_ - (f ((s2.probed ++ [_]).length / 2) - s2.z_probe_offset.Z)) = _
    rw [sub_sub_cancel, List.length_append, hp2, ho2, hn]
    have : (2 * n + [s2.motion.current_position.Z
        - (scriptProbing f).st_travel s2].length) / 2 = n := by
      show (2 * n + 1) / 2 = n
      omega
    rw [this]
  have e3 : (probe_sample k (scriptProbing f) 1
      (probe_sample k (scriptProbing f) 0 s2)).probed.length = 2 * (n + 1) := by
    rw [(probe_sample_reading k (scriptProbing f) 1 _).1,
      (probe_sample_reading k (scriptProbing f) 0 s2).1, hp2]
    simp [hn]
    ring
  rw [probe_agree_loop_eq]
  rw [if_pos ⟨rfl, by decide⟩]
  rw [probe_agree_loop_eq]
  have hcon : ([] ++ [(probe_sample k (scriptProbing f) ([] : List ℚ).length
      s2).motion.current_position.Z]).contains
      (probe_sample k (scriptProbing f) ([] ++ [(probe_sample k (scriptProbing f)
        ([] : List ℚ).length s2).motion.current_position.Z]).length
        (probe_sample k (scriptProbing f) ([] : List ℚ).length
          s2)).motion.current_position.Z = true := by
    show ([(probe_sample k (scriptProbing f) 0 s2).motion.current_position.Z]).contains
      (probe_sample k (scriptProbing f) 1
        (probe_sample k (scriptProbing f) 0 s2)).motion.current_position.Z = true
    rw [e1, e2]
    simp
  rw [if_neg (by rw [hcon]; simp)]
  exact ⟨e2, e3⟩

/-- Call number `n` of `probe_bed` on a scripted probe: it is defined, returns
`f n`, writes only what a probe writes, and leaves the machine ready for call
`n + 1`. -/
theorem scripted_probe_bed (k : Kinematics) (f : Nat → ℚ) (s : Machine) (x y : ℚ) (n : Nat)
    (hmech : k.mechanism = Mechanism.DELTA) (h : Ready s n) :
    ∃ s', probe_bed k (scriptProbing f) s x y = some (f n, s') ∧ Machine.Kept s s' ∧
      Ready s' (n + 1) := by
  obtain ⟨hrate, hmul, hlen⟩ := h
  obtain ⟨s1, h1⟩ := probe_bed_approach_defined k (scriptProbing f) s x y hmech hrate hmul
    (by show (100 : ℚ) * 60 ≠ 0; norm_num)
  obtain ⟨k1, -, hp1⟩ := probe_bed_approach_kept k (scriptProbing f) s s1 x y h1
  have hd := probe_bed_of_approach k (scriptProbing f) s s1 x y h1
  obtain ⟨r, s', hr⟩ : ∃ r s', probe_bed k (scriptProbing f) s x y = some (r, s') := ⟨_, _, hd⟩
  obtain ⟨t1, ht1, hrv, hk⟩ := probe_bed_returned k (scriptProbing f) s s' x y r hr
  rw [h1] at ht1
  cases ht1
  obtain ⟨hv, hl⟩ := scripted_probe_pt k f s1 x y s1.motion.current_position.Z n
    (by rw [hp1]; exact hlen)
  have hrf : r = f n := by
    rw [hrv, hv, k1.setup.2.1]; ring
  have hs' : s'.probed.length = 2 * (n + 1) := by
    rw [hd] at hr
    simp only [Option.some.injEq, Prod.mk.injEq] at hr
    rw [← hr.2]
    exact hl
  refine ⟨s', by rw [hr, hrf], hk, ?_, ?_, hs'⟩
  · rw [hk.1.rate]; exact hrate
  · rw [hk.1.feedmultiply]; exact hmul

/-! ## The fill count of the line buffer -/

theorem enqueue_line_mem (c : Config) (line : List Nat) (s : State) :
    (enqueue_line c line s).1.cmdbuffer = s.cmdbuffer ∧
    ((enqueue_line c line s).2 = Flow.next → (enqueue_line c line s).1.halted = s.halted) ∧
    ((enqueue_line c line s).2 ≠ Flow.next → (enqueue_line c line s).1.halted = true) ∧
    (enqueue_line c line s).1.serial_count = s.serial_count := by
  unfold enqueue_line kill
  dsimp only
  split_ifs <;> simp

theorem check_line_count (c : Config) (line : List Nat) (s : State) :
    ((check_line c line s).1.serial_count = 0 ∨ (check_line c line s).1.halted = true) ∨
      ((check_line c line s).2 = Flow.next ∧
        (check_line c line s).1.serial_count = s.serial_count) := by
  unfold check_line FlushSerialRequestResend ClearToSend
  dsimp only
  repeat' split
  all_goals first
    | exact Or.inl (Or.inl rfl)
    | exact Or.inl (Or.inr rfl)
    | exact Or.inr ⟨rfl, rfl⟩

/-- The tail of a terminated line leaves the slot memory alone and ends with a
fill count of 0, unless the machine halts. -/
theorem line_tail_count (c : Config) (line : List Nat) (s : State) :
    ((match check_line c line s with
        | (s', Flow.next) =>
          match enqueue_line c line s' with
          | (s'', Flow.next) => ({ s'' with serial_count := 0 }, Flow.next)
          | r => r
        | r => r).1.cmdbuffer = s.cmdbuffer) ∧
    ((match check_line c line s with
        | (s', Flow.next) =>
          match enqueue_line c line s' with
          | (s'', Flow.next) => ({ s'' with serial_count := 0 }, Flow.next)
          | r => r
        | r => r).1.serial_count = 0 ∨
     (match check_line c line s with
        | (s', Flow.next) =>
          match enqueue_line c line s' with
          | (s'', Flow.next) => ({ s'' with serial_count := 0 }, Flow.next)
          | r => r
        | r => r).1.halted = true) := by
  have h1 := check_line_same c line s
  have h2 := check_line_count c line s
  rcases hcl : check_line c line s with ⟨s3, f3⟩
  rw [hcl] at h1 h2
  cases f3
  · dsimp only
    obtain ⟨e1, -, e3, -⟩ := enqueue_line_mem c line s3
    rcases hel : enqueue_line c line s3 with ⟨s4, f4⟩
    rw [hel] at e1 e3
    cases f4
    · exact ⟨e1.trans h1.cmdbuffer, Or.inl rfl⟩
    · exact ⟨e1.trans h1.cmdbuffer, Or.inr (e3 (by simp))⟩
    · exact ⟨e1.trans h1.cmdbuffer, Or.inr (e3 (by simp))⟩
  · refine ⟨h1.cmdbuffer, ?_⟩
    rcases h2 with h | ⟨h, -⟩
    · exact h
    · simp at h
  · refine ⟨h1.cmdbuffer, ?_⟩
    rcases h2 with h | ⟨h, -⟩
    · exact h
    · simp at h

/-- One byte of the interactive source: the fill count stays at most
`MAX_CMD_SIZE - 1`, and a cell that changes is the cell of the slot being
filled whose index is the fill count, an index below `MAX_CMD_SIZE`. -/
theorem serial_iter_count (c : Config) (ch : Nat) (s : State)
    (h : s.serial_count ≤ c.MAX_CMD_SIZE - 1) :
    (serial_iter c ch s).1.serial_count ≤ c.MAX_CMD_SIZE - 1 ∧
    ∀ a, (serial_iter c ch s).1.cmdbuffer a ≠ s.cmdbuffer a →
      a = cell c s.bufindw s.serial_count ∧ s.serial_count < c.MAX_CMD_SIZE := by
  have hpoke : ∀ v a, poke s.cmdbuffer (cell c s.bufindw s.serial_count) v a ≠ s.cmdbuffer a →
      a = cell c s.bufindw s.serial_count := by
    intro v a ha
    by_contra hne
    exact ha (poke_other _ _ _ _ hne)
  obtain ⟨t1, -⟩ := line_tail_count c
    (slotStr c (poke s.cmdbuffer (cell c s.bufindw s.serial_count) 0) s.bufindw)
    { s with cmdbuffer := poke s.cmdbuffer (cell c s.bufindw s.serial_count) 0
             comment_mode := false
             fromsd := fun i => if i = s.bufindw then false else s.fromsd i }
  unfold serial_iter
  dsimp only
  by_cases hterm : ch = 10 ∨ ch = 13 ∨ (ch = 58 ∧ s.comment_mode = false)
      ∨ s.serial_count ≥ c.MAX_CMD_SIZE - 1
  · rw [if_pos hterm]
    by_cases h0 : s.serial_count = 0
    · rw [if_pos h0]
      exact ⟨h, fun a ha => absurd rfl ha⟩
    · rw [if_neg h0]
      have hlt : s.serial_count < c.MAX_CMD_SIZE := by omega
      by_cases hcm : s.comment_mode = false
      · rw [if_pos hcm]
        refine ⟨?_, fun a ha => ⟨hpoke 0 a (fun e => ha ((congrFun t1 a).trans e)), hlt⟩⟩
        have := check_line_count c
          (slotStr c (poke s.cmdbuffer (cell c s.bufindw s.serial_count) 0) s.bufindw)
          { s with cmdbuffer := poke s.cmdbuffer (cell c s.bufindw s.serial_count) 0
                   comment_mode := false
                   fromsd := fun i => if i = s.bufindw then false else s.fromsd i }
        rcases hcl : check_line c
          (slotStr c (poke s.cmdbuffer (cell c s.bufindw s.serial_count) 0) s.bufindw)
          { s with cmdbuffer := poke s.cmdbuffer (cell c s.bufindw s.serial_count) 0
                   comment_mode := false
                   fromsd := fun i => if i = s.bufindw then false else s.fromsd i }
          with ⟨s3, f3⟩
        have hs3 := check_line_same c
          (slotStr c (poke s.cmdbuffer (cell c s.bufindw s.serial_count) 0) s.bufindw)
          { s with cmdbuffer := poke s.cmdbuffer (cell c s.bufindw s.serial_count) 0
                   comment_mode := false
                   fromsd := fun i => if i = s.bufindw then false else s.fromsd i }
        rw [hcl] at hs3
        have hc3 : s3.serial_count ≤ c.MAX_CMD_SIZE - 1 := by
          rcases hs3.count with e | e
          · rw [e]; exact h
          · rw [e]; omega
        cases f3
        · dsimp only
          obtain ⟨-, -, -, e4⟩ := enqueue_line_mem c
            (slotStr c (poke s.cmdbuffer (cell c s.bufindw s.serial_count) 0) s.bufindw) s3
          rcases hel : enqueue_line c
            (slotStr c (poke s.cmdbuffer (cell c s.bufindw s.serial_count) 0) s.bufindw) s3
            with ⟨s4, f4⟩
          rw [hel] at e4
          cases f4
          · show 0 ≤ _
            omega
          · show s4.serial_count ≤ _
            rw [e4]; exact hc3
          · show s4.serial_count ≤ _
            rw [e4]; exact hc3
        · exact hc3
        · exact hc3
      · rw [if_neg hcm]
        exact ⟨by show 0 ≤ _; omega, fun a ha => ⟨hpoke 0 a ha, hlt⟩⟩
  · rw [if_neg hterm]
    have hlt : s.serial_count + 1 ≤ c.MAX_CMD_SIZE - 1 := by
      have : ¬ s.serial_count ≥ c.MAX_CMD_SIZE - 1 := fun h' => hterm (Or.inr (Or.inr (Or.inr h')))
      omega
    split_ifs
    · exact ⟨hlt, fun a ha => ⟨hpoke ch a ha, by omega⟩⟩
    · exact ⟨h, fun a ha => absurd rfl ha⟩
    · exact ⟨hlt, fun a ha => ⟨hpoke ch a ha, by omega⟩⟩
    · exact ⟨h, fun a ha => absurd rfl ha⟩

/-- One value of the replay source: the same bound and the same frame as
`serial_iter_count`. -/
theorem sd_iter_count (c : Config) (n : Int) (s : State)
    (h : s.serial_count ≤ c.MAX_CMD_SIZE - 1) :
    (sd_iter c n s).1.serial_count ≤ c.MAX_CMD_SIZE - 1 ∧
    ∀ a, (sd_iter c n s).1.cmdbuffer a ≠ s.cmdbuffer a →
      a = cell c s.bufindw s.serial_count ∧ s.serial_count < c.MAX_CMD_SIZE := by
  have hpoke : ∀ v a, poke s.cmdbuffer (cell c s.bufindw s.serial_count) v a ≠ s.cmdbuffer a →
      a = cell c s.bufindw s.serial_count := by
    intro v a ha
    by_contra hne
    exact ha (poke_other _ _ _ _ hne)
  unfold sd_iter
  dsimp only
  by_cases hterm : (n % 256).toNat = 10 ∨ (n % 256).toNat = 13
      ∨ ((n % 256).toNat = 35 ∧ s.comment_mode = false)
      ∨ ((n % 256).toNat = 58 ∧ s.comment_mode = false)
      ∨ s.serial_count ≥ c.MAX_CMD_SIZE - 1 ∨ n = -1
  · rw [if_pos hterm]
    by_cases h0 : s.serial_count = 0
    · split_ifs <;> exact ⟨h, fun a ha => absurd rfl ha⟩
    · have hlt : s.serial_count < c.MAX_CMD_SIZE := by omega
      split_ifs <;> exact ⟨by show 0 ≤ _; omega, fun a ha => ⟨hpoke 0 a ha, hlt⟩⟩
  · rw [if_neg hterm]
    have hlt : s.serial_count + 1 ≤ c.MAX_CMD_SIZE - 1 := by
      have : ¬ s.serial_count ≥ c.MAX_CMD_SIZE - 1 :=
        fun h' => hterm (Or.inr (Or.inr (Or.inr (Or.inr (Or.inl h')))))
      omega
    split_ifs
    · exact ⟨hlt, fun a ha => ⟨hpoke _ a ha, by omega⟩⟩
    · exact ⟨h, fun a ha => absurd rfl ha⟩
    · exact ⟨hlt, fun a ha => ⟨hpoke _ a ha, by omega⟩⟩
    · exact ⟨h, fun a ha => absurd rfl ha⟩

theorem serial_loop_count (c : Config) (l : List Nat) : ∀ s : State,
    s.serial_count ≤ c.MAX_CMD_SIZE - 1 →
    (serial_loop c l s).1.serial_count ≤ c.MAX_CMD_SIZE - 1 := by
  induction l with
  | nil => intro s h; exact h
  | cons ch rest ih =>
    intro s h
    unfold serial_loop
    split_ifs with hfree
    · have k1 := (serial_iter_count c ch { s with rx := rest } h).1
      rcases hit : serial_iter c ch { s with rx := rest } with ⟨s1, f1⟩
      rw [hit] at k1
      cases f1
      · exact ih s1 k1
      · exact k1
      · exact k1
    · exact h

theorem sd_loop_count (c : Config) (l : List Int) : ∀ s : State,
    s.serial_count ≤ c.MAX_CMD_SIZE - 1 →
    (sd_loop c l s).1.serial_count ≤ c.MAX_CMD_SIZE - 1 := by
  induction l with
  | nil => intro s h; exact h
  | cons n rest ih =>
    intro s h
    unfold sd_loop
    split_ifs with hfree
    · have k1 := (sd_iter_count c n { s with card := { s.card with data := rest } } h).1
      rcases hit : sd_iter c n { s with card := { s.card with data := rest } } with ⟨s1, f1⟩
      rw [hit] at k1
      cases f1
      · exact ih s1 k1
      · exact k1
      · exact k1
    · exact h

theorem get_command_count (c : Config) (s : State) (h : s.serial_count ≤ c.MAX_CMD_SIZE - 1) :
    (get_command c s).serial_count ≤ c.MAX_CMD_SIZE - 1 := by
  unfold get_command
  by_cases hh : s.halted = true
  · rw [if_pos hh]; exact h
  · rw [if_neg hh]
    have k1 := serial_loop_count c s.rx s h
    rcases hl : serial_loop c s.rx s with ⟨s1, f1⟩
    rw [hl] at k1
    cases f1
    · dsimp only
      split_ifs
      all_goals first
        | exact k1
        | exact sd_loop_count c _ _ k1
    · exact k1
    · exact k1

/-- A full line buffer ends the line on the interactive source: whatever the
next byte, it is not stored, the only cell written is the NUL at index
`MAX_CMD_SIZE - 1`, and the fill count is back at 0 unless the machine halts. -/
theorem serial_iter_forced (c : Config) (ch : Nat) (s : State)
    (hfull : s.serial_count = c.MAX_CMD_SIZE - 1) (hsize : 2 ≤ c.MAX_CMD_SIZE) :
    (serial_iter c ch s).1.cmdbuffer
        = poke s.cmdbuffer (cell c s.bufindw (c.MAX_CMD_SIZE - 1)) 0 ∧
    ((serial_iter c ch s).1.serial_count = 0 ∨ (serial_iter c ch s).1.halted = true) := by
  obtain ⟨t1, t2⟩ := line_tail_count c
    (slotStr c (poke s.cmdbuffer (cell c s.bufindw s.serial_count) 0) s.bufindw)
    { s with cmdbuffer := poke s.cmdbuffer (cell c s.bufindw s.serial_count) 0
             comment_mode := false
             fromsd := fun i => if i = s.bufindw then false else s.fromsd i }
  unfold serial_iter
  dsimp only
  rw [if_pos (Or.inr (Or.inr (Or.inr (by rw [hfull])))), if_neg (by rw [hfull]; omega)]
  by_cases hcm : s.comment_mode = false
  · rw [if_pos hcm]
    refine ⟨?_, t2⟩
    rw [← hfull]
    exact t1
  · rw [if_neg hcm]
    exact ⟨by rw [← hfull], Or.inl rfl⟩

/-- A full line buffer ends the line on the replay source: the value read is
not stored, the only cell written is the NUL at index `MAX_CMD_SIZE - 1`, the
slot is handed over and the fill count is back at 0. -/
theorem sd_iter_forced (c : Config) (n : Int) (s : State)
    (hfull : s.serial_count = c.MAX_CMD_SIZE - 1) (hsize : 2 ≤ c.MAX_CMD_SIZE) :
    (sd_iter c n s).1.cmdbuffer = poke s.cmdbuffer (cell c s.bufindw (c.MAX_CMD_SIZE - 1)) 0 ∧
    (sd_iter c n s).1.serial_count = 0 ∧
    (sd_iter c n s).1.enq_hist = s.enq_hist ++
      [slotStr c (poke s.cmdbuffer (cell c s.bufindw (c.MAX_CMD_SIZE - 1)) 0) s.bufindw] := by
  unfold sd_iter
  dsimp only
  rw [if_pos (Or.inr (Or.inr (Or.inr (Or.inr (Or.inl (by rw [hfull]))))))]
  have h0 : ¬ s.serial_count = 0 := by rw [hfull]; omega
  split_ifs <;> (rw [← hfull]; exact ⟨rfl, rfl, rfl⟩)

theorem cstr_length (mem : Nat → Nat) : ∀ (fuel a j : Nat), j < fuel → mem (a + j) = 0 →
    (cstr mem a fuel).length ≤ j := by
  intro fuel
  induction fuel with
  | zero => intro a j h; omega
  | succ fuel ih =>
    intro a j hj hm
    unfold cstr
    by_cases h0 : mem a = 0
    · rw [if_pos h0]; simp
    · rw [if_neg h0]
      cases j with
      | zero => exact absurd hm h0
      | succ j =>
        have := ih (a + 1) j (by omega) (by rw [← hm]; congr 1; omega)
        simp only [List.length_cons]
        omega

/-- C30: from a fill count of at most `MAX_CMD_SIZE - 1` (it starts at 0),
every byte of the interactive source and every value of the replay source
leaves the fill count at most `MAX_CMD_SIZE - 1`, and so does a whole call of
`get_command`; a byte changes no cell other than the one of the slot being
filled whose index is the fill count, and then that index is below
`MAX_CMD_SIZE`: data bytes and the closing NUL stay inside the slot. When
`MAX_CMD_SIZE - 1` bytes are held, the next byte of either source, whatever it
is, is not stored: the line is closed by a NUL at index `MAX_CMD_SIZE - 1`, so
the line handed on has at most `MAX_CMD_SIZE - 1` bytes. -/
theorem C30_fill_count_stays_inside_the_slot (c : Config) (s : State)
    (h : s.serial_count ≤ c.MAX_CMD_SIZE - 1) :
    (∀ ch : Nat,
      (serial_iter c ch s).1.serial_count ≤ c.MAX_CMD_SIZE - 1 ∧
      ∀ a, (serial_iter c ch s).1.cmdbuffer a ≠ s.cmdbuffer a →
        a = cell c s.bufindw s.serial_count ∧ s.serial_count < c.MAX_CMD_SIZE) ∧
    (∀ n : Int,
      (sd_iter c n s).1.serial_count ≤ c.MAX_CMD_SIZE - 1 ∧
      ∀ a, (sd_iter c n s).1.cmdbuffer a ≠ s.cmdbuffer a →
        a = cell c s.bufindw s.serial_count ∧ s.serial_count < c.MAX_CMD_SIZE) ∧
    (get_command c s).serial_count ≤ c.MAX_CMD_SIZE - 1 ∧
    (s.serial_count = c.MAX_CMD_SIZE - 1 → 2 ≤ c.MAX_CMD_SIZE →
      (∀ ch : Nat,
        (serial_iter c ch s).1.cmdbuffer
          = poke s.cmdbuffer (cell c s.bufindw (c.MAX_CMD_SIZE - 1)) 0 ∧
        ((serial_iter c ch s).1.serial_count = 0 ∨ (serial_iter c ch s).1.halted = true)) ∧
      (∀ n : Int,
        (sd_iter c n s).1.cmdbuffer
          = poke s.cmdbuffer (cell c s.bufindw (c.MAX_CMD_SIZE - 1)) 0 ∧
        (sd_iter c n s).1.serial_count = 0 ∧
        (sd_iter c n s).1.enq_hist = s.enq_hist ++
          [slotStr c (poke s.cmdbuffer (cell c s.bufindw (c.MAX_CMD_SIZE - 1)) 0) s.bufindw]) ∧
      (slotStr c (poke s.cmdbuffer (cell c s.bufindw (c.MAX_CMD_SIZE - 1)) 0) s.bufindw).length
        ≤ c.MAX_CMD_SIZE - 1) :=
  ⟨fun ch => serial_iter_count c ch s h, fun n => sd_iter_count c n s h,
    get_command_count c s h,
    fun hfull hsize => ⟨fun ch => serial_iter_forced c ch s hfull hsize,
      fun n => sd_iter_forced c n s hfull hsize,
      cstr_length _ c.MAX_CMD_SIZE (cell c s.bufindw 0) (c.MAX_CMD_SIZE - 1) (by omega)
        (poke_same _ _ _)⟩⟩

/-- Witness of C30: the initial state with four bytes waiting on the serial
line, and a state whose line buffer holds 95 bytes when the byte `G` arrives. -/
theorem C30_witness :
    State.init.serial_count ≤ refConfig.MAX_CMD_SIZE - 1 ∧
    (get_command refConfig { State.init with rx := [71, 50, 56, 10] }).serial_count
      ≤ refConfig.MAX_CMD_SIZE - 1 ∧
    ({ State.init with serial_count := 95 } : State).serial_count = refConfig.MAX_CMD_SIZE - 1 ∧
    (serial_iter refConfig 71 { State.init with serial_count := 95 }).1.cmdbuffer
      = poke State.init.cmdbuffer (cell refConfig 0 95) 0 :=
  ⟨by decide,
    (C30_fill_count_stays_inside_the_slot refConfig { State.init with rx := [71, 50, 56, 10] }
      (by decide)).2.2.1,
    by decide,
    (((C30_fill_count_stays_inside_the_slot refConfig { State.init with serial_count := 95 }
      (by decide)).2.2.2 (by decide) (by decide)).1 71).1⟩

/-! ## Tower selection -/

theorem fix_tower_classify_cases (s : Machine)
    (hrange : s.ac_prec ≤ (opp_range s).2 - (opp_range s).1) :
    (s.ac_prec < x_diff s → s.ac_prec < y_diff s →
      s.ac_prec < z_diff s →
      |x_diff s - y_diff s| ≤ s.ac_prec →
      |x_diff s - z_diff s| ≤ s.ac_prec →
      |y_diff s - z_diff s| ≤ s.ac_prec →
      fix_tower_classify s = 0) ∧
    (s.ac_prec < x_diff s → y_diff s ≤ s.ac_prec →
      z_diff s ≤ s.ac_prec → fix_tower_classify s = 1) ∧
    (x_diff s ≤ s.ac_prec → s.ac_prec < y_diff s →
      z_diff s ≤ s.ac_prec → fix_tower_classify s = 2) ∧
    (x_diff s ≤ s.ac_prec → y_diff s ≤ s.ac_prec →
      s.ac_prec < z_diff s → fix_tower_classify s = 3) ∧
    (s.ac_prec < x_diff s → s.ac_prec < y_diff s →
      z_diff s ≤ s.ac_prec → fix_tower_classify s = 3) ∧
    (s.ac_prec < x_diff s → y_diff s ≤ s.ac_prec →
      s.ac_prec < z_diff s → fix_tower_classify s = 2) ∧
    (x_diff s ≤ s.ac_prec → s.ac_prec < y_diff s →
      s.ac_prec < z_diff s → fix_tower_classify s = 1) := by
  have hs : ¬ ((opp_range s).2 - (opp_range s).1 < s.ac_prec) := not_lt.mpr hrange
  unfold fix_tower_classify
  dsimp only
  generalize x_diff s = x
  generalize y_diff s = y
  generalize z_diff s = z
  refine ⟨?_, ?_, ?_, ?_, ?_, ?_, ?_⟩
  · intro h1 h2 h3 e1 e2 e3
    simp [hs, not_le.mpr h1, not_le.mpr h2, not_le.mpr h3, e1, e2, e3]
  · intro h1 h2 h3
    simp [hs, not_le.mpr h1, h2, h3]
  · intro h1 h2 h3
    simp [hs, h1, not_le.mpr h2, h3]
  · intro h1 h2 h3
    simp [hs, h1, h2, not_le.mpr h3]
  · intro h1 h2 h3
    simp [hs, not_le.mpr h1, not_le.mpr h2, h3]
  · intro h1 h2 h3
    simp [hs, not_le.mpr h1, h2, not_le.mpr h3]
  · intro h1 h2 h3
    simp [hs, h1, not_le.mpr h2, not_le.mpr h3]

theorem fix_tower_select_fresh (s : Machine) (hadj : ∀ i, i < 6 → s.tower_adj i = 0) :
    fix_tower_select s = fix_tower_classify s := by
  unfold fix_tower_select
  dsimp only
  rw [hadj 0 (by decide), hadj 1 (by decide), hadj 2 (by decide), hadj 3 (by decide),
    hadj 4 (by decide), hadj 5 (by decide)]
  split_ifs <;> simp_all

theorem fix_tower_errors_none (k : Kinematics) (c : Probing) (fuel : Nat) (s : Machine)
    (h : fix_tower_select s = 0) : fix_tower_errors k c fuel s = some (0, s) := by
  unfold fix_tower_errors
  dsimp only
  rw [if_pos h]
  simp

theorem opp_range_eq (s : Machine) :
    opp_range s = (min s.bed_level_ox (min s.bed_level_oy s.bed_level_oz),
      max s.bed_level_ox (max s.bed_level_oy s.bed_level_oz)) := by
  unfold opp_range
  simp only [min_def, max_def]
  refine Prod.ext ?_ ?_ <;> dsimp only <;> split_ifs <;>
    first
      | rfl
      | (apply le_antisymm <;> linarith)

/-- C24: when the three opposite readings span at least `ac_prec` and no entry
of `tower_adj` carries a correction, `fix_tower_errors` selects as documented,
with the error of a tower the distance between its reading and the reading
opposite: three errors above `ac_prec` that agree pairwise within `ac_prec`
select no tower, and the function returns 0 with the machine untouched; one
error above `ac_prec` selects its tower; two errors above `ac_prec` select the
third tower. The selected tower is the one `fix_tower_errors` passes to
`adj_tower_radius` and `adj_tower_delta`. -/
theorem C24_tower_selection_follows_the_classification (k : Kinematics) (c : Probing)
    (fuel : Nat) (s : Machine)
    (hrange : s.ac_prec ≤ max s.bed_level_ox (max s.bed_level_oy s.bed_level_oz)
      - min s.bed_level_ox (min s.bed_level_oy s.bed_level_oz))
    (hadj : ∀ i, i < 6 → s.tower_adj i = 0) :
    (s.ac_prec < x_diff s → s.ac_prec < y_diff s → s.ac_prec < z_diff s →
      |x_diff s - y_diff s| ≤ s.ac_prec → |x_diff s - z_diff s| ≤ s.ac_prec →
      |y_diff s - z_diff s| ≤ s.ac_prec →
      fix_tower_select s = 0 ∧ fix_tower_errors k c fuel s = some (0, s)) ∧
    (s.ac_prec < x_diff s → y_diff s ≤ s.ac_prec → z_diff s ≤ s.ac_prec →
      fix_tower_select s = 1) ∧
    (x_diff s ≤ s.ac_prec → s.ac_prec < y_diff s → z_diff s ≤ s.ac_prec →
      fix_tower_select s = 2) ∧
    (x_diff s ≤ s.ac_prec → y_diff s ≤ s.ac_prec → s.ac_prec < z_diff s →
      fix_tower_select s = 3) ∧
    (s.ac_prec < x_diff s → s.ac_prec < y_diff s → z_diff s ≤ s.ac_prec →
      fix_tower_select s = 3) ∧
    (s.ac_prec < x_diff s → y_diff s ≤ s.ac_prec → s.ac_prec < z_diff s →
      fix_tower_select s = 2) ∧
    (x_diff s ≤ s.ac_prec → s.ac_prec < y_diff s → s.ac_prec < z_diff s →
      fix_tower_select s = 1) ∧
    (fix_tower_select s ≠ 0 →
      fix_tower_errors k c fuel s =
        match adj_tower_radius k c (fix_tower_select s) fuel s with
        | none => none
        | some s1 =>
          match adj_tower_delta k c (fix_tower_select s) fuel s1 with
          | none => none
          | some s2 =>
            some ((((List.range 6).filter
              (fun i => decide (s.tower_adj i ≠ s2.tower_adj i))).length : Int), s2)) := by
  have hr : s.ac_prec ≤ (opp_range s).2 - (opp_range s).1 := by rw [opp_range_eq]; exact hrange
  obtain ⟨c0, c1, c2, c3, c4, c5, c6⟩ := fix_tower_classify_cases s hr
  have hsel := fix_tower_select_fresh s hadj
  refine ⟨?_, ?_, ?_, ?_, ?_, ?_, ?_, ?_⟩
  · intro h1 h2 h3 e1 e2 e3
    have h0 : fix_tower_select s = 0 := by rw [hsel]; exact c0 h1 h2 h3 e1 e2 e3
    exact ⟨h0, fix_tower_errors_none k c fuel s h0⟩
  · intro h1 h2 h3; rw [hsel]; exact c1 h1 h2 h3
  · intro h1 h2 h3; rw [hsel]; exact c2 h1 h2 h3
  · intro h1 h2 h3; rw [hsel]; exact c3 h1 h2 h3
  · intro h1 h2 h3; rw [hsel]; exact c4 h1 h2 h3
  · intro h1 h2 h3; rw [hsel]; exact c5 h1 h2 h3
  · intro h1 h2 h3; rw [hsel]; exact c6 h1 h2 h3
  · intro hne
    unfold fix_tower_errors
    dsimp only
    rw [if_neg hne]
    cases adj_tower_radius k c (fix_tower_select s) fuel s with
    | none => rfl
    | some s1 => rfl

/-- Witness of C24: the reference machine with tower 1 reading 0.5 against
0.2 opposite, the other readings 0: tower 1 is selected. -/
theorem C24_witness :
    towerOneOff.ac_prec ≤ max towerOneOff.bed_level_ox
        (max towerOneOff.bed_level_oy towerOneOff.bed_level_oz)
      - min towerOneOff.bed_level_ox (min towerOneOff.bed_level_oy towerOneOff.bed_level_oz) ∧
    towerOneOff.ac_prec < x_diff towerOneOff ∧ y_diff towerOneOff ≤ towerOneOff.ac_prec ∧
    z_diff towerOneOff ≤ towerOneOff.ac_prec ∧ fix_tower_select towerOneOff = 1 := by
  have h1 : towerOneOff.ac_prec < x_diff towerOneOff := by
    show (3 / 100 : ℚ) < |(1 / 2 : ℚ) - 2 / 10|
    rw [abs_of_nonneg (by norm_num)]; norm_num
  have h2 : y_diff towerOneOff ≤ towerOneOff.ac_prec := by
    show |(0 : ℚ) - 0| ≤ (3 / 100 : ℚ)
    norm_num
  have h3 : z_diff towerOneOff ≤ towerOneOff.ac_prec := by
    show |(0 : ℚ) - 0| ≤ (3 / 100 : ℚ)
    norm_num
  have hr : towerOneOff.ac_prec ≤ max towerOneOff.bed_level_ox
        (max towerOneOff.bed_level_oy towerOneOff.bed_level_oz)
      - min towerOneOff.bed_level_ox (min towerOneOff.bed_level_oy towerOneOff.bed_level_oz) := by
    show (3 / 100 : ℚ) ≤ max (2 / 10 : ℚ) (max 0 0) - min (2 / 10 : ℚ) (min 0 0)
    norm_num
  exact ⟨hr, h1, h2, h3,
    (C24_tower_selection_follows_the_classification refKinematics refProbing 0 towerOneOff hr
      (fun _ _ => rfl)).2.1 h1 h2 h3⟩

theorem Machine.Probed.unmoved (s : Machine) : Machine.Probed s s :=
  ⟨Motion.Kept.rest s.motion, rfl⟩

theorem Machine.Probed.chain {a b c : Machine} (h1 : Machine.Probed a b)
    (h2 : Machine.Probed b c) : Machine.Probed a c := by
  refine ⟨h1.1.next h2.1, ?_⟩
  have e1 := h1.2
  have e2 := h2.2
  cases a
  cases b
  cases c
  simp only [Machine.mk.injEq] at e1 e2 ⊢
  obtain ⟨-, b1, b2, b3, b4, b5, b6, b7, b8, b9, b10, b11, b12, b13, -, -, -, -, -, -, -, -,
    b14, b15, b16, -, -, b17⟩ := e1
  obtain ⟨-, c1, c2, c3, c4, c5, c6, c7, c8, c9, c10, c11, c12, c13, -, -, -, -, -, -, -, -,
    c14, c15, c16, -, -, c17⟩ := e2
  exact ⟨trivial, c1.trans b1, c2.trans b2, c3.trans b3, c4.trans b4, c5.trans b5, c6.trans b6,
    c7.trans b7, c8.trans b8, c9.trans b9, c10.trans b10, c11.trans b11, c12.trans b12,
    c13.trans b13, trivial, trivial, trivial, trivial, trivial, trivial, trivial, trivial,
    c14.trans b14, c15.trans b15, c16.trans b16, trivial, trivial, c17.trans b17⟩

theorem Machine.Kept.reading {s s' : Machine} (h : Machine.Kept s s') : Machine.Probed s s' := by
  refine ⟨h.1, ?_⟩
  have e := h.2
  cases s
  cases s'
  simp only [Machine.mk.injEq] at e ⊢
  obtain ⟨-, b1, b2, b3, b4, b5, b6, b7, b8, b9, b10, b11, b12, b13, -, b14, b15, b16, b17, b18,
    b19, b20, b21, b22, b23, -, -, b24⟩ := e
  exact ⟨trivial, b1, b2, b3, b4, b5, b6, b7, b8, b9, b10, b11, b12, b13, trivial, trivial,
    trivial, trivial, trivial, trivial, trivial, trivial, b21, b22, b23, trivial, trivial, b24⟩

/-- What a probing step leaves alone. -/
theorem Machine.Probed.fixed {s s' : Machine} (h : Machine.Probed s s') :
    s'.tower_adj = s.tower_adj ∧ s'.delta_radius = s.delta_radius ∧
    s'.delta_diagonal_rod = s.delta_diagonal_rod ∧ s'.ac_prec = s.ac_prec ∧
    s'.bed_radius = s.bed_radius ∧ s'.z_probe_offset = s.z_probe_offset ∧
    s'.endstop_adj = s.endstop_adj ∧ s'.adj_t1_Radius = s.adj_t1_Radius ∧
    s'.adj_t2_Radius = s.adj_t2_Radius ∧ s'.adj_t3_Radius = s.adj_t3_Radius ∧
    s'.diagrod_adj = s.diagrod_adj ∧ s'.motion.max_pos = s.motion.max_pos := by
  have e := h.2
  refine ⟨?_, ?_, ?_, ?_, ?_, ?_, ?_, ?_, ?_, ?_, ?_, h.1.max_pos⟩ <;> rw [e]

/-- Call number `n` of `probe_bed` on a scripted probe, in the form the runs
below use. -/
theorem scripted_reading (k : Kinematics) (f : Nat → ℚ) (s : Machine) (x y : ℚ) (n : Nat)
    (hmech : k.mechanism = Mechanism.DELTA) (h : Ready s n) :
    ∃ s', probe_bed k (scriptProbing f) s x y = some (f n, s') ∧ Machine.Probed s s' ∧
      Ready s' (n + 1) ∧
      s'.bed_level_c = s.bed_level_c ∧ s'.bed_level_x = s.bed_level_x ∧
      s'.bed_level_y = s.bed_level_y ∧ s'.bed_level_z = s.bed_level_z ∧
      s'.bed_level_ox = s.bed_level_ox ∧ s'.bed_level_oy = s.bed_level_oy ∧
      s'.bed_level_oz = s.bed_level_oz := by
  obtain ⟨s', h1, h2, h3⟩ := scripted_probe_bed k f s x y n hmech h
  exact ⟨s', h1, h2.reading, h3, h2.levels⟩

theorem scripted_probe_opposite (k : Kinematics) (f : Nat → ℚ) (s : Machine) (n : Nat)
    (hmech : k.mechanism = Mechanism.DELTA) (h : Ready s n) :
    ∃ s', probe_opposite k (scriptProbing f) s = some s' ∧ Machine.Probed s s' ∧
      Ready s' (n + 3) ∧
      s'.bed_level_ox = f n ∧ s'.bed_level_oy = f (n + 1) ∧ s'.bed_level_oz = f (n + 2) ∧
      s'.bed_level_c = s.bed_level_c ∧ s'.bed_level_x = s.bed_level_x ∧
      s'.bed_level_y = s.bed_level_y ∧ s'.bed_level_z = s.bed_level_z := by
  obtain ⟨s1, h1, p1, r1, c1, x1, y1, z1, -, -, -⟩ := scripted_reading k f s
    (SIN_60 * s.bed_radius) (COS_60 * s.bed_radius) n hmech h
  obtain ⟨s2, h2, p2, r2, c2, x2, y2, z2, ox2, -, -⟩ := scripted_reading k f
    { s1 with bed_level_ox := f n } (-SIN_60 * s1.bed_radius) (COS_60 * s1.bed_radius)
    (n + 1) hmech r1
  obtain ⟨s3, h3, p3, r3, c3, x3, y3, z3, ox3, oy3, -⟩ := scripted_reading k f
    { s2 with bed_level_oy := f (n + 1) } 0 (-s2.bed_radius) (n + 2) hmech r2
  refine ⟨{ s3 with bed_level_oz := f (n + 2) }, ?_, ?_, r3, ?_, ?_, rfl, ?_, ?_, ?_, ?_⟩
  · unfold probe_opposite
    rw [h1]
    dsimp only
    rw [h2]
    dsimp only
    rw [h3]
  · have q1 : Machine.Probed s1 { s1 with bed_level_ox := f n } := ⟨Motion.Kept.rest _, rfl⟩
    have q2 : Machine.Probed s2 { s2 with bed_level_oy := f (n + 1) } :=
      ⟨Motion.Kept.rest _, rfl⟩
    have q3 : Machine.Probed s3 { s3 with bed_level_oz := f (n + 2) } :=
      ⟨Motion.Kept.rest _, rfl⟩
    exact ((((p1.chain q1).chain p2).chain q2).chain p3).chain q3
  · show s3.bed_level_ox = _
    rw [ox3, ox2]
  · show s3.bed_level_oy = _
    rw [oy3]
  · show s3.bed_level_c = _
    rw [c3, c2, c1]
  · show s3.bed_level_x = _
    rw [x3, x2, x1]
  · show s3.bed_level_y = _
    rw [y3, y2, y1]
  · show s3.bed_level_z = _
    rw [z3, z2, z1]

theorem scripted_probe_rod (k : Kinematics) (f : Nat → ℚ) (s : Machine) (n : Nat)
    (hmech : k.mechanism = Mechanism.DELTA) (h : Ready s n) :
    ∃ s', probe_rod k (scriptProbing f) s = some s' ∧ Machine.Probed s s' ∧
      Ready s' (n + 4) ∧
      s'.bed_level_oy = f n ∧ s'.bed_level_oz = f (n + 1) ∧ s'.bed_level_ox = f (n + 2) ∧
      s'.bed_level_c = f (n + 3) ∧ s'.bed_level_x = s.bed_level_x ∧
      s'.bed_level_y = s.bed_level_y ∧ s'.bed_level_z = s.bed_level_z := by
  obtain ⟨s1, h1, p1, r1, c1, x1, y1, z1, -, -, -⟩ := scripted_reading k f s
    (-SIN_60 * s.bed_radius) (COS_60 * s.bed_radius) n hmech h
  obtain ⟨s2, h2, p2, r2, c2, x2, y2, z2, -, oy2, -⟩ := scripted_reading k f
    { s1 with bed_level_oy := f n } 0 (-s1.bed_radius) (n + 1) hmech r1
  obtain ⟨s3, h3, p3, r3, c3, x3, y3, z3, -, oy3, oz3⟩ := scripted_reading k f
    { s2 with bed_level_oz := f (n + 1) } (SIN_60 * s2.bed_radius) (COS_60 * s2.bed_radius)
    (n + 2) hmech r2
  obtain ⟨s4, h4, p4, r4, c4, x4, y4, z4, ox4, oy4, oz4⟩ := scripted_reading k f
    { s3 with bed_level_ox := f (n + 2) } 0 0 (n + 3) hmech r3
  refine ⟨{ s4 with bed_level_c := f (n + 3) }, ?_, ?_, r4, ?_, ?_, ?_, rfl, ?_, ?_, ?_⟩
  · unfold probe_rod
    rw [h1]
    dsimp only
    rw [h2]
    dsimp only
    rw [h3]
    dsimp only
    rw [h4]
  · have q1 : Machine.Probed s1 { s1 with bed_level_oy := f n } := ⟨Motion.Kept.rest _, rfl⟩
    have q2 : Machine.Probed s2 { s2 with bed_level_oz := f (n + 1) } :=
      ⟨Motion.Kept.rest _, rfl⟩
    have q3 : Machine.Probed s3 { s3 with bed_level_ox := f (n + 2) } :=
      ⟨Motion.Kept.rest _, rfl⟩
    have q4 : Machine.Probed s4 { s4 with bed_level_c := f (n + 3) } :=
      ⟨Motion.Kept.rest _, rfl⟩
    exact ((((((p1.chain q1).chain p2).chain q2).chain p3).chain q3).chain p4).chain q4
  · show s4.bed_level_oy = _
    rw [oy4, oy3, oy2]
  · show s4.bed_level_oz = _
    rw [oz4, oz3]
  · show s4.bed_level_ox = _
    rw [ox4]
  · show s4.bed_level_x = _
    rw [x4, x3, x2, x1]
  · show s4.bed_level_y = _
    rw [y4, y3, y2, y1]
  · show s4.bed_level_z = _
    rw [z4, z3, z2, z1]

/-- The two probes of one pass of `adj_tower_delta(1)` on a scripted probe. -/
theorem scripted_probe_pair (k : Kinematics) (f : Nat → ℚ) (s : Machine) (n : Nat)
    (hmech : k.mechanism = Mechanism.DELTA) (h : Ready s n) :
    ∃ s', probe_pair k (scriptProbing f) 1 s = some s' ∧ Machine.Probed s s' ∧
      Ready s' (n + 2) ∧ s'.bed_level_oy = f n ∧ s'.bed_level_oz = f (n + 1) := by
  obtain ⟨s1, h1, p1, r1, -⟩ := scripted_reading k f s
    (-SIN_60 * s.bed_radius) (COS_60 * s.bed_radius) n hmech h
  obtain ⟨s2, h2, p2, r2, -, -, -, -, -, oy2, -⟩ := scripted_reading k f
    { s1 with bed_level_oy := f n } 0 (-s1.bed_radius) (n + 1) hmech r1
  refine ⟨{ s2 with bed_level_oz := f (n + 1) }, ?_, ?_, r2, ?_, rfl⟩
  · unfold probe_pair
    rw [if_pos (Or.inl rfl), h1]
    dsimp only
    rw [if_pos (Or.inl rfl), h2]
    dsimp only
    rw [if_neg (by decide)]
  · have q1 : Machine.Probed s1 { s1 with bed_level_oy := f n } := ⟨Motion.Kept.rest _, rfl⟩
    have q2 : Machine.Probed s2 { s2 with bed_level_oz := f (n + 1) } :=
      ⟨Motion.Kept.rest _, rfl⟩
    exact ((p1.chain q1).chain p2).chain q2
  · show s2.bed_level_oy = _
    rw [oy2]

/-! ## The tower radius loop of tower 3 -/

theorem adj_tower_radius_3_entry (k : Kinematics) (c : Probing) (fuel : Nat) (s : Machine)
    (h0x : s.bed_level_ox = 0) (h0y : s.bed_level_oy = 0) (h0z : s.bed_level_oz = 0) :
    adj_tower_radius k c 3 fuel s =
      adj_tower_radius_loop k c 3 fuel ⟨0, 0⟩
        { s with adj_t1_Radius := 0, adj_t2_Radius := 0, adj_t3_Radius := 0 } := by
  unfold adj_tower_radius
  norm_num [h0x, h0y, h0z]

theorem adj_tower_radius_blocks_3 (k : Kinematics) (c : Probing) (l : TowerRadius)
    (s : Machine) :
    adj_tower_radius_blocks k c 3 l s =
      match adj_tower_radius_3 k c l s with
      | none => none
      | some (t3_done, l, s) => some (true, true, t3_done, l, s) := by
  unfold adj_tower_radius_blocks
  norm_num

/-- The block of tower 3 on readings 0.2, 0 and 0.3, entered with a stored
reading 0 and a target 0: `t3_done` is set, from the reading opposite tower 1,
with no pass counted as unchanged. -/
theorem adj_tower_radius_3_slip (k : Kinematics) (s : Machine)
    (hmech : k.mechanism = Mechanism.DELTA) (h : Ready s 0)
    (h0z : s.bed_level_oz = 0) (h0r : s.adj_t3_Radius = 0) :
    ∃ s', adj_tower_radius_3 k (scriptProbing slipScript) ⟨0, 0⟩ s
        = some (true, ⟨2 / 10, 0⟩, s') ∧
      Machine.Probed s s' ∧ s'.bed_level_ox = 2 / 10 ∧ s'.bed_level_oy = 0 ∧
      s'.bed_level_oz = 3 / 10 := by
  obtain ⟨s1, h1, p1, r1, ox1, oy1, oz1, -⟩ :=
    scripted_probe_opposite k slipScript s 0 hmech h
  have hr1 : s1.adj_t3_Radius = 0 := by rw [p1.fixed.2.2.2.2.2.2.2.2.2.1, h0r]
  have ex : s1.bed_level_ox = 2 / 10 := by rw [ox1]; rfl
  have ey : s1.bed_level_oy = 0 := by rw [oy1]; rfl
  have ez : s1.bed_level_oz = 3 / 10 := by rw [oz1]; rfl
  refine ⟨s1, ?_, p1, ex, ey, ez⟩
  unfold adj_tower_radius_3
  rw [h1]
  simp only [ex, ey, ez, hr1, h0z, near]
  norm_num
  rw [ex]
  norm_num

theorem tower_adj_add_zero (f : Nat → ℚ) (i : Nat) : Function.update f i (f i + 0) = f := by
  rw [add_zero, Function.update_eq_self]

/-- The run of `adj_tower_radius(3)` on readings 0.2, 0 and 0.3, from stored
readings 0: one pass. -/
theorem adj_tower_radius_3_run (k : Kinematics) (s : Machine)
    (hmech : k.mechanism = Mechanism.DELTA) (h : Ready s 0)
    (h0x : s.bed_level_ox = 0) (h0y : s.bed_level_oy = 0) (h0z : s.bed_level_oz = 0) :
    ∃ s', adj_tower_radius k (scriptProbing slipScript) 3 1 s = some s' ∧
      s'.bed_level_ox = 2 / 10 ∧ s'.bed_level_oy = 0 ∧ s'.bed_level_oz = 3 / 10 ∧
      s'.tower_adj = s.tower_adj := by
  have hready : Ready (set_delta_constants (scriptProbing slipScript)
      { s with adj_t1_Radius := 0, adj_t2_Radius := 0, adj_t3_Radius := 0 }) 0 := h
  obtain ⟨s', h3, p3, ex, ey, ez⟩ := adj_tower_radius_3_slip k
    (set_delta_constants (scriptProbing slipScript)
      { s with adj_t1_Radius := 0, adj_t2_Radius := 0, adj_t3_Radius := 0 })
    hmech hready h0z rfl
  refine ⟨s', ?_, ex, ey, ez, ?_⟩
  · rw [adj_tower_radius_3_entry _ _ _ _ h0x h0y h0z]
    unfold adj_tower_radius_loop
    dsimp only
    simp only [tower_adj_add_zero]
    rw [adj_tower_radius_blocks_3]
    have h3' : adj_tower_radius_3 k (scriptProbing slipScript) ⟨0, 0⟩
        (set_delta_constants (scriptProbing slipScript)
          { s with adj_t1_Radius := 0, adj_t2_Radius := 0, adj_t3_Radius := 0 })
        = some (true, ⟨2 / 10, 0⟩, s') := h3
    rw [h3']
    simp
  · rw [p3.fixed.1]
    rfl

/-- C25: `adj_tower_radius(3)` leaves its loop on the wrong reading. The block
of tower 3 computes the adjusted target from `bed_level_oz`, as the blocks of
towers 1 and 2 do from their own readings, but then tests
`bed_level_ox - adj_target`. On the readings 0.2, 0 and 0.3 opposite towers 1,
2 and 3 the loop is left after one pass, with no pass counted as unchanged and
the radius correction of tower 3 untouched, although the reading opposite
tower 3 is 0.1 above its adjusted target, ten times the tolerance 0.01. -/
theorem C25_tower3_loop_tests_the_reading_of_tower1 :
    ∃ s', adj_tower_radius refKinematics (scriptProbing slipScript) 3 1 refMachine = some s' ∧
      s'.bed_level_ox = 2 / 10 ∧ s'.bed_level_oy = 0 ∧ s'.bed_level_oz = 3 / 10 ∧
      s'.bed_level_oz
        - ((s'.bed_level_oy + s'.bed_level_ox) / 2
            + (s'.bed_level_oz - (s'.bed_level_oy + s'.bed_level_ox) / 2) / 2) = 1 / 10 ∧
      s'.bed_level_ox
        - ((s'.bed_level_oy + s'.bed_level_ox) / 2
            + (s'.bed_level_oz - (s'.bed_level_oy + s'.bed_level_ox) / 2) / 2) = 0 ∧
      s'.tower_adj 5 = refMachine.tower_adj 5 := by
  obtain ⟨s', h, ex, ey, ez, ht⟩ := adj_tower_radius_3_run refKinematics refMachine rfl
    ⟨rfl, by show (100 : Int) ≠ 0; decide, rfl⟩ rfl rfl rfl
  exact ⟨s', h, ex, ey, ez, by rw [ex, ey, ez]; norm_num, by rw [ex, ey, ez]; norm_num,
    by rw [ht]⟩

/-! ## The tower angle loop -/

/-- One pass of the loop of `adj_tower_delta(tower)` for a tower 1, 2 or 3. -/
theorem adj_tower_delta_loop_succ (k : Kinematics) (c : Probing) (tower : Int) (i fuel : Nat)
    (a m : ℚ) (s : Machine) (ht : tower = 1 ∨ tower = 2 ∨ tower = 3) :
    adj_tower_delta_loop k c tower i (fuel + 1) a m s =
      match probe_pair k c tower (set_delta_constants c
        { s with tower_adj := Function.update s.tower_adj i (s.tower_adj i + a) }) with
      | none => none
      | some s1 =>
        if (adj_tower_delta_next a m (compared tower s1).1 (compared tower s1).2).1 ≠ 0 then
          adj_tower_delta_loop k c tower i fuel
            (adj_tower_delta_next a m (compared tower s1).1 (compared tower s1).2).1
            (adj_tower_delta_next a m (compared tower s1).1 (compared tower s1).2).2 s1
        else some s1 := by
  rw [adj_tower_delta_loop]
  dsimp only
  cases probe_pair k c tower (set_delta_constants c
    { s with tower_adj := Function.update s.tower_adj i (s.tower_adj i + a) }) with
  | none => rfl
  | some s1 =>
    dsimp only
    rcases ht with h | h | h <;> subst h <;> norm_num [compared, adj_tower_delta_next]

/-- The step rule of `adj_tower_delta`: with a magnitude above 0, the next step
is 0 exactly when the two readings are equal; otherwise it points from the
lower reading, and its size is the magnitude, halved exactly when the step
before pointed the other way. -/
theorem adj_tower_delta_next_spec (p m a b : ℚ) (hm : 0 < m) :
    ((adj_tower_delta_next p m a b).1 = 0 ↔ a = b) ∧
    0 < (adj_tower_delta_next p m a b).2 ∧
    (a = b → (adj_tower_delta_next p m a b).2 = m) ∧
    (a < b → (adj_tower_delta_next p m a b).2 = (if p < 0 then m / 2 else m) ∧
      (adj_tower_delta_next p m a b).1 = (adj_tower_delta_next p m a b).2) ∧
    (a > b → (adj_tower_delta_next p m a b).2 = (if p > 0 then m / 2 else m) ∧
      (adj_tower_delta_next p m a b).1 = -(adj_tower_delta_next p m a b).2) := by
  have hm2 : 0 < m / 2 := by positivity
  have hn : ¬ m < 0 := not_lt.mpr (le_of_lt hm)
  have hn2 : ¬ m / 2 < 0 := not_lt.mpr (le_of_lt hm2)
  have hneg : -m < 0 := by linarith
  have hnn : ¬ 0 < -m := not_lt.mpr (le_of_lt hneg)
  rcases lt_trichotomy a b with h | h | h
  · have h2 : ¬ b < a := not_lt.mpr (le_of_lt h)
    have h3 : a ≠ b := ne_of_lt h
    by_cases hp : p < 0
    · have hp' : ¬ 0 < p := not_lt.mpr (le_of_lt hp)
      have key : adj_tower_delta_next p m a b = (m / 2, m / 2) := by
        unfold adj_tower_delta_next
        simp only [gt_iff_lt, h, h2, hm, hp, hp', hn2, if_true, if_false, and_self, and_false,
          false_and, and_true]
      rw [key, if_pos hp]
      exact ⟨⟨fun e => absurd e (ne_of_gt hm2), fun e => absurd e h3⟩, hm2,
        fun e => absurd e h3, fun _ => ⟨rfl, rfl⟩, fun e => absurd e h2⟩
    · have key : adj_tower_delta_next p m a b = (m, m) := by
        unfold adj_tower_delta_next
        simp only [gt_iff_lt, h, h2, hm, hp, hn, if_true, if_false, and_false, false_and]
      rw [key, if_neg hp]
      exact ⟨⟨fun e => absurd e (ne_of_gt hm), fun e => absurd e h3⟩, hm,
        fun e => absurd e h3, fun _ => ⟨rfl, rfl⟩, fun e => absurd e h2⟩
  · subst h
    have key : adj_tower_delta_next p m a a = (0, m) := by
      unfold adj_tower_delta_next
      simp only [gt_iff_lt, lt_irrefl, if_false, false_and]
    rw [key]
    exact ⟨⟨fun _ => rfl, fun _ => rfl⟩, hm, fun _ => rfl, fun e => absurd e (lt_irrefl _),
      fun e => absurd e (lt_irrefl _)⟩
  · have h2 : ¬ a < b := not_lt.mpr (le_of_lt h)
    have h3 : a ≠ b := ne_of_gt h
    by_cases hp : 0 < p
    · have key : adj_tower_delta_next p m a b = (-(m / 2), m / 2) := by
        unfold adj_tower_delta_next
        simp only [gt_iff_lt, h, h2, hp, hnn, hneg, if_true, if_false, false_and, and_self]
      rw [key, if_pos hp]
      exact ⟨⟨fun e => absurd e (by linarith), fun e => absurd e h3⟩, hm2,
        fun e => absurd e h3, fun e => absurd e h2, fun _ => ⟨rfl, rfl⟩⟩
    · have key : adj_tower_delta_next p m a b = (-m, m) := by
        unfold adj_tower_delta_next
        simp only [gt_iff_lt, h, h2, hp, hnn, hneg, if_true, if_false, false_and, and_false]
      rw [key, if_neg hp]
      exact ⟨⟨fun e => absurd e (ne_of_lt hneg), fun e => absurd e h3⟩, hm,
        fun e => absurd e h3, fun e => absurd e h2, fun _ => ⟨rfl, rfl⟩⟩

/-- The loop of `adj_tower_delta` returns only from a pass whose two compared
readings are equal. -/
theorem adj_tower_delta_loop_returned (k : Kinematics) (c : Probing) (tower : Int) (i : Nat)
    (ht : tower = 1 ∨ tower = 2 ∨ tower = 3) :
    ∀ (fuel : Nat) (a m : ℚ) (s s' : Machine), 0 < m →
      adj_tower_delta_loop k c tower i fuel a m s = some s' →
      (compared tower s').1 = (compared tower s').2 := by
  intro fuel
  induction fuel with
  | zero => intro a m s s' _ h; rw [adj_tower_delta_loop] at h; cases h
  | succ fuel ih =>
    intro a m s s' hm h
    rw [adj_tower_delta_loop_succ k c tower i fuel a m s ht] at h
    generalize hp : probe_pair k c tower (set_delta_constants c
      { s with tower_adj := Function.update s.tower_adj i (s.tower_adj i + a) }) = o at h
    cases o with
    | none => cases h
    | some s1 =>
      dsimp only at h
      obtain ⟨hz, hpos, -⟩ := adj_tower_delta_next_spec a m (compared tower s1).1
        (compared tower s1).2 hm
      by_cases hne : (adj_tower_delta_next a m (compared tower s1).1 (compared tower s1).2).1 ≠ 0
      · rw [if_pos hne] at h
        exact ih _ _ s1 s' hpos h
      · rw [if_neg hne] at h
        cases h
        exact hz.mp (not_not.mp hne)

theorem adj_tower_delta_eq (k : Kinematics) (c : Probing) (fuel : Nat) (s : Machine) :
    adj_tower_delta k c 1 fuel s = adj_tower_delta_loop k c 1 0 fuel 0 (2 / 10) s := by
  unfold adj_tower_delta
  rw [if_pos (by decide)]
  rfl

/-- One pass of `adj_tower_delta(1)` on the readings that never change: the
step stays 0.2 and the loop goes on. -/
theorem adj_tower_delta_stuck_pass (k : Kinematics) (hmech : k.mechanism = Mechanism.DELTA)
    (s : Machine) (q : Nat) (a : ℚ) (h : Ready s (2 * q)) (ha : 0 ≤ a) :
    ∃ s1, Ready s1 (2 * (q + 1)) ∧ s1.bed_level_oy = 0 ∧ s1.bed_level_oz = 3 / 10 ∧
      s1.tower_adj 0 = s.tower_adj 0 + a ∧
      ∀ fuel, adj_tower_delta_loop k (scriptProbing stuckScript) 1 0 (fuel + 1) a (2 / 10) s
        = adj_tower_delta_loop k (scriptProbing stuckScript) 1 0 fuel (2 / 10) (2 / 10) s1 := by
  have hready : Ready (set_delta_constants (scriptProbing stuckScript)
      { s with tower_adj := Function.update s.tower_adj 0 (s.tower_adj 0 + a) }) (2 * q) := h
  obtain ⟨s1, h1, p1, r1, oy1, oz1⟩ := scripted_probe_pair k stuckScript _ (2 * q) hmech hready
  have ey : s1.bed_level_oy = 0 := by
    rw [oy1]; unfold stuckScript; rw [if_pos (by omega)]
  have ez : s1.bed_level_oz = 3 / 10 := by
    rw [oz1]; unfold stuckScript; rw [if_neg (by omega)]
  have hc : compared 1 s1 = (0, 3 / 10) := by
    unfold compared; rw [if_pos rfl, ey, ez]
  have hnext : adj_tower_delta_next a (2 / 10) 0 (3 / 10) = (2 / 10, 2 / 10) := by
    obtain ⟨-, -, -, hlt, -⟩ := adj_tower_delta_next_spec a (2 / 10) 0 (3 / 10) (by norm_num)
    obtain ⟨e2, e1⟩ := hlt (by norm_num)
    rw [if_neg (not_lt.mpr ha)] at e2
    exact Prod.ext (by rw [e1, e2]) e2
  refine ⟨s1, r1, ey, ez, ?_, ?_⟩
  · rw [p1.fixed.1]
    show Function.update s.tower_adj 0 (s.tower_adj 0 + a) 0 = _
    rw [Function.update_same]
  · intro fuel
    rw [adj_tower_delta_loop_succ k _ 1 0 fuel a (2 / 10) s (Or.inl rfl), h1]
    dsimp only
    rw [hc, hnext]
    dsimp only
    rw [if_pos (by norm_num)]

theorem adj_tower_delta_stuck (k : Kinematics) (hmech : k.mechanism = Mechanism.DELTA) :
    ∀ (fuel : Nat) (s : Machine) (q : Nat) (a : ℚ), Ready s (2 * q) → 0 ≤ a →
      adj_tower_delta_loop k (scriptProbing stuckScript) 1 0 fuel a (2 / 10) s = none := by
  intro fuel
  induction fuel with
  | zero => intro s q a _ _; rw [adj_tower_delta_loop]
  | succ fuel ih =>
    intro s q a h ha
    obtain ⟨s1, r1, -, -, -, hstep⟩ := adj_tower_delta_stuck_pass k hmech s q a h ha
    rw [hstep fuel]
    exact ih s1 (q + 1) (2 / 10) r1 (by norm_num)

theorem adj_tower_delta_stuck_progress (k : Kinematics)
    (hmech : k.mechanism = Mechanism.DELTA) :
    ∀ (j : Nat) (s : Machine) (q : Nat) (a : ℚ), Ready s (2 * q) → 0 ≤ a →
      ∃ sj, sj.bed_level_oy = 0 ∧ sj.bed_level_oz = 3 / 10 ∧
        sj.tower_adj 0 = s.tower_adj 0 + a + 2 / 10 * (j : ℚ) ∧
        ∀ fuel, adj_tower_delta_loop k (scriptProbing stuckScript) 1 0 (fuel + (j + 1)) a
            (2 / 10) s
          = adj_tower_delta_loop k (scriptProbing stuckScript) 1 0 fuel (2 / 10) (2 / 10) sj := by
  intro j
  induction j with
  | zero =>
    intro s q a h ha
    obtain ⟨s1, -, ey, ez, ht, hstep⟩ := adj_tower_delta_stuck_pass k hmech s q a h ha
    exact ⟨s1, ey, ez, by rw [ht]; simp, hstep⟩
  | succ j ih =>
    intro s q a h ha
    obtain ⟨s1, r1, -, -, ht, hstep⟩ := adj_tower_delta_stuck_pass k hmech s q a h ha
    obtain ⟨sj, ey, ez, htj, hj⟩ := ih s1 (q + 1) (2 / 10) r1 (by norm_num)
    refine ⟨sj, ey, ez, ?_, ?_⟩
    · rw [htj, ht]; push_cast; ring
    · intro fuel
      have : fuel + (j + 1 + 1) = (fuel + (j + 1)) + 1 := by omega
      rw [this, hstep, hj]

/-- The run of `adj_tower_delta(1)` on readings that are all 0: one pass. -/
theorem adj_tower_delta_flat (k : Kinematics) (hmech : k.mechanism = Mechanism.DELTA)
    (s : Machine) (n : Nat) (h : Ready s n) :
    ∃ s', adj_tower_delta k (scriptProbing (fun _ => 0)) 1 1 s = some s' := by
  have hready : Ready (set_delta_constants (scriptProbing (fun _ => 0))
      { s with tower_adj := Function.update s.tower_adj 0 (s.tower_adj 0 + 0) }) n := h
  obtain ⟨s1, h1, p1, r1, oy1, oz1⟩ :=
    scripted_probe_pair k (fun _ => 0) _ n hmech hready
  have hc : compared 1 s1 = (0, 0) := by
    unfold compared; rw [if_pos rfl, oy1, oz1]
  have hz : (adj_tower_delta_next 0 (2 / 10) 0 0).1 = 0 :=
    (adj_tower_delta_next_spec 0 (2 / 10) 0 0 (by norm_num)).1.mpr rfl
  refine ⟨s1, ?_⟩
  rw [adj_tower_delta_eq, adj_tower_delta_loop_succ k _ 1 0 0 0 (2 / 10) s (Or.inl rfl), h1]
  dsimp only
  rw [hc]
  dsimp only
  rw [if_neg (by rw [hz]; simp)]

/-! ## The diagonal rod loop -/

/-- The arithmetic of one pass of `adj_diagrod_length` in closed form, for a
magnitude above 0. -/
theorem adj_diagrod_next_eq (a m c ox oy oz : ℚ) (hm : 0 < m) :
    adj_diagrod_next a m c ox oy oz =
      (if (c - 5 / 1000 < (ox + oy + oz) / 3 ∧ c + 5 / 1000 > (ox + oy + oz) / 3) ∨
          (if (c + 5 / 1000 > (ox + oy + oz) / 3 ∧ a < 0) ∨
              (¬ c + 5 / 1000 > (ox + oy + oz) / 3 ∧ a > 0) then m / 2 else m) < 1 / 1000
        then 0
        else if c + 5 / 1000 > (ox + oy + oz) / 3 then
          (if (c + 5 / 1000 > (ox + oy + oz) / 3 ∧ a < 0) ∨
              (¬ c + 5 / 1000 > (ox + oy + oz) / 3 ∧ a > 0) then m / 2 else m)
        else
          -(if (c + 5 / 1000 > (ox + oy + oz) / 3 ∧ a < 0) ∨
              (¬ c + 5 / 1000 > (ox + oy + oz) / 3 ∧ a > 0) then m / 2 else m),
       if (c + 5 / 1000 > (ox + oy + oz) / 3 ∧ a < 0) ∨
          (¬ c + 5 / 1000 > (ox + oy + oz) / 3 ∧ a > 0) then m / 2 else m) := by
  have hm2 : 0 < m / 2 := by positivity
  have hn : ¬ m < 0 := not_lt.mpr (le_of_lt hm)
  have hneg : -m < 0 := by linarith
  have hnn : ¬ 0 < -m := not_lt.mpr (le_of_lt hneg)
  have habs1 : |m| = m := abs_of_pos hm
  have habs2 : |m / 2| = m / 2 := abs_of_pos hm2
  have habs3 : |-m| = m := by rw [abs_neg, habs1]
  have habs4 : |-m / 2| = m / 2 := by rw [neg_div, abs_neg, habs2]
  unfold adj_diagrod_next
  dsimp only
  generalize (ox + oy + oz) / 3 = t
  by_cases hup : c + 5 / 1000 > t
  · by_cases ha : a < 0
    · simp only [gt_iff_lt] at hup ⊢
      simp only [hup, ha, hm, if_true, and_true, true_and, true_or, and_self]
      by_cases hlow : c - 5 / 1000 < t <;> by_cases hs : m / 2 < 1 / 1000 <;>
        simp [hlow, hs, habs2, ne_of_gt hm2]
    · simp only [gt_iff_lt] at hup ⊢
      simp only [hup, ha, hm, hnn, if_true, if_false, and_true, true_and, and_false, false_and,
        or_false, false_or, not_true_eq_false]
      by_cases hlow : c - 5 / 1000 < t <;> by_cases hs : m < 1 / 1000 <;>
        simp [hlow, hs, habs1, ne_of_gt hm, hn]
  · have hlow : c - 5 / 1000 < t := by
      have := not_lt.mp hup
      linarith
    by_cases ha : a > 0
    · simp only [gt_iff_lt] at hup ha ⊢
      simp only [hup, ha, hlow, hneg, hnn, if_true, if_false, and_true, true_and, and_false,
        false_and, or_false, false_or, not_false_eq_true, and_self, or_true]
      by_cases hs : m / 2 < 1 / 1000 <;>
        simp [hs, habs2, habs4, ne_of_gt hm2, ne_of_gt hm, neg_div]
    · simp only [gt_iff_lt] at hup ha ⊢
      simp only [hup, ha, hlow, hneg, hnn, if_true, if_false, and_true, true_and, and_false,
        false_and, or_false, false_or, not_false_eq_true, and_self, or_true]
      by_cases hs : m < 1 / 1000 <;> simp [hs, habs3, ne_of_gt hm]

/-- The step rule of `adj_diagrod_length`, for a magnitude above 0: the new
magnitude is the old one, halved exactly when the direction of the step
reverses; the new step is 0 exactly when the centre is in the band or the new
magnitude is below 0.001, and otherwise its size is the new magnitude. -/
theorem adj_diagrod_next_spec (a m c ox oy oz : ℚ) (hm : 0 < m) :
    0 < (adj_diagrod_next a m c ox oy oz).2 ∧
    ((adj_diagrod_next a m c ox oy oz).2 =
      if (c + 5 / 1000 > (ox + oy + oz) / 3 ∧ a < 0) ∨
        (¬ c + 5 / 1000 > (ox + oy + oz) / 3 ∧ a > 0) then m / 2 else m) ∧
    ((adj_diagrod_next a m c ox oy oz).1 = 0 ↔
      (c - 5 / 1000 < (ox + oy + oz) / 3 ∧ c + 5 / 1000 > (ox + oy + oz) / 3) ∨
      (adj_diagrod_next a m c ox oy oz).2 < 1 / 1000) ∧
    ((adj_diagrod_next a m c ox oy oz).1 ≠ 0 →
      (adj_diagrod_next a m c ox oy oz).1 =
        if c + 5 / 1000 > (ox + oy + oz) / 3 then (adj_diagrod_next a m c ox oy oz).2
        else -(adj_diagrod_next a m c ox oy oz).2) := by
  have hm2 : 0 < m / 2 := by positivity
  rw [adj_diagrod_next_eq a m c ox oy oz hm]
  dsimp only
  generalize hw : (if (c + 5 / 1000 > (ox + oy + oz) / 3 ∧ a < 0) ∨
    (¬ c + 5 / 1000 > (ox + oy + oz) / 3 ∧ a > 0) then m / 2 else m) = w
  have hwpos : 0 < w := by
    rw [← hw]; split_ifs
    · exact hm2
    · exact hm
  refine ⟨hwpos, rfl, ?_, ?_⟩
  · constructor
    · intro h
      by_contra hc
      rw [if_neg hc] at h
      split_ifs at h
      · exact absurd h (ne_of_gt hwpos)
      · have : w = 0 := by linarith
        exact absurd this (ne_of_gt hwpos)
    · intro h
      rw [if_pos h]
  · intro h
    by_cases hc : (c - 5 / 1000 < (ox + oy + oz) / 3 ∧ c + 5 / 1000 > (ox + oy + oz) / 3) ∨
        w < 1 / 1000
    · rw [if_pos hc] at h; exact absurd rfl h
    · rw [if_neg hc]

/-- One pass of the loop of `adj_diagrod_length` in terms of its body. -/
theorem adj_diagrod_length_loop_pass (k : Kinematics) (c : Probing) (fuel : Nat) (a m : ℚ)
    (s : Machine) :
    adj_diagrod_length_loop k c (fuel + 1) a m s =
      match adj_diagrod_length_pass k c (a, m, s) with
      | none => none
      | some y => if y.1 ≠ 0 then adj_diagrod_length_loop k c fuel y.1 y.2.1 y.2.2
          else some y.2.2 := by
  rw [adj_diagrod_length_loop_succ]
  unfold adj_diagrod_length_pass
  dsimp only
  cases probe_rod k c (set_delta_constants c
    { s with delta_diagonal_rod := s.delta_diagonal_rod + a }) <;> rfl

/-- A call of the loop that returns has made a run of passes, at most `fuel`,
all with a step other than 0 but the last, whose state it returns. -/
theorem adj_diagrod_length_loop_chain (k : Kinematics) (c : Probing) :
    ∀ (fuel : Nat) (a m : ℚ) (s s' : Machine),
      adj_diagrod_length_loop k c fuel a m s = some s' →
      ∃ (xs : List (ℚ × ℚ × Machine)) (last : ℚ × ℚ × Machine),
        PassChain (adj_diagrod_length_pass k c) (a, m, s) (xs ++ [last]) ∧
        (∀ x ∈ xs, x.1 ≠ 0) ∧ last.1 = 0 ∧ last.2.2 = s' ∧ xs.length + 1 ≤ fuel := by
  intro fuel
  induction fuel with
  | zero => intro a m s s' h; rw [adj_diagrod_length_loop] at h; cases h
  | succ fuel ih =>
    intro a m s s' h
    rw [adj_diagrod_length_loop_pass] at h
    generalize hp : adj_diagrod_length_pass k c (a, m, s) = o at h
    cases o with
    | none => cases h
    | some y =>
      dsimp only at h
      by_cases hne : y.1 ≠ 0
      · rw [if_pos hne] at h
        obtain ⟨xs, last, hc, hall, hl, hs, hlen⟩ := ih y.1 y.2.1 y.2.2 s' h
        refine ⟨y :: xs, last, ⟨hp, hc⟩, ?_, hl, hs, by simp; omega⟩
        intro x hx
        rcases List.mem_cons.mp hx with e | e
        · rw [e]; exact hne
        · exact hall x e
      · rw [if_neg hne] at h
        cases h
        exact ⟨[], y, ⟨hp, trivial⟩, fun x hx => absurd hx (List.not_mem_nil x),
          not_not.mp hne, rfl, by simp⟩

/-- What one pass of `adj_diagrod_length` does, for a magnitude above 0: the
rod length moves by the step of the pass, the magnitude is halved exactly when
the direction reverses, and the new step is 0 exactly when the centre is in
the band or the new magnitude is below 0.001; otherwise the new step has the
new magnitude as its size and points up when the centre is above the mean
less 0.005. -/
theorem adj_diagrod_length_pass_spec (k : Kinematics) (c : Probing) (x y : ℚ × ℚ × Machine)
    (hm : 0 < x.2.1) (h : adj_diagrod_length_pass k c x = some y) :
    y.2.2.delta_diagonal_rod = x.2.2.delta_diagonal_rod + x.1 ∧
    0 < y.2.1 ∧
    (y.2.1 =
      if (y.2.2.bed_level_c + 5 / 1000
            > (y.2.2.bed_level_ox + y.2.2.bed_level_oy + y.2.2.bed_level_oz) / 3 ∧ x.1 < 0) ∨
        (¬ y.2.2.bed_level_c + 5 / 1000
            > (y.2.2.bed_level_ox + y.2.2.bed_level_oy + y.2.2.bed_level_oz) / 3 ∧ x.1 > 0)
      then x.2.1 / 2 else x.2.1) ∧
    (y.1 = 0 ↔ centreInBand y.2.2 ∨ y.2.1 < 1 / 1000) ∧
    (y.1 ≠ 0 →
      y.1 = if y.2.2.bed_level_c + 5 / 1000
          > (y.2.2.bed_level_ox + y.2.2.bed_level_oy + y.2.2.bed_level_oz) / 3
        then y.2.1 else -y.2.1) := by
  unfold adj_diagrod_length_pass at h
  generalize hp : probe_rod k c (set_delta_constants c
    { x.2.2 with delta_diagonal_rod := x.2.2.delta_diagonal_rod + x.1 }) = o at h
  cases o with
  | none => cases h
  | some s1 =>
    dsimp only at h
    cases h
    dsimp only
    obtain ⟨h1, h2, h3, h4⟩ := adj_diagrod_next_spec x.1 x.2.1 s1.bed_level_c s1.bed_level_ox
      s1.bed_level_oy s1.bed_level_oz hm
    refine ⟨?_, h1, h2, h3, h4⟩
    rw [(probe_rod_geo k c _ s1 hp).delta_diagonal_rod]
    rfl

/-- Along a run of passes begun with a magnitude above 0, every pass has a
magnitude above 0 and a step that is 0 exactly when the centre is in the band
or the magnitude is below 0.001. -/
theorem adj_diagrod_length_chain_spec (k : Kinematics) (c : Probing) :
    ∀ (xs : List (ℚ × ℚ × Machine)) (x : ℚ × ℚ × Machine), 0 < x.2.1 →
      PassChain (adj_diagrod_length_pass k c) x xs →
      ∀ y ∈ xs, 0 < y.2.1 ∧ (y.1 = 0 ↔ centreInBand y.2.2 ∨ y.2.1 < 1 / 1000) := by
  intro xs
  induction xs with
  | nil => intro x _ _ y hy; exact absurd hy (List.not_mem_nil y)
  | cons z zs ih =>
    intro x hm hc y hy
    obtain ⟨-, h2, -, h4, -⟩ := adj_diagrod_length_pass_spec k c x z hm hc.1
    rcases List.mem_cons.mp hy with e | e
    · rw [e]; exact ⟨h2, h4⟩
    · exact ih z h2 hc.2 y e

/-- One pass of `adj_diagrod_length` on a scripted probe. -/
theorem scripted_diagrod_pass (k : Kinematics) (f : Nat → ℚ)
    (hmech : k.mechanism = Mechanism.DELTA) (s : Machine) (n : Nat) (a m : ℚ)
    (h : Ready s n) :
    ∃ s1, Ready s1 (n + 4) ∧ s1.delta_diagonal_rod = s.delta_diagonal_rod + a ∧
      s1.bed_level_c = f (n + 3) ∧ s1.bed_level_ox = f (n + 2) ∧ s1.bed_level_oy = f n ∧
      s1.bed_level_oz = f (n + 1) ∧
      adj_diagrod_length_pass k (scriptProbing f) (a, m, s) =
        some ((adj_diagrod_next a m (f (n + 3)) (f (n + 2)) (f n) (f (n + 1))).1,
          (adj_diagrod_next a m (f (n + 3)) (f (n + 2)) (f n) (f (n + 1))).2, s1) := by
  have hready : Ready (set_delta_constants (scriptProbing f)
      { s with delta_diagonal_rod := s.delta_diagonal_rod + a }) n := h
  obtain ⟨s1, h1, p1, r1, oy1, oz1, ox1, c1, -⟩ := scripted_probe_rod k f _ n hmech hready
  refine ⟨s1, r1, ?_, c1, ox1, oy1, oz1, ?_⟩
  · rw [p1.fixed.2.2.1]
    rfl
  · unfold adj_diagrod_length_pass
    dsimp only
    rw [h1]
    dsimp only
    rw [c1, ox1, oy1, oz1]

/-- A pass of the swing run that goes on: pass number `p`, with `r` the
result of the arithmetic, whose step is not 0. -/
theorem swing_pass (k : Kinematics) (hmech : k.mechanism = Mechanism.DELTA) (p : Nat)
    (a m : ℚ) (s : Machine) (r : ℚ × ℚ) (h : Ready s (4 * p))
    (hr : adj_diagrod_next a m (if p % 2 = 0 then 1 else -1) 0 0 0 = r) :
    ∃ s1, Ready s1 (4 * (p + 1)) ∧ s1.delta_diagonal_rod = s.delta_diagonal_rod + a ∧
      s1.bed_level_c = (if p % 2 = 0 then 1 else -1) ∧ s1.bed_level_ox = 0 ∧
      s1.bed_level_oy = 0 ∧ s1.bed_level_oz = 0 ∧
      ∀ fuel, adj_diagrod_length_loop k (scriptProbing swingScript) (fuel + 1) a m s =
        if r.1 ≠ 0 then adj_diagrod_length_loop k (scriptProbing swingScript) fuel r.1 r.2 s1
        else some s1 := by
  obtain ⟨s1, r1, hrod, c1, ox1, oy1, oz1, hpass⟩ :=
    scripted_diagrod_pass k swingScript hmech s (4 * p) a m h
  have e3 : swingScript (4 * p + 3) = (if p % 2 = 0 then 1 else -1) := by
    unfold swingScript
    rw [if_pos (by omega)]
    have : (4 * p + 3) / 4 = p := by omega
    rw [this]
  have e2 : swingScript (4 * p + 2) = 0 := by unfold swingScript; rw [if_neg (by omega)]
  have e1 : swingScript (4 * p + 1) = 0 := by unfold swingScript; rw [if_neg (by omega)]
  have e0 : swingScript (4 * p) = 0 := by unfold swingScript; rw [if_neg (by omega)]
  rw [e3, e2, e1, e0, hr] at hpass
  refine ⟨s1, r1, hrod, by rw [c1, e3], by rw [ox1, e2], by rw [oy1, e0], by rw [oz1, e1], ?_⟩
  intro fuel
  rw [adj_diagrod_length_loop_pass, hpass]

theorem swing_steps :
    adj_diagrod_next (0) (1 / 5) (if 0 % 2 = 0 then 1 else -1) 0 0 0 = (1 / 5, 1 / 5) ∧
    adj_diagrod_next (1 / 5) (1 / 5) (if 1 % 2 = 0 then 1 else -1) 0 0 0 = (-(1 / 10), 1 / 10) ∧
    adj_diagrod_next (-(1 / 10)) (1 / 10) (if 2 % 2 = 0 then 1 else -1) 0 0 0 = (1 / 20, 1 / 20) ∧
    adj_diagrod_next (1 / 20) (1 / 20) (if 3 % 2 = 0 then 1 else -1) 0 0 0 = (-(1 / 40), 1 / 40) ∧
    adj_diagrod_next (-(1 / 40)) (1 / 40) (if 4 % 2 = 0 then 1 else -1) 0 0 0 = (1 / 80, 1 / 80) ∧
    adj_diagrod_next (1 / 80) (1 / 80) (if 5 % 2 = 0 then 1 else -1) 0 0 0 = (-(1 / 160), 1 / 160) ∧
    adj_diagrod_next (-(1 / 160)) (1 / 160) (if 6 % 2 = 0 then 1 else -1) 0 0 0 = (1 / 320, 1 / 320) ∧
    adj_diagrod_next (1 / 320) (1 / 320) (if 7 % 2 = 0 then 1 else -1) 0 0 0 = (-(1 / 640), 1 / 640) ∧
    adj_diagrod_next (-(1 / 640)) (1 / 640) (if 8 % 2 = 0 then 1 else -1) 0 0 0 = (0, 1 / 1280) := by
  refine ⟨?_, ?_, ?_, ?_, ?_, ?_, ?_, ?_, ?_⟩ <;>
    (rw [adj_diagrod_next_eq _ _ _ _ _ _ (by norm_num)]; norm_num)

/-- The swing run of `adj_diagrod_length`: nine passes, eight reversals, and
the loop is left on the step size, with the centre reading 1 against a mean
of 0. -/
theorem adj_diagrod_length_swing (k : Kinematics) (hmech : k.mechanism = Mechanism.DELTA)
    (s : Machine) (h : Ready s (4 * 0)) :
    ∃ s', adj_diagrod_length k (scriptProbing swingScript) 9 s
        = some (s'.delta_diagonal_rod - s.delta_diagonal_rod, s') ∧
      s'.delta_diagonal_rod = s.delta_diagonal_rod + 17 / 128 ∧
      s'.bed_level_c = 1 ∧ s'.bed_level_ox = 0 ∧ s'.bed_level_oy = 0 ∧ s'.bed_level_oz = 0 := by
  obtain ⟨n0, n1, n2, n3, n4, n5, n6, n7, n8⟩ := swing_steps
  obtain ⟨s1, r1, d1, -, -, -, -, e1⟩ := swing_pass k hmech 0 (0) (1 / 5) s _ h n0
  obtain ⟨s2, r2, d2, -, -, -, -, e2⟩ := swing_pass k hmech 1 (1 / 5) (1 / 5) s1 _ r1 n1
  obtain ⟨s3, r3, d3, -, -, -, -, e3⟩ := swing_pass k hmech 2 (-(1 / 10)) (1 / 10) s2 _ r2 n2
  obtain ⟨s4, r4, d4, -, -, -, -, e4⟩ := swing_pass k hmech 3 (1 / 20) (1 / 20) s3 _ r3 n3
  obtain ⟨s5, r5, d5, -, -, -, -, e5⟩ := swing_pass k hmech 4 (-(1 / 40)) (1 / 40) s4 _ r4 n4
  obtain ⟨s6, r6, d6, -, -, -, -, e6⟩ := swing_pass k hmech 5 (1 / 80) (1 / 80) s5 _ r5 n5
  obtain ⟨s7, r7, d7, -, -, -, -, e7⟩ := swing_pass k hmech 6 (-(1 / 160)) (1 / 160) s6 _ r6 n6
  obtain ⟨s8, r8, d8, -, -, -, -, e8⟩ := swing_pass k hmech 7 (1 / 320) (1 / 320) s7 _ r7 n7
  obtain ⟨s9, -, d9, c9, ox9, oy9, oz9, e9⟩ := swing_pass k hmech 8 (-(1 / 640)) (1 / 640) s8 _ r8 n8
  have hloop : adj_diagrod_length_loop k (scriptProbing swingScript) 9 0 (1 / 5) s = some s9 := by
    rw [e1 8, if_pos (by norm_num)]
    rw [e2 7, if_pos (by norm_num)]
    rw [e3 6, if_pos (by norm_num)]
    rw [e4 5, if_pos (by norm_num)]
    rw [e5 4, if_pos (by norm_num)]
    rw [e6 3, if_pos (by norm_num)]
    rw [e7 2, if_pos (by norm_num)]
    rw [e8 1, if_pos (by norm_num)]
    rw [e9 0, if_neg (by norm_num)]
  have hloop' : adj_diagrod_length_loop k (scriptProbing swingScript) 9 0 (2 / 10) s = some s9 := by
    rw [show (2 / 10 : ℚ) = 1 / 5 by norm_num]; exact hloop
  refine ⟨s9, adj_diagrod_length_of_loop k _ 9 s s9 hloop', ?_, ?_, ox9, oy9, oz9⟩
  · rw [d9, d8, d7, d6, d5, d4, d3, d2, d1]
    ring
  · rw [c9]; rfl

/-- C27 as stated fails: on return the centre need not match the mean of the
opposite readings. With the opposite points reading 0 and the centre reading
1 and -1 in turn, every pass reverses the direction; after eight halvings the
step 0.2 has become 0.00078125, below 0.001, and `adj_diagrod_length` returns
from its ninth pass with the centre at 1 against a mean of 0. The value
returned is the net change 17/128 of the rod length. -/
theorem C27_counterexample :
    ∃ s', adj_diagrod_length refKinematics (scriptProbing swingScript) 9 refMachine
        = some (17 / 128, s') ∧
      s'.bed_level_c = 1 ∧ s'.bed_level_ox = 0 ∧ s'.bed_level_oy = 0 ∧ s'.bed_level_oz = 0 ∧
      ¬ centreInBand s' := by
  obtain ⟨s', h, hrod, hc, hox, hoy, hoz⟩ := adj_diagrod_length_swing refKinematics rfl
    refMachine ⟨rfl, by show (100 : Int) ≠ 0; decide, rfl⟩
  refine ⟨s', ?_, hc, hox, hoy, hoz, ?_⟩
  · rw [h, hrod]
    congr 2
    ring
  · unfold centreInBand
    rw [hc, hox, hoy, hoz]
    norm_num

/-- C27, amended: a call of `adj_diagrod_length` that returns has made a run
of passes from the step 0 and the magnitude 0.2. Every pass but the last ends
with the centre outside the band (0.005 around the mean of the three opposite
readings) and a magnitude of at least 0.001; the last ends with the centre in
the band or with a magnitude below 0.001, so the centre need not match the
mean on return. In each pass the rod length moves by the step, and the
magnitude is halved exactly when the direction reverses. The value returned is
the net change of the rod length, 0 exactly when the length is unchanged. -/
theorem C27_rod_loop_ends_in_band_or_on_a_small_step (k : Kinematics) (c : Probing)
    (fuel : Nat) (s s' : Machine) (v : ℚ)
    (h : adj_diagrod_length k c fuel s = some (v, s')) :
    v = s'.delta_diagonal_rod - s.delta_diagonal_rod ∧
    (v = 0 ↔ s'.delta_diagonal_rod = s.delta_diagonal_rod) ∧
    (∃ (xs : List (ℚ × ℚ × Machine)) (last : ℚ × ℚ × Machine),
      PassChain (adj_diagrod_length_pass k c) (0, 2 / 10, s) (xs ++ [last]) ∧
      last.2.2 = s' ∧ xs.length + 1 ≤ fuel ∧
      (∀ x ∈ xs, ¬ centreInBand x.2.2 ∧ 1 / 1000 ≤ x.2.1) ∧
      (centreInBand s' ∨ last.2.1 < 1 / 1000)) ∧
    (∀ x y : ℚ × ℚ × Machine, 0 < x.2.1 → adj_diagrod_length_pass k c x = some y →
      y.2.2.delta_diagonal_rod = x.2.2.delta_diagonal_rod + x.1 ∧
      (y.2.1 =
        if (y.2.2.bed_level_c + 5 / 1000
              > (y.2.2.bed_level_ox + y.2.2.bed_level_oy + y.2.2.bed_level_oz) / 3 ∧ x.1 < 0) ∨
          (¬ y.2.2.bed_level_c + 5 / 1000
              > (y.2.2.bed_level_ox + y.2.2.bed_level_oy + y.2.2.bed_level_oz) / 3 ∧ x.1 > 0)
        then x.2.1 / 2 else x.2.1) ∧
      (y.1 ≠ 0 →
        y.1 = if y.2.2.bed_level_c + 5 / 1000
            > (y.2.2.bed_level_ox + y.2.2.bed_level_oy + y.2.2.bed_level_oz) / 3
          then y.2.1 else -y.2.1)) := by
  have hloop : adj_diagrod_length_loop k c fuel 0 (2 / 10) s = some s' ∧
      v = s'.delta_diagonal_rod - s.delta_diagonal_rod := by
    unfold adj_diagrod_length at h
    dsimp only at h
    rcases hl : adj_diagrod_length_loop k c fuel 0 (2 / 10) s with _ | s1
    · rw [hl] at h; cases h
    · rw [hl] at h
      simp only [Option.some.injEq, Prod.mk.injEq] at h
      rw [← h.2, ← h.1]
      exact ⟨rfl, rfl⟩
  obtain ⟨hl, hv⟩ := hloop
  refine ⟨hv, ?_, ?_, ?_⟩
  · rw [hv]
    exact sub_eq_zero
  · obtain ⟨xs, last, hc, hall, hlast, hs, hlen⟩ :=
      adj_diagrod_length_loop_chain k c fuel 0 (2 / 10) s s' hl
    have hspec := adj_diagrod_length_chain_spec k c (xs ++ [last]) (0, 2 / 10, s)
      (by norm_num) hc
    refine ⟨xs, last, hc, hs, hlen, ?_, ?_⟩
    · intro x hx
      obtain ⟨-, hz⟩ := hspec x (List.mem_append_left _ hx)
      have hne := hall x hx
      constructor
      · intro hb; exact hne (hz.mpr (Or.inl hb))
      · by_contra hsmall
        exact hne (hz.mpr (Or.inr (not_le.mp hsmall)))
    · obtain ⟨-, hz⟩ := hspec last (List.mem_append_right _ (List.mem_singleton.mpr rfl))
      rw [← hs]
      exact hz.mp hlast
  · intro x y hm hp
    obtain ⟨h1, -, h3, -, h5⟩ := adj_diagrod_length_pass_spec k c x y hm hp
    exact ⟨h1, h3, h5⟩

/-- Witness of C27: the reference machine over the synthetic bed, where the
centre reading equals the mean of the opposite readings: one pass, no change. -/
theorem C27_witness :
    ∃ r s', adj_diagrod_length refKinematics refProbing 1 refMachine = some (r, s') ∧
      r = s'.delta_diagonal_rod - refMachine.delta_diagonal_rod ∧
      (r = 0 ↔ s'.delta_diagonal_rod = refMachine.delta_diagonal_rod) := by
  obtain ⟨r, s', h, -⟩ := adj_diagrod_length_ref
  obtain ⟨h1, h2, -⟩ := C27_rod_loop_ends_in_band_or_on_a_small_step refKinematics refProbing 1
    refMachine s' r h
  exact ⟨r, s', h, h1, h2⟩

/-! ## The delta radius loop -/

/-- One pass of the loop of `adj_deltaradius` in terms of its body. -/
theorem adj_deltaradius_loop_pass (k : Kinematics) (c : Probing) (fuel : Nat) (a : ℚ)
    (n : Int) (r : ℚ) (s : Machine) :
    adj_deltaradius_loop k c (fuel + 1) a n r s =
      match adj_deltaradius_pass k c ⟨a, n, r, s⟩ with
      | none => none
      | some y =>
        if adj_deltaradius_continues y then
          adj_deltaradius_loop k c fuel y.adj_r y.c_nochange_count y.nochange_r y.s
        else some (y.c_nochange_count, y.nochange_r, y.s) := by
  rw [adj_deltaradius_loop]
  unfold adj_deltaradius_pass
  dsimp only
  cases probe_bed k c (set_delta_constants c { s with delta_radius := s.delta_radius + a }) 0 0
    with
  | none => rfl
  | some p => rfl

/-- A call of the loop that returns has made a run of passes, at most `fuel`,
each followed by a true loop test but the last, whose locals and state it
returns. -/
theorem adj_deltaradius_loop_chain (k : Kinematics) (c : Probing) :
    ∀ (fuel : Nat) (x : RadiusPass) (n' : Int) (r' : ℚ) (s' : Machine),
      adj_deltaradius_loop k c fuel x.adj_r x.c_nochange_count x.nochange_r x.s
        = some (n', r', s') →
      ∃ (xs : List RadiusPass) (last : RadiusPass),
        PassChain (adj_deltaradius_pass k c) x (xs ++ [last]) ∧
        (∀ y ∈ xs, adj_deltaradius_continues y) ∧ ¬ adj_deltaradius_continues last ∧
        last.c_nochange_count = n' ∧ last.nochange_r = r' ∧ last.s = s' ∧
        xs.length + 1 ≤ fuel := by
  intro fuel
  induction fuel with
  | zero => intro x n' r' s' h; rw [adj_deltaradius_loop] at h; cases h
  | succ fuel ih =>
    intro x n' r' s' h
    rw [adj_deltaradius_loop_pass] at h
    generalize hp : adj_deltaradius_pass k c ⟨x.adj_r, x.c_nochange_count, x.nochange_r, x.s⟩
      = o at h
    have hp' : adj_deltaradius_pass k c x = o := hp
    cases o with
    | none => cases h
    | some y =>
      dsimp only at h
      by_cases hgo : adj_deltaradius_continues y
      · rw [if_pos hgo] at h
        obtain ⟨xs, last, hc, hall, hl, h1, h2, h3, hlen⟩ := ih y n' r' s' h
        refine ⟨y :: xs, last, ⟨hp', hc⟩, ?_, hl, h1, h2, h3, by simp; omega⟩
        intro z hz
        rcases List.mem_cons.mp hz with e | e
        · rw [e]; exact hgo
        · exact hall z e
      · rw [if_neg hgo] at h
        simp only [Option.some.injEq, Prod.mk.injEq] at h
        exact ⟨[], y, ⟨hp', trivial⟩, fun z hz => absurd hz (List.not_mem_nil z), hgo,
          h.1, h.2.1, h.2.2, by simp⟩

/-- What one pass of `adj_deltaradius` does: the radius moves by the step of
the pass; the count grows by one exactly when the centre reads exactly what it
read before; `nochange_r` takes the radius of the pass when the count stands
at one; the step is halved and reversed when the reading moved against it. -/
theorem adj_deltaradius_pass_spec (k : Kinematics) (c : Probing) (x y : RadiusPass)
    (h : adj_deltaradius_pass k c x = some y) :
    y.s.delta_radius = x.s.delta_radius + x.adj_r ∧
    y.s.ac_prec = x.s.ac_prec ∧
    y.s.z_probe_offset = x.s.z_probe_offset ∧
    (y.c_nochange_count =
      if y.s.bed_level_c = x.s.bed_level_c then x.c_nochange_count + 1
      else x.c_nochange_count) ∧
    (y.nochange_r = if y.c_nochange_count = 1 then y.s.delta_radius else x.nochange_r) ∧
    (y.adj_r =
      if (x.adj_r > 0 ∧ y.s.bed_level_c < x.s.bed_level_c) ∨
          (x.adj_r < 0 ∧ y.s.bed_level_c > x.s.bed_level_c)
      then -(x.adj_r / 2) else x.adj_r) := by
  unfold adj_deltaradius_pass at h
  dsimp only at h
  generalize hp : probe_bed k c (set_delta_constants c
    { x.s with delta_radius := x.s.delta_radius + x.adj_r }) 0 0 = o at h
  cases o with
  | none => cases h
  | some p =>
    obtain ⟨r, s1⟩ := p
    dsimp only at h
    cases h
    obtain ⟨-, -, -, hk⟩ := probe_bed_returned k c _ s1 0 0 r hp
    dsimp only
    refine ⟨?_, ?_, ?_, rfl, rfl, rfl⟩
    · rw [hk.geometry.1]; rfl
    · rw [hk.setup.2.2.2.1]; rfl
    · rw [hk.setup.2.1]; rfl

/-- A run of passes begun with a count of 0 in which no pass ends with the
count at one keeps the count at 0. -/
theorem adj_deltaradius_chain_zero (k : Kinematics) (c : Probing) :
    ∀ (L : List RadiusPass) (x : RadiusPass), PassChain (adj_deltaradius_pass k c) x L →
      x.c_nochange_count = 0 → (∀ z ∈ L, z.c_nochange_count ≠ 1) →
      ∀ z ∈ L, z.c_nochange_count = 0 := by
  intro L
  induction L with
  | nil => intro x _ _ _ z hz; exact absurd hz (List.not_mem_nil z)
  | cons y L ih =>
    intro x hc h0 hall z hz
    obtain ⟨-, -, -, h4, -, -⟩ := adj_deltaradius_pass_spec k c x y hc.1
    have hy : y.c_nochange_count = 0 := by
      have h1 := hall y (List.mem_cons_self y L)
      rw [h0] at h4
      split_ifs at h4
      · rw [h4] at h1; exact absurd rfl h1
      · exact h4
    rcases List.mem_cons.mp hz with e | e
    · rw [e]; exact hy
    · exact ih y hc.2 hy (fun w hw => hall w (List.mem_cons_of_mem y hw)) z e

/-- The count at the end of a run of passes whose earlier passes all ended
with a count below 3 is at most 3. -/
theorem adj_deltaradius_chain_bound (k : Kinematics) (c : Probing) :
    ∀ (xs : List RadiusPass) (x last : RadiusPass),
      PassChain (adj_deltaradius_pass k c) x (xs ++ [last]) → x.c_nochange_count < 3 →
      (∀ y ∈ xs, y.c_nochange_count < 3) → last.c_nochange_count ≤ 3 := by
  intro xs
  induction xs with
  | nil =>
    intro x last hc hx _
    obtain ⟨-, -, -, h4, -, -⟩ := adj_deltaradius_pass_spec k c x last hc.1
    rw [h4]
    split_ifs <;> omega
  | cons y xs ih =>
    intro x last hc _ hall
    exact ih y last hc.2 (hall y (List.mem_cons_self y xs))
      (fun w hw => hall w (List.mem_cons_of_mem y hw))

/-- Where `nochange_r` comes from: in a run of passes, either no pass ended
with the count at one and `nochange_r` is what it was, or `nochange_r` is the
radius of the last pass that ended with the count at one. -/
theorem adj_deltaradius_chain_nochange (k : Kinematics) (c : Probing) :
    ∀ (L : List RadiusPass) (x last : RadiusPass),
      PassChain (adj_deltaradius_pass k c) x (L ++ [last]) →
      ((∀ z ∈ L ++ [last], z.c_nochange_count ≠ 1) ∧ last.nochange_r = x.nochange_r) ∨
      ∃ (pre : List RadiusPass) (y : RadiusPass) (post : List RadiusPass),
        L ++ [last] = pre ++ y :: post ∧ y.c_nochange_count = 1 ∧
        (∀ z ∈ post, z.c_nochange_count ≠ 1) ∧ last.nochange_r = y.s.delta_radius := by
  intro L
  induction L with
  | nil =>
    intro x last hc
    obtain ⟨-, -, -, -, h5, -⟩ := adj_deltaradius_pass_spec k c x last hc.1
    by_cases h1 : last.c_nochange_count = 1
    · right
      rw [if_pos h1] at h5
      exact ⟨[], last, [], rfl, h1, fun z hz => absurd hz (List.not_mem_nil z), h5⟩
    · left
      rw [if_neg h1] at h5
      refine ⟨?_, h5⟩
      intro z hz
      rw [List.nil_append, List.mem_singleton] at hz
      rw [hz]; exact h1
  | cons y L ih =>
    intro x last hc
    obtain ⟨-, -, -, -, h5, -⟩ := adj_deltaradius_pass_spec k c x y hc.1
    rcases ih y last hc.2 with ⟨hall, hl⟩ | ⟨pre, w, post, hsplit, hw, hpost, hl⟩
    · by_cases h1 : y.c_nochange_count = 1
      · right
        rw [if_pos h1] at h5
        exact ⟨[], y, L ++ [last], rfl, h1, hall, by rw [hl, h5]⟩
      · left
        rw [if_neg h1] at h5
        refine ⟨?_, by rw [hl, h5]⟩
        intro z hz
        rcases List.mem_cons.mp hz with e | e
        · rw [e]; exact h1
        · exact hall z e
    · right
      exact ⟨y :: pre, w, post, by rw [List.cons_append, hsplit]; rfl, hw, hpost, hl⟩

/-- One pass of `adj_deltaradius` on a scripted probe. -/
theorem scripted_radius_pass (k : Kinematics) (f : Nat → ℚ)
    (hmech : k.mechanism = Mechanism.DELTA) (x : RadiusPass) (n : Nat) (h : Ready x.s n) :
    ∃ y, adj_deltaradius_pass k (scriptProbing f) x = some y ∧ Ready y.s (n + 1) ∧
      y.s.bed_level_c = f n ∧ y.s.delta_radius = x.s.delta_radius + x.adj_r ∧
      y.s.ac_prec = x.s.ac_prec ∧ y.s.z_probe_offset = x.s.z_probe_offset := by
  have hready : Ready (set_delta_constants (scriptProbing f)
      { x.s with delta_radius := x.s.delta_radius + x.adj_r }) n := h
  obtain ⟨s1, h1, p1, r1, -⟩ := scripted_reading k f _ 0 0 n hmech hready
  have hy : ∃ y, adj_deltaradius_pass k (scriptProbing f) x = some y ∧
      y.s = { s1 with bed_level_c := f n } := by
    unfold adj_deltaradius_pass
    dsimp only
    rw [h1]
    exact ⟨_, rfl, rfl⟩
  obtain ⟨y, hy1, hy2⟩ := hy
  obtain ⟨g1, g2, g3, -⟩ := adj_deltaradius_pass_spec k _ x y hy1
  refine ⟨y, hy1, ?_, ?_, g1, g2, g3⟩
  · rw [hy2]; exact r1
  · rw [hy2]

theorem adj_deltaradius_loop_step (k : Kinematics) (c : Probing) (fuel : Nat)
    (x y : RadiusPass) (hp : adj_deltaradius_pass k c x = some y) :
    adj_deltaradius_loop k c (fuel + 1) x.adj_r x.c_nochange_count x.nochange_r x.s =
      if adj_deltaradius_continues y then
        adj_deltaradius_loop k c fuel y.adj_r y.c_nochange_count y.nochange_r y.s
      else some (y.c_nochange_count, y.nochange_r, y.s) := by
  rw [adj_deltaradius_loop_pass]
  have hp' : adj_deltaradius_pass k c ⟨x.adj_r, x.c_nochange_count, x.nochange_r, x.s⟩
      = some y := hp
  rw [hp']

/-- A pass on a centre that reads 0.5 again, with a step below 0: the count
grows by one and the step stays. -/
theorem adj_deltaradius_half_pass (k : Kinematics) (hmech : k.mechanism = Mechanism.DELTA)
    (x : RadiusPass) (n : Nat) (h : Ready x.s n) (hc : x.s.bed_level_c = 1 / 2)
    (ha : x.adj_r = -(1 / 10)) :
    ∃ y, adj_deltaradius_pass k (scriptProbing (fun _ => 1 / 2)) x = some y ∧
      Ready y.s (n + 1) ∧ y.s.bed_level_c = 1 / 2 ∧
      y.s.delta_radius = x.s.delta_radius - 1 / 10 ∧ y.s.ac_prec = x.s.ac_prec ∧
      y.s.z_probe_offset = x.s.z_probe_offset ∧
      y.adj_r = -(1 / 10) ∧ y.c_nochange_count = x.c_nochange_count + 1 ∧
      y.nochange_r = (if x.c_nochange_count + 1 = 1 then y.s.delta_radius else x.nochange_r) := by
  obtain ⟨y, hy, r1, c1, d1, p1, o1⟩ :=
    scripted_radius_pass k (fun _ => 1 / 2) hmech x n h
  obtain ⟨-, -, -, g4, g5, g6⟩ := adj_deltaradius_pass_spec k _ x y hy
  have c1' : y.s.bed_level_c = 1 / 2 := c1
  rw [c1', hc, if_pos rfl] at g4
  rw [c1', hc, ha] at g6
  rw [g4] at g5
  refine ⟨y, hy, r1, c1', by rw [d1, ha]; ring, p1, o1, ?_, g4, g5⟩
  rw [g6, if_neg]
  intro hh
  rcases hh with ⟨h1, -⟩ | ⟨-, h2⟩
  · norm_num at h1
  · exact absurd h2 (lt_irrefl _)

/-- The run of `adj_deltaradius` on a centre that reads 0.5 at every probe,
entered with a stored reading of 1 and a precision below 0.5: four passes. -/
theorem adj_deltaradius_flat_half (k : Kinematics) (hmech : k.mechanism = Mechanism.DELTA)
    (s : Machine) (h : Ready s 0) (hc : s.bed_level_c = 1) (hp : s.ac_prec < 1 / 2) :
    ∃ (y1 y2 y3 y4 : RadiusPass) (s' : Machine),
      adj_deltaradius k (scriptProbing (fun _ => 1 / 2)) 4 s = some (1, s') ∧
      PassChain (adj_deltaradius_pass k (scriptProbing (fun _ => 1 / 2)))
        (adj_deltaradius_start (scriptProbing (fun _ => 1 / 2)) s) [y1, y2, y3, y4] ∧
      y1.s.delta_radius = s.delta_radius - 1 / 10 ∧ y1.s.bed_level_c = 1 / 2 ∧
      y1.c_nochange_count = 0 ∧
      y2.s.delta_radius = s.delta_radius - 2 / 10 ∧ y2.s.bed_level_c = 1 / 2 ∧
      y2.c_nochange_count = 1 ∧
      y3.s.delta_radius = s.delta_radius - 3 / 10 ∧ y3.s.bed_level_c = 1 / 2 ∧
      y3.c_nochange_count = 2 ∧
      y4.s.delta_radius = s.delta_radius - 4 / 10 ∧ y4.s.bed_level_c = 1 / 2 ∧
      y4.c_nochange_count = 3 ∧
      s'.delta_radius = s.delta_radius - 2 / 10 ∧ s'.bed_level_c = 1 / 2 := by
  have hx0a : (adj_deltaradius_start (scriptProbing (fun _ => 1 / 2)) s).adj_r = -(1 / 10) := by
    show (if s.bed_level_c > 0 then -(1 / 10) else 1 / 10 : ℚ) = _
    rw [hc, if_pos (by norm_num)]
  have hx0c : (adj_deltaradius_start (scriptProbing (fun _ => 1 / 2)) s).s.bed_level_c = 1 := hc
  have hr0 : Ready (adj_deltaradius_start (scriptProbing (fun _ => 1 / 2)) s).s 0 := h
  obtain ⟨y1, hy1, r1, c1, d1, p1, -⟩ := scripted_radius_pass k (fun _ => 1 / 2) hmech
    (adj_deltaradius_start (scriptProbing (fun _ => 1 / 2)) s) 0 hr0
  obtain ⟨-, -, -, g4, g5, g6⟩ := adj_deltaradius_pass_spec k _ _ y1 hy1
  have c1' : y1.s.bed_level_c = 1 / 2 := c1
  have n1 : y1.c_nochange_count = 0 := by
    rw [g4, c1', hx0c, if_neg (by norm_num)]; rfl
  have a1 : y1.adj_r = -(1 / 10) := by
    rw [g6, c1', hx0c, hx0a, if_neg]
    intro hh
    rcases hh with ⟨h1, -⟩ | ⟨-, h2⟩
    · norm_num at h1
    · norm_num at h2
  have e1 : y1.s.delta_radius = s.delta_radius - 1 / 10 := by
    rw [d1, hx0a]; show s.delta_radius + _ = _; ring
  have q1 : y1.s.ac_prec = s.ac_prec := p1
  obtain ⟨y2, hy2, r2, c2, d2, p2, -, a2, n2, m2⟩ :=
    adj_deltaradius_half_pass k hmech y1 1 r1 c1' a1
  obtain ⟨y3, hy3, r3, c3, d3, p3, -, a3, n3, m3⟩ :=
    adj_deltaradius_half_pass k hmech y2 2 r2 c2 a2
  obtain ⟨y4, hy4, r4, c4, d4, p4, o4, a4, n4, m4⟩ :=
    adj_deltaradius_half_pass k hmech y3 3 r3 c3 a3
  rw [n1] at n2 m2
  rw [n2] at n3 m3
  rw [n3] at n4 m4
  norm_num at n2 n3 n4 m2 m3 m4
  have go : ∀ y : RadiusPass, y.s.bed_level_c = 1 / 2 → y.s.ac_prec = s.ac_prec →
      y.c_nochange_count < 3 → adj_deltaradius_continues y := by
    intro y e1 e2 e3
    refine ⟨Or.inr ?_, e3⟩
    rw [e1, e2]; exact hp
  have stop : ¬ adj_deltaradius_continues y4 := by
    intro hh
    have := hh.2
    rw [n4] at this
    exact absurd this (by decide)
  have hloop : adj_deltaradius_loop k (scriptProbing (fun _ => 1 / 2)) 4
      (adj_deltaradius_start (scriptProbing (fun _ => 1 / 2)) s).adj_r
      (adj_deltaradius_start (scriptProbing (fun _ => 1 / 2)) s).c_nochange_count
      (adj_deltaradius_start (scriptProbing (fun _ => 1 / 2)) s).nochange_r
      (adj_deltaradius_start (scriptProbing (fun _ => 1 / 2)) s).s
      = some (3, y2.s.delta_radius, y4.s) := by
    rw [adj_deltaradius_loop_step k _ 3 _ y1 hy1, if_pos (go y1 c1' q1 (by rw [n1]; decide)),
      adj_deltaradius_loop_step k _ 2 _ y2 hy2,
      if_pos (go y2 c2 (p2.trans q1) (by rw [n2]; decide)),
      adj_deltaradius_loop_step k _ 1 _ y3 hy3,
      if_pos (go y3 c3 (p3.trans (p2.trans q1)) (by rw [n3]; decide)),
      adj_deltaradius_loop_step k _ 0 _ y4 hy4, if_neg stop, n4, m4, m3, m2]
  have hres : ∃ s', adj_deltaradius k (scriptProbing (fun _ => 1 / 2)) 4 s = some (1, s') ∧
      s'.delta_radius = y2.s.delta_radius ∧ s'.bed_level_c = y4.s.bed_level_c := by
    unfold adj_deltaradius
    rw [if_neg (by rw [hc]; intro hh; linarith [hh.2])]
    dsimp only
    have hloop' : adj_deltaradius_loop k (scriptProbing (fun _ => 1 / 2)) 4
        (if s.bed_level_c > 0 then -(1 / 10) else 1 / 10) 0 0
        { s with bed_safe_z := (scriptProbing (fun _ => 1 / 2)).AUTOCAL_PROBELIFT
            - s.z_probe_offset.Z } = some (3, y2.s.delta_radius, y4.s) := hloop
    rw [hloop']
    dsimp only
    rw [if_pos (by decide)]
    exact ⟨_, rfl, rfl, rfl⟩
  obtain ⟨s', hs', hd', hc'⟩ := hres
  refine ⟨y1, y2, y3, y4, s', hs', ⟨hy1, hy2, hy3, hy4, trivial⟩, e1, c1', n1, ?_, c2, n2, ?_,
    c3, n3, ?_, c4, n4, ?_, ?_⟩
  · rw [d2, e1]; ring
  · rw [d3, d2, e1]; ring
  · rw [d4, d3, d2, e1]; ring
  · rw [hd', d2, e1]; ring
  · rw [hc', c4]

/-- C23 as stated fails. The centre reads 1 on entry and 0.5 at every probe
after that, with a precision of 0.03. The first pass, at radius 174.9, improves
the reading; the passes at 174.8, 174.7 and 174.6 leave it as it is and are
counted, and the loop ends on the count of 3. The radius left in force is
174.8, that of the first counted pass: not 174.9, the last radius that
improved the reading, and not 174.6, the last one tried. -/
theorem C23_counterexample :
    centreHigh.bed_level_c = 1 ∧ centreHigh.delta_radius = 175 ∧ centreHigh.ac_prec = 3 / 100 ∧
    ∃ (y1 y2 y3 y4 : RadiusPass) (s' : Machine),
      adj_deltaradius refKinematics (scriptProbing (fun _ => 1 / 2)) 4 centreHigh
        = some (1, s') ∧
      PassChain (adj_deltaradius_pass refKinematics (scriptProbing (fun _ => 1 / 2)))
        (adj_deltaradius_start (scriptProbing (fun _ => 1 / 2)) centreHigh) [y1, y2, y3, y4] ∧
      y1.s.delta_radius = 175 - 1 / 10 ∧ y1.s.bed_level_c = 1 / 2 ∧ y1.c_nochange_count = 0 ∧
      y2.s.delta_radius = 175 - 2 / 10 ∧ y2.s.bed_level_c = 1 / 2 ∧ y2.c_nochange_count = 1 ∧
      y3.s.delta_radius = 175 - 3 / 10 ∧ y3.s.bed_level_c = 1 / 2 ∧ y3.c_nochange_count = 2 ∧
      y4.s.delta_radius = 175 - 4 / 10 ∧ y4.s.bed_level_c = 1 / 2 ∧ y4.c_nochange_count = 3 ∧
      s'.delta_radius = 175 - 2 / 10 ∧ s'.bed_level_c = 1 / 2 := by
  refine ⟨rfl, rfl, rfl, ?_⟩
  exact adj_deltaradius_flat_half refKinematics rfl centreHigh
    ⟨rfl, by show (100 : Int) ≠ 0; decide, rfl⟩ rfl (by show (3 / 100 : ℚ) < 1 / 2; norm_num)

/-- C23, amended: a call of `adj_deltaradius` entered with the centre outside
half the precision returns 1 after a run of passes. Every pass but the last
ends with the centre outside `±ac_prec` and fewer than 3 passes counted; the
last ends with the centre within `±ac_prec` or with 3 passes counted. A pass
is counted when the centre reads exactly what it read before the pass,
whether or not the counted passes follow one another; a reading that gets
worse is not counted. If no pass was counted the state of the last pass is
returned; otherwise the radius left in force is that of the last pass that
ended with the count at one. -/
theorem C23_radius_loop_counts_unchanged_readings (k : Kinematics) (c : Probing) (fuel : Nat)
    (s s' : Machine) (v : Int)
    (hentry : ¬ (s.bed_level_c ≥ -s.ac_prec / 2 ∧ s.bed_level_c ≤ s.ac_prec / 2))
    (h : adj_deltaradius k c fuel s = some (v, s')) :
    v = 1 ∧
    (∃ (xs : List RadiusPass) (last : RadiusPass),
      PassChain (adj_deltaradius_pass k c) (adj_deltaradius_start c s) (xs ++ [last]) ∧
      xs.length + 1 ≤ fuel ∧
      (∀ y ∈ xs, (y.s.bed_level_c < -y.s.ac_prec ∨ y.s.bed_level_c > y.s.ac_prec) ∧
        y.c_nochange_count < 3) ∧
      ((-last.s.ac_prec ≤ last.s.bed_level_c ∧ last.s.bed_level_c ≤ last.s.ac_prec) ∨
        last.c_nochange_count = 3) ∧
      s'.bed_level_c = last.s.bed_level_c ∧
      (¬ 0 < last.c_nochange_count → s' = last.s) ∧
      (0 < last.c_nochange_count →
        ∃ (pre : List RadiusPass) (y : RadiusPass) (post : List RadiusPass),
          xs ++ [last] = pre ++ y :: post ∧ y.c_nochange_count = 1 ∧
          (∀ z ∈ post, z.c_nochange_count ≠ 1) ∧ s'.delta_radius = y.s.delta_radius)) ∧
    (∀ x y : RadiusPass, adj_deltaradius_pass k c x = some y →
      y.s.delta_radius = x.s.delta_radius + x.adj_r ∧
      (y.c_nochange_count =
        if y.s.bed_level_c = x.s.bed_level_c then x.c_nochange_count + 1
        else x.c_nochange_count) ∧
      (y.nochange_r = if y.c_nochange_count = 1 then y.s.delta_radius else x.nochange_r) ∧
      (y.adj_r =
        if (x.adj_r > 0 ∧ y.s.bed_level_c < x.s.bed_level_c) ∨
            (x.adj_r < 0 ∧ y.s.bed_level_c > x.s.bed_level_c)
        then -(x.adj_r / 2) else x.adj_r)) := by
  unfold adj_deltaradius at h
  rw [if_neg hentry] at h
  dsimp only at h
  generalize hl : adj_deltaradius_loop k c fuel (if s.bed_level_c > 0 then -(1 / 10) else 1 / 10)
    0 0 { s with bed_safe_z := c.AUTOCAL_PROBELIFT - s.z_probe_offset.Z } = o at h
  cases o with
  | none => cases h
  | some p =>
    obtain ⟨n', r', s1⟩ := p
    dsimp only at h
    simp only [Option.some.injEq, Prod.mk.injEq] at h
    obtain ⟨hv, hs'⟩ := h
    have hl' : adj_deltaradius_loop k c fuel (adj_deltaradius_start c s).adj_r
        (adj_deltaradius_start c s).c_nochange_count (adj_deltaradius_start c s).nochange_r
        (adj_deltaradius_start c s).s = some (n', r', s1) := hl
    obtain ⟨xs, last, hc, hall, hstop, e1, e2, e3, hlen⟩ :=
      adj_deltaradius_loop_chain k c fuel (adj_deltaradius_start c s) n' r' s1 hl'
    have hbound := adj_deltaradius_chain_bound k c xs (adj_deltaradius_start c s) last hc
      (by show (0 : Int) < 3; decide) (fun y hy => (hall y hy).2)
    refine ⟨hv.symm, ⟨xs, last, hc, hlen, hall, ?_, ?_, ?_, ?_⟩, ?_⟩
    · by_cases hw : -last.s.ac_prec ≤ last.s.bed_level_c ∧ last.s.bed_level_c ≤ last.s.ac_prec
      · exact Or.inl hw
      · right
        have hout : last.s.bed_level_c < -last.s.ac_prec ∨ last.s.bed_level_c > last.s.ac_prec := by
          by_contra hcon
          push_neg at hcon
          exact hw ⟨hcon.1, hcon.2⟩
        have : ¬ last.c_nochange_count < 3 := fun hlt => hstop ⟨hout, hlt⟩
        omega
    · rw [← hs', ← e3]
      split_ifs <;> rfl
    · intro hn
      rw [← hs', ← e1, if_neg hn, e3]
    · intro hpos
      rcases adj_deltaradius_chain_nochange k c xs (adj_deltaradius_start c s) last hc with
        ⟨hno, -⟩ | ⟨pre, y, post, hsplit, hy, hpost, hr⟩
      · have hz := adj_deltaradius_chain_zero k c (xs ++ [last]) (adj_deltaradius_start c s) hc
          rfl hno last (List.mem_append_right _ (List.mem_singleton.mpr rfl))
        rw [hz] at hpos
        exact absurd hpos (lt_irrefl 0)
      · refine ⟨pre, y, post, hsplit, hy, hpost, ?_⟩
        rw [← hs', ← e1, if_pos hpos, ← hr, e2]
        rfl
    · intro x y hp
      obtain ⟨g1, -, -, g4, g5, g6⟩ := adj_deltaradius_pass_spec k c x y hp
      exact ⟨g1, g4, g5, g6⟩

/-- Witness of C23: the run of the counterexample, which ends on the count of
3 with the radius of the pass that ended with the count at one. -/
theorem C23_witness :
    ¬ (centreHigh.bed_level_c ≥ -centreHigh.ac_prec / 2 ∧
        centreHigh.bed_level_c ≤ centreHigh.ac_prec / 2) ∧
    ∃ s', adj_deltaradius refKinematics (scriptProbing (fun _ => 1 / 2)) 4 centreHigh
        = some (1, s') ∧
      ∃ (xs : List RadiusPass) (last : RadiusPass),
        PassChain (adj_deltaradius_pass refKinematics (scriptProbing (fun _ => 1 / 2)))
          (adj_deltaradius_start (scriptProbing (fun _ => 1 / 2)) centreHigh) (xs ++ [last]) ∧
        ((-last.s.ac_prec ≤ last.s.bed_level_c ∧ last.s.bed_level_c ≤ last.s.ac_prec) ∨
          last.c_nochange_count = 3) := by
  have hentry : ¬ (centreHigh.bed_level_c ≥ -centreHigh.ac_prec / 2 ∧
      centreHigh.bed_level_c ≤ centreHigh.ac_prec / 2) := by
    show ¬ ((1 : ℚ) ≥ -(3 / 100) / 2 ∧ (1 : ℚ) ≤ 3 / 100 / 2)
    norm_num
  obtain ⟨-, -, -, -, s', hrun, -⟩ := adj_deltaradius_flat_half refKinematics rfl centreHigh
    ⟨rfl, by show (100 : Int) ≠ 0; decide, rfl⟩ rfl (by show (3 / 100 : ℚ) < 1 / 2; norm_num)
  obtain ⟨-, ⟨xs, last, hc, -, -, hend, -⟩, -⟩ := C23_radius_loop_counts_unchanged_readings
    refKinematics (scriptProbing (fun _ => 1 / 2)) 4 centreHigh s' 1 hentry hrun
  exact ⟨hentry, s', hrun, xs, last, hc, hend⟩

/-! ## The composite calibration -/

/-- A call of `adj_deltaradius` that returns 0 has left the machine as it
was. -/
theorem adj_deltaradius_zero (k : Kinematics) (c : Probing) (fuel : Nat) (s s' : Machine)
    (h : adj_deltaradius k c fuel s = some (0, s')) : s' = s := by
  unfold adj_deltaradius at h
  by_cases hin : s.bed_level_c ≥ -s.ac_prec / 2 ∧ s.bed_level_c ≤ s.ac_prec / 2
  · rw [if_pos hin] at h
    simp only [Option.some.injEq, Prod.mk.injEq] at h
    exact h.2.symm
  · rw [if_neg hin] at h
    dsimp only at h
    generalize adj_deltaradius_loop k c fuel (if s.bed_level_c > 0 then -(1 / 10) else 1 / 10)
      0 0 { s with bed_safe_z := c.AUTOCAL_PROBELIFT - s.z_probe_offset.Z } = o at h
    cases o with
    | none => cases h
    | some p =>
      simp only [Option.some.injEq, Prod.mk.injEq] at h
      exact absurd h.1 (by decide)

/-- The inner loop of the composite calibration returns the state that
`bed_probe_all` left, with the centre and the tower points within the
precision. -/
theorem G30_A_inner_returned (k : Kinematics) (c : Probing) (n : Nat) :
    ∀ (fuel : Nat) (s s' : Machine), G30_A_inner k c n fuel s = some s' →
      (∃ t, bed_probe_all k c t = some s') ∧ ¬ towers_out s' := by
  intro fuel
  induction fuel with
  | zero => intro s s' h; rw [G30_A_inner] at h; cases h
  | succ fuel ih =>
    intro s s' h
    rw [G30_A_inner] at h
    generalize adj_endstops k c n s = o1 at h
    cases o1 with
    | none => cases h
    | some s1 =>
      dsimp only at h
      generalize hb : bed_probe_all k c s1 = o2 at h
      cases o2 with
      | none => cases h
      | some s2 =>
        dsimp only at h
        generalize hr : (if s2.bed_level_c < -s2.ac_prec ∨ s2.bed_level_c > s2.ac_prec then
          adj_deltaradius k c n s2 else some (0, s2)) = o3 at h
        cases o3 with
        | none => cases h
        | some p =>
          obtain ⟨dr, s3⟩ := p
          dsimp only at h
          by_cases hgo : towers_out s3 ∨ dr ≠ 0
          · rw [if_pos hgo] at h
            exact ih s3 s' h
          · rw [if_neg hgo] at h
            simp only [Option.some.injEq] at h
            rw [← h]
            push_neg at hgo
            obtain ⟨hin, hdr⟩ := hgo
            subst hdr
            have hs : s3 = s2 := by
              split_ifs at hr
              · exact adj_deltaradius_zero k c n s2 s3 hr
              · simp only [Option.some.injEq, Prod.mk.injEq] at hr
                exact hr.2.symm
            rw [hs]
            rw [hs] at hin
            exact ⟨⟨s1, hb⟩, hin⟩

theorem G30_A_towers_returned (k : Kinematics) (c : Probing) (home : Machine → Machine)
    (n : Nat) (s s' : Machine) (h : G30_A_towers k c home n s = some s') :
    (∃ t, bed_probe_all k c t = some s') ∨ s' = s := by
  unfold G30_A_towers at h
  split_ifs at h
  · left
    generalize fix_tower_errors k c n s = o1 at h
    cases o1 with
    | none => cases h
    | some p =>
      obtain ⟨changed, s1⟩ := p
      dsimp only at h
      generalize (if changed ≠ 0 then
          some { home s1 with bed_safe_z := c.AUTOCAL_PROBELIFT - (home s1).z_probe_offset.Z }
        else
          match adj_diagrod_length k c n s1 with
          | none => none
          | some (d, s) =>
            if d ≠ 0 then
              some { home s with bed_safe_z := c.AUTOCAL_PROBELIFT - (home s).z_probe_offset.Z }
            else some s) = o2 at h
      cases o2 with
      | none => cases h
      | some s2 => exact ⟨s2, h⟩
  · right
    simp only [Option.some.injEq] at h
    exact h.symm

/-- The readings that `bed_probe_all` stores are the values of its seven calls
of `probe_bed`, at the centre, the three tower points and the three opposite
points, and nothing is probed after the last of them. -/
theorem bed_probe_all_returned (k : Kinematics) (c : Probing) (t s' : Machine)
    (h : bed_probe_all k c t = some s') :
    ∃ (t0 t1 t2 t3 t4 t5 t6 u0 u1 u2 u3 u4 u5 u6 : Machine),
      probe_bed k c t0 0 0 = some (s'.bed_level_c, u0) ∧
      probe_bed k c t1 0 t.bed_radius = some (s'.bed_level_z, u1) ∧
      probe_bed k c t2 (-SIN_60 * t.bed_radius) (COS_60 * t.bed_radius)
        = some (s'.bed_level_oy, u2) ∧
      probe_bed k c t3 (-SIN_60 * t.bed_radius) (-COS_60 * t.bed_radius)
        = some (s'.bed_level_x, u3) ∧
      probe_bed k c t4 0 (-t.bed_radius) = some (s'.bed_level_oz, u4) ∧
      probe_bed k c t5 (SIN_60 * t.bed_radius) (-COS_60 * t.bed_radius)
        = some (s'.bed_level_y, u5) ∧
      probe_bed k c t6 (SIN_60 * t.bed_radius) (COS_60 * t.bed_radius)
        = some (s'.bed_level_ox, u6) ∧
      s'.probed = u6.probed ∧ s'.ac_prec = t.ac_prec := by
  unfold bed_probe_all at h
  dsimp only at h
  generalize ht0 : bed_probe_all_start k c t = t0 at h
  have b0 : t0.bed_radius = t.bed_radius := by rw [← ht0]; rfl
  have a0 : t0.ac_prec = t.ac_prec := by rw [← ht0]; rfl
  generalize h0 : probe_bed k c t0 0 0 = o at h
  cases o with
  | none => cases h
  | some p0 =>
    obtain ⟨r0, u0⟩ := p0
    dsimp only at h
    obtain ⟨-, -, -, k0⟩ := probe_bed_returned k c _ _ _ _ _ h0
    generalize h1 : probe_bed k c { u0 with bed_level_c := r0 } 0 u0.bed_radius = o at h
    cases o with
    | none => cases h
    | some p1 =>
      obtain ⟨r1, u1⟩ := p1
      dsimp only at h
      obtain ⟨-, -, -, k1⟩ := probe_bed_returned k c _ _ _ _ _ h1
      generalize h2 : probe_bed k c { u1 with bed_level_z := r1 } (-SIN_60 * u1.bed_radius)
        (COS_60 * u1.bed_radius) = o at h
      cases o with
      | none => cases h
      | some p2 =>
        obtain ⟨r2, u2⟩ := p2
        dsimp only at h
        obtain ⟨-, -, -, k2⟩ := probe_bed_returned k c _ _ _ _ _ h2
        generalize h3 : probe_bed k c { u2 with bed_level_oy := r2 } (-SIN_60 * u2.bed_radius)
          (-COS_60 * u2.bed_radius) = o at h
        cases o with
        | none => cases h
        | some p3 =>
          obtain ⟨r3, u3⟩ := p3
          dsimp only at h
          obtain ⟨-, -, -, k3⟩ := probe_bed_returned k c _ _ _ _ _ h3
          generalize h4 : probe_bed k c { u3 with bed_level_x := r3 } 0 (-u3.bed_radius) = o at h
          cases o with
          | none => cases h
          | some p4 =>
            obtain ⟨r4, u4⟩ := p4
            dsimp only at h
            obtain ⟨-, -, -, k4⟩ := probe_bed_returned k c _ _ _ _ _ h4
            generalize h5 : probe_bed k c { u4 with bed_level_oz := r4 }
              (SIN_60 * u4.bed_radius) (-COS_60 * u4.bed_radius) = o at h
            cases o with
            | none => cases h
            | some p5 =>
              obtain ⟨r5, u5⟩ := p5
              dsimp only at h
              obtain ⟨-, -, -, k5⟩ := probe_bed_returned k c _ _ _ _ _ h5
              generalize h6 : probe_bed k c { u5 with bed_level_y := r5 }
                (SIN_60 * u5.bed_radius) (COS_60 * u5.bed_radius) = o at h
              cases o with
              | none => cases h
              | some p6 =>
                obtain ⟨r6, u6⟩ := p6
                dsimp only at h
                obtain ⟨-, -, -, k6⟩ := probe_bed_returned k c _ _ _ _ _ h6
                simp only [Option.some.injEq] at h
                have e0 : u0.bed_radius = t.bed_radius := by rw [k0.setup.2.2.1, b0]
                have e1 : u1.bed_radius = t.bed_radius := by rw [k1.setup.2.2.1]; exact e0
                have e2 : u2.bed_radius = t.bed_radius := by rw [k2.setup.2.2.1]; exact e1
                have e3 : u3.bed_radius = t.bed_radius := by rw [k3.setup.2.2.1]; exact e2
                have e4 : u4.bed_radius = t.bed_radius := by rw [k4.setup.2.2.1]; exact e3
                have e5 : u5.bed_radius = t.bed_radius := by rw [k5.setup.2.2.1]; exact e4
                have h1' : probe_bed k c { u0 with bed_level_c := r0 } 0 t.bed_radius
                    = some (r1, u1) := by rw [← e0]; exact h1
                have h2' : probe_bed k c { u1 with bed_level_z := r1 } (-SIN_60 * t.bed_radius)
                    (COS_60 * t.bed_radius) = some (r2, u2) := by rw [← e1]; exact h2
                have h3' : probe_bed k c { u2 with bed_level_oy := r2 } (-SIN_60 * t.bed_radius)
                    (-COS_60 * t.bed_radius) = some (r3, u3) := by rw [← e2]; exact h3
                have h4' : probe_bed k c { u3 with bed_level_x := r3 } 0 (-t.bed_radius)
                    = some (r4, u4) := by rw [← e3]; exact h4
                have h5' : probe_bed k c { u4 with bed_level_oz := r4 } (SIN_60 * t.bed_radius)
                    (-COS_60 * t.bed_radius) = some (r5, u5) := by rw [← e4]; exact h5
                have h6' : probe_bed k c { u5 with bed_level_y := r5 } (SIN_60 * t.bed_radius)
                    (COS_60 * t.bed_radius) = some (r6, u6) := by rw [← e5]; exact h6
                have l6 := k6.levels
                have l5 := k5.levels
                have l4 := k4.levels
                have l3 := k3.levels
                have l2 := k2.levels
                have l1 := k1.levels
                have vc : s'.bed_level_c = r0 := by
                  rw [← h]
                  show u6.bed_level_c = r0
                  rw [l6.1]; show u5.bed_level_c = r0
                  rw [l5.1]; show u4.bed_level_c = r0
                  rw [l4.1]; show u3.bed_level_c = r0
                  rw [l3.1]; show u2.bed_level_c = r0
                  rw [l2.1]; show u1.bed_level_c = r0
                  rw [l1.1]
                have vz : s'.bed_level_z = r1 := by
                  rw [← h]
                  show u6.bed_level_z = r1
                  rw [l6.2.2.2.1]; show u5.bed_level_z = r1
                  rw [l5.2.2.2.1]; show u4.bed_level_z = r1
                  rw [l4.2.2.2.1]; show u3.bed_level_z = r1
                  rw [l3.2.2.2.1]; show u2.bed_level_z = r1
                  rw [l2.2.2.2.1]
                have voy : s'.bed_level_oy = r2 := by
                  rw [← h]
                  show u6.bed_level_oy = r2
                  rw [l6.2.2.2.2.2.1]; show u5.bed_level_oy = r2
                  rw [l5.2.2.2.2.2.1]; show u4.bed_level_oy = r2
                  rw [l4.2.2.2.2.2.1]; show u3.bed_level_oy = r2
                  rw [l3.2.2.2.2.2.1]
                have vx : s'.bed_level_x = r3 := by
                  rw [← h]
                  show u6.bed_level_x = r3
                  rw [l6.2.1]; show u5.bed_level_x = r3
                  rw [l5.2.1]; show u4.bed_level_x = r3
                  rw [l4.2.1]
                have voz : s'.bed_level_oz = r4 := by
                  rw [← h]
                  show u6.bed_level_oz = r4
                  rw [l6.2.2.2.2.2.2]; show u5.bed_level_oz = r4
                  rw [l5.2.2.2.2.2.2]
                have vy : s'.bed_level_y = r5 := by
                  rw [← h]
                  show u6.bed_level_y = r5
                  rw [l6.2.2.1]
                have vox : s'.bed_level_ox = r6 := by rw [← h]
                refine ⟨t0, { u0 with bed_level_c := r0 }, { u1 with bed_level_z := r1 },
                  { u2 with bed_level_oy := r2 }, { u3 with bed_level_x := r3 },
                  { u4 with bed_level_oz := r4 }, { u5 with bed_level_y := r5 },
                  u0, u1, u2, u3, u4, u5, u6, ?_, ?_, ?_, ?_, ?_, ?_, ?_, ?_, ?_⟩
                · rw [vc]; exact h0
                · rw [vz]; exact h1'
                · rw [voy]; exact h2'
                · rw [vx]; exact h3'
                · rw [voz]; exact h4'
                · rw [vy]; exact h5'
                · rw [vox]; exact h6'
                · rw [← h]
                · rw [← h]
                  show u6.ac_prec = t.ac_prec
                  rw [k6.setup.2.2.2.1]; show u5.ac_prec = _
                  rw [k5.setup.2.2.2.1]; show u4.ac_prec = _
                  rw [k4.setup.2.2.2.1]; show u3.ac_prec = _
                  rw [k3.setup.2.2.2.1]; show u2.ac_prec = _
                  rw [k2.setup.2.2.2.1]; show u1.ac_prec = _
                  rw [k1.setup.2.2.2.1]; show u0.ac_prec = _
                  rw [k0.setup.2.2.2.1]; exact a0

/-- The composite calibration returns the state that `bed_probe_all` left,
with all seven stored readings within the precision. -/
theorem G30_A_returned (k : Kinematics) (c : Probing) (home : Machine → Machine) (n : Nat) :
    ∀ (fuel : Nat) (s s' : Machine), G30_A k c home n fuel s = some s' →
      (∃ t, bed_probe_all k c t = some s') ∧ ¬ towers_out s' ∧ ¬ opposites_out s' := by
  intro fuel
  induction fuel with
  | zero => intro s s' h; rw [G30_A] at h; cases h
  | succ fuel ih =>
    intro s s' h
    rw [G30_A] at h
    generalize hi : G30_A_inner k c n n s = o1 at h
    cases o1 with
    | none => cases h
    | some s1 =>
      dsimp only at h
      generalize ht : G30_A_towers k c home n s1 = o2 at h
      cases o2 with
      | none => cases h
      | some s2 =>
        dsimp only at h
        by_cases hgo : towers_out s2 ∨ opposites_out s2
        · rw [if_pos hgo] at h
          exact ih s2 s' h
        · rw [if_neg hgo] at h
          simp only [Option.some.injEq] at h
          rw [← h]
          push_neg at hgo
          refine ⟨?_, hgo.1, hgo.2⟩
          rcases G30_A_towers_returned k c home n s1 s2 ht with hb | he
          · exact hb
          · rw [he]
            exact (G30_A_inner_returned k c n n s s1 hi).1

theorem towers_in (s : Machine) (h : ¬ towers_out s) :
    (-s.ac_prec ≤ s.bed_level_c ∧ s.bed_level_c ≤ s.ac_prec) ∧
    (-s.ac_prec ≤ s.bed_level_x ∧ s.bed_level_x ≤ s.ac_prec) ∧
    (-s.ac_prec ≤ s.bed_level_y ∧ s.bed_level_y ≤ s.ac_prec) ∧
    (-s.ac_prec ≤ s.bed_level_z ∧ s.bed_level_z ≤ s.ac_prec) := by
  unfold towers_out at h
  push_neg at h
  obtain ⟨a1, a2, a3, a4, a5, a6, a7, a8⟩ := h
  exact ⟨⟨a1, a2⟩, ⟨a3, a4⟩, ⟨a5, a6⟩, ⟨a7, a8⟩⟩

theorem opposites_in (s : Machine) (h : ¬ opposites_out s) :
    (-s.ac_prec ≤ s.bed_level_ox ∧ s.bed_level_ox ≤ s.ac_prec) ∧
    (-s.ac_prec ≤ s.bed_level_oy ∧ s.bed_level_oy ≤ s.ac_prec) ∧
    (-s.ac_prec ≤ s.bed_level_oz ∧ s.bed_level_oz ≤ s.ac_prec) := by
  unfold opposites_out at h
  push_neg at h
  obtain ⟨a1, a2, a3, a4, a5, a6⟩ := h
  exact ⟨⟨a1, a2⟩, ⟨a3, a4⟩, ⟨a5, a6⟩⟩

/-- The seven probes of `bed_probe_all` on a scripted probe. -/
theorem scripted_bed_probe_all (k : Kinematics) (f : Nat → ℚ)
    (hmech : k.mechanism = Mechanism.DELTA) (s : Machine) (n : Nat) (h : Ready s n) :
    ∃ s', bed_probe_all k (scriptProbing f) s = some s' ∧ Ready s' (n + 7) ∧
      s'.ac_prec = s.ac_prec ∧
      s'.bed_level_c = f n ∧ s'.bed_level_z = f (n + 1) ∧ s'.bed_level_oy = f (n + 2) ∧
      s'.bed_level_x = f (n + 3) ∧ s'.bed_level_oz = f (n + 4) ∧ s'.bed_level_y = f (n + 5) ∧
      s'.bed_level_ox = f (n + 6) := by
  have hr0 : Ready (bed_probe_all_start k (scriptProbing f) s) n := h
  obtain ⟨u0, h0, p0, r0, -⟩ := scripted_reading k f _ 0 0 n hmech hr0
  obtain ⟨u1, h1, p1, r1, c1, -⟩ := scripted_reading k f
    { u0 with bed_level_c := f n } 0 u0.bed_radius (n + 1) hmech r0
  obtain ⟨u2, h2, p2, r2, c2, -, -, z2, -⟩ := scripted_reading k f
    { u1 with bed_level_z := f (n + 1) } (-SIN_60 * u1.bed_radius) (COS_60 * u1.bed_radius)
    (n + 2) hmech r1
  obtain ⟨u3, h3, p3, r3, c3, -, -, z3, -, oy3, -⟩ := scripted_reading k f
    { u2 with bed_level_oy := f (n + 2) } (-SIN_60 * u2.bed_radius) (-COS_60 * u2.bed_radius)
    (n + 3) hmech r2
  obtain ⟨u4, h4, p4, r4, c4, x4, -, z4, -, oy4, -⟩ := scripted_reading k f
    { u3 with bed_level_x := f (n + 3) } 0 (-u3.bed_radius) (n + 4) hmech r3
  obtain ⟨u5, h5, p5, r5, c5, x5, -, z5, -, oy5, oz5⟩ := scripted_reading k f
    { u4 with bed_level_oz := f (n + 4) } (SIN_60 * u4.bed_radius) (-COS_60 * u4.bed_radius)
    (n + 5) hmech r4
  obtain ⟨u6, h6, p6, r6, c6, x6, y6, z6, -, oy6, oz6⟩ := scripted_reading k f
    { u5 with bed_level_y := f (n + 5) } (SIN_60 * u5.bed_radius) (COS_60 * u5.bed_radius)
    (n + 6) hmech r5
  refine ⟨{ u6 with bed_level_ox := f (n + 6) }, ?_, r6, ?_, ?_, ?_, ?_, ?_, ?_, ?_, rfl⟩
  · unfold bed_probe_all
    dsimp only
    rw [h0]
    dsimp only
    rw [h1]
    dsimp only
    rw [h2]
    dsimp only
    rw [h3]
    dsimp only
    rw [h4]
    dsimp only
    rw [h5]
    dsimp only
    rw [h6]
  · show u6.ac_prec = s.ac_prec
    rw [p6.fixed.2.2.2.1]; show u5.ac_prec = _
    rw [p5.fixed.2.2.2.1]; show u4.ac_prec = _
    rw [p4.fixed.2.2.2.1]; show u3.ac_prec = _
    rw [p3.fixed.2.2.2.1]; show u2.ac_prec = _
    rw [p2.fixed.2.2.2.1]; show u1.ac_prec = _
    rw [p1.fixed.2.2.2.1]; show u0.ac_prec = _
    rw [p0.fixed.2.2.2.1]; rfl
  · show u6.bed_level_c = _
    rw [c6]; show u5.bed_level_c = _
    rw [c5]; show u4.bed_level_c = _
    rw [c4]; show u3.bed_level_c = _
    rw [c3]; show u2.bed_level_c = _
    rw [c2]; show u1.bed_level_c = _
    rw [c1]
  · show u6.bed_level_z = _
    rw [z6]; show u5.bed_level_z = _
    rw [z5]; show u4.bed_level_z = _
    rw [z4]; show u3.bed_level_z = _
    rw [z3]; show u2.bed_level_z = _
    rw [z2]
  · show u6.bed_level_oy = _
    rw [oy6]; show u5.bed_level_oy = _
    rw [oy5]; show u4.bed_level_oy = _
    rw [oy4]; show u3.bed_level_oy = _
    rw [oy3]
  · show u6.bed_level_x = _
    rw [x6]; show u5.bed_level_x = _
    rw [x5]; show u4.bed_level_x = _
    rw [x4]
  · show u6.bed_level_oz = _
    rw [oz6]; show u5.bed_level_oz = _
    rw [oz5]
  · show u6.bed_level_y = _
    rw [y6]

theorem adj_endstops_normalize_ready (c : Probing) (s : Machine) (n : Nat) (h : Ready s n) :
    Ready (adj_endstops_normalize c s) n ∧ (adj_endstops_normalize c s).ac_prec = s.ac_prec := by
  unfold adj_endstops_normalize
  dsimp only
  split_ifs
  · exact ⟨h, rfl⟩
  · exact ⟨h, rfl⟩

/-- The endstop adjustment on a bed whose readings are all 0: one pass. -/
theorem adj_endstops_flat (k : Kinematics) (hmech : k.mechanism = Mechanism.DELTA)
    (s : Machine) (n : Nat) (h : Ready s n) (hp : 0 ≤ s.ac_prec) :
    ∃ s1, adj_endstops k (scriptProbing (fun _ => 0)) 1 s = some s1 ∧ Ready s1 (n + 3) ∧
      s1.ac_prec = s.ac_prec := by
  obtain ⟨u0, h0, p0, r0, -⟩ := scripted_reading k (fun _ => 0) s 0 s.bed_radius n hmech h
  obtain ⟨u1, h1, p1, r1, -, -, -, z1, -⟩ := scripted_reading k (fun _ => 0)
    { u0 with bed_level_z := 0 } (-SIN_60 * u0.bed_radius) (-COS_60 * u0.bed_radius)
    (n + 1) hmech r0
  obtain ⟨u2, h2, p2, r2, -, x2, -, z2, -⟩ := scripted_reading k (fun _ => 0)
    { u1 with bed_level_x := 0 } (SIN_60 * u1.bed_radius) (-COS_60 * u1.bed_radius)
    (n + 2) hmech r1
  have hx : u2.bed_level_x = 0 := x2
  have hz : u2.bed_level_z = 0 := by rw [z2]; exact z1
  have ha : u2.ac_prec = s.ac_prec := by
    rw [p2.fixed.2.2.2.1]; show u1.ac_prec = _
    rw [p1.fixed.2.2.2.1]; show u0.ac_prec = _
    rw [p0.fixed.2.2.2.1]
  have hpass : adj_endstops_pass k (scriptProbing (fun _ => 0)) s =
      some (apply_endstop_adjustment k { u2 with bed_level_y := 0 } u2.bed_level_x 0
        u2.bed_level_z) := by
    unfold adj_endstops_pass
    rw [h0]
    dsimp only
    rw [h1]
    dsimp only
    rw [h2]
  have hdone : adj_endstops_done (apply_endstop_adjustment k { u2 with bed_level_y := 0 }
      u2.bed_level_x 0 u2.bed_level_z) = true := by
    unfold adj_endstops_done
    show (decide (u2.bed_level_x ≥ -u2.ac_prec ∧ u2.bed_level_x ≤ u2.ac_prec) &&
      decide ((0 : ℚ) ≥ -u2.ac_prec ∧ (0 : ℚ) ≤ u2.ac_prec) &&
      decide (u2.bed_level_z ≥ -u2.ac_prec ∧ u2.bed_level_z ≤ u2.ac_prec)) = true
    rw [hx, hz, ha]
    have hn : -s.ac_prec ≤ 0 := by linarith
    simp [hp, hn]
  have hloop : adj_endstops_loop k (scriptProbing (fun _ => 0)) 1 s =
      some (apply_endstop_adjustment k { u2 with bed_level_y := 0 } u2.bed_level_x 0
        u2.bed_level_z) := by
    rw [adj_endstops_loop, hpass]
    dsimp only
    rw [if_pos hdone]
  have hr : Ready (apply_endstop_adjustment k { u2 with bed_level_y := 0 } u2.bed_level_x 0
      u2.bed_level_z) (n + 3) := r2
  obtain ⟨q1, q2⟩ := adj_endstops_normalize_ready (scriptProbing (fun _ => 0)) _ (n + 3) hr
  refine ⟨_, adj_endstops_eq k _ 1 s _ hloop, q1, ?_⟩
  rw [q2]
  exact ha

/-- The composite calibration on a bed whose readings are all 0: one pass of
each loop, ten probes. -/
theorem G30_A_flat (k : Kinematics) (hmech : k.mechanism = Mechanism.DELTA)
    (home : Machine → Machine) (s : Machine) (n : Nat) (h : Ready s n) (hp : 0 ≤ s.ac_prec) :
    ∃ s', G30_A k (scriptProbing (fun _ => 0)) home 1 1 s = some s' := by
  obtain ⟨s1, h1, r1, a1⟩ := adj_endstops_flat k hmech s n h hp
  obtain ⟨s2, h2, r2, a2, vc, vz, voy, vx, voz, vy, vox⟩ :=
    scripted_bed_probe_all k (fun _ => 0) hmech s1 (n + 3) r1
  have hp2 : 0 ≤ s2.ac_prec := by rw [a2, a1]; exact hp
  have hn2 : -s2.ac_prec ≤ 0 := by linarith
  have hc : ¬ (s2.bed_level_c < -s2.ac_prec ∨ s2.bed_level_c > s2.ac_prec) := by
    rw [vc]; push_neg; exact ⟨hn2, hp2⟩
  have ht : ¬ towers_out s2 := by
    unfold towers_out
    rw [vc, vx, vy, vz]
    push_neg
    exact ⟨hn2, hp2, hn2, hp2, hn2, hp2, hn2, hp2⟩
  have ho : ¬ opposites_out s2 := by
    unfold opposites_out
    rw [vox, voy, voz]
    push_neg
    exact ⟨hn2, hp2, hn2, hp2, hn2, hp2⟩
  have hinner : G30_A_inner k (scriptProbing (fun _ => 0)) 1 1 s = some s2 := by
    rw [G30_A_inner, h1]
    dsimp only
    rw [h2]
    dsimp only
    rw [if_neg hc]
    dsimp only
    rw [if_neg (by push_neg; exact ⟨ht, rfl⟩)]
  have htow : G30_A_towers k (scriptProbing (fun _ => 0)) home 1 s2 = some s2 := by
    unfold G30_A_towers
    rw [if_neg ho]
  refine ⟨s2, ?_⟩
  rw [G30_A, hinner]
  dsimp only
  rw [htow]
  dsimp only
  rw [if_neg (by push_neg; exact ⟨ht, ho⟩)]

/-- C21: whenever the composite calibration `G30 A` completes, the state it
leaves is the one its last call of `bed_probe_all` left: the seven stored
readings are the values of the seven probes of that call, at the centre, the
three tower points and the three opposite points, nothing has been probed
since, and each of the seven is within `±ac_prec`. -/
theorem C21_composite_calibration_ends_within_precision (k : Kinematics) (c : Probing)
    (home : Machine → Machine) (n fuel : Nat) (s s' : Machine)
    (h : G30_A k c home n fuel s = some s') :
    (∃ (t t0 t1 t2 t3 t4 t5 t6 u0 u1 u2 u3 u4 u5 u6 : Machine),
      bed_probe_all k c t = some s' ∧
      probe_bed k c t0 0 0 = some (s'.bed_level_c, u0) ∧
      probe_bed k c t1 0 t.bed_radius = some (s'.bed_level_z, u1) ∧
      probe_bed k c t2 (-SIN_60 * t.bed_radius) (COS_60 * t.bed_radius)
        = some (s'.bed_level_oy, u2) ∧
      probe_bed k c t3 (-SIN_60 * t.bed_radius) (-COS_60 * t.bed_radius)
        = some (s'.bed_level_x, u3) ∧
      probe_bed k c t4 0 (-t.bed_radius) = some (s'.bed_level_oz, u4) ∧
      probe_bed k c t5 (SIN_60 * t.bed_radius) (-COS_60 * t.bed_radius)
        = some (s'.bed_level_y, u5) ∧
      probe_bed k c t6 (SIN_60 * t.bed_radius) (COS_60 * t.bed_radius)
        = some (s'.bed_level_ox, u6) ∧
      s'.probed = u6.probed) ∧
    (-s'.ac_prec ≤ s'.bed_level_c ∧ s'.bed_level_c ≤ s'.ac_prec) ∧
    (-s'.ac_prec ≤ s'.bed_level_x ∧ s'.bed_level_x ≤ s'.ac_prec) ∧
    (-s'.ac_prec ≤ s'.bed_level_y ∧ s'.bed_level_y ≤ s'.ac_prec) ∧
    (-s'.ac_prec ≤ s'.bed_level_z ∧ s'.bed_level_z ≤ s'.ac_prec) ∧
    (-s'.ac_prec ≤ s'.bed_level_ox ∧ s'.bed_level_ox ≤ s'.ac_prec) ∧
    (-s'.ac_prec ≤ s'.bed_level_oy ∧ s'.bed_level_oy ≤ s'.ac_prec) ∧
    (-s'.ac_prec ≤ s'.bed_level_oz ∧ s'.bed_level_oz ≤ s'.ac_prec) := by
  obtain ⟨⟨t, hb⟩, ht, ho⟩ := G30_A_returned k c home n fuel s s' h
  obtain ⟨t0, t1, t2, t3, t4, t5, t6, u0, u1, u2, u3, u4, u5, u6, g0, g1, g2, g3, g4, g5, g6,
    gp, -⟩ := bed_probe_all_returned k c t s' hb
  obtain ⟨i1, i2, i3, i4⟩ := towers_in s' ht
  obtain ⟨j1, j2, j3⟩ := opposites_in s' ho
  exact ⟨⟨t, t0, t1, t2, t3, t4, t5, t6, u0, u1, u2, u3, u4, u5, u6, hb, g0, g1, g2, g3, g4, g5,
    g6, gp⟩, i1, i2, i3, i4, j1, j2, j3⟩

/-- Witness of C21: the reference machine on a bed whose readings are all 0;
the composite calibration completes in one pass. -/
theorem C21_witness :
    ∃ s', G30_A refKinematics (scriptProbing (fun _ => 0)) id 1 1 refMachine = some s' ∧
      (-s'.ac_prec ≤ s'.bed_level_c ∧ s'.bed_level_c ≤ s'.ac_prec) ∧
      (-s'.ac_prec ≤ s'.bed_level_ox ∧ s'.bed_level_ox ≤ s'.ac_prec) := by
  obtain ⟨s', h⟩ := G30_A_flat refKinematics rfl id refMachine 0
    ⟨rfl, by show (100 : Int) ≠ 0; decide, rfl⟩ (by show (0 : ℚ) ≤ 3 / 100; norm_num)
  obtain ⟨-, hc, -, -, -, hox, -⟩ := C21_composite_calibration_ends_within_precision
    refKinematics (scriptProbing (fun _ => 0)) id 1 1 refMachine s' h
  exact ⟨s', h, hc, hox⟩

/-! ## Rounding to binary32 -/

theorem roundEven_of_lt (x : ℚ) (n : ℤ) (h : |x - n| < 1 / 2) : roundEven x = n := by
  obtain ⟨h1, h2⟩ := abs_lt.mp h
  unfold roundEven
  by_cases hx : (n : ℚ) ≤ x
  · have hf : ⌊x⌋ = n := by
      rw [Int.floor_eq_iff]
      constructor
      · exact hx
      · linarith
    rw [hf, if_pos h2]
  · have hx' : x < n := not_le.mp hx
    have hf : ⌊x⌋ = n - 1 := by
      rw [Int.floor_eq_iff]
      push_cast
      constructor <;> linarith
    rw [hf]
    push_cast
    rw [if_neg (by linarith), if_pos (by linarith)]
    ring

theorem roundEven_intCast (n : ℤ) : roundEven (n : ℚ) = n :=
  roundEven_of_lt _ n (by simp)

theorem roundEven_err (x : ℚ) : |(roundEven x : ℚ) - x| ≤ 1 / 2 := by
  have h1 : (⌊x⌋ : ℚ) ≤ x := Int.floor_le x
  have h2 : x < ⌊x⌋ + 1 := Int.lt_floor_add_one x
  unfold roundEven
  rw [abs_le]
  split_ifs with a b c
  · constructor <;> linarith
  · push_cast; constructor <;> linarith
  · have : x - ⌊x⌋ = 1 / 2 := le_antisymm (not_lt.mp b) (not_lt.mp a)
    constructor <;> linarith
  · have : x - ⌊x⌋ = 1 / 2 := le_antisymm (not_lt.mp b) (not_lt.mp a)
    push_cast; constructor <;> linarith

theorem ulpExp_ge (x : ℚ) : -149 ≤ ulpExp x := le_max_right _ _

theorem ulpExp_le (x : ℚ) (e : ℤ) (hx : x ≠ 0) (he : -149 ≤ e) (hhi : |x| < 2 ^ (e + 24)) :
    ulpExp x ≤ e := by
  unfold ulpExp
  apply max_le _ he
  have h0 : 0 < |x| := abs_pos.mpr hx
  have : Int.log 2 |x| < e + 24 := by
    rw [← Int.lt_zpow_iff_log_lt (by norm_num) h0]
    exact_mod_cast hhi
  omega

theorem ulpExp_eq (x : ℚ) (e : ℤ) (he : -149 ≤ e) (hlo : 2 ^ (e + 23) ≤ |x|)
    (hhi : |x| < 2 ^ (e + 24)) : ulpExp x = e := by
  have h0 : 0 < |x| := lt_of_lt_of_le (by positivity) hlo
  apply le_antisymm (ulpExp_le x e (abs_pos.mp h0) he hhi)
  have : e + 23 ≤ Int.log 2 |x| := by
    rw [← Int.zpow_le_iff_le_log (by norm_num) h0]
    exact_mod_cast hlo
  unfold ulpExp
  exact le_trans (by omega) (le_max_left _ _)

theorem ulpExp_subnormal (x : ℚ) (hx : x ≠ 0) (h : |x| < 2 ^ (-125 : ℤ)) : ulpExp x = -149 :=
  le_antisymm (ulpExp_le x (-149) hx (le_refl _) (by simpa using h)) (ulpExp_ge x)

theorem binary32_zero : binary32 0 = 0 := by
  simp [binary32, roundEven]

/-- What `binary32` returns once the exponent and the nearest multiple are known. -/
theorem binary32_eq (x : ℚ) (e n : ℤ) (he : ulpExp x = e) (hn : |x / 2 ^ e - n| < 1 / 2) :
    binary32 x = n * 2 ^ e := by
  unfold binary32
  rw [he, roundEven_of_lt _ n hn]

/-- A number with a significand of 24 bits and an exponent in range is kept. -/
theorem binary32_rep (M e : ℤ) (hM : |M| < 2 ^ 24) (he : -149 ≤ e) :
    binary32 ((M : ℚ) * 2 ^ e) = (M : ℚ) * 2 ^ e := by
  by_cases hM0 : M = 0
  · rw [hM0]; simp [binary32_zero]
  have hpos : (0 : ℚ) < 2 ^ e := by positivity
  have hne : (M : ℚ) * 2 ^ e ≠ 0 := mul_ne_zero (by exact_mod_cast hM0) (ne_of_gt hpos)
  have habs : |(M : ℚ) * 2 ^ e| < 2 ^ (e + 24) := by
    rw [abs_mul, abs_of_pos hpos, zpow_add₀ (by norm_num : (2 : ℚ) ≠ 0), mul_comm]
    apply mul_lt_mul_of_pos_left _ hpos
    have : |(M : ℚ)| < ((2 ^ 24 : ℤ) : ℚ) := by
      rw [← Int.cast_abs]
      exact Int.cast_lt.mpr hM
    rw [zpow_ofNat]
    exact_mod_cast this
  have hu := ulpExp_le _ e hne he habs
  have key : ∀ (u : ℤ) (d : ℕ), e = u + d →
      (roundEven ((M : ℚ) * 2 ^ e / 2 ^ u) : ℚ) * 2 ^ u = (M : ℚ) * 2 ^ e := by
    intro u d hd
    have h2 : (2 : ℚ) ^ e = 2 ^ u * 2 ^ d := by
      rw [hd, zpow_add₀ (by norm_num : (2 : ℚ) ≠ 0), zpow_natCast]
    have hu0 : (2 : ℚ) ^ u ≠ 0 := by positivity
    have hq : (M : ℚ) * 2 ^ e / 2 ^ u = ((M * 2 ^ d : ℤ) : ℚ) := by
      rw [div_eq_iff hu0, h2]
      push_cast
      ring
    rw [hq, roundEven_intCast, h2]
    push_cast
    ring
  unfold binary32
  exact key _ (e - ulpExp ((M : ℚ) * 2 ^ e)).toNat (by omega)

theorem two_zpow_ulpExp_le (x : ℚ) (hx : x ≠ 0) :
    (2 : ℚ) ^ ulpExp x ≤ max (|x| / 2 ^ 23) (2 ^ (-149 : ℤ)) := by
  have h0 : 0 < |x| := abs_pos.mpr hx
  unfold ulpExp
  rcases max_cases (Int.log 2 |x| - 23) (-149) with ⟨h, _⟩ | ⟨h, _⟩
  · rw [h]
    apply le_trans _ (le_max_left _ _)
    rw [zpow_sub₀ (by norm_num : (2 : ℚ) ≠ 0)]
    have := Int.zpow_log_le_self (by norm_num : 1 < 2) h0
    have h23 : (2 : ℚ) ^ (23 : ℤ) = 2 ^ 23 := by norm_num
    rw [h23]
    apply div_le_div_of_nonneg_right _ (by positivity)
    exact_mod_cast this
  · rw [h]
    exact le_max_right _ _

/-- The rounding error of `binary32`: half a unit in the last place, which is
at most `|x| / 2^24` in the normal range and `2^-150` in the subnormal range. -/
theorem binary32_err (x : ℚ) : |binary32 x - x| ≤ |x| / 2 ^ 24 + 2 ^ (-150 : ℤ) := by
  by_cases hx : x = 0
  · rw [hx, binary32_zero]; norm_num
  have hu : (0 : ℚ) < 2 ^ ulpExp x := by positivity
  have h1 : binary32 x - x = ((roundEven (x / 2 ^ ulpExp x) : ℚ) - x / 2 ^ ulpExp x) * 2 ^ ulpExp x := by
    unfold binary32
    field_simp
  rw [h1, abs_mul, abs_of_pos hu]
  have h2 := roundEven_err (x / 2 ^ ulpExp x)
  have h3 := two_zpow_ulpExp_le x hx
  have h4 : |(roundEven (x / 2 ^ ulpExp x) : ℚ) - x / 2 ^ ulpExp x| * 2 ^ ulpExp x
      ≤ 1 / 2 * 2 ^ ulpExp x := mul_le_mul_of_nonneg_right h2 (le_of_lt hu)
  apply le_trans h4
  have h5 : (0 : ℚ) ≤ |x| / 2 ^ 24 := by positivity
  rcases max_cases (|x| / 2 ^ 23) ((2 : ℚ) ^ (-149 : ℤ)) with ⟨h, _⟩ | ⟨h, _⟩
  · rw [h] at h3
    have e : (1 : ℚ) / 2 * (|x| / 2 ^ 23) = |x| / 2 ^ 24 := by ring
    have h6 : (0 : ℚ) ≤ 2 ^ (-150 : ℤ) := by positivity
    have h7 : (1 : ℚ) / 2 * 2 ^ ulpExp x ≤ 1 / 2 * (|x| / 2 ^ 23) :=
      mul_le_mul_of_nonneg_left h3 (by norm_num)
    rw [e] at h7
    exact le_trans h7 (le_add_of_nonneg_right h6)
  · rw [h] at h3
    have e : (1 : ℚ) / 2 * 2 ^ (-149 : ℤ) = 2 ^ (-150 : ℤ) := by norm_num
    have h7 : (1 : ℚ) / 2 * 2 ^ ulpExp x ≤ 1 / 2 * 2 ^ (-149 : ℤ) :=
      mul_le_mul_of_nonneg_left h3 (by norm_num)
    rw [e] at h7
    exact le_trans h7 (le_add_of_nonneg_left h5)

theorem roundEven_bound (y : ℚ) (B : ℤ) (h : |y| < B) : |roundEven y| ≤ B := by
  have h1 := roundEven_err y
  have h2 : |(roundEven y : ℚ)| < B + 1 := by
    have := abs_sub_abs_le_abs_sub (roundEven y : ℚ) y
    linarith
  have h3 : ((|roundEven y| : ℤ) : ℚ) < ((B + 1 : ℤ) : ℚ) := by
    rw [Int.cast_abs]; push_cast; exact h2
  have h4 : |roundEven y| < B + 1 := Int.cast_lt.mp h3
  omega

/-- The significand that `binary32` chooses has at most 24 bits, or is `2^24`. -/
theorem binary32_significand (x : ℚ) : |roundEven (x / 2 ^ ulpExp x)| ≤ 2 ^ 24 := by
  by_cases hx : x = 0
  · rw [hx]; simp [roundEven]
  have h0 : 0 < |x| := abs_pos.mpr hx
  have hu : (0 : ℚ) < 2 ^ ulpExp x := by positivity
  apply roundEven_bound
  rw [abs_div, abs_of_pos hu, div_lt_iff₀ hu]
  have h1 : |x| < (2 : ℚ) ^ (Int.log 2 |x| + 1) := by
    have := Int.lt_zpow_succ_log_self (by norm_num : 1 < 2) |x|
    exact_mod_cast this
  have h2 : Int.log 2 |x| + 1 ≤ ulpExp x + 24 := by
    have : Int.log 2 |x| - 23 ≤ ulpExp x := le_max_left _ _
    omega
  have h3 : (2 : ℚ) ^ (Int.log 2 |x| + 1) ≤ 2 ^ (ulpExp x + 24) :=
    zpow_le_zpow_right₀ (by norm_num) h2
  have h4 : (2 : ℚ) ^ (ulpExp x + 24) = ((2 ^ 24 : ℤ) : ℚ) * 2 ^ ulpExp x := by
    rw [zpow_add₀ (by norm_num : (2 : ℚ) ≠ 0)]
    push_cast
    rw [mul_comm]
    norm_num
  linarith

/-- Rounding a rounded value changes nothing. -/
theorem binary32_idem (x : ℚ) : binary32 (binary32 x) = binary32 x := by
  have hs := binary32_significand x
  have hu := ulpExp_ge x
  by_cases hlt : |roundEven (x / 2 ^ ulpExp x)| < 2 ^ 24
  · exact binary32_rep _ _ hlt hu
  · have heq : |roundEven (x / 2 ^ ulpExp x)| = 2 ^ 24 := le_antisymm hs (not_lt.mp hlt)
    have key : ∀ s : ℤ, (s = 1 ∨ s = -1) →
        binary32 ((s * 2 ^ 24 : ℤ) * 2 ^ ulpExp x) = ((s * 2 ^ 24 : ℤ) : ℚ) * 2 ^ ulpExp x := by
      intro s hs1
      have e1 : ((s * 2 ^ 24 : ℤ) : ℚ) * 2 ^ ulpExp x
          = ((s * 2 ^ 23 : ℤ) : ℚ) * 2 ^ (ulpExp x + 1) := by
        rw [zpow_add₀ (by norm_num : (2 : ℚ) ≠ 0)]
        push_cast
        ring
      rw [e1]
      apply binary32_rep _ _ _ (by omega)
      rcases hs1 with h | h <;> rw [h] <;> norm_num
    rcases abs_eq (by norm_num : (0 : ℤ) ≤ 2 ^ 24) |>.mp heq with h | h
    · have := key 1 (Or.inl rfl)
      unfold binary32 at this ⊢
      rw [h]
      simpa using this
    · have := key (-1) (Or.inr rfl)
      unfold binary32 at this ⊢
      rw [h]
      simpa using this

theorem binary32_one : binary32 1 = 1 := by
  have := binary32_rep 1 0 (by norm_num) (by norm_num)
  simpa using this

/-- Half way between two integers the even one is taken. -/
theorem roundEven_tie (x : ℚ) (n : ℤ) (hn : n % 2 = 0)
    (hx : x = (n : ℚ) - 1 / 2 ∨ x = (n : ℚ) + 1 / 2) : roundEven x = n := by
  unfold roundEven
  rcases hx with h | h
  · have hf : ⌊x⌋ = n - 1 := by
      rw [Int.floor_eq_iff, h]
      push_cast
      constructor <;> linarith
    rw [hf, h]
    push_cast
    rw [if_neg (by linarith), if_neg (by linarith), if_neg (by omega)]
    ring
  · have hf : ⌊x⌋ = n := by
      rw [Int.floor_eq_iff, h]
      constructor <;> linarith
    rw [hf, h, if_neg (by linarith), if_neg (by linarith), if_pos hn]

/-- The value of `binary32` at a positive number half way between two
neighbours: the one with the even significand. -/
theorem binary32_tie (x v : ℚ) (e n : ℤ) (he : -149 ≤ e) (hv : v = (n : ℚ) * 2 ^ e)
    (hlo : 2 ^ (e + 23) ≤ x) (hhi : x < 2 ^ (e + 24)) (hn : n % 2 = 0)
    (hx : x / 2 ^ e = (n : ℚ) - 1 / 2 ∨ x / 2 ^ e = (n : ℚ) + 1 / 2) :
    binary32 x = v := by
  have hx0 : 0 < x := lt_of_lt_of_le (by positivity) hlo
  have hu : ulpExp x = e := ulpExp_eq x e he (by rw [abs_of_pos hx0]; exact hlo)
    (by rw [abs_of_pos hx0]; exact hhi)
  unfold binary32
  rw [hu, roundEven_tie _ n hn hx, hv]

/-! ## The segment loop with rounded arithmetic -/

theorem rounded_segment_fields (fl : ℚ → ℚ) (k : Kinematics) (diff : Axes) (steps : Int)
    (m : Motion) (s : Nat) :
    (Rounded.segment fl k diff steps m s).current_position = m.current_position ∧
    (Rounded.segment fl k diff steps m s).destination
      = Rounded.waypoint fl m.current_position diff steps s ∧
    (Rounded.segment fl k diff steps m s).planned.length = m.planned.length + 1 ∧
    (Rounded.segment fl k diff steps m s).planned.map Segment.tool =
      m.planned.map Segment.tool ++ [Rounded.waypoint fl m.current_position diff steps s] := by
  unfold Rounded.segment
  dsimp only
  refine ⟨?_, ?_, ?_, ?_⟩
  · split <;> (try split) <;> rfl
  · split <;> (try split) <;> rfl
  · rw [List.length_append]
    split <;> (try split) <;> rfl
  · rw [List.map_append]
    split <;> (try split) <;> rfl

theorem rounded_segments_succ (fl : ℚ → ℚ) (k : Kinematics) (diff : Axes) (steps : Int) (n : Nat)
    (m : Motion) :
    Rounded.segments fl k diff steps (n + 1) m
      = Rounded.segment fl k diff steps (Rounded.segments fl k diff steps n m) (n + 1) := by
  unfold Rounded.segments
  rw [List.range_succ, List.foldl_append]
  rfl

theorem rounded_segments_fields (fl : ℚ → ℚ) (k : Kinematics) (diff : Axes) (steps : Int)
    (n : Nat) (m : Motion) :
    (Rounded.segments fl k diff steps n m).current_position = m.current_position ∧
    (Rounded.segments fl k diff steps n m).planned.length = m.planned.length + n ∧
    (0 < n → (Rounded.segments fl k diff steps n m).destination
      = Rounded.waypoint fl m.current_position diff steps n) ∧
    (Rounded.segments fl k diff steps n m).planned.map Segment.tool =
      m.planned.map Segment.tool ++
        (List.range n).map (fun i => Rounded.waypoint fl m.current_position diff steps (i + 1)) := by
  induction n with
  | zero => exact ⟨rfl, rfl, fun h => absurd h (by decide), by simp [Rounded.segments]⟩
  | succ n ih =>
    rw [rounded_segments_succ]
    obtain ⟨h1, h2, h3, h4⟩ :=
      rounded_segment_fields fl k diff steps (Rounded.segments fl k diff steps n m) (n + 1)
    refine ⟨by rw [h1, ih.1], by rw [h3, ih.2.1]; omega, fun _ => by rw [h2, ih.1], ?_⟩
    rw [h4, ih.2.2.2, ih.1, List.range_succ, List.map_append, List.append_assoc]
    rfl

/-- What `prepare_move` does on a delta or SCARA build, move by move, in
rounded arithmetic: a move shorter than 0.000001 returns at once; otherwise,
when the divisors are not zero and the step count `n` fits, the segment loop
runs `max 1 n` times and the destination becomes the tool position. -/
theorem rounded_prepare_move_segmented (fl : ℚ → ℚ) (k : Kinematics) (m : Motion)
    (hmech : k.mechanism ≠ Mechanism.CARTESIAN) :
    (Rounded.cartesian_mm fl k (clamped k m) < fl (1 / 1000000) →
      Rounded.prepare_move fl k m = some (clamped k m)) ∧
    (¬ Rounded.cartesian_mm fl k (clamped k m) < fl (1 / 1000000) →
      ∀ n : Int, m.feedrate ≠ 0 → m.feedmultiply ≠ 0 →
      float_to_int (fl (segments_per_second k m *
        Rounded.seconds fl m (Rounded.cartesian_mm fl k (clamped k m)))) = some n →
      max 1 n ≠ 32767 →
      Rounded.prepare_move fl k m = some
        { Rounded.segments fl k (Rounded.difference fl (clamped k m)) (max 1 n) (max 1 n).toNat
            (clamped k m) with
          current_position :=
            (Rounded.segments fl k (Rounded.difference fl (clamped k m)) (max 1 n) (max 1 n).toNat
              (clamped k m)).destination }) := by
  constructor
  · intro htiny
    unfold Rounded.prepare_move
    dsimp only
    split
    · rename_i h; exact absurd h hmech
    · rw [if_pos htiny]
  · intro hbig n hF hmul hn hmax
    unfold Rounded.prepare_move
    dsimp only
    split
    · rename_i h; exact absurd h hmech
    · have hF' : (clamped k m).feedrate = m.feedrate := rfl
      have hmul' : (clamped k m).feedmultiply = m.feedmultiply := rfl
      have hsps : segments_per_second k (clamped k m) = segments_per_second k m := rfl
      have hsec : ∀ x, Rounded.seconds fl (clamped k m) x = Rounded.seconds fl m x := fun _ => rfl
      rw [if_neg hbig, hF', hmul', hsps, hsec, if_neg (by simp [hF, hmul]), hn]
      dsimp only
      rw [if_neg hmax]

theorem rounded_prepare_move_returned (fl : ℚ → ℚ) (k : Kinematics) (m m' : Motion)
    (hmech : k.mechanism ≠ Mechanism.CARTESIAN)
    (hbig : ¬ Rounded.cartesian_mm fl k (clamped k m) < fl (1 / 1000000))
    (hret : Rounded.prepare_move fl k m = some m') :
    ∃ steps : Int, 1 ≤ steps ∧
      m' = { Rounded.segments fl k (Rounded.difference fl (clamped k m)) steps steps.toNat
               (clamped k m) with
        current_position :=
          (Rounded.segments fl k (Rounded.difference fl (clamped k m)) steps steps.toNat
            (clamped k m)).destination } := by
  have hF' : (clamped k m).feedrate = m.feedrate := rfl
  have hmul' : (clamped k m).feedmultiply = m.feedmultiply := rfl
  have hsps : segments_per_second k (clamped k m) = segments_per_second k m := rfl
  have hsec : ∀ x, Rounded.seconds fl (clamped k m) x = Rounded.seconds fl m x := fun _ => rfl
  by_cases hdiv : m.feedrate = 0 ∨ m.feedmultiply = 0
  · exfalso
    revert hret
    unfold Rounded.prepare_move
    dsimp only
    split
    · rename_i h; exact absurd h hmech
    · rw [if_neg hbig, hF', hmul', if_pos hdiv]
      intro h; cases h
  · have hF : m.feedrate ≠ 0 := fun h => hdiv (Or.inl h)
    have hmul : m.feedmultiply ≠ 0 := fun h => hdiv (Or.inr h)
    rcases hn : float_to_int (fl (segments_per_second k m *
        Rounded.seconds fl m (Rounded.cartesian_mm fl k (clamped k m)))) with _ | n
    · exfalso
      revert hret
      unfold Rounded.prepare_move
      dsimp only
      split
      · rename_i h; exact absurd h hmech
      · rw [if_neg hbig, hF', hmul', hsps, hsec, if_neg hdiv, hn]
        intro h; cases h
    · by_cases hmax : max 1 n = 32767
      · exfalso
        revert hret
        unfold Rounded.prepare_move
        dsimp only
        split
        · rename_i h; exact absurd h hmech
        · rw [if_neg hbig, hF', hmul', hsps, hsec, if_neg hdiv, hn]
          dsimp only
          rw [if_pos hmax]
          intro h; cases h
      · have := (rounded_prepare_move_segmented fl k m hmech).2 hbig n hF hmul hn hmax
        rw [this] at hret
        exact ⟨max 1 n, le_max_left 1 n, (Option.some.inj hret).symm⟩

/-! ## The rounded definitions at the identity

With the identity for `fl` the definitions of namespace `Rounded` are the exact
ones. -/

theorem rounded_calculate_delta_exact (k : Kinematics) (m : Motion) (p : Axes) :
    Rounded.calculate_delta (fun x => x) k m p = calculate_delta k m p := by
  unfold Rounded.calculate_delta calculate_delta
  rfl

theorem rounded_adjust_delta_exact (k : Kinematics) (m : Motion) (p : Axes) :
    Rounded.adjust_delta (fun x => x) k m p = adjust_delta k m p := by
  unfold Rounded.adjust_delta adjust_delta
  rfl

theorem rounded_segment_exact (k : Kinematics) (diff : Axes) (steps : Int) (m : Motion) (s : Nat) :
    Rounded.segment (fun x => x) k diff steps m s = segment k diff steps m s := by
  unfold Rounded.segment segment
  simp only [rounded_calculate_delta_exact, rounded_adjust_delta_exact, Rounded.feed_rate]

theorem rounded_segments_exact (k : Kinematics) (diff : Axes) (steps : Int) (n : Nat)
    (m : Motion) :
    Rounded.segments (fun x => x) k diff steps n m = segments k diff steps n m := by
  unfold Rounded.segments segments
  simp only [rounded_segment_exact]

theorem rounded_cartesian_mm_exact (k : Kinematics) (m : Motion) :
    Rounded.cartesian_mm (fun x => x) k m = cartesian_mm k m := by
  unfold Rounded.cartesian_mm cartesian_mm Rounded.difference difference
  rfl

/-- With the identity for `fl` the rounded segmenter is the exact one. -/
theorem rounded_prepare_move_exact (k : Kinematics) (m : Motion) :
    Rounded.prepare_move (fun x => x) k m = prepare_move k m := by
  unfold Rounded.prepare_move prepare_move
  simp only [rounded_segments_exact, rounded_cartesian_mm_exact, Rounded.feed_rate,
    Rounded.seconds, Rounded.difference]
  rfl

theorem rounded_adj_tower_delta_loop_exact (k : Kinematics) (c : Probing) (tower : Int)
    (i : Nat) :
    ∀ (fuel : Nat) (a m : ℚ) (s : Machine),
      Rounded.adj_tower_delta_loop (fun x => x) k c tower i fuel a m s
        = adj_tower_delta_loop k c tower i fuel a m s := by
  intro fuel
  induction fuel with
  | zero => intro a m s; rw [Rounded.adj_tower_delta_loop, adj_tower_delta_loop]
  | succ fuel ih =>
    intro a m s
    rw [Rounded.adj_tower_delta_loop, adj_tower_delta_loop]
    simp only [ih]

/-- With the identity for `fl` the rounded tower angle adjustment is the exact
one. -/
theorem rounded_adj_tower_delta_exact (k : Kinematics) (c : Probing) (tower : Int) (fuel : Nat)
    (s : Machine) :
    Rounded.adj_tower_delta (fun x => x) k c tower fuel s = adj_tower_delta k c tower fuel s := by
  unfold Rounded.adj_tower_delta adj_tower_delta
  simp only [rounded_adj_tower_delta_loop_exact]

theorem rounded_waypoint_exact (start diff : Axes) (steps : Int) (s : Nat) :
    Rounded.waypoint (fun x => x) start diff steps s = waypoint start diff steps s := rfl

/-- The value of `binary32` at a positive number, from its binade and the
nearest multiple of the unit in the last place. -/
theorem binary32_pos (x v : ℚ) (e n : ℤ) (he : -149 ≤ e) (hv : v = (n : ℚ) * 2 ^ e)
    (hlo : 2 ^ (e + 23) ≤ x) (hhi : x < 2 ^ (e + 24))
    (h1 : (n : ℚ) - 1 / 2 < x / 2 ^ e) (h2 : x / 2 ^ e < (n : ℚ) + 1 / 2) :
    binary32 x = v := by
  have hx : 0 < x := lt_of_lt_of_le (by positivity) hlo
  have hu : ulpExp x = e := ulpExp_eq x e he (by rw [abs_of_pos hx]; exact hlo)
    (by rw [abs_of_pos hx]; exact hhi)
  rw [hv]
  exact binary32_eq x e n hu (abs_lt.mpr ⟨by linarith, by linarith⟩)

/-- The value of `binary32` at a negative number. -/
theorem binary32_neg (x v : ℚ) (e n : ℤ) (he : -149 ≤ e) (hv : v = (n : ℚ) * 2 ^ e)
    (hlo : 2 ^ (e + 23) ≤ -x) (hhi : -x < 2 ^ (e + 24))
    (h1 : (n : ℚ) - 1 / 2 < x / 2 ^ e) (h2 : x / 2 ^ e < (n : ℚ) + 1 / 2) :
    binary32 x = v := by
  have hx : x < 0 := by
    have : (0 : ℚ) < 2 ^ (e + 23) := by positivity
    linarith
  have hu : ulpExp x = e := ulpExp_eq x e he (by rw [abs_of_neg hx]; exact hlo)
    (by rw [abs_of_neg hx]; exact hhi)
  rw [hv]
  exact binary32_eq x e n hu (abs_lt.mpr ⟨by linarith, by linarith⟩)

/-- A number that is a 24-bit significand times a power of two in range is kept. -/
theorem binary32_fix (x : ℚ) (M e : ℤ) (hx : x = (M : ℚ) * 2 ^ e) (hM : |M| < 2 ^ 24)
    (he : -149 ≤ e) : binary32 x = x := by
  rw [hx]
  exact binary32_rep M e hM he

/-- An integer below `2^24` in size is kept. -/
theorem binary32_int (n : ℤ) (h : |n| < 2 ^ 24) : binary32 (n : ℚ) = n :=
  binary32_fix _ n 0 (by simp) h (by norm_num)

theorem binary32_small_nat (n : ℕ) (h : n < 16777216) : binary32 (n : ℚ) = n := by
  have := binary32_int (n : ℤ) (by rw [abs_of_nonneg (by positivity)]; norm_num; omega)
  simpa using this

theorem binary32_millionth : binary32 (1 / 1000000) = 8796093 / 8796093022208 :=
  binary32_pos _ _ (-43) 8796093 (by norm_num) (by norm_num) (by norm_num) (by norm_num)
    (by norm_num) (by norm_num)

/-! ## Segment counts in rounded arithmetic -/

theorem rounded_cartesian_mm_moveX3 :
    Rounded.cartesian_mm binary32 refKinematics (clamped refKinematics moveX3) = 3 := by
  have h0 : binary32 0 = 0 := binary32_zero
  have h3 : binary32 3 = 3 := binary32_small_nat 3 (by norm_num)
  have h9 : binary32 9 = 9 := binary32_small_nat 9 (by norm_num)
  have hs : (refKinematics.sqrt 9 : ℚ) = 3 := refSqrt_nine
  rw [clamped_moveX3]
  norm_num [Rounded.cartesian_mm, Rounded.difference, sq, moveX3, refMotion, Motion.init, h0, h3,
    h9, hs, binary32_millionth]

/-- In binary32 a move of 3 mm at 160 mm/min, 100 %, with 100 segments per
second gives the product 112.5, every intermediate value being exact, and the
step count 112. -/
theorem rounded_steps_112 (k : Kinematics) (m : Motion)
    (hsps : segments_per_second k m = 100) (hF : m.feedrate = 160) (hmul : m.feedmultiply = 100)
    (hmm : Rounded.cartesian_mm binary32 k (clamped k m) = 3) :
    float_to_int (binary32 (segments_per_second k m *
      Rounded.seconds binary32 m (Rounded.cartesian_mm binary32 k (clamped k m)))) = some 112 := by
  have a1 : binary32 18000 = 18000 := binary32_small_nat 18000 (by norm_num)
  have a2 : binary32 (225 / 2) = 225 / 2 :=
    binary32_fix _ 225 (-1) (by norm_num) (by norm_num) (by norm_num)
  have a3 : binary32 (9 / 8) = 9 / 8 :=
    binary32_fix _ 9 (-3) (by norm_num) (by norm_num) (by norm_num)
  have hsec : Rounded.seconds binary32 m 3 = 9 / 8 := by
    unfold Rounded.seconds
    rw [hF, hmul]
    norm_num [a1, a2, a3]
  have hfloor : ⌊(225 / 2 : ℚ)⌋ = 112 := by
    rw [Int.floor_eq_iff]; norm_num
  rw [hmm, hsps, hsec]
  norm_num [a2]
  rw [float_to_int_nonneg _ (by norm_num) (by rw [hfloor]; norm_num), hfloor]

theorem rounded_steps_moveX3 :
    float_to_int (binary32 (segments_per_second refKinematics moveX3 *
      Rounded.seconds binary32 moveX3
        (Rounded.cartesian_mm binary32 refKinematics (clamped refKinematics moveX3)))) = some 112 :=
  rounded_steps_112 refKinematics moveX3 rfl rfl rfl rounded_cartesian_mm_moveX3

theorem rounded_prepare_move_moveX3 :
    ∃ m', Rounded.prepare_move binary32 refKinematics moveX3 = some m' ∧
      m'.planned.length = moveX3.planned.length + 112 ∧
      m'.planned.map Segment.tool = moveX3.planned.map Segment.tool ++
        (List.range 112).map (fun i => Rounded.waypoint binary32 moveX3.current_position
          (Rounded.difference binary32 moveX3) 112 (i + 1)) := by
  have hbig : ¬ Rounded.cartesian_mm binary32 refKinematics (clamped refKinematics moveX3)
      < binary32 (1 / 1000000) := by
    rw [rounded_cartesian_mm_moveX3, binary32_millionth]; norm_num
  have hpm := (rounded_prepare_move_segmented binary32 refKinematics moveX3 (by decide)).2
    hbig 112 (by show (160 : ℚ) ≠ 0; norm_num) (by show (100 : Int) ≠ 0; decide)
    rounded_steps_moveX3 (by decide)
  have hf := rounded_segments_fields binary32 refKinematics
    (Rounded.difference binary32 (clamped refKinematics moveX3))
    (max 1 112) (max 1 112 : Int).toNat (clamped refKinematics moveX3)
  refine ⟨_, hpm, ?_, ?_⟩
  · show (Rounded.segments _ _ _ _ _ _).planned.length = _
    rw [hf.2.1]
    rfl
  · show (Rounded.segments _ _ _ _ _ _).planned.map Segment.tool = _
    rw [hf.2.2.2, clamped_moveX3]
    rfl

theorem refSqrt_2809 : refSqrt 2809 = 53 := by
  have h1 : ((2809 : ℚ)).num = 2809 := rfl
  have h2 : ((2809 : ℚ)).den = 1 := rfl
  have h3 : Nat.sqrt 2809000000000000 = 53000000 := by
    rw [show 2809000000000000 = 53000000 * 53000000 by norm_num]
    exact Nat.sqrt_eq 53000000
  have h4 : Int.toNat 2809 * 1 * 1000000000000 = 2809000000000000 := by decide
  unfold refSqrt
  rw [h1, h2, h4, h3]
  norm_num

theorem clamped_moveX53 : clamped refKinematics moveX53 = moveX53 := by
  norm_num [clamped, clamp_to_software_endstops, refKinematics, moveX53, refMotion, Motion.init]

theorem rounded_cartesian_mm_moveX53 :
    Rounded.cartesian_mm binary32 refKinematics (clamped refKinematics moveX53) = 53 := by
  have h0 : binary32 0 = 0 := binary32_zero
  have h3 : binary32 53 = 53 := binary32_small_nat 53 (by norm_num)
  have h9 : binary32 2809 = 2809 := binary32_small_nat 2809 (by norm_num)
  have hs : (refKinematics.sqrt 2809 : ℚ) = 53 := refSqrt_2809
  rw [clamped_moveX53]
  norm_num [Rounded.cartesian_mm, Rounded.difference, sq, moveX53, refMotion, Motion.init, h0, h3,
    h9, hs, binary32_millionth]

theorem rounded_product_moveX53 :
    binary32 (segments_per_second refKinematics moveX53 *
      Rounded.seconds binary32 moveX53
        (Rounded.cartesian_mm binary32 refKinematics (clamped refKinematics moveX53)))
      = 13893631 / 65536 := by
  have hsps : segments_per_second refKinematics moveX53 = 100 := rfl
  have hF : moveX53.feedrate = 1500 := rfl
  have hmul : moveX53.feedmultiply = 100 := rfl
  have a1 : binary32 318000 = 318000 := binary32_small_nat 318000 (by norm_num)
  have a2 : binary32 212 = 212 := binary32_small_nat 212 (by norm_num)
  have a3 : binary32 (53 / 25) = 2222981 / 1048576 :=
    binary32_pos _ _ (-22) 8891924 (by norm_num) (by norm_num) (by norm_num) (by norm_num)
      (by norm_num) (by norm_num)
  have a4 : binary32 (55574525 / 262144) = 13893631 / 65536 :=
    binary32_pos _ _ (-16) 13893631 (by norm_num) (by norm_num) (by norm_num) (by norm_num)
      (by norm_num) (by norm_num)
  have hsec : Rounded.seconds binary32 moveX53 53 = 2222981 / 1048576 := by
    unfold Rounded.seconds
    rw [hF, hmul]
    norm_num [a1, a2, a3]
  rw [rounded_cartesian_mm_moveX53, hsps, hsec]
  norm_num [a4]

theorem rounded_prepare_move_moveX53 :
    ∃ m', Rounded.prepare_move binary32 refKinematics moveX53 = some m' ∧
      m'.planned.length = moveX53.planned.length + 211 := by
  have hbig : ¬ Rounded.cartesian_mm binary32 refKinematics (clamped refKinematics moveX53)
      < binary32 (1 / 1000000) := by
    rw [rounded_cartesian_mm_moveX53, binary32_millionth]; norm_num
  have hfloor : ⌊(13893631 / 65536 : ℚ)⌋ = 211 := by
    rw [Int.floor_eq_iff]; norm_num
  have hn : float_to_int (binary32 (segments_per_second refKinematics moveX53 *
      Rounded.seconds binary32 moveX53
        (Rounded.cartesian_mm binary32 refKinematics (clamped refKinematics moveX53))))
      = some 211 := by
    rw [rounded_product_moveX53,
      float_to_int_nonneg _ (by norm_num) (by rw [hfloor]; norm_num), hfloor]
  have hpm := (rounded_prepare_move_segmented binary32 refKinematics moveX53 (by decide)).2
    hbig 211 (by show (1500 : ℚ) ≠ 0; norm_num) (by show (100 : Int) ≠ 0; decide)
    hn (by decide)
  have hf := rounded_segments_fields binary32 refKinematics
    (Rounded.difference binary32 (clamped refKinematics moveX53))
    (max 1 211) (max 1 211 : Int).toNat (clamped refKinematics moveX53)
  refine ⟨_, hpm, ?_⟩
  show (Rounded.segments _ _ _ _ _ _).planned.length = _
  rw [hf.2.1]
  rfl

/-- Counterexample to C9 as stated, on the reference delta machine (100
segments per second, feed multiplier 100 %) in binary32 arithmetic.  A 3 mm
move at 160 mm/min has `R × 60L/F = 112.5`, every intermediate value being
exact: `prepare_move` forwards 112 segments, the claimed
`max(1, ceil(R × 60L/F))` is 113.  A 53 mm move at 1500 mm/min has
`R × 60L/F = 212` exactly: the product the code computes is 211.99998 and 211
segments are forwarded. -/
theorem C9_counterexample :
    refKinematics.mechanism = Mechanism.DELTA ∧
    segments_per_second refKinematics moveX3 = 100 ∧ moveX3.feedmultiply = 100 ∧
    moveX3.feedrate = 160 ∧
    Rounded.cartesian_mm binary32 refKinematics (clamped refKinematics moveX3) = 3 ∧
    (∃ m', Rounded.prepare_move binary32 refKinematics moveX3 = some m' ∧
      m'.planned.length = moveX3.planned.length + 112) ∧
    max 1 ⌈(100 : ℚ) * (60 * 3 / 160)⌉ = 113 ∧
    segments_per_second refKinematics moveX53 = 100 ∧ moveX53.feedmultiply = 100 ∧
    moveX53.feedrate = 1500 ∧
    Rounded.cartesian_mm binary32 refKinematics (clamped refKinematics moveX53) = 53 ∧
    (∃ m', Rounded.prepare_move binary32 refKinematics moveX53 = some m' ∧
      m'.planned.length = moveX53.planned.length + 211) ∧
    (100 : ℚ) * (60 * 53 / 1500) = 212 ∧
    max 1 ⌈(100 : ℚ) * (60 * 53 / 1500)⌉ = 212 := by
  obtain ⟨m3, h3, l3, -⟩ := rounded_prepare_move_moveX3
  have c1 : ⌈(100 : ℚ) * (60 * 3 / 160)⌉ = 113 := by
    rw [Int.ceil_eq_iff]; norm_num
  have c2 : ⌈(100 : ℚ) * (60 * 53 / 1500)⌉ = 212 := by
    rw [Int.ceil_eq_iff]; norm_num
  refine ⟨rfl, rfl, rfl, rfl, rounded_cartesian_mm_moveX3, ⟨m3, h3, l3⟩, ?_, rfl, rfl, rfl,
    rounded_cartesian_mm_moveX53, rounded_prepare_move_moveX53, by norm_num, ?_⟩
  · rw [c1]; rfl
  · rw [c2]; rfl

/-- C9 (amended): for a delta or SCARA move of length `L` (the 3-D travel of the
clamped move as the code computes it, or its extrusion travel when that is
below 0.000001) with `L ≥ 0.000001`, at feedrate `F ≠ 0`, segment rate `R` and
feed multiplier 100 %, `prepare_move` returns and has forwarded exactly
`max(1, trunc(p))` segments to the planner, where `p` is the product
`R × seconds` and `seconds = 6000 × L / F / 100`, evaluated left to right with
every result rounded to `float` (`p ≥ 0`, the count fitting `int`). -/
theorem C9_segment_count_truncates_the_computed_product (fl : ℚ → ℚ) (k : Kinematics)
    (m : Motion) (hmech : k.mechanism ≠ Mechanism.CARTESIAN)
    (hmul : m.feedmultiply = 100) (hF : m.feedrate ≠ 0)
    (hL : ¬ Rounded.cartesian_mm fl k (clamped k m) < fl (1 / 1000000))
    (h0 : 0 ≤ fl (segments_per_second k m *
      fl (fl (fl (6000 * Rounded.cartesian_mm fl k (clamped k m)) / m.feedrate) / 100)))
    (hfit : ⌊fl (segments_per_second k m *
      fl (fl (fl (6000 * Rounded.cartesian_mm fl k (clamped k m)) / m.feedrate) / 100))⌋
        < 32767) :
    ∃ m', Rounded.prepare_move fl k m = some m' ∧
      (m'.planned.length : Int) = m.planned.length +
        max 1 ⌊fl (segments_per_second k m *
          fl (fl (fl (6000 * Rounded.cartesian_mm fl k (clamped k m)) / m.feedrate) / 100))⌋ := by
  have hsec : Rounded.seconds fl m (Rounded.cartesian_mm fl k (clamped k m))
      = fl (fl (fl (6000 * Rounded.cartesian_mm fl k (clamped k m)) / m.feedrate) / 100) := by
    unfold Rounded.seconds
    rw [hmul]
    norm_num
  have hn := float_to_int_nonneg _ h0 (le_of_lt hfit)
  rw [← hsec] at hn hfit ⊢
  have hmax : max 1 ⌊fl (segments_per_second k m *
      Rounded.seconds fl m (Rounded.cartesian_mm fl k (clamped k m)))⌋ ≠ 32767 := by
    intro h
    rcases max_choice 1 ⌊fl (segments_per_second k m *
      Rounded.seconds fl m (Rounded.cartesian_mm fl k (clamped k m)))⌋ with h1 | h1
    · rw [h1] at h; norm_num at h
    · rw [h1] at h; omega
  have hpm := (rounded_prepare_move_segmented fl k m hmech).2 hL _ hF
    (by rw [hmul]; norm_num) hn hmax
  refine ⟨_, hpm, ?_⟩
  have hlen := (rounded_segments_fields fl k (Rounded.difference fl (clamped k m))
    (max 1 ⌊fl (segments_per_second k m *
      Rounded.seconds fl m (Rounded.cartesian_mm fl k (clamped k m)))⌋)
    (max 1 ⌊fl (segments_per_second k m *
      Rounded.seconds fl m (Rounded.cartesian_mm fl k (clamped k m)))⌋).toNat
    (clamped k m)).2.1
  show ((Rounded.segments _ _ _ _ _ _).planned.length : Int) = _
  rw [hlen]
  have h1 : (1 : Int) ≤ max 1 ⌊fl (segments_per_second k m *
      Rounded.seconds fl m (Rounded.cartesian_mm fl k (clamped k m)))⌋ := le_max_left _ _
  have hcl : (clamped k m).planned.length = m.planned.length := rfl
  rw [hcl]
  push_cast
  rw [Int.toNat_of_nonneg (by omega)]

/-- Witness of C9 (amended): the 53 mm move in binary32 arithmetic; the
computed product is 13893631/65536 = 211.99998 and 211 segments are forwarded. -/
theorem C9_witness :
    ∃ m', Rounded.prepare_move binary32 refKinematics moveX53 = some m' ∧
      (m'.planned.length : Int) = moveX53.planned.length +
        max 1 ⌊binary32 (segments_per_second refKinematics moveX53 *
          binary32 (binary32 (binary32 (6000 *
            Rounded.cartesian_mm binary32 refKinematics (clamped refKinematics moveX53))
              / moveX53.feedrate) / 100))⌋ := by
  have hp : binary32 (segments_per_second refKinematics moveX53 *
      binary32 (binary32 (binary32 (6000 *
        Rounded.cartesian_mm binary32 refKinematics (clamped refKinematics moveX53))
          / moveX53.feedrate) / 100)) = 13893631 / 65536 := by
    have := rounded_product_moveX53
    unfold Rounded.seconds at this
    have hmul : ((moveX53.feedmultiply : Int) : ℚ) = 100 := by
      show ((100 : Int) : ℚ) = 100
      norm_num
    rw [hmul] at this
    exact this
  have hfloor : ⌊(13893631 / 65536 : ℚ)⌋ = 211 := by
    rw [Int.floor_eq_iff]; norm_num
  exact C9_segment_count_truncates_the_computed_product binary32 refKinematics moveX53
    (by decide) rfl (by show (1500 : ℚ) ≠ 0; norm_num)
    (by rw [rounded_cartesian_mm_moveX53, binary32_millionth]; norm_num)
    (by rw [hp]; norm_num)
    (by rw [hp, hfloor]; norm_num)

/-! ## The tool position after a move, in rounded arithmetic -/

theorem binary32_accurate : Rounded.Accurate binary32 := by
  intro x
  have h := binary32_err x
  have e : (2 : ℚ) ^ (-150 : ℤ) = 1 / 2 ^ 150 := by
    rw [zpow_neg, one_div]
    norm_cast
  rw [e] at h
  exact h

theorem rounded_waypoint_last (fl : ℚ → ℚ) (start diff : Axes) (steps : Int) (hs : 1 ≤ steps)
    (h1 : fl 1 = 1) :
    Rounded.waypoint fl start diff steps steps.toNat =
      { X := fl (start.X + fl diff.X), Y := fl (start.Y + fl diff.Y),
        Z := fl (start.Z + fl diff.Z), E := fl (start.E + fl diff.E) } := by
  have hcast : ((steps.toNat : ℕ) : ℚ) = (steps : ℚ) := by
    have : ((steps.toNat : ℕ) : ℤ) = steps := Int.toNat_of_nonneg (by omega)
    exact_mod_cast this
  have hne : (steps : ℚ) ≠ 0 := by
    have : (1 : ℚ) ≤ (steps : ℚ) := by exact_mod_cast hs
    intro h; rw [h] at this; norm_num at this
  unfold Rounded.waypoint
  rw [hcast, div_self hne, h1]
  simp

/-- The tool position that a segmented move leaves: on each axis the rounded
sum of the start and the rounded difference to the clamped destination. -/
theorem rounded_prepare_move_position (fl : ℚ → ℚ) (k : Kinematics) (m m' : Motion)
    (hmech : k.mechanism ≠ Mechanism.CARTESIAN)
    (h1 : fl 1 = 1) (hid : ∀ x, fl (fl x) = fl x)
    (hbig : ¬ Rounded.cartesian_mm fl k (clamped k m) < fl (1 / 1000000))
    (hret : Rounded.prepare_move fl k m = some m') :
    m'.current_position =
      { X := Rounded.reached fl m.current_position.X (clamp_to_software_endstops k m m.destination).X
        Y := Rounded.reached fl m.current_position.Y (clamp_to_software_endstops k m m.destination).Y
        Z := Rounded.reached fl m.current_position.Z (clamp_to_software_endstops k m m.destination).Z
        E := Rounded.reached fl m.current_position.E
          (clamp_to_software_endstops k m m.destination).E } := by
  obtain ⟨steps, hs, hm'⟩ := rounded_prepare_move_returned fl k m m' hmech hbig hret
  rw [hm']
  show (Rounded.segments _ _ _ _ _ _).destination = _
  have hpos : 0 < steps.toNat := by omega
  rw [(rounded_segments_fields fl k _ steps steps.toNat (clamped k m)).2.2.1 hpos,
    rounded_waypoint_last fl _ _ _ hs h1]
  unfold Rounded.difference Rounded.reached
  dsimp only
  rw [hid, hid, hid, hid]
  rfl

/-- How far the value reached can be from the target. -/
theorem reached_accuracy (fl : ℚ → ℚ) (hacc : Rounded.Accurate fl) (a t : ℚ) :
    |Rounded.reached fl a t - t| ≤ (|t| + 2 * |t - a|) / 2 ^ 24 + 3 / 2 ^ 150 := by
  have e1 := hacc (t - a)
  have e2 := hacc (a + fl (t - a))
  unfold Rounded.reached
  have hD : 0 ≤ |t - a| := abs_nonneg _
  have hX : 0 ≤ |fl (t - a) - (t - a)| := abs_nonneg _
  have t1 : |fl (a + fl (t - a)) - t| ≤ |fl (a + fl (t - a)) - (a + fl (t - a))|
      + |fl (t - a) - (t - a)| := by
    have := abs_sub_le (fl (a + fl (t - a))) (a + fl (t - a)) t
    have e : a + fl (t - a) - t = fl (t - a) - (t - a) := by ring
    rw [e] at this
    exact this
  have t2 : |a + fl (t - a)| ≤ |t| + |fl (t - a) - (t - a)| := by
    have e : a + fl (t - a) = t + (fl (t - a) - (t - a)) := by ring
    rw [e]
    exact abs_add _ _
  have t3 : |fl (t - a) - (t - a)| / 2 ^ 24 ≤ |fl (t - a) - (t - a)| := by
    apply div_le_self hX
    norm_num
  have t4 : |a + fl (t - a)| / 2 ^ 24 ≤ |t| / 2 ^ 24 + |fl (t - a) - (t - a)| / 2 ^ 24 := by
    rw [← add_div]
    exact div_le_div_of_nonneg_right t2 (by positivity)
  have t5 : |t - a| / 2 ^ 24 / 2 ^ 24 ≤ |t - a| / 2 ^ 24 := by
    apply div_le_self (by positivity)
    norm_num
  have t6 : |fl (t - a) - (t - a)| / 2 ^ 24 ≤ |t - a| / 2 ^ 24 / 2 ^ 24 + 1 / 2 ^ 150 / 2 ^ 24 := by
    rw [← add_div]
    exact div_le_div_of_nonneg_right e1 (by positivity)
  have t7 : (1 : ℚ) / 2 ^ 150 / 2 ^ 24 ≤ 1 / 2 ^ 150 := by
    apply div_le_self (by positivity)
    norm_num
  have e3 : (|t| + 2 * |t - a|) / 2 ^ 24 = |t| / 2 ^ 24 + 2 * (|t - a| / 2 ^ 24) := by ring
  rw [e3]
  linarith

/-- When the difference is exact and the target is a `float`, the value
reached is the target. -/
theorem reached_exact (fl : ℚ → ℚ) (a t : ℚ) (hd : fl (t - a) = t - a) (ht : fl t = t) :
    Rounded.reached fl a t = t := by
  unfold Rounded.reached
  rw [hd]
  have : a + (t - a) = t := by ring
  rw [this, ht]

theorem clamped_moveRetract : clamped refKinematics moveRetract = moveRetract := by
  norm_num [clamped, clamp_to_software_endstops, refKinematics, moveRetract, refMotion,
    Motion.init]

theorem rounded_cartesian_mm_moveRetract :
    Rounded.cartesian_mm binary32 refKinematics (clamped refKinematics moveRetract) = 3 := by
  have h0 : binary32 0 = 0 := binary32_zero
  have h3 : binary32 3 = 3 := binary32_small_nat 3 (by norm_num)
  have h9 : binary32 9 = 9 := binary32_small_nat 9 (by norm_num)
  have hs : (refKinematics.sqrt 9 : ℚ) = 3 := refSqrt_nine
  rw [clamped_moveRetract]
  norm_num [Rounded.cartesian_mm, Rounded.difference, sq, moveRetract, refMotion, Motion.init, h0,
    h3, h9, hs, binary32_millionth]

theorem rounded_prepare_move_moveRetract :
    ∃ m', Rounded.prepare_move binary32 refKinematics moveRetract = some m' := by
  have hbig : ¬ Rounded.cartesian_mm binary32 refKinematics (clamped refKinematics moveRetract)
      < binary32 (1 / 1000000) := by
    rw [rounded_cartesian_mm_moveRetract, binary32_millionth]; norm_num
  exact ⟨_, (rounded_prepare_move_segmented binary32 refKinematics moveRetract (by decide)).2
    hbig 112 (by show (160 : ℚ) ≠ 0; norm_num) (by show (100 : Int) ≠ 0; decide)
    (rounded_steps_112 refKinematics moveRetract rfl rfl rfl rounded_cartesian_mm_moveRetract)
    (by decide)⟩

theorem reached_tenth : Rounded.reached binary32 1 tenth32 = 838861 / 8388608 := by
  have a1 : binary32 (tenth32 - 1) = -7549747 / 8388608 :=
    binary32_neg _ _ (-24) (-15099494) (by norm_num) (by norm_num) (by norm_num [tenth32])
      (by norm_num [tenth32]) (by norm_num [tenth32]) (by norm_num [tenth32])
  have a2 : binary32 (838861 / 8388608) = 838861 / 8388608 :=
    binary32_fix _ 838861 (-23) (by norm_num) (by norm_num) (by norm_num)
  unfold Rounded.reached
  rw [a1]
  norm_num [a2]

theorem clamped_moveTinyE_rounded :
    Rounded.cartesian_mm binary32 refKinematics (clamped refKinematics moveTinyE)
      = 1 / 2097152 := by
  have h0 : binary32 0 = 0 := binary32_zero
  have h1 : binary32 (1 / 2097152) = 1 / 2097152 :=
    binary32_fix _ 1 (-21) (by norm_num) (by norm_num) (by norm_num)
  have hs : (refKinematics.sqrt 0 : ℚ) = 0 := refSqrt_zero
  rw [clamped_moveTinyE]
  norm_num [Rounded.cartesian_mm, Rounded.difference, sq, moveTinyE, refMotion, Motion.init, h0,
    h1, hs, binary32_millionth, abs_of_pos]

/-- Counterexample to C10 as stated, on the reference delta machine in binary32
arithmetic.  An extrusion-only move of 2⁻²¹ mm is below the 0.000001 threshold:
`prepare_move` returns with `current_position` still at the start.  A 3 mm
move along X that takes the extrusion axis from 1 to 0.1 (the `float`
13421773/134217728) returns with the extrusion axis at 838861/8388608 =
0.10000002, not at the commanded 0.1. -/
theorem C10_counterexample :
    refKinematics.mechanism = Mechanism.DELTA ∧
    clamp_to_software_endstops refKinematics moveTinyE moveTinyE.destination
      = ⟨0, 0, 0, 1 / 2097152⟩ ∧
    (∃ m', Rounded.prepare_move binary32 refKinematics moveTinyE = some m' ∧
      m'.current_position = ⟨0, 0, 0, 0⟩ ∧
      m'.current_position
        ≠ clamp_to_software_endstops refKinematics moveTinyE moveTinyE.destination) ∧
    clamp_to_software_endstops refKinematics moveRetract moveRetract.destination
      = ⟨3, 0, 0, 13421773 / 134217728⟩ ∧
    (∃ m', Rounded.prepare_move binary32 refKinematics moveRetract = some m') ∧
    ∀ m', Rounded.prepare_move binary32 refKinematics moveRetract = some m' →
      m'.current_position.E = 838861 / 8388608 ∧
      m'.current_position
        ≠ clamp_to_software_endstops refKinematics moveRetract moveRetract.destination := by
  have hcl : clamp_to_software_endstops refKinematics moveTinyE moveTinyE.destination
      = ⟨0, 0, 0, 1 / 2097152⟩ := congrArg Motion.destination clamped_moveTinyE
  have hcr : clamp_to_software_endstops refKinematics moveRetract moveRetract.destination
      = ⟨3, 0, 0, 13421773 / 134217728⟩ := congrArg Motion.destination clamped_moveRetract
  have htiny : Rounded.cartesian_mm binary32 refKinematics (clamped refKinematics moveTinyE)
      < binary32 (1 / 1000000) := by
    rw [clamped_moveTinyE_rounded, binary32_millionth]; norm_num
  have hbig : ¬ Rounded.cartesian_mm binary32 refKinematics (clamped refKinematics moveRetract)
      < binary32 (1 / 1000000) := by
    rw [rounded_cartesian_mm_moveRetract, binary32_millionth]; norm_num
  refine ⟨rfl, hcl, ⟨_, (rounded_prepare_move_segmented binary32 refKinematics moveTinyE
    (by decide)).1 htiny, rfl, ?_⟩, hcr, rounded_prepare_move_moveRetract, ?_⟩
  · rw [hcl]
    show (⟨0, 0, 0, 0⟩ : Axes) ≠ _
    intro h
    have hE := congrArg Axes.E h
    norm_num at hE
  · intro m' hret
    have hp := rounded_prepare_move_position binary32 refKinematics moveRetract m' (by decide)
      binary32_one binary32_idem hbig hret
    have hE : m'.current_position.E = 838861 / 8388608 := by
      rw [hp, hcr]
      exact reached_tenth
    refine ⟨hE, ?_⟩
    intro h
    have h2 := congrArg Axes.E h
    rw [hE, hcr] at h2
    norm_num at h2

/-- C10 (amended): on a delta build, for a rounding `fl` of the `float` type
that keeps 1, keeps its own results and has the accuracy of binary32: a move
whose length (3-D travel of the clamped move, or its extrusion travel when that
is below 0.000001) is at least 0.000001 leaves `current_position`, whenever
`prepare_move` returns, on each of the four axes at the rounded sum of the
start and the rounded difference between the clamped destination and the
start; that value is within `(|target| + 2 |target - start|) / 2^24 + 3 / 2^150`
of the clamped destination, and is the clamped destination when the difference
is exact and the destination is a `float`.  A shorter move makes `prepare_move`
return at once with `current_position` unchanged. -/
theorem C10_position_follows_up_to_rounding (fl : ℚ → ℚ) (k : Kinematics) (m : Motion)
    (hmech : k.mechanism = Mechanism.DELTA)
    (h1 : fl 1 = 1) (hid : ∀ x, fl (fl x) = fl x) (hacc : Rounded.Accurate fl) :
    (Rounded.cartesian_mm fl k (clamped k m) < fl (1 / 1000000) →
      ∃ m', Rounded.prepare_move fl k m = some m' ∧ m'.current_position = m.current_position) ∧
    (¬ Rounded.cartesian_mm fl k (clamped k m) < fl (1 / 1000000) →
      ∀ m', Rounded.prepare_move fl k m = some m' →
        m'.current_position =
          { X := Rounded.reached fl m.current_position.X
              (clamp_to_software_endstops k m m.destination).X
            Y := Rounded.reached fl m.current_position.Y
              (clamp_to_software_endstops k m m.destination).Y
            Z := Rounded.reached fl m.current_position.Z
              (clamp_to_software_endstops k m m.destination).Z
            E := Rounded.reached fl m.current_position.E
              (clamp_to_software_endstops k m m.destination).E }) ∧
    (∀ a t : ℚ, |Rounded.reached fl a t - t| ≤ (|t| + 2 * |t - a|) / 2 ^ 24 + 3 / 2 ^ 150) ∧
    (∀ a t : ℚ, fl (t - a) = t - a → fl t = t → Rounded.reached fl a t = t) := by
  have hnc : k.mechanism ≠ Mechanism.CARTESIAN := by rw [hmech]; decide
  refine ⟨?_, ?_, reached_accuracy fl hacc, reached_exact fl⟩
  · intro htiny
    exact ⟨_, (rounded_prepare_move_segmented fl k m hnc).1 htiny, rfl⟩
  · intro hbig m' hret
    exact rounded_prepare_move_position fl k m m' hnc h1 hid hbig hret

/-- Witness of C10 (amended): in binary32 arithmetic the 3 mm move of the
reference machine returns with the tool at (3, 0, 0, 0). -/
theorem C10_witness :
    ∃ m', Rounded.prepare_move binary32 refKinematics moveX3 = some m' ∧
      m'.current_position = ⟨3, 0, 0, 0⟩ := by
  have hbig : ¬ Rounded.cartesian_mm binary32 refKinematics (clamped refKinematics moveX3)
      < binary32 (1 / 1000000) := by
    rw [rounded_cartesian_mm_moveX3, binary32_millionth]; norm_num
  obtain ⟨m', hret, -, -⟩ := rounded_prepare_move_moveX3
  have hc := C10_position_follows_up_to_rounding binary32 refKinematics moveX3 rfl binary32_one
    binary32_idem binary32_accurate
  have hcl : clamp_to_software_endstops refKinematics moveX3 moveX3.destination = ⟨3, 0, 0, 0⟩ :=
    congrArg Motion.destination clamped_moveX3
  have h0 : binary32 0 = 0 := binary32_zero
  have h3 : binary32 3 = 3 := binary32_small_nat 3 (by norm_num)
  refine ⟨m', hret, ?_⟩
  rw [hc.2.1 hbig m' hret, hcl]
  have e0 : Rounded.reached binary32 0 0 = 0 := hc.2.2.2 0 0 (by norm_num [h0]) h0
  have e3 : Rounded.reached binary32 0 3 = 3 := hc.2.2.2 0 3 (by norm_num [h3]) h3
  show (⟨Rounded.reached binary32 0 3, Rounded.reached binary32 0 0,
    Rounded.reached binary32 0 0, Rounded.reached binary32 0 0⟩ : Axes) = _
  rw [e0, e3]

/-! ## Waypoints of a segmented move, in rounded arithmetic -/

theorem rounded_waypoint_coordinates (fl : ℚ → ℚ) (m : Motion) (steps : Int) (s : Nat) :
    Rounded.waypoint fl m.current_position (Rounded.difference fl m) steps s =
      { X := Rounded.coordinate fl m.current_position.X m.destination.X steps s
        Y := Rounded.coordinate fl m.current_position.Y m.destination.Y steps s
        Z := Rounded.coordinate fl m.current_position.Z m.destination.Z steps s
        E := Rounded.coordinate fl m.current_position.E m.destination.E steps s } := rfl

/-- How far a coordinate of waypoint `s` can be from the exact
`start + (target - start) × s/steps`. -/
theorem coordinate_accuracy (fl : ℚ → ℚ) (hacc : Rounded.Accurate fl) (a t : ℚ) (steps : Int)
    (s : Nat) (hs : 1 ≤ steps) (hle : (s : Int) ≤ steps) :
    |Rounded.coordinate fl a t steps s - (a + (t - a) * ((s : ℚ) / (steps : ℚ)))|
      ≤ (|a| + 14 * |t - a|) / 2 ^ 24 + 6 / 2 ^ 150 := by
  have hn : (0 : ℚ) < (steps : ℚ) := by
    have : (1 : ℚ) ≤ (steps : ℚ) := by exact_mod_cast hs
    linarith
  have hr0 : (0 : ℚ) ≤ (s : ℚ) / (steps : ℚ) := div_nonneg (by positivity) (le_of_lt hn)
  have hr1 : (s : ℚ) / (steps : ℚ) ≤ 1 := by
    rw [div_le_one hn]
    exact_mod_cast hle
  unfold Rounded.coordinate
  generalize (s : ℚ) / (steps : ℚ) = r at hr0 hr1 ⊢
  have ed := hacc (t - a)
  have ef := hacc r
  have ep := hacc (fl (t - a) * fl r)
  have ew := hacc (a + fl (fl (t - a) * fl r))
  generalize fl (t - a) = d at ed ep ew ⊢
  generalize fl r = f at ef ep ew ⊢
  generalize fl (d * f) = p at ep ew ⊢
  generalize fl (a + p) = w at ew ⊢
  have hD : 0 ≤ |t - a| := abs_nonneg _
  have hA : 0 ≤ |a| := abs_nonneg _
  rw [abs_of_nonneg hr0] at ef
  -- the difference
  have s1 : |d| ≤ 2 * |t - a| + 1 / 2 ^ 150 := by
    have h := abs_sub_abs_le_abs_sub d (t - a)
    have : |t - a| / 2 ^ 24 ≤ |t - a| := div_le_self hD (by norm_num)
    linarith
  -- the fraction
  have s2 : |f - r| ≤ 2 / 2 ^ 24 := by
    have : r / 2 ^ 24 ≤ 1 / 2 ^ 24 := div_le_div_of_nonneg_right hr1 (by positivity)
    have h2 : (1 : ℚ) / 2 ^ 150 ≤ 1 / 2 ^ 24 := by norm_num
    linarith
  have s2' : |f| ≤ 2 := by
    have h := abs_sub_abs_le_abs_sub f r
    have : |r| = r := abs_of_nonneg hr0
    have h2 : (2 : ℚ) / 2 ^ 24 ≤ 1 := by norm_num
    linarith
  -- the product
  have s3 : |d * f| ≤ 4 * |t - a| + 2 / 2 ^ 150 := by
    rw [abs_mul]
    have := mul_le_mul s1 s2' (abs_nonneg f) (by positivity)
    linarith
  have s4 : |p - d * f| ≤ 4 * |t - a| / 2 ^ 24 + 2 / 2 ^ 150 := by
    have h1 : |d * f| / 2 ^ 24 ≤ (4 * |t - a| + 2 / 2 ^ 150) / 2 ^ 24 :=
      div_le_div_of_nonneg_right s3 (by positivity)
    have h2 : (4 * |t - a| + 2 / 2 ^ 150) / 2 ^ 24
        = 4 * |t - a| / 2 ^ 24 + 2 / 2 ^ 150 / 2 ^ 24 := by ring
    have h3 : (2 : ℚ) / 2 ^ 150 / 2 ^ 24 ≤ 1 / 2 ^ 150 := by norm_num
    linarith
  -- the sum
  have s5 : |a + p| ≤ |a| + 5 * |t - a| + 4 / 2 ^ 150 := by
    have e : a + p = a + d * f + (p - d * f) := by ring
    have h1 : |a + p| ≤ |a| + |d * f| + |p - d * f| := by
      rw [e]
      exact le_trans (abs_add _ _) (add_le_add_right (abs_add _ _) _)
    have h2 : 4 * |t - a| / 2 ^ 24 ≤ |t - a| := by
      have : 4 * |t - a| / 2 ^ 24 = |t - a| * (4 / 2 ^ 24) := by ring
      rw [this]
      exact mul_le_of_le_one_right hD (by norm_num)
    linarith
  have s6 : |w - (a + p)| ≤ |a| / 2 ^ 24 + 5 * |t - a| / 2 ^ 24 + 2 / 2 ^ 150 := by
    have h1 : |a + p| / 2 ^ 24 ≤ (|a| + 5 * |t - a| + 4 / 2 ^ 150) / 2 ^ 24 :=
      div_le_div_of_nonneg_right s5 (by positivity)
    have h2 : (|a| + 5 * |t - a| + 4 / 2 ^ 150) / 2 ^ 24
        = |a| / 2 ^ 24 + 5 * |t - a| / 2 ^ 24 + 4 / 2 ^ 150 / 2 ^ 24 := by ring
    have h3 : (4 : ℚ) / 2 ^ 150 / 2 ^ 24 ≤ 1 / 2 ^ 150 := by norm_num
    linarith
  -- the exact product against the rounded factors
  have s7 : |d * f - (t - a) * r| ≤ 5 * |t - a| / 2 ^ 24 + 2 / 2 ^ 150 := by
    have e : d * f - (t - a) * r = d * (f - r) + (d - (t - a)) * r := by ring
    have h1 : |d * f - (t - a) * r| ≤ |d| * |f - r| + |d - (t - a)| * r := by
      rw [e]
      have := abs_add (d * (f - r)) ((d - (t - a)) * r)
      rw [abs_mul, abs_mul, abs_of_nonneg hr0] at this
      exact this
    have h2 : |d| * |f - r| ≤ (2 * |t - a| + 1 / 2 ^ 150) * (2 / 2 ^ 24) :=
      mul_le_mul s1 s2 (abs_nonneg _) (by positivity)
    have h3 : |d - (t - a)| * r ≤ |d - (t - a)| := mul_le_of_le_one_right (abs_nonneg _) hr1
    have h4 : (2 * |t - a| + 1 / 2 ^ 150) * (2 / 2 ^ 24)
        = 4 * |t - a| / 2 ^ 24 + 1 / 2 ^ 150 * (2 / 2 ^ 24) := by ring
    have h5 : (1 : ℚ) / 2 ^ 150 * (2 / 2 ^ 24) ≤ 1 / 2 ^ 150 := by norm_num
    linarith
  have total : |w - (a + (t - a) * r)| ≤ |w - (a + p)| + |p - d * f| + |d * f - (t - a) * r| := by
    have e : w - (a + (t - a) * r) = (w - (a + p)) + (p - d * f) + (d * f - (t - a) * r) := by
      ring
    rw [e]
    exact le_trans (abs_add _ _) (add_le_add_right (abs_add _ _) _)
  have e14 : (|a| + 14 * |t - a|) / 2 ^ 24
      = |a| / 2 ^ 24 + 5 * |t - a| / 2 ^ 24 + 4 * |t - a| / 2 ^ 24 + 5 * |t - a| / 2 ^ 24 := by
    ring
  rw [e14]
  linarith

/-- The gap between two consecutive waypoints on one axis against the exact
`(target - start) / steps`. -/
theorem coordinate_gap (fl : ℚ → ℚ) (hacc : Rounded.Accurate fl) (a t : ℚ) (steps : Int)
    (s : Nat) (hs : 1 ≤ steps) (hle : ((s + 1 : Nat) : Int) ≤ steps) :
    |(Rounded.coordinate fl a t steps (s + 1) - Rounded.coordinate fl a t steps s)
        - (t - a) / (steps : ℚ)|
      ≤ 2 * ((|a| + 14 * |t - a|) / 2 ^ 24 + 6 / 2 ^ 150) := by
  have hn : (steps : ℚ) ≠ 0 := by
    have : (1 : ℚ) ≤ (steps : ℚ) := by exact_mod_cast hs
    intro h; rw [h] at this; norm_num at this
  have h1 := coordinate_accuracy fl hacc a t steps (s + 1) hs hle
  have h2 := coordinate_accuracy fl hacc a t steps s hs (by push_cast at hle ⊢; omega)
  have e : (Rounded.coordinate fl a t steps (s + 1) - Rounded.coordinate fl a t steps s)
      - (t - a) / (steps : ℚ)
      = (Rounded.coordinate fl a t steps (s + 1)
          - (a + (t - a) * (((s + 1 : Nat) : ℚ) / (steps : ℚ))))
        - (Rounded.coordinate fl a t steps s - (a + (t - a) * ((s : ℚ) / (steps : ℚ)))) := by
    push_cast
    field_simp
    ring
  rw [e]
  have := abs_sub (Rounded.coordinate fl a t steps (s + 1)
      - (a + (t - a) * (((s + 1 : Nat) : ℚ) / (steps : ℚ))))
    (Rounded.coordinate fl a t steps s - (a + (t - a) * ((s : ℚ) / (steps : ℚ))))
  linarith

/-- The coordinate of the last waypoint. -/
theorem coordinate_last (fl : ℚ → ℚ) (h1 : fl 1 = 1) (hid : ∀ x, fl (fl x) = fl x) (a t : ℚ)
    (steps : Int) (hs : 1 ≤ steps) :
    Rounded.coordinate fl a t steps steps.toNat = Rounded.reached fl a t := by
  have hcast : ((steps.toNat : ℕ) : ℚ) = (steps : ℚ) := by
    have : ((steps.toNat : ℕ) : ℤ) = steps := Int.toNat_of_nonneg (by omega)
    exact_mod_cast this
  have hne : (steps : ℚ) ≠ 0 := by
    have : (1 : ℚ) ≤ (steps : ℚ) := by exact_mod_cast hs
    intro h; rw [h] at this; norm_num at this
  unfold Rounded.coordinate Rounded.reached
  rw [hcast, div_self hne, h1, mul_one, hid]

theorem coordinate_zero (steps : Int) (s : Nat) : Rounded.coordinate binary32 0 0 steps s = 0 := by
  unfold Rounded.coordinate
  norm_num [binary32_zero]

theorem coordinate_moveX3_1 : Rounded.coordinate binary32 0 3 112 1 = 1797559 / 67108864 := by
  have h3 : binary32 3 = 3 := binary32_small_nat 3 (by norm_num)
  have a1 : binary32 (1 / 112) = 9586981 / 1073741824 :=
    binary32_pos _ _ (-30) 9586981 (by norm_num) (by norm_num) (by norm_num) (by norm_num)
      (by norm_num) (by norm_num)
  have a2 : binary32 (28760943 / 1073741824) = 1797559 / 67108864 :=
    binary32_tie _ _ (-29) 14380472 (by norm_num) (by norm_num) (by norm_num) (by norm_num)
      (by decide) (Or.inl (by norm_num))
  have a3 : binary32 (1797559 / 67108864) = 1797559 / 67108864 :=
    binary32_fix _ 1797559 (-26) (by norm_num) (by norm_num) (by norm_num)
  unfold Rounded.coordinate
  norm_num [h3, a1, a2, a3]

theorem coordinate_moveX3_2 : Rounded.coordinate binary32 0 3 112 2 = 1797559 / 33554432 := by
  have h3 : binary32 3 = 3 := binary32_small_nat 3 (by norm_num)
  have a1 : binary32 (1 / 56) = 9586981 / 536870912 :=
    binary32_pos _ _ (-29) 9586981 (by norm_num) (by norm_num) (by norm_num) (by norm_num)
      (by norm_num) (by norm_num)
  have a2 : binary32 (28760943 / 536870912) = 1797559 / 33554432 :=
    binary32_tie _ _ (-28) 14380472 (by norm_num) (by norm_num) (by norm_num) (by norm_num)
      (by decide) (Or.inl (by norm_num))
  have a3 : binary32 (1797559 / 33554432) = 1797559 / 33554432 :=
    binary32_fix _ 1797559 (-25) (by norm_num) (by norm_num) (by norm_num)
  unfold Rounded.coordinate
  norm_num [h3, a1, a2, a3]

/-- Counterexample to C22 as stated: the 3 mm move of the reference delta
machine in binary32 arithmetic is planned in 112 segments, so `L/steps` is
3/112 = 0.026785714; the first two waypoints are at X = 1797559/67108864 and
X = 1797559/33554432, which are 0.026785716 apart, more than `L/steps`. -/
theorem C22_counterexample :
    refKinematics.mechanism = Mechanism.DELTA ∧
    Rounded.cartesian_mm binary32 refKinematics (clamped refKinematics moveX3) = 3 ∧
    ∃ m', Rounded.prepare_move binary32 refKinematics moveX3 = some m' ∧
      m'.planned.length = 112 ∧
      (m'.planned.map Segment.tool)[0]? = some ⟨1797559 / 67108864, 0, 0, 0⟩ ∧
      (m'.planned.map Segment.tool)[1]? = some ⟨1797559 / 33554432, 0, 0, 0⟩ ∧
      (3 : ℚ) / 112 < 1797559 / 33554432 - 1797559 / 67108864 := by
  obtain ⟨m', hret, hlen, htools⟩ := rounded_prepare_move_moveX3
  have hw : ∀ s : Nat, Rounded.waypoint binary32 moveX3.current_position
      (Rounded.difference binary32 moveX3) 112 s
        = ⟨Rounded.coordinate binary32 0 3 112 s, 0, 0, 0⟩ := by
    intro s
    rw [rounded_waypoint_coordinates]
    show (⟨Rounded.coordinate binary32 0 3 112 s, Rounded.coordinate binary32 0 0 112 s,
      Rounded.coordinate binary32 0 0 112 s, Rounded.coordinate binary32 0 0 112 s⟩ : Axes) = _
    rw [coordinate_zero]
  have hnil : moveX3.planned.map Segment.tool = [] := rfl
  rw [hnil, List.nil_append] at htools
  refine ⟨rfl, rounded_cartesian_mm_moveX3, m', hret, hlen, ?_, ?_, by norm_num⟩
  · rw [htools, List.getElem?_map, List.getElem?_range (by norm_num)]
    show some (Rounded.waypoint binary32 moveX3.current_position
      (Rounded.difference binary32 moveX3) 112 1) = _
    rw [hw, coordinate_moveX3_1]
  · rw [htools, List.getElem?_map, List.getElem?_range (by norm_num)]
    show some (Rounded.waypoint binary32 moveX3.current_position
      (Rounded.difference binary32 moveX3) 112 2) = _
    rw [hw, coordinate_moveX3_2]

/-- C22 (amended): on a delta build, for a rounding `fl` of the `float` type
that keeps 1, keeps its own results and has the accuracy of binary32: a move
that is not shorter than 0.000001 and that `prepare_move` completes is planned
as `steps ≥ 1` calls; with `start` the current position and `target` the
destination after the one clamping done on entry, the tool point of call `s`
(`s = 1..steps`) is, on each of the four axes,
`start + (target - start) × (s/steps)` with the difference (taken once), the
quotient, the product and the sum each rounded, and it is not clamped again.
Each coordinate is within `(|start| + 14 |target - start|) / 2^24 + 6 / 2^150`
of the exact `start + (target - start) × s/steps`, so on each axis two
consecutive waypoints are `(target - start)/steps` apart up to twice that
bound; and the last waypoint is the rounded sum of the start and the rounded
difference. -/
theorem C22_waypoints_follow_the_line_up_to_rounding (fl : ℚ → ℚ) (k : Kinematics)
    (m m' : Motion) (hmech : k.mechanism = Mechanism.DELTA)
    (h1 : fl 1 = 1) (hid : ∀ x, fl (fl x) = fl x) (hacc : Rounded.Accurate fl)
    (hbig : ¬ Rounded.cartesian_mm fl k (clamped k m) < fl (1 / 1000000))
    (hret : Rounded.prepare_move fl k m = some m') :
    ∃ steps : Int, 1 ≤ steps ∧
      m'.planned.map Segment.tool = m.planned.map Segment.tool ++
        (List.range steps.toNat).map (fun i =>
          ({ X := Rounded.coordinate fl m.current_position.X
                (clamp_to_software_endstops k m m.destination).X steps (i + 1)
             Y := Rounded.coordinate fl m.current_position.Y
                (clamp_to_software_endstops k m m.destination).Y steps (i + 1)
             Z := Rounded.coordinate fl m.current_position.Z
                (clamp_to_software_endstops k m m.destination).Z steps (i + 1)
             E := Rounded.coordinate fl m.current_position.E
                (clamp_to_software_endstops k m m.destination).E steps (i + 1) } : Axes)) ∧
      (∀ (a t : ℚ) (s : Nat), (s : Int) ≤ steps →
        |Rounded.coordinate fl a t steps s - (a + (t - a) * ((s : ℚ) / (steps : ℚ)))|
          ≤ (|a| + 14 * |t - a|) / 2 ^ 24 + 6 / 2 ^ 150) ∧
      (∀ (a t : ℚ) (s : Nat), ((s + 1 : Nat) : Int) ≤ steps →
        |(Rounded.coordinate fl a t steps (s + 1) - Rounded.coordinate fl a t steps s)
            - (t - a) / (steps : ℚ)|
          ≤ 2 * ((|a| + 14 * |t - a|) / 2 ^ 24 + 6 / 2 ^ 150)) ∧
      (∀ a t : ℚ, Rounded.coordinate fl a t steps steps.toNat = Rounded.reached fl a t) := by
  obtain ⟨steps, hs, hm'⟩ :=
    rounded_prepare_move_returned fl k m m' (by rw [hmech]; decide) hbig hret
  refine ⟨steps, hs, ?_, fun a t s hle => coordinate_accuracy fl hacc a t steps s hs hle,
    fun a t s hle => coordinate_gap fl hacc a t steps s hs hle,
    fun a t => coordinate_last fl h1 hid a t steps hs⟩
  rw [hm']
  show (Rounded.segments _ _ _ _ _ _).planned.map Segment.tool = _
  rw [(rounded_segments_fields fl k _ steps steps.toNat (clamped k m)).2.2.2]
  rfl

/-- Witness of C22 (amended): the 3 mm move of the reference machine in
binary32 arithmetic. -/
theorem C22_witness :
    ∃ m' steps, Rounded.prepare_move binary32 refKinematics moveX3 = some m' ∧ (1 : Int) ≤ steps ∧
      m'.planned.map Segment.tool = moveX3.planned.map Segment.tool ++
        (List.range steps.toNat).map (fun i =>
          ({ X := Rounded.coordinate binary32 moveX3.current_position.X
                (clamp_to_software_endstops refKinematics moveX3 moveX3.destination).X steps (i + 1)
             Y := Rounded.coordinate binary32 moveX3.current_position.Y
                (clamp_to_software_endstops refKinematics moveX3 moveX3.destination).Y steps (i + 1)
             Z := Rounded.coordinate binary32 moveX3.current_position.Z
                (clamp_to_software_endstops refKinematics moveX3 moveX3.destination).Z steps (i + 1)
             E := Rounded.coordinate binary32 moveX3.current_position.E
                (clamp_to_software_endstops refKinematics moveX3 moveX3.destination).E steps (i + 1) }
            : Axes)) := by
  obtain ⟨m', hm', -, -⟩ := rounded_prepare_move_moveX3
  obtain ⟨steps, hs, ht, -⟩ := C22_waypoints_follow_the_line_up_to_rounding binary32
    refKinematics moveX3 m' rfl binary32_one binary32_idem binary32_accurate
    (by rw [rounded_cartesian_mm_moveX3, binary32_millionth]; norm_num) hm'
  exact ⟨m', steps, hm', hs, ht⟩

/-! ## Tower heights in rounded arithmetic -/

theorem rounded_calculate_delta_towers (fl : ℚ → ℚ) (k : Kinematics) (m : Motion) (p : Axes) :
    (Rounded.calculate_delta fl k m p).delta =
      { X := (fsqrt k (Rounded.radicand1 fl m p)).map (fun r => fl (r + p.Z))
        Y := (fsqrt k (Rounded.radicand2 fl m p)).map (fun r => fl (r + p.Z))
        Z := (fsqrt k (Rounded.radicand3 fl m p)).map (fun r => fl (r + p.Z)) } := rfl

/-- How far the recomputed Z can be from the original: the rounding of the sum
and of the difference. -/
theorem recomputeZ_accuracy (fl : ℚ → ℚ) (hacc : Rounded.Accurate fl) (r z : ℚ) :
    |Rounded.recomputeZ fl (fl (r + z)) r - z| ≤ (|z| + 2 * |r + z|) / 2 ^ 24 + 3 / 2 ^ 150 := by
  have e1 := hacc (r + z)
  have e2 := hacc (fl (r + z) - r)
  unfold Rounded.recomputeZ
  generalize fl (r + z) = h at e1 e2 ⊢
  generalize fl (h - r) = w at e2 ⊢
  have hS : 0 ≤ |r + z| := abs_nonneg _
  have hX : 0 ≤ |h - (r + z)| := abs_nonneg _
  have t1 : |w - z| ≤ |w - (h - r)| + |h - (r + z)| := by
    have := abs_sub_le w (h - r) z
    have e : h - r - z = h - (r + z) := by ring
    rw [e] at this
    exact this
  have t2 : |h - r| ≤ |z| + |h - (r + z)| := by
    have e : h - r = z + (h - (r + z)) := by ring
    rw [e]
    exact abs_add _ _
  have t3 : |h - (r + z)| / 2 ^ 24 ≤ |h - (r + z)| := div_le_self hX (by norm_num)
  have t4 : |h - r| / 2 ^ 24 ≤ |z| / 2 ^ 24 + |h - (r + z)| / 2 ^ 24 := by
    rw [← add_div]
    exact div_le_div_of_nonneg_right t2 (by positivity)
  have t5 : |r + z| / 2 ^ 24 / 2 ^ 24 ≤ |r + z| / 2 ^ 24 :=
    div_le_self (by positivity) (by norm_num)
  have t6 : |h - (r + z)| / 2 ^ 24 ≤ |r + z| / 2 ^ 24 / 2 ^ 24 + 1 / 2 ^ 150 / 2 ^ 24 := by
    rw [← add_div]
    exact div_le_div_of_nonneg_right e1 (by positivity)
  have t7 : (1 : ℚ) / 2 ^ 150 / 2 ^ 24 ≤ 1 / 2 ^ 150 := div_le_self (by positivity) (by norm_num)
  have e3 : (|z| + 2 * |r + z|) / 2 ^ 24 = |z| / 2 ^ 24 + 2 * (|r + z| / 2 ^ 24) := by ring
  rw [e3]
  linarith

/-- Within 500 mm the recomputed Z is less than 0.0001 mm from the original. -/
theorem recomputeZ_tolerance (fl : ℚ → ℚ) (hacc : Rounded.Accurate fl) (r z : ℚ)
    (hz : |z| ≤ 500) (hh : |r + z| ≤ 500) :
    |Rounded.recomputeZ fl (fl (r + z)) r - z| < 1 / 10000 := by
  have h := recomputeZ_accuracy fl hacc r z
  have e : (|z| + 2 * |r + z|) / 2 ^ 24 ≤ 1500 / 2 ^ 24 :=
    div_le_div_of_nonneg_right (by linarith) (by positivity)
  have n : (1500 : ℚ) / 2 ^ 24 + 3 / 2 ^ 150 < 1 / 10000 := by norm_num
  linarith

theorem refSqrt_40000 : refSqrt 40000 = 200 := by
  have h1 : ((40000 : ℚ)).num = 40000 := rfl
  have h2 : ((40000 : ℚ)).den = 1 := rfl
  have h3 : Nat.sqrt 40000000000000000 = 200000000 := by
    rw [show 40000000000000000 = 200000000 * 200000000 by norm_num]
    exact Nat.sqrt_eq 200000000
  have h4 : Int.toNat 40000 * 1 * 1000000000000 = 40000000000000000 := by decide
  unfold refSqrt
  rw [h1, h2, h4, h3]
  norm_num

theorem rounded_radicands_squareDelta (z : ℚ) :
    Rounded.radicand1 binary32 squareDelta ⟨0, 0, z, 0⟩ = 40000 ∧
    Rounded.radicand2 binary32 squareDelta ⟨0, 0, z, 0⟩ = 40000 ∧
    Rounded.radicand3 binary32 squareDelta ⟨0, 0, z, 0⟩ = 40000 := by
  have h0 : binary32 0 = 0 := binary32_zero
  have a1 : binary32 150 = 150 := binary32_small_nat 150 (by norm_num)
  have a1n : binary32 (-150) = -150 := by
    have := binary32_int (-150) (by norm_num)
    simpa using this
  have a2 : binary32 22500 = 22500 := binary32_small_nat 22500 (by norm_num)
  have a3 : binary32 40000 = 40000 := binary32_small_nat 40000 (by norm_num)
  have a4 : binary32 62500 = 62500 := binary32_small_nat 62500 (by norm_num)
  refine ⟨?_, ?_, ?_⟩
  · norm_num [Rounded.radicand1, sq, squareDelta, Motion.init, h0, a1, a1n, a2, a3, a4]
  · norm_num [Rounded.radicand2, sq, squareDelta, Motion.init, h0, a1, a1n, a2, a3, a4]
  · norm_num [Rounded.radicand3, sq, squareDelta, Motion.init, h0, a1, a1n, a2, a3, a4]

theorem rounded_height_tenth :
    binary32 (200 + tenth32) = 6556877 / 32768 ∧
    Rounded.recomputeZ binary32 (6556877 / 32768) 200 = 3277 / 32768 := by
  have a1 : binary32 (200 + tenth32) = 6556877 / 32768 :=
    binary32_pos _ _ (-16) 13113754 (by norm_num) (by norm_num) (by norm_num [tenth32])
      (by norm_num [tenth32]) (by norm_num [tenth32]) (by norm_num [tenth32])
  have a2 : binary32 (3277 / 32768) = 3277 / 32768 :=
    binary32_fix _ 3277 (-15) (by norm_num) (by norm_num) (by norm_num)
  refine ⟨a1, ?_⟩
  unfold Rounded.recomputeZ
  norm_num [a2]

/-- Counterexample to C12 as stated, in binary32 arithmetic: with rods of
250 mm and towers 150 mm from the centre, the tool point (0, 0, 0.1) - its Z
being the `float` 13421773/134217728 - has the three radicands 40000, square
root 200, and `calculate_delta` sets every tower height to 6556877/32768 =
200.100006; that height minus the square root is 3277/32768 = 0.100006, not
the original Z. -/
theorem C12_counterexample :
    Rounded.radicand1 binary32 squareDelta ⟨0, 0, tenth32, 0⟩ = 40000 ∧
    Rounded.radicand2 binary32 squareDelta ⟨0, 0, tenth32, 0⟩ = 40000 ∧
    Rounded.radicand3 binary32 squareDelta ⟨0, 0, tenth32, 0⟩ = 40000 ∧
    refKinematics.sqrt 40000 = 200 ∧
    (Rounded.calculate_delta binary32 refKinematics squareDelta ⟨0, 0, tenth32, 0⟩).delta
      = ⟨some (6556877 / 32768), some (6556877 / 32768), some (6556877 / 32768)⟩ ∧
    Rounded.recomputeZ binary32 (6556877 / 32768) (refKinematics.sqrt 40000) = 3277 / 32768 ∧
    (3277 / 32768 : ℚ) ≠ tenth32 := by
  obtain ⟨r1, r2, r3⟩ := rounded_radicands_squareDelta tenth32
  have hs : refKinematics.sqrt 40000 = 200 := refSqrt_40000
  obtain ⟨a1, a2⟩ := rounded_height_tenth
  refine ⟨r1, r2, r3, hs, ?_, by rw [hs]; exact a2, by norm_num [tenth32]⟩
  rw [rounded_calculate_delta_towers, r1, r2, r3, fsqrt_nonneg _ _ (by norm_num), hs]
  show (⟨some (binary32 (200 + tenth32)), some (binary32 (200 + tenth32)),
    some (binary32 (200 + tenth32))⟩ : Towers) = _
  rw [a1]

/-- C12 (amended): for a rounding `fl` of the `float` type with the accuracy of
binary32, and every tool point whose three radicands, as `calculate_delta`
evaluates them, are positive: `calculate_delta` sets the height of tower `i` to
the rounded sum of `sqrt(radicand_i)` and `z`; that height minus that square
root, rounded, is within `(|z| + 2 |sqrt_i + z|) / 2^24 + 3 / 2^150` of the
original `z`, which is less than 0.0001 mm when `|z|` and `|sqrt_i + z|` are at
most 500 mm. -/
theorem C12_tower_heights_recover_z_up_to_rounding (fl : ℚ → ℚ) (k : Kinematics) (m : Motion)
    (p : Axes) (hacc : Rounded.Accurate fl)
    (h1 : 0 < Rounded.radicand1 fl m p) (h2 : 0 < Rounded.radicand2 fl m p)
    (h3 : 0 < Rounded.radicand3 fl m p) :
    ∃ a b c : ℚ, (Rounded.calculate_delta fl k m p).delta = ⟨some a, some b, some c⟩ ∧
      a = fl (k.sqrt (fl (fl (m.DELTA_DIAGONAL_ROD1_2 - fl (sq (fl (m.delta_tower1_x - p.X))))
        - fl (sq (fl (m.delta_tower1_y - p.Y))))) + p.Z) ∧
      b = fl (k.sqrt (fl (fl (m.DELTA_DIAGONAL_ROD2_2 - fl (sq (fl (m.delta_tower2_x - p.X))))
        - fl (sq (fl (m.delta_tower2_y - p.Y))))) + p.Z) ∧
      c = fl (k.sqrt (fl (fl (m.DELTA_DIAGONAL_ROD3_2 - fl (sq (fl (m.delta_tower3_x - p.X))))
        - fl (sq (fl (m.delta_tower3_y - p.Y))))) + p.Z) ∧
      |Rounded.recomputeZ fl a (k.sqrt (Rounded.radicand1 fl m p)) - p.Z|
        ≤ (|p.Z| + 2 * |k.sqrt (Rounded.radicand1 fl m p) + p.Z|) / 2 ^ 24 + 3 / 2 ^ 150 ∧
      |Rounded.recomputeZ fl b (k.sqrt (Rounded.radicand2 fl m p)) - p.Z|
        ≤ (|p.Z| + 2 * |k.sqrt (Rounded.radicand2 fl m p) + p.Z|) / 2 ^ 24 + 3 / 2 ^ 150 ∧
      |Rounded.recomputeZ fl c (k.sqrt (Rounded.radicand3 fl m p)) - p.Z|
        ≤ (|p.Z| + 2 * |k.sqrt (Rounded.radicand3 fl m p) + p.Z|) / 2 ^ 24 + 3 / 2 ^ 150 ∧
      (|p.Z| ≤ 500 → |k.sqrt (Rounded.radicand1 fl m p) + p.Z| ≤ 500 →
        |Rounded.recomputeZ fl a (k.sqrt (Rounded.radicand1 fl m p)) - p.Z| < 1 / 10000) ∧
      (|p.Z| ≤ 500 → |k.sqrt (Rounded.radicand2 fl m p) + p.Z| ≤ 500 →
        |Rounded.recomputeZ fl b (k.sqrt (Rounded.radicand2 fl m p)) - p.Z| < 1 / 10000) ∧
      (|p.Z| ≤ 500 → |k.sqrt (Rounded.radicand3 fl m p) + p.Z| ≤ 500 →
        |Rounded.recomputeZ fl c (k.sqrt (Rounded.radicand3 fl m p)) - p.Z| < 1 / 10000) := by
  refine ⟨fl (k.sqrt (Rounded.radicand1 fl m p) + p.Z), fl (k.sqrt (Rounded.radicand2 fl m p) + p.Z),
    fl (k.sqrt (Rounded.radicand3 fl m p) + p.Z), ?_, rfl, rfl, rfl,
    recomputeZ_accuracy fl hacc _ _, recomputeZ_accuracy fl hacc _ _,
    recomputeZ_accuracy fl hacc _ _, recomputeZ_tolerance fl hacc _ _,
    recomputeZ_tolerance fl hacc _ _, recomputeZ_tolerance fl hacc _ _⟩
  rw [rounded_calculate_delta_towers, fsqrt_nonneg k _ h1.le, fsqrt_nonneg k _ h2.le,
    fsqrt_nonneg k _ h3.le]
  rfl

/-- Witness of C12 (amended): the bed centre of the geometry with radicands
40000, 7 mm up, in binary32 arithmetic; the recomputed Z is within 0.0001 mm
of 7. -/
theorem C12_witness :
    ∃ a b c : ℚ, (Rounded.calculate_delta binary32 refKinematics squareDelta ⟨0, 0, 7, 0⟩).delta
        = ⟨some a, some b, some c⟩ ∧
      |Rounded.recomputeZ binary32 a 200 - 7| < 1 / 10000 ∧
      |Rounded.recomputeZ binary32 b 200 - 7| < 1 / 10000 ∧
      |Rounded.recomputeZ binary32 c 200 - 7| < 1 / 10000 := by
  obtain ⟨r1, r2, r3⟩ := rounded_radicands_squareDelta 7
  have hs : refKinematics.sqrt 40000 = 200 := refSqrt_40000
  obtain ⟨a, b, c, h, -, -, -, -, -, -, ta, tb, tc⟩ :=
    C12_tower_heights_recover_z_up_to_rounding binary32 refKinematics squareDelta ⟨0, 0, 7, 0⟩
      binary32_accurate (by rw [r1]; norm_num) (by rw [r2]; norm_num) (by rw [r3]; norm_num)
  rw [r1, hs] at ta
  rw [r2, hs] at tb
  rw [r3, hs] at tc
  exact ⟨a, b, c, h, ta (by norm_num) (by norm_num), tb (by norm_num) (by norm_num),
    tc (by norm_num) (by norm_num)⟩

/-! ## The tower angle loop in rounded arithmetic -/

/-- One pass of the loop of `adj_tower_delta(tower)` for a tower 1, 2 or 3. -/
theorem rounded_adj_tower_delta_loop_succ (fl : ℚ → ℚ) (k : Kinematics) (c : Probing)
    (tower : Int) (i fuel : Nat) (a m : ℚ) (s : Machine)
    (ht : tower = 1 ∨ tower = 2 ∨ tower = 3) :
    Rounded.adj_tower_delta_loop fl k c tower i (fuel + 1) a m s =
      match probe_pair k c tower (set_delta_constants c
        { s with tower_adj := Function.update s.tower_adj i (fl (s.tower_adj i + a)) }) with
      | none => none
      | some s1 =>
        if (Rounded.adj_tower_delta_next fl a m (compared tower s1).1 (compared tower s1).2).1 ≠ 0
        then
          Rounded.adj_tower_delta_loop fl k c tower i fuel
            (Rounded.adj_tower_delta_next fl a m (compared tower s1).1 (compared tower s1).2).1
            (Rounded.adj_tower_delta_next fl a m (compared tower s1).1 (compared tower s1).2).2 s1
        else some s1 := by
  rw [Rounded.adj_tower_delta_loop]
  dsimp only
  cases probe_pair k c tower (set_delta_constants c
    { s with tower_adj := Function.update s.tower_adj i (fl (s.tower_adj i + a)) }) with
  | none => rfl
  | some s1 =>
    dsimp only
    rcases ht with h | h | h <;> subst h <;> norm_num [compared, Rounded.adj_tower_delta_next]

/-- The arithmetic of one pass, for any rounding: the magnitude is kept or
halved once, and the step is 0 only when the two readings are equal or the
magnitude has become 0. -/
theorem rounded_adj_tower_delta_next_zero (fl : ℚ → ℚ) (p m a b : ℚ) :
    ((Rounded.adj_tower_delta_next fl p m a b).2 = m ∨
      (Rounded.adj_tower_delta_next fl p m a b).2 = fl (m / 2)) ∧
    ((Rounded.adj_tower_delta_next fl p m a b).1 = 0 →
      a = b ∨ (Rounded.adj_tower_delta_next fl p m a b).2 = 0) := by
  unfold Rounded.adj_tower_delta_next
  dsimp only
  rcases lt_trichotomy a b with h | h | h
  · have h2 : ¬ a > b := not_lt.mpr (le_of_lt h)
    rw [if_pos h, if_neg h2]
    by_cases c1 : m > 0 ∧ p < 0
    · rw [if_pos c1]
      dsimp only
      have c2 : ¬ (fl (m / 2) < 0 ∧ p > 0) := fun hh => absurd hh.2 (not_lt.mpr (le_of_lt c1.2))
      rw [if_neg c2]
      exact ⟨Or.inr rfl, fun e => Or.inr e⟩
    · rw [if_neg c1]
      dsimp only
      by_cases c2 : m < 0 ∧ p > 0
      · rw [if_pos c2]
        exact ⟨Or.inr rfl, fun e => Or.inr (neg_eq_zero.mp e)⟩
      · rw [if_neg c2]
        exact ⟨Or.inl rfl, fun e => Or.inr e⟩
  · subst h
    rw [if_neg (lt_irrefl a), if_neg (lt_irrefl a)]
    have c1 : ¬ ((0 : ℚ) > 0 ∧ p < 0) := fun hh => absurd hh.1 (lt_irrefl 0)
    rw [if_neg c1]
    dsimp only
    have c2 : ¬ ((0 : ℚ) < 0 ∧ p > 0) := fun hh => absurd hh.1 (lt_irrefl 0)
    rw [if_neg c2]
    exact ⟨Or.inl rfl, fun _ => Or.inl rfl⟩
  · have h2 : ¬ a < b := not_lt.mpr (le_of_lt h)
    rw [if_neg h2, if_pos h]
    by_cases c1 : -m > 0 ∧ p < 0
    · rw [if_pos c1]
      dsimp only
      have c2 : ¬ (fl (m / 2) < 0 ∧ p > 0) := fun hh => absurd hh.2 (not_lt.mpr (le_of_lt c1.2))
      rw [if_neg c2]
      exact ⟨Or.inr rfl, fun e => Or.inr e⟩
    · rw [if_neg c1]
      dsimp only
      by_cases c2 : -m < 0 ∧ p > 0
      · rw [if_pos c2]
        exact ⟨Or.inr rfl, fun e => Or.inr (neg_eq_zero.mp e)⟩
      · rw [if_neg c2]
        exact ⟨Or.inl rfl, fun e => Or.inr (neg_eq_zero.mp e)⟩

/-- The step rule of `adj_tower_delta` for a magnitude above 0: equal readings
give the step 0 and keep the magnitude; otherwise the step points from the
lower reading and its size is the magnitude, halved (and rounded) exactly when
the step before pointed the other way. -/
theorem rounded_adj_tower_delta_next_spec (fl : ℚ → ℚ) (p m a b : ℚ) (hm : 0 < m) :
    (a = b → Rounded.adj_tower_delta_next fl p m a b = (0, m)) ∧
    (a < b → Rounded.adj_tower_delta_next fl p m a b
      = (if p < 0 then fl (m / 2) else m, if p < 0 then fl (m / 2) else m)) ∧
    (a > b → Rounded.adj_tower_delta_next fl p m a b
      = (-(if p > 0 then fl (m / 2) else m), if p > 0 then fl (m / 2) else m)) := by
  have hn : ¬ m < 0 := not_lt.mpr (le_of_lt hm)
  have hneg : -m < 0 := by linarith
  have hnn : ¬ -m > 0 := not_lt.mpr (le_of_lt hneg)
  unfold Rounded.adj_tower_delta_next
  dsimp only
  refine ⟨fun h => ?_, fun h => ?_, fun h => ?_⟩
  · subst h
    rw [if_neg (lt_irrefl a), if_neg (lt_irrefl a)]
    have c1 : ¬ ((0 : ℚ) > 0 ∧ p < 0) := fun hh => absurd hh.1 (lt_irrefl 0)
    rw [if_neg c1]
    dsimp only
    have c2 : ¬ ((0 : ℚ) < 0 ∧ p > 0) := fun hh => absurd hh.1 (lt_irrefl 0)
    rw [if_neg c2]
  · have h2 : ¬ a > b := not_lt.mpr (le_of_lt h)
    rw [if_pos h, if_neg h2]
    by_cases hp : p < 0
    · have inner : (if m > 0 ∧ p < 0 then (fl (m / 2), fl (m / 2)) else (m, m))
          = (fl (m / 2), fl (m / 2)) := if_pos ⟨hm, hp⟩
      rw [inner, if_pos hp]
      exact if_neg (fun hh => absurd hh.2 (not_lt.mpr (le_of_lt hp)))
    · have inner : (if m > 0 ∧ p < 0 then (fl (m / 2), fl (m / 2)) else (m, m)) = (m, m) :=
        if_neg (fun hh => hp hh.2)
      rw [inner, if_neg hp]
      exact if_neg (fun hh => hn hh.1)
  · have h2 : ¬ a < b := not_lt.mpr (le_of_lt h)
    rw [if_neg h2, if_pos h]
    have inner : (if -m > 0 ∧ p < 0 then (fl (m / 2), fl (m / 2)) else (-m, m)) = (-m, m) :=
      if_neg (fun hh => hnn hh.1)
    rw [inner]
    by_cases hp : p > 0
    · rw [if_pos hp]
      exact if_pos ⟨hneg, hp⟩
    · rw [if_neg hp]
      exact if_neg (fun hh => hp hh.2)

/-- A call of the loop that returns does so from a pass whose two compared
readings are equal, or in which the magnitude, after some number of halvings,
is 0. -/
theorem rounded_adj_tower_delta_loop_returned (fl : ℚ → ℚ) (k : Kinematics) (c : Probing)
    (tower : Int) (i : Nat) (ht : tower = 1 ∨ tower = 2 ∨ tower = 3) :
    ∀ (fuel j : Nat) (a : ℚ) (s s' : Machine),
      Rounded.adj_tower_delta_loop fl k c tower i fuel a (Rounded.adj_mag_after fl j) s = some s' →
      (compared tower s').1 = (compared tower s').2 ∨
        ∃ j', j' ≤ j + fuel ∧ Rounded.adj_mag_after fl j' = 0 := by
  intro fuel
  induction fuel with
  | zero => intro j a s s' h; rw [Rounded.adj_tower_delta_loop] at h; cases h
  | succ fuel ih =>
    intro j a s s' h
    rw [rounded_adj_tower_delta_loop_succ fl k c tower i fuel a _ s ht] at h
    generalize hp : probe_pair k c tower (set_delta_constants c
      { s with tower_adj := Function.update s.tower_adj i (fl (s.tower_adj i + a)) }) = o at h
    cases o with
    | none => cases h
    | some s1 =>
      dsimp only at h
      obtain ⟨hmag, hzero⟩ := rounded_adj_tower_delta_next_zero fl a (Rounded.adj_mag_after fl j)
        (compared tower s1).1 (compared tower s1).2
      have hstep : ∃ j1, j1 ≤ j + 1 ∧
          (Rounded.adj_tower_delta_next fl a (Rounded.adj_mag_after fl j) (compared tower s1).1
            (compared tower s1).2).2 = Rounded.adj_mag_after fl j1 := by
        rcases hmag with e | e
        · exact ⟨j, by omega, e⟩
        · exact ⟨j + 1, le_refl _, e⟩
      obtain ⟨j1, hj1, e1⟩ := hstep
      by_cases hne : (Rounded.adj_tower_delta_next fl a (Rounded.adj_mag_after fl j)
          (compared tower s1).1 (compared tower s1).2).1 ≠ 0
      · rw [if_pos hne, e1] at h
        rcases ih j1 _ s1 s' h with r | ⟨j', hj', hz⟩
        · exact Or.inl r
        · exact Or.inr ⟨j', by omega, hz⟩
      · rw [if_neg hne] at h
        cases h
        rcases hzero (not_not.mp hne) with r | r
        · exact Or.inl r
        · exact Or.inr ⟨j1, by omega, by rw [← e1]; exact r⟩

theorem binary32_fifth : binary32 (2 / 10) = 13421773 * 2 ^ (-26 : ℤ) :=
  binary32_pos _ _ (-26) 13421773 (by norm_num) (by norm_num) (by norm_num) (by norm_num)
    (by norm_num) (by norm_num)

/-- Down to the smallest normal exponent, halving 0.2 is exact. -/
theorem adj_mag_after_normal : ∀ j : Nat, j ≤ 123 →
    Rounded.adj_mag_after binary32 j = 13421773 * 2 ^ (-26 - (j : ℤ)) := by
  intro j
  induction j with
  | zero =>
    intro _
    rw [Rounded.adj_mag_after, binary32_fifth]
    norm_num
  | succ j ih =>
    intro hj
    rw [Rounded.adj_mag_after, ih (by omega)]
    have e : (13421773 : ℚ) * 2 ^ (-26 - (j : ℤ)) / 2
        = ((13421773 : ℤ) : ℚ) * 2 ^ (-26 - ((j + 1 : ℕ) : ℤ)) := by
      have : (-26 - (j : ℤ)) = (-26 - ((j + 1 : ℕ) : ℤ)) + 1 := by push_cast; ring
      rw [this, zpow_add_one₀ (by norm_num : (2 : ℚ) ≠ 0)]
      push_cast
      ring
    rw [e, binary32_rep 13421773 _ (by norm_num) (by push_cast; omega)]
    push_cast
    rfl

theorem halfEven_le (n : Nat) : halfEven n ≤ n := by
  unfold halfEven
  split_ifs <;> omega

theorem halfEven_iterate_le (i n : Nat) : halfEven^[i] n ≤ n := by
  induction i with
  | zero => exact le_refl n
  | succ i ih =>
    rw [Function.iterate_succ_apply']
    exact le_trans (halfEven_le _) ih

/-- Halving a subnormal number: the significand is halved and rounded to
nearest, ties to even. -/
theorem binary32_half_subnormal (N : Nat) (h : N < 2 ^ 24) :
    binary32 ((N : ℚ) * 2 ^ (-149 : ℤ) / 2) = (halfEven N : ℚ) * 2 ^ (-149 : ℤ) := by
  by_cases h0 : N = 0
  · subst h0
    simp [halfEven, binary32_zero]
  have hN : (0 : ℚ) < N := by exact_mod_cast Nat.pos_of_ne_zero h0
  have hx : (0 : ℚ) < (N : ℚ) * 2 ^ (-149 : ℤ) / 2 := by positivity
  have hu : ulpExp ((N : ℚ) * 2 ^ (-149 : ℤ) / 2) = -149 := by
    apply le_antisymm _ (ulpExp_ge _)
    apply ulpExp_le _ _ (ne_of_gt hx) (le_refl _)
    rw [abs_of_pos hx]
    have hN' : (N : ℚ) < 2 ^ 24 := by exact_mod_cast h
    have : (N : ℚ) * 2 ^ (-149 : ℤ) / 2 < 2 ^ 24 * 2 ^ (-149 : ℤ) / 2 := by
      apply div_lt_div_of_pos_right _ (by norm_num)
      exact mul_lt_mul_of_pos_right hN' (by positivity)
    have e : (2 : ℚ) ^ 24 * 2 ^ (-149 : ℤ) / 2 ≤ 2 ^ ((-149 : ℤ) + 24) := by norm_num
    linarith
  have hq : (N : ℚ) * 2 ^ (-149 : ℤ) / 2 / 2 ^ (-149 : ℤ) = (N : ℚ) / 2 := by
    field_simp
    ring
  unfold binary32
  rw [hu, hq]
  congr 1
  obtain ⟨k, hk⟩ : ∃ k, N = 2 * k ∨ N = 2 * k + 1 := ⟨N / 2, by omega⟩
  unfold halfEven
  rcases hk with hk | hk
  · have hev : N % 2 = 0 := by omega
    have hd : N / 2 = k := by omega
    rw [if_pos hev, hd]
    have e : (N : ℚ) / 2 = ((k : ℤ) : ℚ) := by
      rw [hk]
      push_cast
      ring
    rw [e, roundEven_intCast]
    push_cast
    rfl
  · have hev : ¬ N % 2 = 0 := by omega
    have hd : N / 2 = k := by omega
    rw [if_neg hev, hd]
    have e : (N : ℚ) / 2 = (k : ℚ) + 1 / 2 := by
      rw [hk]
      push_cast
      ring
    by_cases hp : k % 2 = 0
    · rw [if_pos hp, roundEven_tie _ (k : ℤ) (by omega) (Or.inr (by rw [e]; push_cast; ring))]
      push_cast
      rfl
    · rw [if_neg hp, roundEven_tie _ ((k + 1 : ℕ) : ℤ) (by omega)
        (Or.inl (by rw [e]; push_cast; ring))]
      push_cast
      rfl

/-- In the subnormal range the significand of the halved 0.2 follows `halfEven`. -/
theorem adj_mag_after_subnormal : ∀ i : Nat,
    Rounded.adj_mag_after binary32 (123 + i)
      = ((halfEven^[i] 13421773 : ℕ) : ℚ) * 2 ^ (-149 : ℤ) := by
  intro i
  induction i with
  | zero =>
    rw [adj_mag_after_normal 123 (le_refl _)]
    norm_num
  | succ i ih =>
    have e : 123 + (i + 1) = (123 + i) + 1 := by omega
    rw [e, Rounded.adj_mag_after, ih, Function.iterate_succ_apply']
    exact binary32_half_subnormal _
      (lt_of_le_of_lt (halfEven_iterate_le i 13421773) (by norm_num))

/-- In binary32 the magnitude 0.2 of `adj_tower_delta` is above 0 after fewer
than 148 halvings and is 0 after 148. -/
theorem adj_mag_after_binary32 :
    (∀ j : Nat, j < 148 → 0 < Rounded.adj_mag_after binary32 j) ∧
    Rounded.adj_mag_after binary32 148 = 0 := by
  have hz : halfEven^[25] 13421773 = 0 := by decide
  have hnz : ∀ i : Nat, i < 25 → halfEven^[i] 13421773 ≠ 0 := by decide
  constructor
  · intro j hj
    by_cases h : j ≤ 123
    · rw [adj_mag_after_normal j h]
      positivity
    · obtain ⟨i, hi⟩ : ∃ i, j = 123 + i := ⟨j - 123, by omega⟩
      rw [hi, adj_mag_after_subnormal]
      have : 0 < halfEven^[i] 13421773 := Nat.pos_of_ne_zero (hnz i (by omega))
      have h2 : (0 : ℚ) < ((halfEven^[i] 13421773 : ℕ) : ℚ) := by exact_mod_cast this
      positivity
  · have := adj_mag_after_subnormal 25
    rw [hz] at this
    rw [show 148 = 123 + 25 by norm_num, this]
    norm_num

theorem rounded_adj_tower_delta_eq (fl : ℚ → ℚ) (k : Kinematics) (c : Probing) (fuel : Nat)
    (s : Machine) :
    Rounded.adj_tower_delta fl k c 1 fuel s
      = Rounded.adj_tower_delta_loop fl k c 1 0 fuel 0 (fl (2 / 10)) s := by
  unfold Rounded.adj_tower_delta
  rw [if_pos (by decide)]
  rfl

/-- One pass of `adj_tower_delta(1)` on the readings that never change: the
step stays at the rounded 0.2 and the loop goes on. -/
theorem rounded_adj_tower_delta_stuck_pass (fl : ℚ → ℚ) (hfl : 0 < fl (2 / 10)) (k : Kinematics)
    (hmech : k.mechanism = Mechanism.DELTA) (s : Machine) (q : Nat) (a : ℚ)
    (h : Ready s (2 * q)) (ha : 0 ≤ a) :
    ∃ s1, Ready s1 (2 * (q + 1)) ∧ s1.bed_level_oy = 0 ∧ s1.bed_level_oz = 1 / 1048576 ∧
      ∀ fuel, Rounded.adj_tower_delta_loop fl k (scriptProbing stuckReadings) 1 0 (fuel + 1) a
          (fl (2 / 10)) s
        = Rounded.adj_tower_delta_loop fl k (scriptProbing stuckReadings) 1 0 fuel (fl (2 / 10))
          (fl (2 / 10)) s1 := by
  have hready : Ready (set_delta_constants (scriptProbing stuckReadings)
      { s with tower_adj := Function.update s.tower_adj 0 (fl (s.tower_adj 0 + a)) }) (2 * q) := h
  obtain ⟨s1, h1, -, r1, oy1, oz1⟩ :=
    scripted_probe_pair k stuckReadings _ (2 * q) hmech hready
  have ey : s1.bed_level_oy = 0 := by
    rw [oy1]; unfold stuckReadings; rw [if_pos (by omega)]
  have ez : s1.bed_level_oz = 1 / 1048576 := by
    rw [oz1]; unfold stuckReadings; rw [if_neg (by omega)]
  have hc : compared 1 s1 = (0, 1 / 1048576) := by
    unfold compared; rw [if_pos rfl, ey, ez]
  have hnext : Rounded.adj_tower_delta_next fl a (fl (2 / 10)) 0 (1 / 1048576)
      = (fl (2 / 10), fl (2 / 10)) := by
    rw [(rounded_adj_tower_delta_next_spec fl a (fl (2 / 10)) 0 (1 / 1048576) hfl).2.1
      (by norm_num), if_neg (not_lt.mpr ha)]
  refine ⟨s1, r1, ey, ez, ?_⟩
  intro fuel
  rw [rounded_adj_tower_delta_loop_succ fl k _ 1 0 fuel a (fl (2 / 10)) s (Or.inl rfl), h1]
  dsimp only
  rw [hc, hnext]
  dsimp only
  rw [if_pos (ne_of_gt hfl)]

theorem rounded_adj_tower_delta_stuck (fl : ℚ → ℚ) (hfl : 0 < fl (2 / 10)) (k : Kinematics)
    (hmech : k.mechanism = Mechanism.DELTA) :
    ∀ (fuel : Nat) (s : Machine) (q : Nat) (a : ℚ), Ready s (2 * q) → 0 ≤ a →
      Rounded.adj_tower_delta_loop fl k (scriptProbing stuckReadings) 1 0 fuel a (fl (2 / 10)) s
        = none := by
  intro fuel
  induction fuel with
  | zero => intro s q a _ _; rw [Rounded.adj_tower_delta_loop]
  | succ fuel ih =>
    intro s q a h ha
    obtain ⟨s1, r1, -, -, hstep⟩ := rounded_adj_tower_delta_stuck_pass fl hfl k hmech s q a h ha
    rw [hstep fuel]
    exact ih s1 (q + 1) (fl (2 / 10)) r1 (le_of_lt hfl)

theorem rounded_adj_tower_delta_stuck_progress (fl : ℚ → ℚ) (hfl : 0 < fl (2 / 10))
    (k : Kinematics) (hmech : k.mechanism = Mechanism.DELTA) :
    ∀ (j : Nat) (s : Machine) (q : Nat) (a : ℚ), Ready s (2 * q) → 0 ≤ a →
      ∃ sj, sj.bed_level_oy = 0 ∧ sj.bed_level_oz = 1 / 1048576 ∧
        ∀ fuel, Rounded.adj_tower_delta_loop fl k (scriptProbing stuckReadings) 1 0
            (fuel + (j + 1)) a (fl (2 / 10)) s
          = Rounded.adj_tower_delta_loop fl k (scriptProbing stuckReadings) 1 0 fuel
            (fl (2 / 10)) (fl (2 / 10)) sj := by
  intro j
  induction j with
  | zero =>
    intro s q a h ha
    obtain ⟨s1, -, ey, ez, hstep⟩ := rounded_adj_tower_delta_stuck_pass fl hfl k hmech s q a h ha
    exact ⟨s1, ey, ez, hstep⟩
  | succ j ih =>
    intro s q a h ha
    obtain ⟨s1, r1, -, -, hstep⟩ := rounded_adj_tower_delta_stuck_pass fl hfl k hmech s q a h ha
    obtain ⟨sj, ey, ez, hj⟩ := ih s1 (q + 1) (fl (2 / 10)) r1 (le_of_lt hfl)
    refine ⟨sj, ey, ez, ?_⟩
    intro fuel
    have : fuel + (j + 1 + 1) = (fuel + (j + 1)) + 1 := by omega
    rw [this, hstep, hj]

theorem binary32_fifth_pos : 0 < binary32 (2 / 10) := by
  rw [binary32_fifth]; positivity

/-- The run of `adj_tower_delta(1)` on readings that are all 0: one pass. -/
theorem rounded_adj_tower_delta_flat (fl : ℚ → ℚ) (k : Kinematics)
    (hmech : k.mechanism = Mechanism.DELTA) (s : Machine) (n : Nat) (h : Ready s n) :
    ∃ s', Rounded.adj_tower_delta fl k (scriptProbing (fun _ => 0)) 1 1 s = some s' := by
  have hready : Ready (set_delta_constants (scriptProbing (fun _ => 0))
      { s with tower_adj := Function.update s.tower_adj 0 (fl (s.tower_adj 0 + 0)) }) n := h
  obtain ⟨s1, h1, -, -, oy1, oz1⟩ :=
    scripted_probe_pair k (fun _ => 0) _ n hmech hready
  have hc : compared 1 s1 = (0, 0) := by
    unfold compared; rw [if_pos rfl, oy1, oz1]
  have hz : (Rounded.adj_tower_delta_next fl 0 (fl (2 / 10)) 0 0).1 = 0 := by
    unfold Rounded.adj_tower_delta_next
    simp
  refine ⟨s1, ?_⟩
  rw [rounded_adj_tower_delta_eq,
    rounded_adj_tower_delta_loop_succ fl k _ 1 0 0 0 (fl (2 / 10)) s (Or.inl rfl), h1]
  dsimp only
  rw [hc]
  dsimp only
  rw [if_neg (by rw [hz]; simp)]

/-- A pass of `adj_tower_delta(1)` on the readings that change sides, after a
step in the direction of the pass before: the magnitude is halved, and the loop
goes on exactly when the halved magnitude is not 0. -/
theorem rounded_adj_tower_delta_swap_pass (fl : ℚ → ℚ) (k : Kinematics)
    (hmech : k.mechanism = Mechanism.DELTA) (s : Machine) (r : Nat)
    (hm : 0 < Rounded.adj_mag_after fl r) (h : Ready s (2 * (r + 1))) :
    ∃ s1, Ready s1 (2 * (r + 2)) ∧ s1.bed_level_oy = swapReadings (2 * (r + 1)) ∧
      s1.bed_level_oz = swapReadings (2 * (r + 1) + 1) ∧
      ∀ fuel, Rounded.adj_tower_delta_loop fl k (scriptProbing swapReadings) 1 0 (fuel + 1)
          (if r % 2 = 0 then Rounded.adj_mag_after fl r else -Rounded.adj_mag_after fl r)
          (Rounded.adj_mag_after fl r) s
        = if Rounded.adj_mag_after fl (r + 1) ≠ 0 then
            Rounded.adj_tower_delta_loop fl k (scriptProbing swapReadings) 1 0 fuel
              (if (r + 1) % 2 = 0 then Rounded.adj_mag_after fl (r + 1)
                else -Rounded.adj_mag_after fl (r + 1))
              (Rounded.adj_mag_after fl (r + 1)) s1
          else some s1 := by
  generalize ha : (if r % 2 = 0 then Rounded.adj_mag_after fl r
    else -Rounded.adj_mag_after fl r) = a
  have hready : Ready (set_delta_constants (scriptProbing swapReadings)
      { s with tower_adj := Function.update s.tower_adj 0 (fl (s.tower_adj 0 + a)) })
      (2 * (r + 1)) := h
  obtain ⟨s1, h1, -, r1, oy1, oz1⟩ :=
    scripted_probe_pair k swapReadings _ (2 * (r + 1)) hmech hready
  have hc : compared 1 s1 = (swapReadings (2 * (r + 1)), swapReadings (2 * (r + 1) + 1)) := by
    unfold compared; rw [if_pos rfl, oy1, oz1]
  have hhalf : fl (Rounded.adj_mag_after fl r / 2) = Rounded.adj_mag_after fl (r + 1) := rfl
  have hd1 : (2 * (r + 1)) / 2 = r + 1 := by omega
  have hd2 : (2 * (r + 1) + 1) / 2 = r + 1 := by omega
  have hp1 : (2 * (r + 1)) % 2 = 0 := by omega
  have hp2 : (2 * (r + 1) + 1) % 2 ≠ 0 := by omega
  refine ⟨s1, r1, oy1, oz1, ?_⟩
  intro fuel
  rw [rounded_adj_tower_delta_loop_succ fl k _ 1 0 fuel a _ s (Or.inl rfl), h1]
  dsimp only
  rw [hc]
  dsimp only
  by_cases hr : r % 2 = 0
  · -- this pass has an odd number: the readings are 0.25 and 0, the step before was up
    have hodd : (r + 1) % 2 ≠ 0 := by omega
    have e1 : swapReadings (2 * (r + 1)) = 1 / 4 := by
      unfold swapReadings; rw [hd1, if_neg hodd, if_pos hp1]
    have e2 : swapReadings (2 * (r + 1) + 1) = 0 := by
      unfold swapReadings; rw [hd2, if_neg hodd, if_neg hp2]
    rw [if_pos hr] at ha
    have hapos : a > 0 := by rw [← ha]; exact hm
    rw [e1, e2, (rounded_adj_tower_delta_next_spec fl a _ (1 / 4) 0 hm).2.2 (by norm_num),
      if_pos hapos, hhalf, if_neg hodd]
    dsimp only
    by_cases hz : Rounded.adj_mag_after fl (r + 1) = 0
    · rw [if_neg (by rw [hz]; simp), if_neg (by simp [hz])]
    · rw [if_pos (by simpa using hz), if_pos hz]
  · have heven : (r + 1) % 2 = 0 := by omega
    have e1 : swapReadings (2 * (r + 1)) = 0 := by
      unfold swapReadings; rw [hd1, if_pos heven, if_pos hp1]
    have e2 : swapReadings (2 * (r + 1) + 1) = 1 / 4 := by
      unfold swapReadings; rw [hd2, if_pos heven, if_neg hp2]
    rw [if_neg hr] at ha
    have haneg : a < 0 := by rw [← ha]; linarith
    rw [e1, e2, (rounded_adj_tower_delta_next_spec fl a _ 0 (1 / 4) hm).2.1 (by norm_num),
      if_pos haneg, hhalf, if_pos heven]

/-- On the readings that change sides the loop of `adj_tower_delta(1)` returns
from the pass in which the magnitude is halved to 0. -/
theorem rounded_adj_tower_delta_swap_run (fl : ℚ → ℚ) (k : Kinematics)
    (hmech : k.mechanism = Mechanism.DELTA) (N : Nat)
    (hpos : ∀ j, j ≤ N → 0 < Rounded.adj_mag_after fl j)
    (hzero : Rounded.adj_mag_after fl (N + 1) = 0) :
    ∀ (d r : Nat) (s : Machine), r + d = N → Ready s (2 * (r + 1)) →
      ∃ s', Rounded.adj_tower_delta_loop fl k (scriptProbing swapReadings) 1 0 (d + 1)
          (if r % 2 = 0 then Rounded.adj_mag_after fl r else -Rounded.adj_mag_after fl r)
          (Rounded.adj_mag_after fl r) s = some s' ∧
        s'.bed_level_oy = swapReadings (2 * (N + 1)) ∧
        s'.bed_level_oz = swapReadings (2 * (N + 1) + 1) := by
  intro d
  induction d with
  | zero =>
    intro r s hr h
    have hrN : r = N := by omega
    subst hrN
    obtain ⟨s1, -, ey, ez, hstep⟩ :=
      rounded_adj_tower_delta_swap_pass fl k hmech s r (hpos r (le_refl r)) h
    refine ⟨s1, ?_, ey, ez⟩
    rw [hstep 0, if_neg (by simp [hzero])]
  | succ d ih =>
    intro r s hr h
    obtain ⟨s1, r1, -, -, hstep⟩ :=
      rounded_adj_tower_delta_swap_pass fl k hmech s r (hpos r (by omega)) h
    obtain ⟨s', hrun, ey, ez⟩ := ih (r + 1) s1 (by omega) r1
    refine ⟨s', ?_, ey, ez⟩
    rw [hstep (d + 1), if_pos (ne_of_gt (hpos (r + 1) (by omega)))]
    exact hrun

/-- On the readings that change sides, 0.25 apart in every pass,
`adj_tower_delta(1)` returns from pass number `N + 2`, `N + 1` being the number
of halvings that take the magnitude to 0. -/
theorem rounded_adj_tower_delta_swap (fl : ℚ → ℚ) (k : Kinematics)
    (hmech : k.mechanism = Mechanism.DELTA) (N : Nat)
    (hpos : ∀ j, j ≤ N → 0 < Rounded.adj_mag_after fl j)
    (hzero : Rounded.adj_mag_after fl (N + 1) = 0) (s : Machine) (h : Ready s (2 * 0)) :
    ∃ s', Rounded.adj_tower_delta fl k (scriptProbing swapReadings) 1 (N + 2) s = some s' ∧
      s'.bed_level_oy = swapReadings (2 * (N + 1)) ∧
      s'.bed_level_oz = swapReadings (2 * (N + 1) + 1) := by
  have hm : 0 < fl (2 / 10) := hpos 0 (Nat.zero_le N)
  have hready : Ready (set_delta_constants (scriptProbing swapReadings)
      { s with tower_adj := Function.update s.tower_adj 0 (fl (s.tower_adj 0 + 0)) })
      (2 * 0) := h
  obtain ⟨s1, h1, -, r1, oy1, oz1⟩ :=
    scripted_probe_pair k swapReadings _ (2 * 0) hmech hready
  have hc : compared 1 s1 = (0, 1 / 4) := by
    unfold compared; rw [if_pos rfl, oy1, oz1]
    unfold swapReadings
    norm_num
  obtain ⟨s', hrun, ey, ez⟩ :=
    rounded_adj_tower_delta_swap_run fl k hmech N hpos hzero N 0 s1 (by omega) r1
  refine ⟨s', ?_, ey, ez⟩
  rw [rounded_adj_tower_delta_eq,
    rounded_adj_tower_delta_loop_succ fl k _ 1 0 (N + 1) 0 (fl (2 / 10)) s (Or.inl rfl), h1]
  dsimp only
  rw [hc]
  dsimp only
  rw [(rounded_adj_tower_delta_next_spec fl 0 (fl (2 / 10)) 0 (1 / 4) hm).2.1 (by norm_num),
    if_neg (lt_irrefl 0)]
  dsimp only
  rw [if_pos (ne_of_gt hm)]
  have e0 : (if 0 % 2 = 0 then Rounded.adj_mag_after fl 0 else -Rounded.adj_mag_after fl 0)
      = fl (2 / 10) := by
    rw [if_pos (by decide)]; rfl
  rw [e0] at hrun
  exact hrun

/-- Counterexample to C26 as stated, in binary32 arithmetic on the reference
delta machine.  On readings that never change, 0 opposite tower 2 and
2⁻²⁰ = 0.00000095 opposite tower 3 - closer than 0.00001 - `adj_tower_delta(1)`
has no tolerance to leave by and no stuck-loop guard: after any number `j + 1`
of passes it is still in its loop with the step 0.2 and the same two readings,
and no number of passes makes it return.  On readings that are 0.25 apart in
every pass and change sides from pass to pass, the magnitude is halved in every
pass after the first and is 0 after 148 halvings: the call returns from pass
149 with the readings 0 and 0.25. -/
theorem C26_counterexample :
    (1 / 1048576 : ℚ) - 0 < 1 / 100000 ∧
    (∀ j : Nat, ∃ sj, sj.bed_level_oy = 0 ∧ sj.bed_level_oz = 1 / 1048576 ∧
      ∀ fuel, Rounded.adj_tower_delta binary32 refKinematics (scriptProbing stuckReadings) 1
          (fuel + (j + 1)) refMachine
        = Rounded.adj_tower_delta_loop binary32 refKinematics (scriptProbing stuckReadings) 1 0
            fuel (binary32 (2 / 10)) (binary32 (2 / 10)) sj) ∧
    (∀ fuel, Rounded.adj_tower_delta binary32 refKinematics (scriptProbing stuckReadings) 1 fuel
      refMachine = none) ∧
    ∃ s', Rounded.adj_tower_delta binary32 refKinematics (scriptProbing swapReadings) 1 149
        refMachine = some s' ∧
      s'.bed_level_oy = 0 ∧ s'.bed_level_oz = 1 / 4 := by
  have hr : Ready refMachine (2 * 0) := ⟨rfl, by show (100 : Int) ≠ 0; decide, rfl⟩
  refine ⟨by norm_num, ?_, ?_, ?_⟩
  · intro j
    obtain ⟨sj, ey, ez, hj⟩ := rounded_adj_tower_delta_stuck_progress binary32 binary32_fifth_pos
      refKinematics rfl j refMachine 0 0 hr (le_refl 0)
    refine ⟨sj, ey, ez, ?_⟩
    intro fuel
    rw [rounded_adj_tower_delta_eq]
    exact hj fuel
  · intro fuel
    rw [rounded_adj_tower_delta_eq]
    exact rounded_adj_tower_delta_stuck binary32 binary32_fifth_pos refKinematics rfl fuel
      refMachine 0 0 hr (le_refl 0)
  · obtain ⟨s', hrun, ey, ez⟩ := rounded_adj_tower_delta_swap binary32 refKinematics rfl 147
      (fun j hj => adj_mag_after_binary32.1 j (by omega)) adj_mag_after_binary32.2 refMachine hr
    refine ⟨s', hrun, ?_, ?_⟩
    · rw [ey]; unfold swapReadings; norm_num
    · rw [ez]; unfold swapReadings; norm_num

/-- C26, amended: for a tower 1, 2 or 3 and any rounding `fl` of the `float`
type, `adj_tower_delta` starts with the step 0 and the magnitude 0.2 (rounded).
In every pass with a magnitude above 0, equal readings end the loop; unequal
readings give a step that points from the lower reading and whose size is the
magnitude, halved (and rounded) exactly when the step before pointed the other
way, and the loop goes on unless that step is 0.  So a call that returns does
so from a pass whose two compared readings are exactly equal, or in which the
magnitude has been halved to 0: there is no tolerance and no stuck-loop guard.
In binary32 the magnitude is above 0 after fewer than 148 halvings and 0 after
148. -/
theorem C26_tower_angle_loop_ends_on_equal_readings_or_a_zero_step (fl : ℚ → ℚ)
    (k : Kinematics) (c : Probing)
    (tower : Int) (fuel : Nat) (s s' : Machine) (ht : tower = 1 ∨ tower = 2 ∨ tower = 3)
    (h : Rounded.adj_tower_delta fl k c tower fuel s = some s') :
    ((compared tower s').1 = (compared tower s').2 ∨
      ∃ j, j ≤ fuel ∧ Rounded.adj_mag_after fl j = 0) ∧
    Rounded.adj_tower_delta fl k c tower fuel s
      = Rounded.adj_tower_delta_loop fl k c tower (tower - 1).toNat fuel 0 (fl (2 / 10)) s ∧
    (∀ (i n : Nat) (a m : ℚ) (t t1 : Machine), 0 < m →
      probe_pair k c tower (set_delta_constants c
        { t with tower_adj := Function.update t.tower_adj i (fl (t.tower_adj i + a)) })
          = some t1 →
      ((compared tower t1).1 = (compared tower t1).2 →
        Rounded.adj_tower_delta_loop fl k c tower i (n + 1) a m t = some t1) ∧
      ((compared tower t1).1 ≠ (compared tower t1).2 →
        ∃ a' m', Rounded.adj_tower_delta_loop fl k c tower i (n + 1) a m t
            = (if a' ≠ 0 then Rounded.adj_tower_delta_loop fl k c tower i n a' m' t1
               else some t1) ∧
          ((compared tower t1).1 < (compared tower t1).2 →
            a' = m' ∧ m' = if a < 0 then fl (m / 2) else m) ∧
          ((compared tower t1).1 > (compared tower t1).2 →
            a' = -m' ∧ m' = if a > 0 then fl (m / 2) else m))) ∧
    (∀ j : Nat, j < 148 → 0 < Rounded.adj_mag_after binary32 j) ∧
    Rounded.adj_mag_after binary32 148 = 0 := by
  have hrange : 1 ≤ tower ∧ tower ≤ 6 := by
    rcases ht with e | e | e <;> subst e <;> decide
  have heq : Rounded.adj_tower_delta fl k c tower fuel s
      = Rounded.adj_tower_delta_loop fl k c tower (tower - 1).toNat fuel 0 (fl (2 / 10)) s := by
    unfold Rounded.adj_tower_delta
    rw [if_pos hrange]
  refine ⟨?_, heq, ?_, adj_mag_after_binary32.1, adj_mag_after_binary32.2⟩
  · rw [heq] at h
    have h0 : fl (2 / 10) = Rounded.adj_mag_after fl 0 := rfl
    rw [h0] at h
    rcases rounded_adj_tower_delta_loop_returned fl k c tower _ ht fuel 0 0 s s' h with r | r
    · exact Or.inl r
    · obtain ⟨j, hj, hz⟩ := r
      exact Or.inr ⟨j, by omega, hz⟩
  · intro i n a m t t1 hm hp
    obtain ⟨heqr, hlt, hgt⟩ := rounded_adj_tower_delta_next_spec fl a m (compared tower t1).1
      (compared tower t1).2 hm
    constructor
    · intro he
      rw [rounded_adj_tower_delta_loop_succ fl k c tower i n a m t ht, hp]
      dsimp only
      rw [heqr he]
      simp
    · intro hne
      refine ⟨(Rounded.adj_tower_delta_next fl a m (compared tower t1).1 (compared tower t1).2).1,
        (Rounded.adj_tower_delta_next fl a m (compared tower t1).1 (compared tower t1).2).2,
        ?_, fun hl => ?_, fun hg => ?_⟩
      · rw [rounded_adj_tower_delta_loop_succ fl k c tower i n a m t ht, hp]
      · rw [hlt hl]
        exact ⟨rfl, rfl⟩
      · rw [hgt hg]
        exact ⟨rfl, rfl⟩

/-- Witness of C26 (amended): tower 1 of the reference machine in binary32
arithmetic on a bed whose readings are all 0; the call returns after one pass,
from equal readings. -/
theorem C26_witness :
    ∃ s', Rounded.adj_tower_delta binary32 refKinematics (scriptProbing (fun _ => 0)) 1 1
        refMachine = some s' ∧
      ((compared 1 s').1 = (compared 1 s').2 ∨
        ∃ j, j ≤ 1 ∧ Rounded.adj_mag_after binary32 j = 0) := by
  obtain ⟨s', h⟩ := rounded_adj_tower_delta_flat binary32 refKinematics rfl refMachine 0
    ⟨rfl, by show (100 : Int) ≠ 0; decide, rfl⟩
  exact ⟨s', h, (C26_tower_angle_loop_ends_on_equal_readings_or_a_zero_step binary32
    refKinematics (scriptProbing (fun _ => 0)) 1 1 refMachine s' (Or.inl rfl) h).1⟩

end Marlin
